import Mathlib

/-!
# Query planner: index minimisation and scan composition

A shallow embedding of `planner/build_scan_secondary.go`,
`planner/build_scan_primary.go` and the helpers of
`planner/build_select_from.go` they call.

Go maps are association lists; every `range` over a map takes the order in
which the entries are produced from a `MapOrder`, an arbitrary permutation of
the entries, so that a statement proved for all `MapOrder`s holds for every
iteration order the Go runtime may choose.  Functions of other packages that
the planner calls (expression, plan, datastore) are fields of `Env`.
-/

namespace Planner

/-! ## Data model -/

/-- An expression.Expression.  The planner code modelled here builds
expressions only through `ZERO_EXPR`, `NewGreatest` and `NewAdd`; every other
expression is an atom whose properties are answered by `Env`. -/
inductive Expression where
  | ZERO_EXPR
  | atom (id : Nat)
  | NewGreatest (first second : Expression)
  | NewAdd (first second : Expression)
  deriving DecidableEq, Repr

/-- The three results of `Index.State()` the planner distinguishes:
the state is ONLINE, the state is something else, or the call failed. -/
inductive StateResult where
  | ONLINE
  | notOnline
  | failed (er : String)
  deriving DecidableEq, Repr

/-- A datastore.Index value, reduced to what the planner asks of it.
`castsToPrimary` is the outcome of the type assertion
`index.(datastore.PrimaryIndex)`. -/
structure Index where
  id : Nat
  Name : String
  IsPrimary : Bool
  Condition : Option Expression
  castsToPrimary : Bool
  State : StateResult
  deriving DecidableEq, Repr

/-- A SargSpans value: `Size` is the result of `Size()`, a count of spans. -/
structure SargSpans where
  id : Nat
  Size : Nat
  deriving DecidableEq, Repr

/-- The planner's indexEntry, with the ten fields in the order of the
composite literal in `sargableIndexes`. -/
structure indexEntry where
  index : Index
  keys : List Expression
  sargKeys : List Expression
  minKeys : Int
  sumKeys : Int
  cond : Option Expression
  origCond : Option Expression
  spans : Option SargSpans
  exactSpans : Bool
  pushDownProperty : Nat
  deriving DecidableEq, Repr

/-- A `map[datastore.Index]*indexEntry`, as an association list. -/
abbrev IndexMap := List (Index × indexEntry)

/-- The order in which one `range` statement produces the entries of a map:
any permutation of them. -/
structure MapOrder where
  seq : IndexMap → IndexMap
  perm : ∀ m, (seq m).Perm m

/-- The iteration order that follows the association list. -/
def MapOrder.id : MapOrder := ⟨fun m => m, fun m => List.Perm.refl m⟩

/-- The iteration order that runs the association list backwards. -/
def MapOrder.rev : MapOrder := ⟨fun m => m.reverse, fun m => List.reverse_perm m⟩

/-- An error value: a plan error made by `errors.NewPlanError`, an error made
by `fmt.Errorf`, or an error handed over by a callee outside the planner. -/
inductive Error where
  | NewPlanError (msg : String)
  | Errorf (msg : String)
  | external (msg : String)
  deriving DecidableEq, Repr

/-- The text `%v` prints for an error value (`<nil>` for a nil error). -/
def Error.text : Option Error → String
  | none => "<nil>"
  | some (Error.NewPlanError msg) => msg
  | some (Error.Errorf msg) => msg
  | some (Error.external msg) => msg

/-- A filter of the base keyspace; only `isJoin()` is asked of it. -/
structure Filter where
  id : Nat
  isJoin : Bool
  deriving DecidableEq, Repr

/-- The planner's baseKeyspace, reduced to the fields read here. -/
structure baseKeyspace where
  name : String
  dnfPred : Expression
  filters : List Filter
  deriving DecidableEq, Repr

/-- An algebra.KeyspaceTerm, reduced to the three methods called here. -/
structure KeyspaceTerm where
  Alias : String
  IsAnsiNest : Bool
  IsPrimaryJoin : Bool
  deriving DecidableEq, Repr

/-- A plan.SecondaryScan value.  `CreateScan` stands for the scan returned by
`spans.CreateScan(index, node, indexApiVersion, false, false, overlap, false,
offset, limit, indexProjection, indexKeyOrders, nil, nil, nil)` and records
the arguments that vary; the two other constructors stand for the calls of
the plan package constructors of the same name with their arguments.  A slot
that may hold a nil scan is an `Option`. -/
inductive SecondaryScan where
  | CreateScan (spans : Option SargSpans) (index : Index) (indexApiVersion : Nat)
      (overlap : Bool) (offset limit : Option Expression)
      (indexProjection : Option Nat) (indexKeyOrders : Option Nat)
  | NewIntersectScan (limit : Option Expression) (scans : List (Option SecondaryScan))
  | NewOrderedIntersectScan (limit : Option Expression) (scans : List (Option SecondaryScan))

/-- The fields of the planner's builder that `buildSecondaryScan` and the
reset helpers read or write.  `cover` is whether `this.cover` is non-nil;
`order`, `group` and `aggs` are nil or an abstract value. -/
structure builder where
  cover : Bool
  order : Option Nat
  offset : Option Expression
  limit : Option Expression
  maxParallelism : Int
  indexApiVersion : Nat
  orderScan : Option SecondaryScan
  oldAggregates : Bool
  group : Option Nat
  aggs : Option Nat
  aggConstraint : Option Expression

/-- What `SargFor` and `SargForFilters` return: an error, or spans with the
exactness flag. -/
inductive SargResult where
  | failed (err : Error)
  | spans (spans : SargSpans) (exactSpans : Bool)

/-- What `buildSecondaryScan` and `buildCoveringScan` return, together with
the builder as the call leaves it. -/
structure ScanResult where
  this : builder
  scan : Option SecondaryScan
  sargLength : Int
  err : Option Error

/-- The functions of other files and packages that the modelled code calls.
They are pure: those that are builder methods read the builder and leave it
unchanged, except for `buildCoveringScan`, which returns the builder (inside
its result) and the candidate map as it leaves them. -/
structure Env where
  Value : Expression → Option Int
  EquivalentTo : Expression → Expression → Bool
  DependsOn : Expression → Expression → Bool
  SubsetOf : Expression → Expression → Bool
  FilterCovers : Expression → List String
  exprString : Expression → String
  ExpressionsString : List Expression → String
  IsOr : Expression → Bool
  MayOverlapSpans : Expression → Bool
  SargFor : Expression → List Expression → Int → Bool → String → SargResult
  SargForFilters : List Filter → List Expression → Int → String → SargResult
  useIndex2API : Index → Nat → Bool
  ExactSpan1 : SargSpans → Nat → Bool
  indexPushDownProperty : builder → indexEntry → Expression → String → Nat
  useIndexOrder : builder → indexEntry → List Expression → Bool × Option Nat
  buildIndexProjection : builder → Option indexEntry → Option Nat
  buildCoveringScan : builder → IndexMap → KeyspaceTerm → baseKeyspace → Expression →
    ScanResult × IndexMap

/-! ## build_scan_secondary.go: narrowerOrEquivalent and minimalIndexes -/

/-- The loop labelled `outer` of `narrowerOrEquivalent`: walks `te.sargKeys`
with the running `nfcmatch`; `none` is the `return false` inside the loop. -/
def filterCoverMatches (ops : Env) (se : indexEntry) (fc : List String) :
    List Expression → Nat → Option Nat
  | [], nfcmatch => some nfcmatch
  | tk :: rest, nfcmatch =>
    if se.sargKeys.any (fun sk => ops.SubsetOf sk tk || ops.DependsOn sk tk) then
      filterCoverMatches ops se fc rest nfcmatch
    else if se.cond.isNone then none
    else if fc.contains (ops.exprString tk) then
      filterCoverMatches ops se fc rest (nfcmatch + 1)
    else none

/-- Is `se` narrower or equivalent to `te`. -/
def narrowerOrEquivalent (ops : Env) (se te : indexEntry) (shortest : Bool) : Bool :=
  if te.sargKeys.length > se.sargKeys.length then false
  else if (match te.cond, se.cond with
      | some tc, some sc => !ops.SubsetOf sc tc
      | some _, none => true
      | none, _ => false) then false
  else
    let fc : List String := match se.cond with
      | some sc => ops.FilterCovers sc
      | none => []
    match filterCoverMatches ops se fc te.sargKeys 0 with
    | none => false
    | some nfcmatch =>
      if te.sargKeys.length = nfcmatch then true
      else decide (se.sumKeys > te.sumKeys) ||
        (shortest && decide (se.keys.length ≤ te.keys.length))

/-- The builtin `delete(sargables, t)`. -/
def deleteKey (sargables : IndexMap) (t : Index) : IndexMap :=
  sargables.filter (fun p => p.1 != t)

/-- Whether the map still holds key `k`: a `range` does not produce an entry
that was removed before it was reached. -/
def hasKey (sargables : IndexMap) (k : Index) : Bool :=
  sargables.any (fun p => p.1 == k)

/-- The inner loop of `minimalIndexes` for the outer entry `s, se`, run over
the entries in the order `todo`. -/
def minimalInner (ops : Env) (shortest : Bool) (s : Index) (se : indexEntry) :
    List (Index × indexEntry) → IndexMap → IndexMap
  | [], sargables => sargables
  | (t, te) :: todo, sargables =>
    if !hasKey sargables t then minimalInner ops shortest s se todo sargables
    else if t = s then minimalInner ops shortest s se todo sargables
    else if narrowerOrEquivalent ops se te shortest then
      minimalInner ops shortest s se todo (deleteKey sargables t)
    else minimalInner ops shortest s se todo sargables

/-- The outer loop of `minimalIndexes`, run over the entries in the order
`todo`; the inner loop for the outer key `s` iterates in the order `inner s`. -/
def minimalOuter (ops : Env) (shortest : Bool) (inner : Index → MapOrder) :
    List (Index × indexEntry) → IndexMap → IndexMap
  | [], sargables => sargables
  | (s, se) :: todo, sargables =>
    if !hasKey sargables s then minimalOuter ops shortest inner todo sargables
    else minimalOuter ops shortest inner todo
      (minimalInner ops shortest s se ((inner s).seq sargables) sargables)

/-- The function `minimalIndexes`; `outer` and `inner` are the iteration
orders of its two `range` statements. -/
def minimalIndexes (ops : Env) (outer : MapOrder) (inner : Index → MapOrder)
    (sargables : IndexMap) (shortest : Bool) : IndexMap :=
  minimalOuter ops shortest inner (outer.seq sargables) sargables

/-! ## build_select_from.go: reset helpers and offsetPlusLimit -/

/-- The method `resetLimit`. -/
def resetLimit (this : builder) : builder := { this with limit := none }

/-- The method `resetOffset`. -/
def resetOffset (this : builder) : builder := { this with offset := none }

/-- The method `resetOrder`. -/
def resetOrder (this : builder) : builder := { this with order := none }

/-- The method `resetOrderOffsetLimit`. -/
def resetOrderOffsetLimit (this : builder) : builder :=
  resetOffset (resetLimit (resetOrder this))

/-- The method `resetOffsetLimit`. -/
def resetOffsetLimit (this : builder) : builder :=
  resetOffset (resetLimit this)

/-- The method `resetIndexGroupAggs`. -/
def resetIndexGroupAggs (this : builder) : builder :=
  { this with oldAggregates := false, group := none, aggs := none, aggConstraint := none }

/-- The function `offsetPlusLimit`. -/
def offsetPlusLimit (ops : Env) (offset limit : Option Expression) : Option Expression :=
  match offset, limit with
  | some offset, some limit =>
    let offset := if (ops.Value offset).isNone then
      Expression.NewGreatest Expression.ZERO_EXPR offset else offset
    let limit := if (ops.Value limit).isNone then
      Expression.NewGreatest Expression.ZERO_EXPR limit else limit
    some (Expression.NewAdd limit offset)
  | _, _ => limit

/-! ## Push-down properties -/

/-- Modelled from the spec: the constant `_PUSHDOWN_NONE`, the empty bitset of
push-down properties; its declaration is not in the files modelled here. -/
def _PUSHDOWN_NONE : Nat := 0

/-- Modelled from the spec: the constant `_PUSHDOWN_LIMIT`, one bit of the
push-down bitset {ORDER, LIMIT, OFFSET, GROUP-AGG}. -/
def _PUSHDOWN_LIMIT : Nat := 1

/-- Modelled from the spec: the constant `_PUSHDOWN_OFFSET`, one bit of the
push-down bitset {ORDER, LIMIT, OFFSET, GROUP-AGG}. -/
def _PUSHDOWN_OFFSET : Nat := 2

/-- Modelled from the spec: the constant `_PUSHDOWN_ORDER`, one bit of the
push-down bitset {ORDER, LIMIT, OFFSET, GROUP-AGG}. -/
def _PUSHDOWN_ORDER : Nat := 4

/-- Modelled from the spec: the method `IsPushDownProperty` of indexEntry, whose
body is not in the files modelled here.  The entry has the property when its
bitset shares a bit with `property` (or is empty, when `property` is
`_PUSHDOWN_NONE`). -/
def indexEntry.IsPushDownProperty (this : indexEntry) (property : Nat) : Bool :=
  if property = _PUSHDOWN_NONE then this.pushDownProperty == property
  else (this.pushDownProperty &&& property) != 0

/-! ## build_scan_secondary.go: sargIndexes -/

/-- The plan error that `sargIndexes` returns for the entry `se`, where `err`
is the error of the span computation (nil when the spans came back empty). -/
def sargError (ops : Env) (pred : Expression) (se : indexEntry) (err : Option Error) : Error :=
  Error.NewPlanError ("Sargable index not sarged; pred=" ++ ops.exprString pred ++
    ", sarg_keys=" ++ ops.ExpressionsString se.sargKeys ++ ", error=" ++ Error.text err)

/-- The span computation `sargIndexes` runs for one entry. -/
def sargOne (ops : Env) (baseKeyspace : baseKeyspace) (isOrPred orIsJoin : Bool)
    (se : indexEntry) : SargResult :=
  if isOrPred then
    ops.SargFor baseKeyspace.dnfPred se.keys se.minKeys orIsJoin baseKeyspace.name
  else
    ops.SargForFilters baseKeyspace.filters se.keys se.minKeys baseKeyspace.name

/-- The loop of `sargIndexes` over the entries in the order `todo`.  The
entries are pointers, so assigning `se.spans` and `se.exactSpans` changes the
map; the result is the error returned, or the map after the loop. -/
def sargIndexesLoop (ops : Env) (this : builder) (baseKeyspace : baseKeyspace)
    (isOrPred orIsJoin : Bool) : List (Index × indexEntry) → Except Error IndexMap
  | [] => Except.ok []
  | (i, se) :: todo =>
    match sargOne ops baseKeyspace isOrPred orIsJoin se with
    | SargResult.failed err => Except.error (sargError ops baseKeyspace.dnfPred se (some err))
    | SargResult.spans spans exactSpans =>
      if spans.Size = 0 then Except.error (sargError ops baseKeyspace.dnfPred se none)
      else
        let exactSpans := if exactSpans && !ops.useIndex2API se.index this.indexApiVersion then
          ops.ExactSpan1 spans se.keys.length else exactSpans
        match sargIndexesLoop ops this baseKeyspace isOrPred orIsJoin todo with
        | Except.error e => Except.error e
        | Except.ok rest =>
          Except.ok ((i, { se with spans := some spans, exactSpans := exactSpans }) :: rest)

/-- The method `sargIndexes`; `order` is the iteration order of its `range`. -/
def sargIndexes (ops : Env) (order : MapOrder) (this : builder) (baseKeyspace : baseKeyspace)
    (sargables : IndexMap) : Except Error IndexMap :=
  let isOrPred := ops.IsOr baseKeyspace.dnfPred
  let orIsJoin := isOrPred && baseKeyspace.filters.any (fun fl => fl.isJoin)
  sargIndexesLoop ops this baseKeyspace isOrPred orIsJoin (order.seq sargables)

/-- Whether the span computation of `sargIndexes` fails for the entry `se`:
it returns an error, or spans of size 0. -/
def sargFails (ops : Env) (baseKeyspace : baseKeyspace) (se : indexEntry) : Bool :=
  match sargOne ops baseKeyspace (ops.IsOr baseKeyspace.dnfPred)
    (ops.IsOr baseKeyspace.dnfPred && baseKeyspace.filters.any (fun fl => fl.isJoin)) se with
  | SargResult.failed _ => true
  | SargResult.spans spans _ => spans.Size == 0

/-! ## build_scan_secondary.go: buildSecondaryScan -/

/-- The iteration orders of the `range` statements over the candidate map
that one call of `buildSecondaryScan` executes. -/
structure Orders where
  minimalOuter : MapOrder
  minimalInner : Index → MapOrder
  sarg : MapOrder
  pushDown : MapOrder
  single : MapOrder
  scans : MapOrder

/-- The local variables of `buildSecondaryScan` that are live after the first
loop (lines 51-62), with the builder and the candidate map. -/
structure PushDownState where
  this : builder
  indexes : IndexMap
  orderIndex : Option Index
  pushDown : Bool

/-- The first loop of `buildSecondaryScan` (lines 51-62) over the entries in
the order `todo`. -/
def pushDownLoop (ops : Env) (pred : Expression) (nodeAlias : String) :
    List (Index × indexEntry) → builder → Option Index → Bool → PushDownState
  | [], this, orderIndex, pushDown =>
    { this := this, indexes := [], orderIndex := orderIndex, pushDown := pushDown }
  | (i, entry) :: todo, this, orderIndex, pushDown =>
    let entry : indexEntry :=
      { entry with pushDownProperty := ops.indexPushDownProperty this entry pred nodeAlias }
    let ordered := this.order.isSome && entry.IsPushDownProperty _PUSHDOWN_ORDER
    let orderIndex := if ordered then some entry.index else orderIndex
    let this := if ordered then { this with maxParallelism := 1 } else this
    let pushDown := if !pushDown && entry.IsPushDownProperty (_PUSHDOWN_LIMIT ||| _PUSHDOWN_OFFSET)
      then true else pushDown
    let st := pushDownLoop ops pred nodeAlias todo this orderIndex pushDown
    { st with indexes := (i, entry) :: st.indexes }

/-- Lines 28-33 of `buildSecondaryScan`: the attempt at a covering scan.  An
error value is the early return; otherwise the builder and the map go on. -/
def coveringAttempt (ops : Env) (this : builder) (indexes : IndexMap) (node : KeyspaceTerm)
    (baseKeyspace : baseKeyspace) (id : Expression) : Except ScanResult (builder × IndexMap) :=
  if this.cover && !node.IsAnsiNest then
    let r := ops.buildCoveringScan this indexes node baseKeyspace id
    if r.1.scan.isSome || r.1.err.isSome then Except.error r.1 else Except.ok (r.1.this, r.2)
  else Except.ok (this, indexes)

/-- Lines 28-67 of `buildSecondaryScan`: covering attempt, minimisation, span
computation, push-down properties and the reset for a missing order index.
An error value is an early return of the function. -/
def buildSecondaryScanPushDowns (ops : Env) (ord : Orders) (this : builder) (indexes : IndexMap)
    (node : KeyspaceTerm) (baseKeyspace : baseKeyspace) (id : Expression) :
    Except ScanResult PushDownState :=
  match coveringAttempt ops this indexes node baseKeyspace id with
  | Except.error r => Except.error r
  | Except.ok (this, indexes) =>
    let this := resetIndexGroupAggs this
    let pred := baseKeyspace.dnfPred
    let indexes := minimalIndexes ops ord.minimalOuter ord.minimalInner indexes true
    match sargIndexes ops ord.sarg this baseKeyspace indexes with
    | Except.error err => Except.error { this := this, scan := none, sargLength := 0, err := some err }
    | Except.ok indexes =>
      let st := pushDownLoop ops pred node.Alias (ord.pushDown.seq indexes) this none false
      if st.this.order.isSome && st.orderIndex.isNone then
        Except.ok { st with this := resetOrderOffsetLimit st.this }
      else Except.ok st

/-- The local variables of `buildSecondaryScan` that are live when the scan
loop starts (line 102), with the builder and the candidate map. -/
structure ScanLocals where
  this : builder
  indexes : IndexMap
  orderIndex : Option Index
  limit : Option Expression
  indexProjection : Option Nat

/-- Lines 69-74 of `buildSecondaryScan`: the limit of an intersect scan and
the reset of the builder's offset and limit. -/
def intersectLimit (ops : Env) (st : PushDownState) : Option Expression × builder :=
  if st.pushDown && st.indexes.length > 1 then
    (offsetPlusLimit ops st.this.offset st.this.limit, resetOffsetLimit st.this)
  else if !st.pushDown then (none, resetOffsetLimit st.this)
  else (none, st.this)

/-- Lines 69-100 of `buildSecondaryScan`. -/
def buildSecondaryScanLimits (ops : Env) (ord : Orders) (st : PushDownState) : ScanLocals :=
  let limit := (intersectLimit ops st).1
  let this := (intersectLimit ops st).2
  if st.indexes.length = 1 then
    match ord.single.seq st.indexes with
    | (_, entry) :: _ =>
      let indexProjection := ops.buildIndexProjection this (some entry)
      let this := if this.offset.isSome && !entry.IsPushDownProperty _PUSHDOWN_OFFSET then
        resetOffset { this with limit := offsetPlusLimit ops this.offset this.limit } else this
      { this := this, indexes := st.indexes, orderIndex := st.orderIndex, limit := limit,
        indexProjection := indexProjection }
    | [] =>
      { this := this, indexes := st.indexes, orderIndex := st.orderIndex, limit := limit,
        indexProjection := none }
  else
    { this := this, indexes := st.indexes, orderIndex := st.orderIndex, limit := limit,
      indexProjection := ops.buildIndexProjection this none }

/-- Lines 110-122 of `buildSecondaryScan`: in a join on the primary key,
whether the `continue` is taken for the candidate `index, entry`. -/
def primaryJoinSkip (ops : Env) (id : Expression) (index : Index) (entry : indexEntry) : Bool :=
  let metaFound := entry.sargKeys.any (fun key => ops.EquivalentTo key id)
  !metaFound || (decide (entry.sargKeys.length ≤ 1) && index.Condition.isNone)

/-- Lines 124-130 of `buildSecondaryScan`: the scan created for one candidate. -/
def createScan (ops : Env) (loc : ScanLocals) (pred : Expression) (index : Index)
    (entry : indexEntry) : SecondaryScan :=
  let indexKeyOrders := if some index = loc.orderIndex then
    (ops.useIndexOrder loc.this entry entry.keys).2 else none
  SecondaryScan.CreateScan entry.spans index loc.this.indexApiVersion (ops.MayOverlapSpans pred)
    loc.this.offset loc.this.limit loc.indexProjection indexKeyOrders

/-- The scan loop of `buildSecondaryScan` (lines 102-141) over the entries in
the order `todo`, with the running `scans` and `sargLength`. -/
def scanLoop (ops : Env) (loc : ScanLocals) (node : KeyspaceTerm) (pred id : Expression) :
    List (Index × indexEntry) → List (Option SecondaryScan) → Int →
    List (Option SecondaryScan) × Int
  | [], scans, sargLength => (scans, sargLength)
  | (index, entry) :: todo, scans, sargLength =>
    if node.IsPrimaryJoin && primaryJoinSkip ops id index entry then
      scanLoop ops loc node pred id todo scans sargLength
    else
      let scan := createScan ops loc pred index entry
      let scans := if some index = loc.orderIndex then scans.set 0 (some scan)
        else scans ++ [some scan]
      let sargLength := if (entry.sargKeys.length : Int) > sargLength then
        (entry.sargKeys.length : Int) else sargLength
      scanLoop ops loc node pred id todo scans sargLength

/-- Lines 143-154 of `buildSecondaryScan`: the scan returned for the slice
`scans`. -/
def combineScans (this : builder) (limit : Option Expression)
    (scans : List (Option SecondaryScan)) (sargLength : Int) : ScanResult :=
  if scans.length = 1 then
    { this := { this with orderScan := scans.getD 0 none }, scan := scans.getD 0 none,
      sargLength := sargLength, err := none }
  else if (scans.getD 0 none).isNone && scans.length = 2 then
    { this := this, scan := scans.getD 1 none, sargLength := sargLength, err := none }
  else if (scans.getD 0 none).isNone then
    { this := this, scan := some (SecondaryScan.NewIntersectScan limit (scans.drop 1)),
      sargLength := sargLength, err := none }
  else
    let scan := SecondaryScan.NewOrderedIntersectScan limit scans
    { this := { this with orderScan := some scan }, scan := some scan,
      sargLength := sargLength, err := none }

/-- Lines 76-154 of `buildSecondaryScan`, from the state after line 74 on:
`scans` starts as a slice of length one holding nil. -/
def buildSecondaryScanCombine (ops : Env) (ord : Orders) (node : KeyspaceTerm)
    (baseKeyspace : baseKeyspace) (id : Expression) (loc : ScanLocals) : ScanResult :=
  let r := scanLoop ops loc node baseKeyspace.dnfPred id (ord.scans.seq loc.indexes) [none] 0
  combineScans loc.this loc.limit r.1 r.2

/-- The method `buildSecondaryScan`. -/
def buildSecondaryScan (ops : Env) (ord : Orders) (this : builder) (indexes : IndexMap)
    (node : KeyspaceTerm) (baseKeyspace : baseKeyspace) (id : Expression) : ScanResult :=
  match buildSecondaryScanPushDowns ops ord this indexes node baseKeyspace id with
  | Except.error r => r
  | Except.ok st =>
    buildSecondaryScanCombine ops ord node baseKeyspace id (buildSecondaryScanLimits ops ord st)

/-- The candidates of `todo` for which the scan loop does not take the
`continue` of the primary-key join, in the order of the loop. -/
def keptCandidates (ops : Env) (node : KeyspaceTerm) (id : Expression)
    (todo : List (Index × indexEntry)) : List (Index × indexEntry) :=
  todo.filter (fun p => !(node.IsPrimaryJoin && primaryJoinSkip ops id p.1 p.2))

/-- The value of `scans[0]` after the scan loop has run over the kept
candidates `kept`, when it held `s0` before. -/
def headSlot (ops : Env) (loc : ScanLocals) (pred : Expression) :
    Option SecondaryScan → List (Index × indexEntry) → Option SecondaryScan
  | s0, [] => s0
  | s0, p :: kept =>
    if some p.1 = loc.orderIndex then headSlot ops loc pred (some (createScan ops loc pred p.1 p.2)) kept
    else headSlot ops loc pred s0 kept

/-! ## build_scan_primary.go -/

/-- A datastore.Indexer: the result of `PrimaryIndexes()`. -/
structure Indexer where
  PrimaryIndexes : Except Error (List Index)

/-- A datastore.Keyspace: its name and the result of `Indexers()`. -/
structure Keyspace where
  Name : String
  Indexers : Except Error (List Indexer)

/-- The two loops of `buildPrimaryIndex` over hinted and other indexes: the
first primary index decides; `none` means the loop ended without returning. -/
def firstPrimary : List Index → Option (Option Index × Option Error)
  | [] => none
  | index :: rest =>
    if !index.IsPrimary then firstPrimary rest
    else if index.castsToPrimary then some (some index, none)
    else some (none, some (Error.Errorf
      ("Unable to cast index " ++ index.Name ++ " to primary index")))

/-- The loop `for _, primary = range primaries` of `buildPrimaryIndex`: the
first component is the return it takes, if any, the second the value the
variable `primary` holds afterwards. -/
def primariesLoop : List Index → Option Index →
    Option (Option Index × Option Error) × Option Index
  | [], primary => (none, primary)
  | p :: rest, _ =>
    match p.State with
    | StateResult.failed er => (some (none, some (Error.external er)), some p)
    | StateResult.ONLINE => (some (some p, none), some p)
    | StateResult.notOnline => primariesLoop rest (some p)

/-- The loop over the indexers of `buildPrimaryIndex` and the two returns
that follow it. -/
def indexersLoop (keyspaceName : String) : List Indexer → Option Index →
    Option Index × Option Error
  | [], none => (none, some (Error.Errorf ("No primary index on keyspace " ++ keyspaceName ++
      ". Use CREATE PRIMARY INDEX to create one.")))
  | [], some primary =>
    (none, some (Error.Errorf ("Primary index " ++ primary.Name ++ " not online.")))
  | indexer :: rest, primary =>
    match indexer.PrimaryIndexes with
    | Except.error er => (none, some er)
    | Except.ok primaries =>
      match primariesLoop primaries primary with
      | (some r, _) => r
      | (none, primary) => indexersLoop keyspaceName rest primary

/-- The function `buildPrimaryIndex`.  Its results are named `primary` and
`err`; `err` is never assigned, so `return nil, err` returns a nil error. -/
def buildPrimaryIndex (keyspace : Keyspace) (hintIndexes : List Index)
    (otherIndexes : Option (List Index)) : Option Index × Option Error :=
  match firstPrimary hintIndexes with
  | some r => r
  | none =>
    match (match otherIndexes with
      | some others => firstPrimary others
      | none => none) with
    | some r => r
    | none =>
      let err : Option Error := none
      match keyspace.Indexers with
      | Except.error _ => (none, err)
      | Except.ok indexers => indexersLoop keyspace.Name indexers none

/-- A plan.PrimaryScan as `plan.NewPrimaryScan(primary, keyspace, node, limit)`
builds it. -/
structure PrimaryScan where
  index : Option Index
  keyspace : String
  term : KeyspaceTerm
  limit : Option Expression

/-- The method `buildPrimaryScan`. -/
def buildPrimaryScan (keyspace : Keyspace) (node : KeyspaceTerm) (limit : Option Expression)
    (hintIndexes : List Index) (otherIndexes : Option (List Index)) :
    Option PrimaryScan × Option Error :=
  match buildPrimaryIndex keyspace hintIndexes otherIndexes with
  | (_, some err) => (none, some err)
  | (primary, none) =>
    (some { index := primary, keyspace := keyspace.Name, term := node, limit := limit }, none)

/-! ## Sample data

A small environment and a few candidates on which the definitions above can be
evaluated. -/

/-- A sample environment: atoms below 100 are constants, two expressions are
equivalent or subsets of one another when they are equal, span computation
yields one exact span, and an entry whose first key is atom 7 gets every
push-down property. -/
def sampleOps : Env where
  Value := fun e => match e with
    | Expression.atom n => if n < 100 then some (n : Int) else none
    | Expression.ZERO_EXPR => some 0
    | _ => none
  EquivalentTo := fun a b => a == b
  DependsOn := fun _ _ => false
  SubsetOf := fun a b => a == b
  FilterCovers := fun _ => []
  exprString := fun _ => "e"
  ExpressionsString := fun _ => "es"
  IsOr := fun _ => false
  MayOverlapSpans := fun _ => false
  SargFor := fun _ _ _ _ _ => SargResult.spans ⟨0, 1⟩ true
  SargForFilters := fun _ keys _ _ => SargResult.spans ⟨1, keys.length⟩ true
  useIndex2API := fun _ _ => true
  ExactSpan1 := fun _ _ => true
  indexPushDownProperty := fun _ entry _ _ =>
    if entry.keys.head? = some (Expression.atom 7) then 7 else 0
  useIndexOrder := fun _ _ _ => (true, some 0)
  buildIndexProjection := fun _ _ => none
  buildCoveringScan := fun this indexes _ _ _ =>
    ({ this := this, scan := none, sargLength := 0, err := none }, indexes)

/-- A secondary index without a condition. -/
def sampleIndex (id : Nat) : Index :=
  { id := id, Name := "ix", IsPrimary := false, Condition := none, castsToPrimary := false,
    State := StateResult.ONLINE }

/-- A candidate for `sampleIndex id` with the given keys, the first `min` of
them sarged, and the given score. -/
def sampleEntry (id : Nat) (keys : List Expression) (min : Nat) (sum : Int) :
    Index × indexEntry :=
  (sampleIndex id,
    { index := sampleIndex id, keys := keys, sargKeys := keys.take min, minKeys := min,
      sumKeys := sum, cond := none, origCond := none, spans := none, exactSpans := false,
      pushDownProperty := _PUSHDOWN_NONE })

/-- Two candidates neither of which covers the sarged key of the other. -/
def sampleDisjoint : IndexMap :=
  [sampleEntry 1 [Expression.atom 101] 1 1, sampleEntry 2 [Expression.atom 102] 1 1]

/-- Three candidates: the third is sarged on the same key as the first, with
a lower score and more keys. -/
def sampleDominated : IndexMap :=
  [sampleEntry 1 [Expression.atom 101] 1 2, sampleEntry 2 [Expression.atom 102] 1 1,
   sampleEntry 3 [Expression.atom 101, Expression.atom 103] 1 1]

/-- Three candidates on distinct keys; the first one has key atom 7 and so
gets every push-down property from `sampleOps`. -/
def sampleOrdered : IndexMap :=
  [sampleEntry 1 [Expression.atom 7] 1 1, sampleEntry 2 [Expression.atom 102] 1 1,
   sampleEntry 3 [Expression.atom 101] 1 1]

/-- Iteration orders: every loop follows the association list, except the scan
loop, which runs it backwards. -/
def sampleOrders : Orders :=
  { minimalOuter := MapOrder.id, minimalInner := fun _ => MapOrder.id, sarg := MapOrder.id,
    pushDown := MapOrder.id, single := MapOrder.id, scans := MapOrder.rev }

/-- A builder with a required order, OFFSET atom 5 (a constant) and LIMIT
atom 200 (not a constant). -/
def sampleBuilder : builder :=
  { cover := false, order := some 0, offset := some (Expression.atom 5),
    limit := some (Expression.atom 200), maxParallelism := 4, indexApiVersion := 2,
    orderScan := none, oldAggregates := true, group := some 0, aggs := some 0,
    aggConstraint := none }

/-- A keyspace term that is neither an ANSI NEST nor a primary-key join. -/
def sampleNode : KeyspaceTerm := { Alias := "k", IsAnsiNest := false, IsPrimaryJoin := false }

/-- A keyspace term of a primary-key join. -/
def sampleJoinNode : KeyspaceTerm := { Alias := "k", IsAnsiNest := false, IsPrimaryJoin := true }

/-- A base keyspace with predicate atom 300 and no filters. -/
def sampleKeyspace : baseKeyspace := { name := "k", dnfPred := Expression.atom 300, filters := [] }

/-- The state of `buildSecondaryScan` after line 67 on the sample call. -/
def samplePushDown : PushDownState :=
  match buildSecondaryScanPushDowns sampleOps sampleOrders sampleBuilder sampleOrdered sampleNode
    sampleKeyspace (Expression.atom 400) with
  | Except.ok st => st
  | Except.error r => { this := r.this, indexes := [], orderIndex := none, pushDown := false }

/-- The local variables at the start of the scan loop for a primary-key join
on atom 400 with two candidates: one sarged on the primary key and another
key, one sarged on another key only. -/
def sampleJoinLocals : ScanLocals :=
  { this := sampleBuilder,
    indexes := [sampleEntry 4 [Expression.atom 400, Expression.atom 101] 2 1,
      sampleEntry 5 [Expression.atom 101] 1 1],
    orderIndex := none, limit := none, indexProjection := none }

/-- The sample environment, except that the span computation returns spans of
size 0 for keys that start with atom 102. -/
def sampleOpsEmptySpans : Env :=
  { sampleOps with
    SargForFilters := fun _ keys _ _ =>
      if keys.head? = some (Expression.atom 102) then SargResult.spans ⟨1, 0⟩ true
      else SargResult.spans ⟨1, 1⟩ true }

/-- A keyspace whose `Indexers()` call fails. -/
def sampleBrokenKeyspace : Keyspace :=
  { Name := "k", Indexers := Except.error (Error.external "indexers unavailable") }

/-- The sample environment, except that every candidate gets LIMIT push-down
and nothing else. -/
def sampleOpsLimitOnly : Env :=
  { sampleOps with indexPushDownProperty := fun _ _ _ _ => _PUSHDOWN_LIMIT }

/-- The sample builder without a required order. -/
def sampleBuilderNoOrder : builder := { sampleBuilder with order := none }

/-- The state of `buildSecondaryScan` after line 67 on a call with the single
candidate `sampleEntry 1 [atom 101]`, LIMIT push-down only and no required
order. -/
def sampleSinglePushDown : PushDownState :=
  match buildSecondaryScanPushDowns sampleOpsLimitOnly sampleOrders sampleBuilderNoOrder
    [sampleEntry 1 [Expression.atom 101] 1 1] sampleNode sampleKeyspace (Expression.atom 400) with
  | Except.ok st => st
  | Except.error r => { this := r.this, indexes := [], orderIndex := none, pushDown := false }

/-- Whether the sarged keys of `se` cover every sarged key of `te` without
filter covers: the inner loop of `narrowerOrEquivalent` takes `continue outer`
for each of them. -/
def coversSargKeys (ops : Env) (se te : indexEntry) : Bool :=
  te.sargKeys.all (fun tk =>
    se.sargKeys.any (fun sk => ops.SubsetOf sk tk || ops.DependsOn sk tk))

/-- Whether the conditions of `se` and `te` let `narrowerOrEquivalent se te`
pass its second test: `te` has no condition, or `se` has one that is a subset
of it. -/
def condCompatible (ops : Env) (se te : indexEntry) : Bool :=
  !(match te.cond, se.cond with
    | some tc, some sc => !ops.SubsetOf sc tc
    | some _, none => true
    | none, _ => false)

/-- Two candidates sarged on the same key atom 101: the first has the higher
score and two declared keys, the second the lower score and one declared key. -/
def sampleTie : IndexMap :=
  [sampleEntry 1 [Expression.atom 101, Expression.atom 103] 1 2,
   sampleEntry 2 [Expression.atom 101] 1 1]

/-! ## build_scan_secondary.go: sargableIndexes -/

/-- The functions of other files and packages that `sargableIndexes` calls:
`RangeKey()` of an index, `formalizer.Map`, the `Map` of the DNF built by
`NewDNF(e, true, true)`, the first result of `IsArrayIndexKey()`, and
`SargableFor`.  They are pure. -/
structure SargableEnv where
  RangeKey : Index → List Expression
  formalizerMap : Expression → Except Error Expression
  dnfMap : Expression → Except Error Expression
  IsArrayIndexKey : Expression → Bool
  SargableFor : Expression → List Expression → Int × Int

/-- The assignment `m[k] = v` on a map. -/
def mapSet (m : IndexMap) (k : Index) (v : indexEntry) : IndexMap :=
  if hasKey m k then m.map (fun p => if p.1 = k then (k, v) else p) else m ++ [(k, v)]

/-- The loop over the range keys of a secondary index in `sargableIndexes`
(lines 180-199), with the running `isArray`: every key is formalized and put
in DNF; an error value is the `return` of the function. -/
def formalizeKeys (sops : SargableEnv) : List Expression → Bool →
    Except Error (List Expression × Bool)
  | [], isArray => Except.ok ([], isArray)
  | key :: rest, isArray =>
    match sops.formalizerMap key with
    | Except.error err => Except.error err
    | Except.ok key =>
      match sops.dnfMap key with
      | Except.error err => Except.error err
      | Except.ok key =>
        let isArray := if !isArray then sops.IsArrayIndexKey key else isArray
        match formalizeKeys sops rest isArray with
        | Except.error err => Except.error err
        | Except.ok (keys, isArray) => Except.ok (key :: keys, isArray)

/-- What one iteration of the loop of `sargableIndexes` does for an index: it
returns from the function with an error, takes a `continue`, or builds an
entry (with the flag `isArray`). -/
inductive EntryStep where
  | failed (err : Error)
  | skipped
  | built (entry : indexEntry) (isArray : Bool)

/-- Lines 202-227 of `sargableIndexes`: the condition of the index.  The
result is an error (the `return`), `none` (a `continue`), or the pair of
`cond` and `origCond`. -/
def sargableCond (ops : Env) (sops : SargableEnv) (subset : Option Expression)
    (index : Index) : Except Error (Option (Option Expression × Option Expression)) :=
  match index.Condition with
  | none => Except.ok (some (none, none))
  | some cond =>
    match subset with
    | none => Except.ok none
    | some subset =>
      match sops.formalizerMap cond with
      | Except.error err => Except.error err
      | Except.ok cond =>
        let origCond := cond
        match sops.dnfMap cond with
        | Except.error err => Except.error err
        | Except.ok cond =>
          if !ops.SubsetOf subset cond then Except.ok none
          else Except.ok (some (some cond, some origCond))

/-- Lines 229-231 of `sargableIndexes`: the entry built from the keys and the
condition. -/
def newIndexEntry (sops : SargableEnv) (pred : Expression) (index : Index)
    (keys : List Expression) (cond origCond : Option Expression) : indexEntry :=
  let min := (sops.SargableFor pred keys).1
  let sum := (sops.SargableFor pred keys).2
  { index := index, keys := keys, sargKeys := keys.take min.toNat, minKeys := min,
    sumKeys := sum, cond := cond, origCond := origCond, spans := none, exactSpans := false,
    pushDownProperty := _PUSHDOWN_NONE }

/-- The body of the loop of `sargableIndexes` up to line 231, for one index. -/
def sargableStep (ops : Env) (sops : SargableEnv) (pred : Expression)
    (subset : Option Expression) (primaryKey : Option (List Expression)) (index : Index) :
    EntryStep :=
  match (if index.IsPrimary then
      (match primaryKey with
        | some keys => Except.ok (some (keys, false))
        | none => Except.ok none)
    else
      (match formalizeKeys sops (sops.RangeKey index) false with
        | Except.error err => Except.error err
        | Except.ok r => Except.ok (some r)) : Except Error (Option (List Expression × Bool))) with
  | Except.error err => EntryStep.failed err
  | Except.ok none => EntryStep.skipped
  | Except.ok (some (keys, isArray)) =>
    match sargableCond ops sops subset index with
    | Except.error err => EntryStep.failed err
    | Except.ok none => EntryStep.skipped
    | Except.ok (some (cond, origCond)) =>
      EntryStep.built (newIndexEntry sops pred index keys cond origCond) isArray

/-- The named results of `sargableIndexes`. -/
structure SargableResult where
  sargables : IndexMap
  all : IndexMap
  arrays : IndexMap
  err : Option Error

/-- The loop of `sargableIndexes` over the slice `indexes`. -/
def sargableIndexesLoop (ops : Env) (sops : SargableEnv) (pred : Expression)
    (subset : Option Expression) (primaryKey : Option (List Expression)) :
    List Index → SargableResult → SargableResult
  | [], r => { r with err := none }
  | index :: rest, r =>
    match sargableStep ops sops pred subset primaryKey index with
    | EntryStep.failed err => { r with err := some err }
    | EntryStep.skipped => sargableIndexesLoop ops sops pred subset primaryKey rest r
    | EntryStep.built entry isArray =>
      sargableIndexesLoop ops sops pred subset primaryKey rest
        { all := mapSet r.all index entry,
          sargables := if entry.minKeys > 0 then mapSet r.sargables index entry else r.sargables,
          arrays := if isArray then mapSet r.arrays index entry else r.arrays,
          err := r.err }

/-- The method `sargableIndexes`. -/
def sargableIndexes (ops : Env) (sops : SargableEnv) (indexes : List Index)
    (pred : Expression) (subset : Option Expression) (primaryKey : Option (List Expression)) :
    SargableResult :=
  sargableIndexesLoop ops sops pred subset primaryKey indexes
    { sargables := [], all := [], arrays := [], err := none }

/-- A sample environment for `sargableIndexes`: index `n` has the range keys
atom 100, ..., atom (100 + n - 1); formalizing and DNF leave a key as it is; a
key is sargable when its atom is below 102. -/
def sampleSargableOps : SargableEnv where
  RangeKey := fun index => (List.range index.id).map (fun k => Expression.atom (100 + k))
  formalizerMap := fun e => Except.ok e
  dnfMap := fun e => Except.ok e
  IsArrayIndexKey := fun _ => false
  SargableFor := fun _ keys =>
    (((keys.takeWhile (fun k => decide (k ∈ [Expression.atom 100, Expression.atom 101]))).length
      : Nat), 0)

/-- A primary index with the given result of `State()`. -/
def samplePrimary (id : Nat) (state : StateResult) : Index :=
  { id := id, Name := "#primary", IsPrimary := true, Condition := none, castsToPrimary := true,
    State := state }

/-- A keyspace with two indexers: the first has one primary index that is not
online, the second has one that is not online followed by one that is. -/
def sampleKeyspaceOnline : Keyspace :=
  { Name := "k",
    Indexers := Except.ok
      [{ PrimaryIndexes := Except.ok [samplePrimary 10 StateResult.notOnline] },
       { PrimaryIndexes := Except.ok
          [samplePrimary 11 StateResult.notOnline, samplePrimary 12 StateResult.ONLINE,
           samplePrimary 13 StateResult.ONLINE] }] }

/-- Line 52 of `buildSecondaryScan`: the entry after its push-down property
has been assigned. -/
def pushDownEntry (ops : Env) (pred : Expression) (nodeAlias : String) (this : builder)
    (entry : indexEntry) : indexEntry :=
  { entry with pushDownProperty := ops.indexPushDownProperty this entry pred nodeAlias }

/-! ## build_select_from.go: VisitKeyspaceTerm -/

/-- A plan.Operator in the list of children of the builder: an operator that
`selectScan` returned, or the Fetch that `plan.NewFetch(keyspace, term)`
builds. -/
inductive Operator where
  | selected (id : Nat)
  | NewFetch (keyspace : Keyspace) (term : KeyspaceTerm)

/-- The errors `VisitKeyspaceTerm` returns: the two it makes itself, and an
error handed over by a callee. -/
inductive VisitError where
  | NewSubqueryMissingKeysError (keyspace : String)
  | NewPlanInternalError (msg : String)
  | callee (err : Error)

/-- The fields of the planner's builder that `VisitKeyspaceTerm` reads or
writes; `defaultNamespace` is the field `namespace`. -/
structure termBuilder where
  defaultNamespace : String
  subquery : Bool
  correlated : Bool
  children : List Operator
  coveringScans : List Nat
  countScan : Option Nat

/-- The functions of other files that `VisitKeyspaceTerm` calls.  `selectScan`
and `processKeyspaceDone` return the builder as they leave it. -/
structure VisitEnv where
  SetDefaultNamespace : KeyspaceTerm → String → KeyspaceTerm
  getTermKeyspace : termBuilder → KeyspaceTerm → Except Error Keyspace
  Keys : KeyspaceTerm → Option Expression
  KeyspaceName : KeyspaceTerm → String
  selectScan : termBuilder → Keyspace → KeyspaceTerm →
    termBuilder × Option Operator × Option Error
  processKeyspaceDone : termBuilder → String → termBuilder × Option Error

/-- Lines 76-102 of `VisitKeyspaceTerm`, for the node as `SetDefaultNamespace`
leaves it.  An error value is a `return` of the function, with the builder at
that point and the error returned (nil for `return nil, nil`). -/
def VisitKeyspaceTermScan (env : VisitEnv) (this : termBuilder) (node : KeyspaceTerm) :
    Except (termBuilder × Option VisitError) termBuilder :=
  match env.getTermKeyspace this node with
  | Except.error err => Except.error (this, some (VisitError.callee err))
  | Except.ok keyspace =>
    if this.subquery && this.correlated && (env.Keys node).isNone then
      Except.error (this, some (VisitError.NewSubqueryMissingKeysError (env.KeyspaceName node)))
    else
      match env.selectScan this keyspace node with
      | (this, _, some err) => Except.error (this, some (VisitError.callee err))
      | (this, none, none) =>
        if node.IsPrimaryJoin then Except.error (this, none)
        else Except.error (this, some (VisitError.NewPlanInternalError
          "VisitKeyspaceTerm: no plan generated"))
      | (this, some scan, none) =>
        let this := { this with children := this.children ++ [scan] }
        if this.coveringScans.length = 0 && this.countScan.isNone then
          Except.ok { this with children := this.children ++ [Operator.NewFetch keyspace node] }
        else Except.ok this

/-- The method `VisitKeyspaceTerm`: the builder as the call leaves it and the
error returned (the other result is always nil). -/
def VisitKeyspaceTerm (env : VisitEnv) (this : termBuilder) (node : KeyspaceTerm) :
    termBuilder × Option VisitError :=
  let node := env.SetDefaultNamespace node this.defaultNamespace
  match VisitKeyspaceTermScan env this node with
  | Except.error r => r
  | Except.ok this =>
    match env.processKeyspaceDone this node.Alias with
    | (this, some err) => (this, some (VisitError.callee err))
    | (this, none) => (this, none)

/-- A sample environment for `VisitKeyspaceTerm`: the keyspace is found, the
scan selected is operator 1 unless the term has the alias "none", and scan
selection records a covering scan when the term has the alias "cover". -/
def sampleVisitEnv : VisitEnv where
  SetDefaultNamespace := fun node _ => node
  getTermKeyspace := fun _ _ => Except.ok sampleKeyspaceOnline
  Keys := fun _ => none
  KeyspaceName := fun node => node.Alias
  selectScan := fun this _ node =>
    if node.Alias = "none" then (this, none, none)
    else if node.Alias = "cover" then
      ({ this with coveringScans := [1] }, some (Operator.selected 1), none)
    else (this, some (Operator.selected 1), none)
  processKeyspaceDone := fun this _ => (this, none)

/-- A builder with one child and neither covering scans nor a count scan. -/
def sampleTermBuilder : termBuilder :=
  { defaultNamespace := "default", subquery := false, correlated := false,
    children := [Operator.selected 0], coveringScans := [], countScan := none }

end Planner

/-!
# Execution: ANSI NEST and the primary scan

A shallow embedding of `processAnsiNest` of `execution/nest_ansi.go` and of
`scanPrimary`, `scanPrimaryChunk` and `scanChunk` of
`execution/scan_primary3.go`.  What an operator does to the outside (items
handed to `sendItem`, errors reported through `context.Error`, counts passed
to `context.AddPhaseCount`, scans started) is recorded in lists, in the order
of the calls; what the entry channel of a connection delivers during one scan
is a `ScanRun`.
-/

namespace Execution

/-! ## Values -/

/-- A value.Value: a value whose inside is not looked at, or an array. -/
inductive Value where
  | scalar (id : Nat)
  | array (elems : List Value)

/-- Modelled from the spec: the constant `value.EMPTY_ARRAY_VALUE`, the empty
array; the value package is not in the files modelled here. -/
def EMPTY_ARRAY_VALUE : Value := Value.array []

/-- A value.AnnotatedValue, reduced to the fields of the object it wraps. -/
structure AnnotatedValue where
  fields : List (String × Value)

/-- Modelled from the spec: the method `Field(name)`, which returns the field
and whether it is there (`none` stands for ok = false). -/
def AnnotatedValue.Field (this : AnnotatedValue) (name : String) : Option Value :=
  (this.fields.find? (fun p => p.1 == name)).map Prod.snd

/-- Modelled from the spec: the method `SetField(name, val)`, which sets the
field on the value itself. -/
def AnnotatedValue.SetField (this : AnnotatedValue) (name : String) (val : Value) :
    AnnotatedValue :=
  if this.fields.any (fun p => p.1 == name) then
    { fields := this.fields.map (fun p => if p.1 == name then (name, val) else p) }
  else { fields := this.fields ++ [(name, val)] }

/-- The errors the modelled operators report through `context.Error`. -/
inductive ExecError where
  | NewExecutionInternalError (msg : String)
  | NewCbIndexScanTimeoutError
  deriving DecidableEq, Repr

/-! ## nest_ansi.go: processAnsiNest -/

/-- A plan.AnsiNest, reduced to `Alias()` and `Outer()`. -/
structure AnsiNestPlan where
  Alias : String
  Outer : Bool

/-- What an AnsiNest operator has done to the outside: the items handed to
`sendItem` and the errors reported through `context.Error`, in order. -/
structure NestEffects where
  sent : List AnnotatedValue
  errors : List ExecError

/-- The call `this.sendItem(item)`: the item is recorded; the boolean result
is what `sendOk` says for it. -/
def sendItem (sendOk : AnnotatedValue → Bool) (eff : NestEffects) (item : AnnotatedValue) :
    NestEffects × Bool :=
  ({ eff with sent := eff.sent ++ [item] }, sendOk item)

/-- The loop of `processAnsiNest` over `right_items` (lines 153-162) with the
running `vals`; `none` is the `return false` after `context.Error`. -/
def nestValues (nestAlias : String) : List AnnotatedValue → List Value → Option (List Value)
  | [], vals => some vals
  | right_item :: rest, vals =>
    match right_item.Field nestAlias with
    | none => none
    | some val => nestValues nestAlias rest (vals ++ [val])

/-- The method `AnsiNest.processAnsiNest`. -/
def processAnsiNest (plan : AnsiNestPlan) (sendOk : AnnotatedValue → Bool)
    (item : AnnotatedValue) (right_items : List AnnotatedValue) (eff : NestEffects) :
    NestEffects × Bool :=
  let joined := item
  let nestAlias := plan.Alias
  if right_items.length = 0 then
    if plan.Outer then sendItem sendOk eff (joined.SetField nestAlias EMPTY_ARRAY_VALUE)
    else (eff, true)
  else
    match nestValues nestAlias right_items [] with
    | none =>
      ({ eff with errors := eff.errors ++ [ExecError.NewExecutionInternalError
          ("processAnsiNest: annotated value not found for " ++ nestAlias)] }, false)
    | some vals => sendItem sendOk eff (joined.SetField nestAlias (Value.array vals))

/-! ## scan_primary3.go: scanPrimary and scanPrimaryChunk -/

/-- A datastore.IndexEntry, reduced to its primary key. -/
structure IndexEntry where
  PrimaryKey : String
  deriving DecidableEq, Repr

/-- What `getItemEntry` yields on the entry channel of a connection during one
scan: the non-nil entries in order; then either ok = false (`stopped`) or a nil
entry; `timeout` is what `conn.Timeout()` says afterwards. -/
structure ScanRun where
  entries : List IndexEntry
  stopped : Bool
  timeout : Bool
  deriving DecidableEq, Repr

/-- The inclusion of a datastore.Range. -/
inductive Inclusion where
  | NEITHER
  | LOW
  | HIGH
  | BOTH
  deriving DecidableEq, Repr

/-- A chunked scan as `scanPrimaryChunk` and `scanChunk` start it: the size of
the connection, the span (low bound, high bound, inclusion), and the
arguments `distinct` and `limit` of `Index.Scan`. -/
structure ChunkRequest where
  connSize : Nat
  low : List String
  high : List String
  inclusion : Inclusion
  distinct : Bool
  limit : Nat
  deriving DecidableEq, Repr

/-- A plan.PrimaryScan3, reduced to the three clauses `scanPrimary` asks for. -/
structure PrimaryScan3Plan where
  Offset : Option Nat
  OrderTerms : List Nat
  GroupAggs : Option Nat
  deriving DecidableEq, Repr

/-- What a PrimaryScan3 operator has done to the outside: the primary keys of
the items handed to `sendItem` (each item carries its key as `meta.id`), the
errors reported through `context.Error`, the counts passed to
`context.AddPhaseCount(PRIMARY_SCAN, .)`, and the chunked scans started. -/
structure ScanEffects where
  sent : List String
  errors : List ExecError
  phaseCounts : List Nat
  chunks : List ChunkRequest
  deriving DecidableEq, Repr

/-- The surroundings of a PrimaryScan3: what the first scan delivers, what the
chunked scan started as the n-th one with a given request delivers, and the
constant `_PHASE_UPDATE_COUNT`, whose declaration is not in the files modelled
here. -/
structure ScanEnv where
  scanEntries : ScanRun
  scanChunk : Nat → ChunkRequest → ScanRun
  PHASE_UPDATE_COUNT : Nat

/-- The local variables of the receive loop of `scanPrimary` and of
`scanPrimaryChunk`, with the effects so far. -/
structure Received where
  eff : ScanEffects
  nitems : Nat
  docs : Nat
  lastEntry : Option IndexEntry
  deriving DecidableEq, Repr

/-- The receive loop of `scanPrimary` (lines 79-103) and of `scanPrimaryChunk`
(lines 145-166), which have the same body, over the non-nil entries received.
The result of `sendItem` is assigned to a variable that the next iteration
declares anew, so it plays no part. -/
def receiveEntries (phaseUpdateCount : Nat) : List IndexEntry → Received → Received
  | [], r => r
  | entry :: rest, r =>
    let eff := { r.eff with sent := r.eff.sent ++ [entry.PrimaryKey] }
    let nitems := r.nitems + 1
    let docs := r.docs + 1
    if docs > phaseUpdateCount then
      receiveEntries phaseUpdateCount rest
        { eff := { eff with phaseCounts := eff.phaseCounts ++ [docs] }, nitems := nitems,
          docs := 0, lastEntry := some entry }
    else
      receiveEntries phaseUpdateCount rest
        { eff := eff, nitems := nitems, docs := docs, lastEntry := some entry }

/-- The span and arguments `scanChunk` passes to `Index.Scan`, with the size of
the connection `scanPrimaryChunk` makes. -/
def chunkRequest (chunkSize : Nat) (indexEntry : IndexEntry) : ChunkRequest :=
  { connSize := chunkSize, low := [indexEntry.PrimaryKey], high := [],
    inclusion := Inclusion.NEITHER, distinct := true, limit := chunkSize }

/-- The method `scanPrimaryChunk`: the effects afterwards and the entry
returned. -/
def scanPrimaryChunk (env : ScanEnv) (eff : ScanEffects) (chunkSize : Nat)
    (indexEntry : IndexEntry) : ScanEffects × Option IndexEntry :=
  let run := env.scanChunk eff.chunks.length (chunkRequest chunkSize indexEntry)
  let r := receiveEntries env.PHASE_UPDATE_COUNT run.entries
    { eff := { eff with chunks := eff.chunks ++ [chunkRequest chunkSize indexEntry] },
      nitems := 0, docs := 0, lastEntry := none }
  let eff := if r.nitems > 0 then { r.eff with phaseCounts := r.eff.phaseCounts ++ [r.docs] }
    else r.eff
  if run.stopped then (eff, none) else (eff, r.lastEntry)

/-- The loop `for lastEntry != nil` of `scanPrimary` (lines 121-123), run for
at most `fuel` chunks; `none` means the fuel ran out before the loop ended. -/
def chunkLoop (env : ScanEnv) (chunkSize : Nat) :
    Nat → Option IndexEntry → ScanEffects → Option ScanEffects
  | _, none, eff => some eff
  | 0, some _, _ => none
  | fuel + 1, some lastEntry, eff =>
    chunkLoop env chunkSize fuel (scanPrimaryChunk env eff chunkSize lastEntry).2
      (scanPrimaryChunk env eff chunkSize lastEntry).1

/-- The deferred function of `scanPrimary` (lines 72-76). -/
def flushDocs (docs : Nat) (eff : ScanEffects) : ScanEffects :=
  if docs > 0 then { eff with phaseCounts := eff.phaseCounts ++ [docs] } else eff

/-- The method `scanPrimary`, with at most `fuel` chunked scans; `none` means
the fuel ran out. -/
def scanPrimary (env : ScanEnv) (plan : PrimaryScan3Plan) (fuel : Nat) (eff : ScanEffects) :
    Option ScanEffects :=
  let run := env.scanEntries
  let r := receiveEntries env.PHASE_UPDATE_COUNT run.entries
    { eff := eff, nitems := 0, docs := 0, lastEntry := none }
  if run.stopped then some (flushDocs r.docs r.eff)
  else if run.timeout then
    if plan.Offset.isSome || decide (plan.OrderTerms.length > 0) || plan.GroupAggs.isSome then
      some (flushDocs r.docs
        { r.eff with errors := r.eff.errors ++ [ExecError.NewCbIndexScanTimeoutError] })
    else
      let eff := if r.lastEntry.isNone then
        { r.eff with errors := r.eff.errors ++ [ExecError.NewCbIndexScanTimeoutError] }
        else r.eff
      (chunkLoop env r.nitems fuel r.lastEntry eff).map (flushDocs r.docs)
  else some (flushDocs r.docs r.eff)

/-! ## Sample data -/

/-- A left item with one field. -/
def sampleItem : AnnotatedValue := { fields := [("l", Value.scalar 1)] }

/-- A right item with the field "r" holding the scalar `n`. -/
def sampleRight (n : Nat) : AnnotatedValue := { fields := [("r", Value.scalar n)] }

/-- No effects yet. -/
def noNestEffects : NestEffects := { sent := [], errors := [] }

/-- No effects yet. -/
def noScanEffects : ScanEffects := { sent := [], errors := [], phaseCounts := [], chunks := [] }

/-- A first scan that delivers the keys "a" and "b" and then times out; chunked
scans deliver nothing. -/
def sampleScanEnv : ScanEnv :=
  { scanEntries := { entries := [⟨"a"⟩, ⟨"b"⟩], stopped := false, timeout := true },
    scanChunk := fun _ _ => { entries := [], stopped := false, timeout := false },
    PHASE_UPDATE_COUNT := 100 }

/-! ## The chunked scans of scanPrimary -/

/-- The last entry a scan delivered on its entry channel, if it delivered
one. -/
def ScanRun.lastDelivered (run : ScanRun) : Option IndexEntry := run.entries.getLast?

/-- The chunk requests `reqs`, the first of which is the `n`-th one issued, are
each `request e` for the entry `e` that the scan before it delivered last:
`prev` for the first request, the last entry of the run of the request before
for the others. -/
def chunkChain (env : ScanEnv) (request : IndexEntry → ChunkRequest) :
    Nat → Option IndexEntry → List ChunkRequest → Prop
  | _, _, [] => True
  | n, prev, req :: rest =>
    (∃ e, prev = some e ∧ req = request e) ∧
      chunkChain env request (n + 1) (env.scanChunk n req).lastDelivered rest

/-- The chunk requests `reqs`, the first of which is the `n`-th one issued,
each have a range whose only bound is the low bound, equal to the primary key
of the entry that the scan before delivered last, with inclusion NEITHER. -/
def resumesAfterLast (env : ScanEnv) : Nat → Option IndexEntry → List ChunkRequest → Prop
  | _, _, [] => True
  | n, prev, req :: rest =>
    (∃ e, prev = some e ∧ req.low = [e.PrimaryKey] ∧ req.high = [] ∧
        req.inclusion = Inclusion.NEITHER) ∧
      resumesAfterLast env (n + 1) (env.scanChunk n req).lastDelivered rest

/-- The chunk requests `reqs`, the first of which is the `n`-th one issued,
each have as connection size and limit the number of items that the scan
before delivered: `count` for the first request, the number of entries of the
run of the request before for the others. -/
def sizedByPreceding (env : ScanEnv) : Nat → Nat → List ChunkRequest → Prop
  | _, _, [] => True
  | n, count, req :: rest =>
    (req.connSize = count ∧ req.limit = count) ∧
      sizedByPreceding env (n + 1) (env.scanChunk n req).entries.length rest

/-- The loop `for lastEntry != nil` of `scanPrimary` after at most `n` passes,
whether it has ended by then or not: the effects so far and the value of
`lastEntry`. -/
def chunkLoopPrefix (env : ScanEnv) (chunkSize : Nat) :
    Nat → Option IndexEntry → ScanEffects → ScanEffects × Option IndexEntry
  | _, none, eff => (eff, none)
  | 0, some lastEntry, eff => (eff, some lastEntry)
  | n + 1, some lastEntry, eff =>
    chunkLoopPrefix env chunkSize n (scanPrimaryChunk env eff chunkSize lastEntry).2
      (scanPrimaryChunk env eff chunkSize lastEntry).1

/-- The keys of the index `keys` that come after the low bound `low` of a
range: the keys after the bound key, all keys when there is no bound. -/
def keysAbove (keys : List String) : List String → List String
  | [k] => (keys.dropWhile (fun x => x != k)).drop 1
  | _ => keys

/-- A primary index holding `keys` in this order: the first scan delivers the
first `n` keys and then reports a timeout, a chunked scan delivers the keys
above its low bound, up to its limit. -/
def indexEnv (keys : List String) (n : Nat) (phaseUpdateCount : Nat) : ScanEnv :=
  { scanEntries := { entries := (keys.take n).map IndexEntry.mk, stopped := false,
                     timeout := true },
    scanChunk := fun _ req =>
      { entries := ((keysAbove keys req.low).take req.limit).map IndexEntry.mk,
        stopped := false, timeout := false },
    PHASE_UPDATE_COUNT := phaseUpdateCount }

/-- A plan without offset, order or group/aggregates. -/
def samplePlainPlan : PrimaryScan3Plan := { Offset := none, OrderTerms := [], GroupAggs := none }

/-- A first scan that delivers "a", "b", "c" and times out; the chunked scan
above "c" delivers "d", "e", the one above "e" delivers nothing. -/
def sampleShortChunkEnv : ScanEnv :=
  { scanEntries := { entries := [⟨"a"⟩, ⟨"b"⟩, ⟨"c"⟩], stopped := false, timeout := true },
    scanChunk := fun _ req =>
      if req.low = ["c"] then { entries := [⟨"d"⟩, ⟨"e"⟩], stopped := false, timeout := false }
      else { entries := [], stopped := false, timeout := false },
    PHASE_UPDATE_COUNT := 100 }

/-! ## RunOnce -/

/-- The timing phases that `switchPhase` is called with. -/
inductive TimingPhase where
  | _EXECTIME
  | _NOTIME
  deriving DecidableEq, Repr

/-- A call made by the body of a RunOnce, as it is recorded in the trace. -/
inductive Call where
  | active
  | close
  | setExecPhase
  | switchPhase (phase : TimingPhase)
  | notify
  | Recover
  | scanPrimary
  | sendItem
  deriving DecidableEq, Repr

/-- How a call ends: it returns after its work, it returns early because the
operator was stopped, or it raises a panic. -/
inductive Outcome where
  | completed
  | stopped
  | panicked
  deriving DecidableEq, Repr

/-- A statement of a function body: a call, or a `defer` of a call. -/
inductive Stmt where
  | call (c : Call)
  | deferred (c : Call)
  deriving DecidableEq, Repr

/-- The state of an operator as RunOnce sees it: whether `once` has fired, the
calls made so far, and whether a panic is on its way out of the last call. -/
structure OpState where
  done : Bool
  trace : List Call
  panicking : Bool
  deriving DecidableEq, Repr

/-- Modelled from the spec: the deferred calls of a Go function run at its
exit, the last deferred first, each of them also when a panic is under way;
`context.Recover()` (not in the files modelled here) recovers from the panic
under way, and a deferred call that panics starts one. -/
def runDeferred (outcome : Call → Outcome) : List Call → OpState → OpState
  | [], st => st
  | c :: rest, st =>
    runDeferred outcome rest
      { st with
        trace := st.trace ++ [c],
        panicking := if outcome c = Outcome.panicked then true
          else if c = Call.Recover then false else st.panicking }

/-- The run of a function body: a `defer` pushes its call, a call that panics
ends the body, and the deferred calls run at the exit. -/
def runBody (outcome : Call → Outcome) : List Stmt → List Call → OpState → OpState
  | [], defers, st => runDeferred outcome defers st
  | Stmt.deferred c :: rest, defers, st => runBody outcome rest (c :: defers) st
  | Stmt.call c :: rest, defers, st =>
    if outcome c = Outcome.panicked then
      runDeferred outcome defers { st with trace := st.trace ++ [c], panicking := true }
    else runBody outcome rest defers { st with trace := st.trace ++ [c] }

/-- Modelled from the spec: `this.once.Do(f)` of the operator base (not in the
files modelled here), which runs `f` on the first call and is a no-op on
repeat calls. -/
def onceDo (f : OpState → OpState) (st : OpState) : OpState :=
  if st.done then st else f { st with done := true }

/-- The body of the function that `PrimaryScan3.RunOnce` hands to `once.Do`
(scan_primary3.go lines 51-57). -/
def PrimaryScan3.body : List Stmt :=
  [Stmt.deferred Call.Recover, Stmt.call Call.active, Stmt.deferred Call.close,
   Stmt.call Call.setExecPhase, Stmt.deferred Call.notify, Stmt.call Call.scanPrimary]

/-- The method `PrimaryScan3.RunOnce`. -/
def PrimaryScan3.RunOnce (outcome : Call → Outcome) (st : OpState) : OpState :=
  onceDo (runBody outcome PrimaryScan3.body []) st

/-- The body of the function that `DummyScan.RunOnce` hands to `once.Do`
(scan_dummy.go lines 49-63); building the item to send makes no call that is
recorded. -/
def DummyScan.body : List Stmt :=
  [Stmt.deferred Call.Recover, Stmt.call Call.active, Stmt.deferred Call.close,
   Stmt.call (Call.switchPhase TimingPhase._EXECTIME),
   Stmt.deferred (Call.switchPhase TimingPhase._NOTIME), Stmt.deferred Call.notify,
   Stmt.call Call.sendItem]

/-- The method `DummyScan.RunOnce`. -/
def DummyScan.RunOnce (outcome : Call → Outcome) (st : OpState) : OpState :=
  onceDo (runBody outcome DummyScan.body []) st

/-- An operator that has not run. -/
def freshOp : OpState := { done := false, trace := [], panicking := false }

/-- Every call completes, but the work, which ends as `work`. -/
def workOutcome (work : Outcome) : Call → Outcome
  | Call.scanPrimary => work
  | Call.sendItem => work
  | _ => Outcome.completed

/-! ## The phase counts of scanPrimary -/

/-- The local variables of `scanPrimary` when its receive loop (lines 79-103)
ends, with the effects so far. -/
def firstReceived (env : ScanEnv) (eff : ScanEffects) : Received :=
  receiveEntries env.PHASE_UPDATE_COUNT env.scanEntries.entries
    { eff := eff, nitems := 0, docs := 0, lastEntry := none }

/-- The local variables of `scanPrimaryChunk` when its receive loop (lines
145-166) ends, with the effects so far. -/
def chunkReceived (env : ScanEnv) (eff : ScanEffects) (chunkSize : Nat)
    (indexEntry : IndexEntry) : Received :=
  receiveEntries env.PHASE_UPDATE_COUNT
    (env.scanChunk eff.chunks.length (chunkRequest chunkSize indexEntry)).entries
    { eff := { eff with chunks := eff.chunks ++ [chunkRequest chunkSize indexEntry] },
      nitems := 0, docs := 0, lastEntry := none }

/-- The number of non-nil entries received in the chunked scans of the requests
`reqs`, the first of which is the `n`-th one issued. -/
def receivedInChunks (env : ScanEnv) : Nat → List ChunkRequest → Nat
  | _, [] => 0
  | n, req :: rest => (env.scanChunk n req).entries.length + receivedInChunks env (n + 1) rest

/-- The scans of `sampleShortChunkEnv` with `_PHASE_UPDATE_COUNT` 1. -/
def sampleFlushEnv : ScanEnv := { sampleShortChunkEnv with PHASE_UPDATE_COUNT := 1 }

/-- What scanPrimary leaves on `sampleFlushEnv`: the first scan passes the
count 2 in its loop, the chunk above "c" the counts 2 and 0, the chunk above
"e" none, and the deferred function of scanPrimary the count 1. -/
def sampleFlushResult : ScanEffects :=
  { sent := ["a", "b", "c", "d", "e"], errors := [], phaseCounts := [2, 2, 0, 1],
    chunks := [chunkRequest 3 ⟨"c"⟩, chunkRequest 3 ⟨"e"⟩] }

end Execution

namespace Expr

/-! ## Values of the expression package -/

/-- Modelled from the spec: the type tags of a value, MISSING, NULL, BOOLEAN,
NUMBER, STRING, ARRAY and OBJECT (the value package is not in the files
modelled here). -/
inductive ValType where
  | MISSING
  | NULL
  | BOOLEAN
  | NUMBER
  | STRING
  | ARRAY
  | OBJECT
  deriving DecidableEq, Repr

/-- The Go value inside a NUMBER: an int64, or a float64, of which the
rational it stands for is kept. -/
inductive Number where
  | int (i : Int)
  | float (q : ℚ)
  deriving DecidableEq, Repr

/-- Modelled from the spec: a value.Value, one shape for each type tag. -/
inductive Val where
  | MISSING
  | NULL
  | BOOLEAN (b : Bool)
  | NUMBER (n : Number)
  | STRING (s : String)
  | ARRAY (elems : List Val)
  | OBJECT (fields : List (String × Val))

/-- The method `Type()` of a value. -/
def Val.type : Val → ValType
  | Val.MISSING => ValType.MISSING
  | Val.NULL => ValType.NULL
  | Val.BOOLEAN _ => ValType.BOOLEAN
  | Val.NUMBER _ => ValType.NUMBER
  | Val.STRING _ => ValType.STRING
  | Val.ARRAY _ => ValType.ARRAY
  | Val.OBJECT _ => ValType.OBJECT

/-- The int64 with the bits of the integer `i`. -/
def toInt64 (i : Int) : Int := (i + 2 ^ 63) % 2 ^ 64 - 2 ^ 63

/-- The uint64 with the bits of the integer `i`: the conversion `uint64(i)`. -/
def toUint64 (i : Int) : Nat := (i % 2 ^ 64).toNat

/-- The conversion `int64(x)` of a uint64. -/
def ofUint64 (x : Nat) : Int := toInt64 (Int.ofNat x)

/-- Modelled from the spec: `value.IsInt`, whether a float64 is a whole number
that an int64 holds. -/
def IsInt (q : ℚ) : Bool := decide (q.den = 1) && decide (-(2 ^ 63) ≤ q.num) && decide (q.num < 2 ^ 63)

/-- The function `isInt` (func_bitwise.go lines 729-739): the integer of a
value, and whether it is one. -/
def isInt : Val → Int × Bool
  | Val.NUMBER (Number.float q) => if IsInt q then (q.num, true) else (0, false)
  | Val.NUMBER (Number.int i) => (i, true)
  | _ => (0, false)

/-- The function `shiftLeft`: a shift to the left by `k` bits, to the right by
`-k` bits when `k` is negative, within 64 bits. -/
def shiftLeft (x : Nat) (k : Int) : Nat :=
  if k < 0 then x >>> toUint64 (-k) else (x <<< toUint64 k) % 2 ^ 64

/-- The function `rotateLeft`: a rotation to the left by `k mod 64` bits. -/
def rotateLeft (x : Nat) (k : Int) : Nat :=
  let n := 64
  let s := toUint64 k &&& (n - 1)
  ((x <<< s) % 2 ^ 64) ||| (x >>> (n - s))

def _BITONE : Nat := 1
def _BITSTART : Int := 1
def _BITEND : Int := 64

/-- The first loop of `BitAnd.Apply`, `BitOr.Apply` and `BitXor.Apply` (lines
63-72, 146-155, 229-238): `some v` when the loop returns `v`, `none` when it
ends. -/
def numberArgsLoop : List Val → Option Val
  | [] => none
  | arg :: rest =>
    if arg.type = ValType.MISSING then some Val.MISSING
    else if arg.type ≠ ValType.NUMBER then some Val.NULL
    else numberArgsLoop rest

/-- The second loop of `BitAnd.Apply`, `BitOr.Apply` and `BitXor.Apply`, with
the operator `op` of the function: `none` when it returns NULL, the result
otherwise. -/
def bitFoldLoop (op : Int → Int → Int) : List Val → Int → Option Int
  | [], result => some result
  | arg :: rest, result =>
    if !(isInt arg).2 then none else bitFoldLoop op rest (op result (isInt arg).1)

/-- The body shared by `BitAnd.Apply`, `BitOr.Apply` and `BitXor.Apply`, which
differ in the operator only; `none` stands for the panic of `args[0]` on an
empty argument list. -/
def bitFoldApply (op : Int → Int → Int) (args : List Val) : Option Val :=
  match numberArgsLoop args with
  | some v => some v
  | none =>
    match args with
    | [] => none
    | first :: rest =>
      if !(isInt first).2 then some Val.NULL
      else
        match bitFoldLoop op rest (isInt first).1 with
        | none => some Val.NULL
        | some result => some (Val.NUMBER (Number.int result))

/-- The method `BitAnd.Apply`. -/
def BitAnd.Apply (args : List Val) : Option Val := bitFoldApply Int.land args

/-- The method `BitOr.Apply`. -/
def BitOr.Apply (args : List Val) : Option Val := bitFoldApply Int.lor args

/-- The method `BitXor.Apply`. -/
def BitXor.Apply (args : List Val) : Option Val := bitFoldApply Int.xor args

/-- What a loop over the arguments leaves: the value it returns, or the flag
it has set when it ends. -/
inductive ArgsLoop where
  | returned (v : Val)
  | ended (flag : Bool)

/-- The loop of `BitShift.Apply` (lines 387-407) from the argument at index
`k`, with `isRotate` as set so far. -/
def bitShiftLoop : Nat → List Val → Bool → ArgsLoop
  | _, [], isRotate => ArgsLoop.ended isRotate
  | k, arg :: rest, isRotate =>
    if arg.type = ValType.MISSING then ArgsLoop.returned Val.MISSING
    else if arg.type = ValType.NULL then ArgsLoop.returned Val.NULL
    else if k = 2 then
      match arg with
      | Val.BOOLEAN b => bitShiftLoop (k + 1) rest b
      | _ => ArgsLoop.returned Val.NULL
    else if arg.type ≠ ValType.NUMBER then ArgsLoop.returned Val.NULL
    else bitShiftLoop (k + 1) rest isRotate

/-- The method `BitShift.Apply`; `none` stands for the panic of `args[0]` or
`args[1]` on a shorter argument list. -/
def BitShift.Apply (args : List Val) : Option Val :=
  match bitShiftLoop 0 args false with
  | ArgsLoop.returned v => some v
  | ArgsLoop.ended isRotate =>
    match args with
    | first :: second :: _ =>
      if !(isInt first).2 then some Val.NULL
      else if !(isInt second).2 then some Val.NULL
      else
        let result := if isRotate = true then rotateLeft (toUint64 (isInt first).1) (isInt second).1
          else shiftLeft (toUint64 (isInt first).1) (isInt second).1
        some (Val.NUMBER (Number.int (ofUint64 result)))
    | _ => none

/-- The loop of `bitPositions` over the positions: the mask so far and whether
every position was an integer from _BITSTART to _BITEND. -/
def bitPositionsLoop : List Val → Nat → Nat × Bool
  | [], num1 => (num1, true)
  | p :: rest, num1 =>
    if !(isInt p).2 || decide ((isInt p).1 < _BITSTART) || decide ((isInt p).1 > _BITEND) then
      (num1, false)
    else bitPositionsLoop rest (num1 ||| (_BITONE <<< toUint64 ((isInt p).1 - _BITSTART)) % 2 ^ 64)

/-- The function `bitPositions`; `none` stands for the panic of the type
assertion on a value that is neither a number nor an array. -/
def bitPositions (arg : Val) : Option (Nat × Bool) :=
  match arg with
  | Val.NUMBER n =>
    if !(isInt (Val.NUMBER n)).2 then some (0, false)
    else some (bitPositionsLoop [Val.NUMBER (Number.int (isInt (Val.NUMBER n)).1)] 0)
  | Val.ARRAY pos => some (bitPositionsLoop pos 0)
  | _ => none

/-- The loop of `BitTest.Apply` (lines 583-606) from the argument at index `k`,
with `isAll` as set so far. -/
def bitTestLoop : Nat → List Val → Bool → ArgsLoop
  | _, [], isAll => ArgsLoop.ended isAll
  | k, arg :: rest, isAll =>
    if arg.type = ValType.MISSING then ArgsLoop.returned Val.MISSING
    else if arg.type = ValType.NULL then ArgsLoop.returned Val.NULL
    else if k = 1 then
      if arg.type ≠ ValType.NUMBER ∧ arg.type ≠ ValType.ARRAY then ArgsLoop.returned Val.NULL
      else bitTestLoop (k + 1) rest isAll
    else if k = 2 then
      match arg with
      | Val.BOOLEAN b => bitTestLoop (k + 1) rest b
      | _ => ArgsLoop.returned Val.NULL
    else if arg.type ≠ ValType.NUMBER then ArgsLoop.returned Val.NULL
    else bitTestLoop (k + 1) rest isAll

/-- The method `BitTest.Apply`; `none` stands for a panic. -/
def BitTest.Apply (args : List Val) : Option Val :=
  match bitTestLoop 0 args false with
  | ArgsLoop.returned v => some v
  | ArgsLoop.ended isAll =>
    match args with
    | first :: second :: _ =>
      if !(isInt first).2 then some Val.NULL
      else
        match bitPositions second with
        | none => none
        | some (bitP, ok) =>
          if !ok then some Val.NULL
          else if isAll then some (Val.BOOLEAN (decide (toUint64 (isInt first).1 &&& bitP = bitP)))
          else some (Val.BOOLEAN (decide (toUint64 (isInt first).1 &&& bitP ≠ 0)))
    | _ => none

/-! ## DATE_DIFF_MILLIS and DATE_DIFF_STR -/

/-- The float64 that `Actual()` gives for a number. -/
def Number.Actual : Number → ℚ
  | Number.int i => (i : ℚ)
  | Number.float q => q

/-- The functions of func_date.go that the two `eval` methods call, taken as
given: `millisToTime`, `strToTime` and `dateDiff`, where `none` stands for a
non-nil error. -/
structure DateEnv (Time : Type) where
  millisToTime : ℚ → Time
  strToTime : String → Option Time
  dateDiff : Time → Time → String → Option Int

/-- The method `DateDiffMillis.eval` (func_date.go lines 297-319); `none`
stands for a panic (fewer than three arguments). -/
def DateDiffMillis.eval {Time : Type} (env : DateEnv Time) (args : List Val) : Option Val :=
  match args with
  | dv1 :: dv2 :: pv :: _ =>
    if dv2.type = ValType.MISSING ∨ dv2.type = ValType.MISSING ∨
        pv.type = ValType.MISSING then some Val.MISSING
    else if dv1.type ≠ ValType.NUMBER ∨ dv2.type ≠ ValType.NUMBER ∨
        pv.type ≠ ValType.STRING then some Val.NULL
    else
      match dv1, dv2, pv with
      | Val.NUMBER da1, Val.NUMBER da2, Val.STRING pa =>
        match env.dateDiff (env.millisToTime da1.Actual) (env.millisToTime da2.Actual) pa with
        | none => some Val.NULL
        | some diff => some (Val.NUMBER (Number.float diff))
      | _, _, _ => none
  | _ => none

/-- The method `DateDiffStr.eval` (func_date.go lines 363-395); `none` stands
for a panic (fewer than three arguments). -/
def DateDiffStr.eval {Time : Type} (env : DateEnv Time) (args : List Val) : Option Val :=
  match args with
  | dv1 :: dv2 :: pv :: _ =>
    if dv2.type = ValType.MISSING ∨ dv2.type = ValType.MISSING ∨
        pv.type = ValType.MISSING then some Val.MISSING
    else if dv1.type ≠ ValType.STRING ∨ dv2.type ≠ ValType.STRING ∨
        pv.type ≠ ValType.STRING then some Val.NULL
    else
      match dv1, dv2, pv with
      | Val.STRING da1, Val.STRING da2, Val.STRING pa =>
        match env.strToTime da1 with
        | none => some Val.NULL
        | some t1 =>
          match env.strToTime da2 with
          | none => some Val.NULL
          | some t2 =>
            match env.dateDiff t1 t2 pa with
            | none => some Val.NULL
            | some diff => some (Val.NUMBER (Number.float diff))
      | _, _, _ => none
  | _ => none

/-! ## The CURL whitelist -/

/-- A value that `json.Unmarshal` stores in an `interface{}`. -/
inductive Json where
  | null
  | bool (b : Bool)
  | number (q : ℚ)
  | string (s : String)
  | array (elems : List Json)
  | object (fields : List (String × Json))

/-- The errors that `whitelistCheck` returns, one for each message; `other`
stands for an error of `findPath` or of `ioutil.ReadFile`. -/
inductive WhitelistError where
  | other (msg : String)
  | fileEmpty
  | invalidJSON
  | emptyObject
  | noAllAccess
  | allAccessNotBoolean
  | disallowedNotList
  | allowedNotList
  | notWhitelisted (url : String)
  | notUrlStrings
  deriving DecidableEq, Repr

/-- What `whitelistCheck` finds on its way to the whitelist: an error of
`findPath` or of the read, an empty file, contents that do not unmarshal into a
map, or the map `list` as the list of its keys and values. -/
inductive WhitelistFile where
  | failed (msg : String)
  | empty
  | invalid
  | list (fields : List (String × Json))

/-- The function `checkType`. -/
def checkType (val : Json) (accessfield : Bool) : Bool :=
  if accessfield then
    match val with
    | Json.bool _ => true
    | _ => false
  else
    match val with
    | Json.array _ => true
    | _ => false

/-- The function `sliceContains`: the result and the error (`none` for nil). -/
def sliceContains : List Json → String → Bool × Option WhitelistError
  | [], _ => (false, none)
  | val :: rest, url =>
    match val with
    | Json.string nVal =>
      if nVal.toList.isPrefixOf url.toList then (true, none) else sliceContains rest url
    | _ => (false, some WhitelistError.notUrlStrings)

/-- The part of `whitelistCheck` on the field allowed_urls (lines 1081-1110),
on the map `list`. -/
def allowedCheck (list : List (String × Json)) (url : String) : Option WhitelistError :=
  match list.lookup "allowed_urls" with
  | some allowedUrls =>
    if !checkType allowedUrls false then some WhitelistError.allowedNotList
    else
      match allowedUrls with
      | Json.array field =>
        if (sliceContains field url).2 = none ∧ (sliceContains field url).1 = true then none
        else if (sliceContains field url).2 ≠ none then (sliceContains field url).2
        else some (WhitelistError.notWhitelisted url)
      | _ => some WhitelistError.allowedNotList
  | none => some (WhitelistError.notWhitelisted url)

/-- The part of `whitelistCheck` for a whitelist whose all_access is false
(lines 1058-1111), on the map `list`: the field disallowed_urls first. -/
def restrictedCheck (list : List (String × Json)) (url : String) : Option WhitelistError :=
  match list.lookup "disallowed_urls" with
  | some disallowedUrls =>
    if !checkType disallowedUrls false then some WhitelistError.disallowedNotList
    else
      match disallowedUrls with
      | Json.array field =>
        if (sliceContains field url).2 = none ∧ (sliceContains field url).1 = true then
          some (WhitelistError.notWhitelisted url)
        else if (sliceContains field url).2 ≠ none then (sliceContains field url).2
        else allowedCheck list url
      | _ => some WhitelistError.disallowedNotList
  | none => allowedCheck list url

/-- The function `whitelistCheck`: the error it returns, `none` for nil. -/
def whitelistCheck (file : WhitelistFile) (url : String) : Option WhitelistError :=
  match file with
  | WhitelistFile.failed msg => some (WhitelistError.other msg)
  | WhitelistFile.empty => some WhitelistError.fileEmpty
  | WhitelistFile.invalid => some WhitelistError.invalidJSON
  | WhitelistFile.list list =>
    if list.length = 0 then some WhitelistError.emptyObject
    else
      match list.lookup "all_access" with
      | none => some WhitelistError.noAllAccess
      | some allaccess =>
        if !checkType allaccess true then some WhitelistError.allAccessNotBoolean
        else
          match allaccess with
          | Json.bool false => restrictedCheck list url
          | _ => none

/-- The url strings of a whitelist field that is present and is a list of
strings; no url when the field is absent. -/
def urlStrings : Option Json → Option (List String)
  | none => some []
  | some (Json.array elems) =>
    elems.foldr (fun val acc =>
      match val, acc with
      | Json.string s, some urls => some (s :: urls)
      | _, _ => none) (some [])
  | some _ => none

/-- Some url of the list is a prefix of `url`. -/
def anyPrefix (urls : List String) (url : String) : Bool :=
  urls.any (fun u => u.toList.isPrefixOf url.toList)

/-- A whitelist without access to all urls, whose allowed_urls holds a number
before the url "http://a". -/
def sampleMixedWhitelist : List (String × Json) :=
  [("all_access", Json.bool false),
   ("allowed_urls", Json.array [Json.number 5, Json.string "http://a"])]

/-- A whitelist without access to all urls that allows "http://a" and
disallows "http://a/private". -/
def sampleWhitelist : List (String × Json) :=
  [("all_access", Json.bool false),
   ("allowed_urls", Json.array [Json.string "http://a"]),
   ("disallowed_urls", Json.array [Json.string "http://a/private"])]

/-! ## BITSET and BITCLEAR -/

/-- The function `bitSetNClear`, behind BITSET (`bitset` true) and BITCLEAR
(`bitset` false); `NewValue` is `value.NewValue` on a uint64, which is not in
the files modelled here; `none` stands for a panic. -/
def bitSetNClear (NewValue : Nat → Val) (bitset : Bool) (first second : Val) : Option Val :=
  if first.type = ValType.MISSING ∨ second.type = ValType.MISSING then some Val.MISSING
  else if first.type ≠ ValType.NUMBER then some Val.NULL
  else if second.type ≠ ValType.NUMBER ∧ second.type ≠ ValType.ARRAY then some Val.NULL
  else if !(isInt first).2 then some Val.NULL
  else
    match bitPositions second with
    | none => none
    | some (bitP, ok) =>
      if !ok then some Val.NULL
      else if bitset then some (NewValue (toUint64 (isInt first).1 ||| bitP))
      else some (NewValue (toUint64 (isInt first).1 &&& (2 ^ 64 - 1 - bitP)))

/-- The method `BitSet.Apply`. -/
def BitSet.Apply (NewValue : Nat → Val) (first second : Val) : Option Val :=
  bitSetNClear NewValue true first second

/-- The method `BitClear.Apply`. -/
def BitClear.Apply (NewValue : Nat → Val) (first second : Val) : Option Val :=
  bitSetNClear NewValue false first second

/-- Every position of the list is an integer from 1 to 64. -/
def validPositions (elems : List Val) : Bool :=
  elems.all (fun p => (isInt p).2 && decide (1 ≤ (isInt p).1) && decide ((isInt p).1 ≤ 64))

/-- The mask of a list of positions: the OR of `1 << (p - 1)` over its
positions `p`. -/
def maskOf (elems : List Val) : Nat :=
  elems.foldl (fun mask p => mask ||| 1 <<< ((isInt p).1 - 1).toNat) 0

/-- A `NewValue` on uint64 that gives the int64 with the same bits. -/
def sampleNewValue (x : Nat) : Val := Val.NUMBER (Number.int (ofUint64 x))

/-! ## DATE_DIFF: dateDiff, diffPart and diffDates -/

/-- A time.Time, as the values that `setDate` and `diffPart` read from it:
`Year()`, `YearDay()`, the three results of `Clock()` and `Nanosecond()`. -/
structure Time where
  Year : Int
  YearDay : Int
  Hour : Int
  Minute : Int
  Second : Int
  Nanosecond : Int
  deriving DecidableEq, Repr

/-- The struct `date`. -/
structure date where
  year : Int
  doy : Int
  hour : Int
  minute : Int
  second : Int
  millisecond : Int
  deriving DecidableEq, Repr

/-- The function `setDate`, as the date it fills in. -/
def setDate (t : Time) : date :=
  { year := t.Year, doy := t.YearDay, hour := t.Hour, minute := t.Minute, second := t.Second,
    millisecond := t.Nanosecond.tdiv 1000000 }

/-- The function `isLeapYear`. -/
def isLeapYear (year : Int) : Bool :=
  decide (year.tmod 400 = 0) || (decide (year.tmod 4 = 0) && decide (year.tmod 100 ≠ 0))

/-- The function `leapYearsWithin`. -/
def leapYearsWithin (year : Int) : Int :=
  let year := if year > 0 then year - 1 else year + 1
  year.tdiv 4 - year.tdiv 100 + year.tdiv 400

/-- The function `leapYearsBetween`. -/
def leapYearsBetween (end_ start : Int) : Int :=
  leapYearsWithin end_ - leapYearsWithin start

/-- The function `diffDates`. -/
def diffDates (t1 t2 : Time) : date :=
  let d1 := setDate t1
  let d2 := setDate t2
  let d1 := if d1.millisecond < d2.millisecond then
    { d1 with millisecond := d1.millisecond + 1000, second := d1.second - 1 } else d1
  let millisecond := d1.millisecond - d2.millisecond
  let d1 := if d1.second < d2.second then
    { d1 with second := d1.second + 60, minute := d1.minute - 1 } else d1
  let second := d1.second - d2.second
  let d1 := if d1.minute < d2.minute then
    { d1 with minute := d1.minute + 60, hour := d1.hour - 1 } else d1
  let minute := d1.minute - d2.minute
  let d1 := if d1.hour < d2.hour then
    { d1 with hour := d1.hour + 24, doy := d1.doy - 1 } else d1
  let hour := d1.hour - d2.hour
  let d2 := if d1.doy < d2.doy then
    { d2 with doy := (if isLeapYear d2.year then d2.doy - 366 else d2.doy - 365),
              year := d2.year + 1 } else d2
  let doy := d1.doy - d2.doy
  let year := d1.year - d2.year
  { year := year, doy := doy, hour := hour, minute := minute, second := second,
    millisecond := millisecond }

/-- The function `strings.ToLower` on the letters A to Z. -/
def ToLower (s : String) : String := String.mk (s.toList.map Char.toLower)

/-- The function `diffPart`, which calls itself at most `fuel` deep: the
number and the error returned (`none` for nil); `none` when the fuel runs
out.  The numbers are taken within the range of int64. -/
def diffPart : Nat → Time → Time → date → String → Option (Int × Option String)
  | 0, _, _, _, _ => none
  | fuel + 1, t1, t2, diff, part =>
    let p := ToLower part
    if p = "millisecond" then
      match diffPart fuel t1 t2 diff "second" with
      | none => none
      | some (sec, e) => if e ≠ none then some (0, e) else some (sec * 1000 + diff.millisecond, none)
    else if p = "second" then
      match diffPart fuel t1 t2 diff "min" with
      | none => none
      | some (min, e) => if e ≠ none then some (0, e) else some (min * 60 + diff.second, none)
    else if p = "minute" then
      match diffPart fuel t1 t2 diff "hour" with
      | none => none
      | some (hour, e) => if e ≠ none then some (0, e) else some (hour * 60 + diff.minute, none)
    else if p = "hour" then
      match diffPart fuel t1 t2 diff "day" with
      | none => none
      | some (day, e) => if e ≠ none then some (0, e) else some (day * 24 + diff.hour, none)
    else if p = "day" then
      let days := diff.year * 365 + diff.doy
      let days := if diff.year ≠ 0 then days + leapYearsBetween t1.Year t2.Year else days
      some (days, none)
    else if p = "week" then
      match diffPart fuel t1 t2 diff "day" with
      | none => none
      | some (day, e) => if e ≠ none then some (0, e) else some (day.tdiv 7, none)
    else if p = "year" then some (diff.year, none)
    else if p = "decade" then some (diff.year.tdiv 10, none)
    else if p = "century" then some (diff.year.tdiv 100, none)
    else if p = "millenium" then some (diff.year.tdiv 1000, none)
    else some (0, some ("Unsupported date diff part " ++ part ++ "."))

/-- The function `dateDiff`, with the fuel of `diffPart`. -/
def dateDiff (fuel : Nat) (t1 t2 : Time) (part : String) : Option (Int × Option String) :=
  diffPart fuel t1 t2 (diffDates t1 t2) part

/-- The time at midnight of the day `doy` of the year `year`. -/
def midnight (year doy : Int) : Time :=
  { Year := year, YearDay := doy, Hour := 0, Minute := 0, Second := 0, Nanosecond := 0 }

/-- The number of days of a year of the calendar. -/
def yearLength (year : Int) : Int := if isLeapYear year then 366 else 365

/-- The number of calendar days from the day of `t2` to the day of `t1`, for
`t1` in the year of `t2` or a later one: the days of the years from that of
`t2` up to the one before that of `t1`, and the difference of the days of the
year. -/
def calendarDays (t1 t2 : Time) : Int :=
  ((List.range (t1.Year - t2.Year).toNat).map (fun k => yearLength (t2.Year + k))).sum +
    t1.YearDay - t2.YearDay

/-! ## LIKE: compile and replacer -/

/-- The alternatives of a regular expression that is an alternation of
literals: `|` separates them and a backslash makes the character after it a
literal (`escaped` tells that the character before was such a backslash).
This is the part of the syntax of Go's regexp package that the expression of
`Like.compile` uses. -/
def parseAlternatives : List Char → Bool → List Char → List (List Char)
  | [], _, cur => [cur]
  | c :: rest, true, cur => parseAlternatives rest false (cur ++ [c])
  | c :: rest, false, cur =>
    if c = '\\' then parseAlternatives rest true cur
    else if c = '|' then cur :: parseAlternatives rest false []
    else parseAlternatives rest false (cur ++ [c])

/-- The match of an alternation at the start of `s`: the first alternative, in
their order, that `s` starts with. -/
def matchAt (alts : List (List Char)) (s : List Char) : Option (List Char) :=
  alts.find? (fun alt => !alt.isEmpty && alt.isPrefixOf s)

/-- The method `ReplaceAllStringFunc` of an alternation of literals: every
match, found from left to right, is replaced by what `repl` returns for it;
`skip` counts the characters of the last match still to pass over, and `none`
stands for a panic of `repl`. -/
def replaceAllStringFunc (alts : List (List Char)) (repl : String → Option String) :
    List Char → Nat → Option (List Char)
  | [], _ => some []
  | _ :: rest, skip + 1 => replaceAllStringFunc alts repl rest skip
  | c :: rest, 0 =>
    match matchAt alts (c :: rest) with
    | some m =>
      match repl (String.mk m), replaceAllStringFunc alts repl rest (m.length - 1) with
      | some r, some out => some (r.toList ++ out)
      | _, _ => none
    | none =>
      match replaceAllStringFunc alts repl rest 0 with
      | some out => some (c :: out)
      | none => none

/-- The function `replacer`; `none` stands for the panic of its default
case. -/
def replacer (s : String) : Option String :=
  if s = "\\\\" then some "\\"
  else if s = "\\_" then some "_"
  else if s = "\\%" then some "%"
  else if s = "_" then some "(.)"
  else if s = "%" then some "(.*)"
  else none

/-- The method `Like.compile`, with `regexp.Compile` given as `Compile`; `none`
stands for a panic. -/
def compile {Regexp : Type} (Compile : String → Except String Regexp) (s : String) :
    Option (Except String Regexp) :=
  match replaceAllStringFunc (parseAlternatives "\\\\|\\_|\\%|_|%".toList false []) replacer
      s.toList 0 with
  | none => none
  | some s => some (Compile (String.mk s))

/-! ## NOT: Fold and eval -/

/-- An expression, as far as `Not.Fold` tells expressions apart: a constant, a
negation, or another expression, named by a number. -/
inductive Expression where
  | Constant (v : Val)
  | Not (operand : Expression)
  | Other (id : Nat)

/-- Modelled from the spec: the order of the type tags as `Not.eval` uses it,
MISSING below NULL below every other tag: whether a tag is above NULL. -/
def ValType.aboveNull (t : ValType) : Bool :=
  decide (t ≠ ValType.MISSING) && decide (t ≠ ValType.NULL)

/-- The method `Not.eval`; `Truth` is the method `Truth()` of a value, which is
not in the files modelled here. -/
def Not.eval (Truth : Val → Bool) (operand : Val) : Val :=
  if operand.type.aboveNull then Val.BOOLEAN (!Truth operand) else operand

/-- Modelled from the spec: the method `Evaluate` of an expression on a fixed
item and context (`unaryBase.evaluate` and `Constant` are not in the files
modelled here): a constant evaluates to its value, a negation evaluates its
operand and applies `Not.eval`, another expression evaluates to what
`evalOther` gives; evaluation errors are left out. -/
def Expression.Evaluate (Truth : Val → Bool) (evalOther : Nat → Val) : Expression → Val
  | Expression.Constant v => v
  | Expression.Not operand => Not.eval Truth (Expression.Evaluate Truth evalOther operand)
  | Expression.Other id => evalOther id

/-- The method `Fold`: `Not.Fold` from logic_not.go, where
`VisitChildren(&Folder{})` replaces the operand by its fold.  Modelled from the
spec: a constant and an expression of another kind fold to themselves. -/
def Expression.Fold (Truth : Val → Bool) : Expression → Expression
  | Expression.Constant v => Expression.Constant v
  | Expression.Other id => Expression.Other id
  | Expression.Not operand =>
    match Expression.Fold Truth operand with
    | Expression.Constant v => Expression.Constant (Not.eval Truth v)
    | Expression.Not o => o
    | Expression.Other id => Expression.Not (Expression.Other id)

/-- The function `NewNot`. -/
def NewNot (operand : Expression) : Expression := Expression.Not operand

/-- A truth value for every value: a boolean is its own, a number is true when
it is not zero, a string, array or object when it is not empty. -/
def sampleTruth : Val → Bool
  | Val.BOOLEAN b => b
  | Val.NUMBER (Number.int i) => decide (i ≠ 0)
  | Val.NUMBER (Number.float q) => decide (q ≠ 0)
  | Val.STRING s => decide (s ≠ "")
  | Val.ARRAY elems => !elems.isEmpty
  | Val.OBJECT fields => !fields.isEmpty
  | _ => false

/-- Expression 0 evaluates to the number 5, expression 1 to MISSING, every
other one to NULL. -/
def sampleEvalOther (id : Nat) : Val :=
  if id = 0 then Val.NUMBER (Number.int 5) else if id = 1 then Val.MISSING else Val.NULL

/-! ## EVERY -/

/-- A binding of a collection predicate: its variable, its expression, named
by a number, and whether it descends (`Descend()`). -/
structure Binding where
  Variable : String
  Expression : Nat
  Descend : Bool
  deriving DecidableEq, Repr

/-- What `Every.Evaluate` calls on a fixed item and context: `Evaluate` of the
expression of a binding (the value and the error, `none` for nil), the method
`Descendants` of a value, `Evaluate` of the satisfies-expression on the scope
value with the given fields set, and the method `Truth` of a value. -/
structure EveryEnv where
  Evaluate : Nat → Val × Option String
  Descendants : Val → List Val
  satisfies : List (String × Val) → Val × Option String
  Truth : Val → Bool

/-- The value `bv` that the first loop of `Every.Evaluate` switches on: the
value of the expression of the binding, or, when the binding descends, the
array of the descendants of that value. -/
def bindingValue (env : EveryEnv) (b : Binding) : Val :=
  if b.Descend then Val.ARRAY (env.Descendants (env.Evaluate b.Expression).1)
  else (env.Evaluate b.Expression).1

/-- The flags and the arrays that the first loop of `Every.Evaluate` leaves. -/
structure BindingsState where
  missing : Bool
  null : Bool
  barr : List (List Val)

/-- The first loop of `Every.Evaluate` (lines 34-54); an error ends it. -/
def bindingsLoop (env : EveryEnv) : List Binding → BindingsState → Except String BindingsState
  | [], st => Except.ok st
  | b :: rest, st =>
    match (env.Evaluate b.Expression).2 with
    | some err => Except.error err
    | none =>
      match bindingValue env b with
      | Val.ARRAY elems => bindingsLoop env rest { st with barr := st.barr ++ [elems] }
      | Val.MISSING => bindingsLoop env rest { st with missing := true, barr := st.barr ++ [[]] }
      | _ => bindingsLoop env rest { st with null := true, barr := st.barr ++ [[]] }

/-- The loop that finds `n` (lines 64-69). -/
def shortestLength : List (List Val) → Int → Int
  | [], n => n
  | b :: rest, n =>
    if n < 0 ∨ (b.length : Int) < n then shortestLength rest b.length else shortestLength rest n

/-- The fields set on the scope value for the index `i` (lines 73-75): for each
binding its variable and the element at `i` of its array. -/
def scopeFields (bindings : List Binding) (barr : List (List Val)) (i : Nat) :
    List (String × Val) :=
  (bindings.zip barr).map (fun p => (p.1.Variable, p.2.getD i Val.NULL))

/-- The last loop of `Every.Evaluate` (lines 71-85), over the indexes left. -/
def satisfiesLoop (env : EveryEnv) (bindings : List Binding) (barr : List (List Val)) :
    List Nat → Except String Val
  | [] => Except.ok (Val.BOOLEAN true)
  | i :: rest =>
    match (env.satisfies (scopeFields bindings barr i)).2 with
    | some e => Except.error e
    | none =>
      if !env.Truth (env.satisfies (scopeFields bindings barr i)).1 then
        Except.ok (Val.BOOLEAN false)
      else satisfiesLoop env bindings barr rest

/-- The method `Every.Evaluate`, on the bindings of the predicate. -/
def Every.Evaluate (env : EveryEnv) (bindings : List Binding) : Except String Val :=
  match bindingsLoop env bindings { missing := false, null := false, barr := [] } with
  | Except.error err => Except.error err
  | Except.ok st =>
    if st.missing then Except.ok Val.MISSING
    else if st.null then Except.ok Val.NULL
    else
      satisfiesLoop env bindings st.barr (List.range (shortestLength st.barr (-1)).toNat)

/-- An environment where expression 0 evaluates to MISSING, expression 1 to the
array of 1 and 2 and every other one to the number 7; no value has
descendants; the satisfies-expression gives the value of the first field, and
a value is true when it is the number 1. -/
def sampleEveryEnv : EveryEnv :=
  { Evaluate := fun id =>
      if id = 0 then (Val.MISSING, none)
      else if id = 1 then (Val.ARRAY [Val.NUMBER (Number.int 1), Val.NUMBER (Number.int 2)], none)
      else (Val.NUMBER (Number.int 7), none),
    Descendants := fun _ => [],
    satisfies := fun fields => (match fields.head? with
      | some p => p.2
      | none => Val.NULL, none),
    Truth := fun v => match v with
      | Val.NUMBER (Number.int 1) => true
      | _ => false }

/-- The elements of an array; no element for another value. -/
def elemsOf : Val → List Val
  | Val.ARRAY elems => elems
  | _ => []

/-- The arrays of the bindings, in their order. -/
def bindingArrays (env : EveryEnv) (bindings : List Binding) : List (List Val) :=
  bindings.map (fun b => elemsOf (bindingValue env b))

/-- The number of indexes that `Every.Evaluate` visits: `n`, the length of the
shortest array of the bindings. -/
def everyLength (env : EveryEnv) (bindings : List Binding) : Nat :=
  (shortestLength (bindingArrays env bindings) (-1)).toNat

end Expr

namespace Couchbase

/-! ## Privileges and credentials -/

/-- The privileges of the auth package that auth.go names; `other` stands for
any further value of the type. -/
inductive Privilege where
  | PRIV_READ
  | PRIV_WRITE
  | PRIV_SYSTEM_READ
  | PRIV_SECURITY_READ
  | PRIV_SECURITY_WRITE
  | PRIV_QUERY_SELECT
  | PRIV_QUERY_UPDATE
  | PRIV_QUERY_INSERT
  | PRIV_QUERY_DELETE
  | PRIV_QUERY_BUILD_INDEX
  | PRIV_QUERY_CREATE_INDEX
  | PRIV_QUERY_ALTER_INDEX
  | PRIV_QUERY_DROP_INDEX
  | PRIV_QUERY_LIST_INDEX
  | PRIV_QUERY_EXTERNAL_ACCESS
  | other (n : Nat)
  deriving DecidableEq, Repr

/-- An auth.PrivilegePair. -/
structure PrivilegePair where
  Target : String
  Priv : Privilege
  deriving DecidableEq, Repr

/-- A cbauth.Creds: what `IsAllowed(permission)` returns, a boolean and an
error (`none` for nil). -/
structure Creds where
  IsAllowed : String → Bool × Option String

/-- An authSource, of which `adminIsOpen()` is used. -/
structure authSource where
  adminIsOpen : Bool

/-- The function `opIsUnimplemented`. -/
def opIsUnimplemented (namespace_ bucket : String) (requested : Privilege) : Bool :=
  if namespace_ = "#system" then
    if bucket = "prepareds" ∨ bucket = "completed_requests" ∨ bucket = "active_requests" then
      if requested = Privilege.PRIV_QUERY_UPDATE ∨ requested = Privilege.PRIV_QUERY_INSERT then
        true
      else false
    else if requested = Privilege.PRIV_QUERY_UPDATE ∨ requested = Privilege.PRIV_QUERY_INSERT ∨
        requested = Privilege.PRIV_QUERY_DELETE then
      true
    else false
  else false

/-- The function `privilegeString`: the permission, or `none` for the error
"Invalid Privileges". -/
def privilegeString (_namespace bucket : String) (requested : Privilege) : Option String :=
  match requested with
  | Privilege.PRIV_WRITE => some ("cluster.bucket[" ++ bucket ++ "].data.docs!write")
  | Privilege.PRIV_READ => some ("cluster.bucket[" ++ bucket ++ "].data.docs!read")
  | Privilege.PRIV_SYSTEM_READ => some "cluster.n1ql.meta!read"
  | Privilege.PRIV_SECURITY_READ => some "cluster.admin.security!read"
  | Privilege.PRIV_SECURITY_WRITE => some "cluster.admin.security!write"
  | Privilege.PRIV_QUERY_SELECT => some ("cluster.bucket[" ++ bucket ++ "].n1ql.select!execute")
  | Privilege.PRIV_QUERY_UPDATE => some ("cluster.bucket[" ++ bucket ++ "].n1ql.update!execute")
  | Privilege.PRIV_QUERY_INSERT => some ("cluster.bucket[" ++ bucket ++ "].n1ql.insert!execute")
  | Privilege.PRIV_QUERY_DELETE => some ("cluster.bucket[" ++ bucket ++ "].n1ql.delete!execute")
  | Privilege.PRIV_QUERY_BUILD_INDEX => some ("cluster.bucket[" ++ bucket ++ "].n1ql.index!build")
  | Privilege.PRIV_QUERY_CREATE_INDEX =>
    some ("cluster.bucket[" ++ bucket ++ "].n1ql.index!create")
  | Privilege.PRIV_QUERY_ALTER_INDEX => some ("cluster.bucket[" ++ bucket ++ "].n1ql.index!alter")
  | Privilege.PRIV_QUERY_DROP_INDEX => some ("cluster.bucket[" ++ bucket ++ "].n1ql.index!drop")
  | Privilege.PRIV_QUERY_LIST_INDEX => some ("cluster.bucket[" ++ bucket ++ "].n1ql.index!list")
  | Privilege.PRIV_QUERY_EXTERNAL_ACCESS => some "cluster.n1ql.curl!execute"
  | Privilege.other _ => none

/-- The function `doAuthByCreds`: the result and the error (`none` for nil). -/
def doAuthByCreds (creds : Creds) (namespace_ bucket : String) (requested : Privilege) :
    Bool × Option String :=
  match privilegeString namespace_ bucket requested with
  | none => (false, some "Invalid Privileges")
  | some permission =>
    if (creds.IsAllowed permission).2 ≠ none ∨ (creds.IsAllowed permission).1 = false then
      (false, (creds.IsAllowed permission).2)
    else (true, none)

/-- The pieces of a target that `strings.Split(target, ":")` gives. -/
def splitColon : List Char → List (List Char)
  | [] => [[]]
  | c :: rest =>
    if c = ':' then [] :: splitColon rest
    else
      match splitColon rest with
      | piece :: pieces => (c :: piece) :: pieces
      | [] => [[c]]

/-- The function `namespaceKeyspaceFromPrivPair`; a target with a colon has two
pieces at least, so the last case is not reached. -/
def namespaceKeyspaceFromPrivPair (pair : PrivilegePair) : String × String :=
  if ':' ∈ pair.Target.toList then
    match splitColon pair.Target.toList with
    | q0 :: q1 :: _ => (String.mk q0, String.mk q1)
    | _ => ("", "")
  else ("default", pair.Target)

/-- The loop of `authAgainstCreds` over the credentials (lines 136-148) for one
privilege: whether the privilege was granted, and the error the loop returned
with (`none` when it ended or broke off). -/
def credsLoop (namespace_ keyspace : String) (privilege : Privilege) :
    List Creds → Bool × Option String
  | [] => (false, none)
  | creds :: rest =>
    if (doAuthByCreds creds namespace_ keyspace privilege).2 ≠ none then
      (false, (doAuthByCreds creds namespace_ keyspace privilege).2)
    else if (doAuthByCreds creds namespace_ keyspace privilege).1 = true then (true, none)
    else credsLoop namespace_ keyspace privilege rest

/-- The loop of `authAgainstCreds` over the privileges sought, with the denied
privileges so far: the list returned (`none` for nil) and the error. -/
def privsLoop (as : authSource) (availableCredentials : List Creds) :
    List PrivilegePair → List PrivilegePair → Option (List PrivilegePair) × Option String
  | [], deniedPrivs => (some deniedPrivs, none)
  | pair :: rest, deniedPrivs =>
    let namespace_ := (namespaceKeyspaceFromPrivPair pair).1
    let keyspace := (namespaceKeyspaceFromPrivPair pair).2
    let privilege := pair.Priv
    if keyspace = "nodes" ∧ privilege = Privilege.PRIV_SYSTEM_READ ∧ as.adminIsOpen = true then
      privsLoop as availableCredentials rest deniedPrivs
    else if opIsUnimplemented namespace_ keyspace privilege = true then
      privsLoop as availableCredentials rest deniedPrivs
    else if (credsLoop namespace_ keyspace privilege availableCredentials).2 ≠ none then
      (none, (credsLoop namespace_ keyspace privilege availableCredentials).2)
    else if (credsLoop namespace_ keyspace privilege availableCredentials).1 = false then
      privsLoop as availableCredentials rest (deniedPrivs ++ [pair])
    else privsLoop as availableCredentials rest deniedPrivs

/-- The function `authAgainstCreds`. -/
def authAgainstCreds (as : authSource) (privsSought : List PrivilegePair)
    (availableCredentials : List Creds) : Option (List PrivilegePair) × Option String :=
  privsLoop as availableCredentials privsSought []

/-- A pair that `authAgainstCreds` passes over without a check: a read of the
keyspace "nodes" while the admin endpoint is open, or an operation that
`opIsUnimplemented` reports. -/
def exempt (as : authSource) (pair : PrivilegePair) : Bool :=
  decide ((namespaceKeyspaceFromPrivPair pair).2 = "nodes" ∧
      pair.Priv = Privilege.PRIV_SYSTEM_READ ∧ as.adminIsOpen = true) ||
    opIsUnimplemented (namespaceKeyspaceFromPrivPair pair).1 (namespaceKeyspaceFromPrivPair pair).2
      pair.Priv

/-- The check of one credential for a pair. -/
def checkPair (creds : Creds) (pair : PrivilegePair) : Bool × Option String :=
  doAuthByCreds creds (namespaceKeyspaceFromPrivPair pair).1 (namespaceKeyspaceFromPrivPair pair).2
    pair.Priv

/-- Some credential of the list allows the pair. -/
def allowedBy (availableCredentials : List Creds) (pair : PrivilegePair) : Bool :=
  availableCredentials.any (fun creds => (checkPair creds pair).1)

/-- A credential that allows the permissions in `allowed` and nothing else. -/
def sampleCreds (allowed : List String) : Creds :=
  { IsAllowed := fun permission => (decide (permission ∈ allowed), none) }

/-- A credential whose every check fails with an error. -/
def sampleBrokenCreds : Creds :=
  { IsAllowed := fun _ => (false, some "no connection") }

/-- Four privileges sought: a read of system:nodes, an update of a system
keyspace, a select on "beer" and a select on "wine". -/
def samplePrivs : List PrivilegePair :=
  [{ Target := "#system:nodes", Priv := Privilege.PRIV_SYSTEM_READ },
   { Target := "#system:keyspaces", Priv := Privilege.PRIV_QUERY_UPDATE },
   { Target := "default:beer", Priv := Privilege.PRIV_QUERY_SELECT },
   { Target := "wine", Priv := Privilege.PRIV_QUERY_SELECT }]

end Couchbase

namespace SystemKeyspace

/-! ## Delete on the request log keyspace -/

/-- A delete that `Delete` issues: through `GetRemoteDoc` on another node, or
through `server.RequestDelete` on this node. -/
inductive DeleteOp where
  | remote (node localKey : String)
  | localDelete (localKey : String)
  deriving DecidableEq, Repr

/-- The callees of `Delete` that are not in the files modelled here: the node
name `WhoAmI()`, `SplitKey(name)`, the warning that `GetRemoteDoc` hands to its
callback if it has one, and the error of `server.RequestDelete` (`none` for
nil); the last two may depend on the deletes issued before. -/
structure DeleteEnv where
  WhoAmI : String
  SplitKey : String → String × String
  GetRemoteDoc : List DeleteOp → String → String → Option String
  RequestDelete : List DeleteOp → String → Option String

/-- What `Delete` has done so far: the deletes issued, the warnings handed to
the context, and the variable `err`. -/
structure DeleteState where
  ops : List DeleteOp
  warnings : List String
  err : Option String
  deriving DecidableEq, Repr

/-- The builtin `copy(dst, src)`: the slice `dst` afterwards. -/
def copy (dst src : List String) : List String :=
  src.take dst.length ++ dst.drop src.length

/-- One pass of the loop body of `Delete` up to the test of `err` (lines
198-213). -/
def deleteStep (env : DeleteEnv) (name : String) (st : DeleteState) : DeleteState :=
  let node := (env.SplitKey name).1
  let localKey := (env.SplitKey name).2
  if node.length ≠ 0 ∧ node ≠ env.WhoAmI then
    { st with
      ops := st.ops ++ [DeleteOp.remote node localKey],
      warnings := st.warnings ++ (env.GetRemoteDoc st.ops node localKey).toList }
  else
    { st with
      ops := st.ops ++ [DeleteOp.localDelete localKey],
      err := env.RequestDelete st.ops localKey }

/-- The loop of `Delete` from index `i`, over the names left: the list and the
error returned (`none` for nil), and what was done. -/
def deleteLoop (env : DeleteEnv) (deletes : List String) :
    Nat → List String → DeleteState → (List String × Option String) × DeleteState
  | _, [], st => ((deletes, none), st)
  | i, name :: rest, st =>
    if (deleteStep env name st).err ≠ none then
      let deleted := List.replicate i ""
      let deleted := if i > 0 then copy deleted (deletes.take (i - 1)) else deleted
      ((deleted, (deleteStep env name st).err), deleteStep env name st)
    else deleteLoop env deletes (i + 1) rest (deleteStep env name st)

/-- The method `requestLogKeyspace.Delete`. -/
def Delete (env : DeleteEnv) (deletes : List String) :
    (List String × Option String) × DeleteState :=
  deleteLoop env deletes 0 deletes { ops := [], warnings := [], err := none }

/-- The delete that `Delete` issues for a name. -/
def opOf (env : DeleteEnv) (name : String) : DeleteOp :=
  if (env.SplitKey name).1.length ≠ 0 ∧ (env.SplitKey name).1 ≠ env.WhoAmI then
    DeleteOp.remote (env.SplitKey name).1 (env.SplitKey name).2
  else DeleteOp.localDelete (env.SplitKey name).2

/-- A node "n1" on which every name is a local key and the delete of "b"
fails. -/
def sampleDeleteEnv : DeleteEnv :=
  { WhoAmI := "n1",
    SplitKey := fun name => ("", name),
    GetRemoteDoc := fun _ _ _ => none,
    RequestDelete := fun _ localKey => if localKey = "b" then some "not found" else none }

/-- A node "n1" on which every name is a local key and the delete of `bad`
fails. -/
def sampleDeleteEnvAt (bad : String) : DeleteEnv :=
  { WhoAmI := "n1",
    SplitKey := fun name => ("", name),
    GetRemoteDoc := fun _ _ _ => none,
    RequestDelete := fun _ localKey => if localKey = bad then some "not found" else none }

end SystemKeyspace

namespace Planner

/-- No entry of the map with another key is narrower than or equivalent to the
entry `t`. -/
def undominated (ops : Env) (shortest : Bool) (m : IndexMap) (t : Index × indexEntry) : Bool :=
  m.all (fun s => decide (s.1 = t.1) || !narrowerOrEquivalent ops s.2 t.2 shortest)

/-! ## Lemmas on minimalIndexes -/

theorem mem_of_mem_deleteKey {m : IndexMap} {t : Index} {p : Index × indexEntry}
    (h : p ∈ deleteKey m t) : p ∈ m :=
  (List.mem_filter.mp h).1

theorem key_ne_of_mem_deleteKey {m : IndexMap} {t : Index} {p : Index × indexEntry}
    (h : p ∈ deleteKey m t) : p.1 ≠ t := by
  have h2 := (List.mem_filter.mp h).2
  simpa using h2

theorem mem_deleteKey {m : IndexMap} {t : Index} {p : Index × indexEntry}
    (h : p ∈ m) (hne : p.1 ≠ t) : p ∈ deleteKey m t :=
  List.mem_filter.mpr ⟨h, by simpa using hne⟩

theorem hasKey_of_mem {m : IndexMap} {p : Index × indexEntry} (h : p ∈ m) :
    hasKey m p.1 = true := by
  unfold hasKey
  exact List.any_eq_true.mpr ⟨p, h, by simp⟩

theorem minimalInner_mem (ops : Env) (shortest : Bool) (s : Index) (se : indexEntry)
    (todo : List (Index × indexEntry)) :
    ∀ (m : IndexMap) (p : Index × indexEntry),
      p ∈ minimalInner ops shortest s se todo m → p ∈ m := by
  induction todo with
  | nil => intro m p h; simpa [minimalInner] using h
  | cons hd tl ih =>
    obtain ⟨t, te⟩ := hd
    intro m p h
    unfold minimalInner at h
    split at h
    · exact ih m p h
    · split at h
      · exact ih m p h
      · split at h
        · exact mem_of_mem_deleteKey (ih _ p h)
        · exact ih m p h

theorem minimalInner_removes (ops : Env) (shortest : Bool) (s : Index) (se : indexEntry)
    (t : Index) (te : indexEntry) (hts : t ≠ s)
    (hnoe : narrowerOrEquivalent ops se te shortest = true)
    (todo : List (Index × indexEntry)) :
    ∀ (m : IndexMap), (t, te) ∈ todo →
      ∀ e, (t, e) ∉ minimalInner ops shortest s se todo m := by
  induction todo with
  | nil => intro m h; simp at h
  | cons hd tl ih =>
    obtain ⟨t1, te1⟩ := hd
    intro m h e hmem
    rcases List.mem_cons.mp h with heq | htl
    · have h1 : t1 = t := by injection heq with a b; exact a.symm
      have h2 : te1 = te := by injection heq with a b; exact b.symm
      subst h1; subst h2
      unfold minimalInner at hmem
      split at hmem
      · rename_i hk
        have hm := minimalInner_mem ops shortest s se tl m _ hmem
        have := hasKey_of_mem hm
        simp at this hk
        simp [this] at hk
      · have hm := minimalInner_mem ops shortest s se tl _ _ hmem
        exact key_ne_of_mem_deleteKey hm rfl
    · unfold minimalInner at hmem
      split at hmem
      · exact ih m htl e hmem
      · split at hmem
        · exact ih m htl e hmem
        · split at hmem
          · exact ih _ htl e hmem
          · exact ih m htl e hmem

theorem minimalInner_kept (ops : Env) (shortest : Bool) (s : Index) (se : indexEntry)
    (todo : List (Index × indexEntry)) :
    ∀ (m : IndexMap) (p : Index × indexEntry), p ∈ m →
      p ∉ minimalInner ops shortest s se todo m →
      ∃ te, (p.1, te) ∈ todo ∧ p.1 ≠ s ∧ narrowerOrEquivalent ops se te shortest = true := by
  induction todo with
  | nil => intro m p hp hn; simp [minimalInner] at hn; exact absurd hp hn
  | cons hd tl ih =>
    obtain ⟨t, te⟩ := hd
    intro m p hp hn
    have lift : (∃ te1, (p.1, te1) ∈ tl ∧ p.1 ≠ s ∧
        narrowerOrEquivalent ops se te1 shortest = true) →
        ∃ te1, (p.1, te1) ∈ (t, te) :: tl ∧ p.1 ≠ s ∧
          narrowerOrEquivalent ops se te1 shortest = true := by
      rintro ⟨te1, h1, h2, h3⟩
      exact ⟨te1, List.mem_cons_of_mem _ h1, h2, h3⟩
    unfold minimalInner at hn
    split at hn
    · exact lift (ih m p hp hn)
    · split at hn
      · exact lift (ih m p hp hn)
      · rename_i hts
        split at hn
        · rename_i hnoe
          by_cases hpt : p.1 = t
          · exact ⟨te, by rw [hpt]; exact List.mem_cons_self _ _, by rw [hpt]; exact hts, hnoe⟩
          · exact lift (ih _ p (mem_deleteKey hp hpt) hn)
        · exact lift (ih m p hp hn)

theorem minimalInner_fix (ops : Env) (shortest : Bool) (s : Index) (se : indexEntry)
    (todo : List (Index × indexEntry)) :
    ∀ (m : IndexMap),
      (∀ q ∈ todo, q.1 ≠ s → narrowerOrEquivalent ops se q.2 shortest = false) →
      minimalInner ops shortest s se todo m = m := by
  induction todo with
  | nil => intro m _; rfl
  | cons hd tl ih =>
    obtain ⟨t, te⟩ := hd
    intro m h
    have htl : ∀ q ∈ tl, q.1 ≠ s → narrowerOrEquivalent ops se q.2 shortest = false :=
      fun q hq => h q (List.mem_cons_of_mem _ hq)
    unfold minimalInner
    split
    · exact ih m htl
    · split
      · exact ih m htl
      · rename_i hts
        have := h (t, te) (List.mem_cons_self _ _) hts
        simp only at this
        rw [if_neg (by simp [this])]
        exact ih m htl

theorem minimalOuter_mem (ops : Env) (shortest : Bool) (inner : Index → MapOrder)
    (todo : List (Index × indexEntry)) :
    ∀ (m : IndexMap) (p : Index × indexEntry),
      p ∈ minimalOuter ops shortest inner todo m → p ∈ m := by
  induction todo with
  | nil => intro m p h; simpa [minimalOuter] using h
  | cons hd tl ih =>
    obtain ⟨s, se⟩ := hd
    intro m p h
    unfold minimalOuter at h
    split at h
    · exact ih m p h
    · exact minimalInner_mem ops shortest s se _ m p (ih _ p h)

theorem minimalOuter_no_dominance (ops : Env) (shortest : Bool) (inner : Index → MapOrder)
    (s t : Index) (se te : indexEntry) (hst : s ≠ t)
    (todo : List (Index × indexEntry)) :
    ∀ (m : IndexMap), (s, se) ∈ todo →
      (s, se) ∈ minimalOuter ops shortest inner todo m →
      (t, te) ∈ minimalOuter ops shortest inner todo m →
      narrowerOrEquivalent ops se te shortest = false := by
  induction todo with
  | nil => intro m h; simp at h
  | cons hd tl ih =>
    obtain ⟨s1, se1⟩ := hd
    intro m h hs ht
    rcases List.mem_cons.mp h with heq | htl
    · have h1 : s1 = s := by injection heq with a b; exact a.symm
      have h2 : se1 = se := by injection heq with a b; exact b.symm
      subst h1; subst h2
      by_contra hnoe
      have hnoe : narrowerOrEquivalent ops se1 te shortest = true := by simpa using hnoe
      unfold minimalOuter at hs ht
      have hsm : (s1, se1) ∈ m := by
        split at hs
        · exact minimalOuter_mem ops shortest inner tl m _ hs
        · exact minimalInner_mem ops shortest s1 se1 _ m _
            (minimalOuter_mem ops shortest inner tl _ _ hs)
      have hk : hasKey m s1 = true := hasKey_of_mem hsm
      simp only [hk, Bool.not_true, Bool.false_eq_true, if_false] at ht
      have ht1 := minimalOuter_mem ops shortest inner tl _ _ ht
      have htm := minimalInner_mem ops shortest s1 se1 _ m _ ht1
      have htord : (t, te) ∈ (inner s1).seq m := ((inner s1).perm m).mem_iff.mpr htm
      exact minimalInner_removes ops shortest s1 se1 t te (Ne.symm hst) hnoe _ m htord te ht1
    · unfold minimalOuter at hs ht
      split at hs
      · rename_i hk
        rw [if_pos hk] at ht
        exact ih m htl hs ht
      · rename_i hk
        rw [if_neg hk] at ht
        exact ih _ htl hs ht

theorem minimalOuter_kept (ops : Env) (shortest : Bool) (inner : Index → MapOrder)
    (todo : List (Index × indexEntry)) :
    ∀ (m : IndexMap) (p : Index × indexEntry), p ∈ m →
      p ∉ minimalOuter ops shortest inner todo m →
      ∃ q ∈ todo, ∃ te, (p.1, te) ∈ m ∧ q.1 ≠ p.1 ∧
        narrowerOrEquivalent ops q.2 te shortest = true := by
  induction todo with
  | nil => intro m p hp hn; simp [minimalOuter] at hn; exact absurd hp hn
  | cons hd tl ih =>
    obtain ⟨s, se⟩ := hd
    intro m p hp hn
    unfold minimalOuter at hn
    split at hn
    · obtain ⟨q, hq, te, h1, h2, h3⟩ := ih m p hp hn
      exact ⟨q, List.mem_cons_of_mem _ hq, te, h1, h2, h3⟩
    · by_cases hin : p ∈ minimalInner ops shortest s se ((inner s).seq m) m
      · obtain ⟨q, hq, te, h1, h2, h3⟩ := ih _ p hin hn
        exact ⟨q, List.mem_cons_of_mem _ hq, te,
          minimalInner_mem ops shortest s se _ m _ h1, h2, h3⟩
      · obtain ⟨te, h1, h2, h3⟩ := minimalInner_kept ops shortest s se _ m p hp hin
        exact ⟨(s, se), List.mem_cons_self _ _, te,
          ((inner s).perm m).mem_iff.mp h1, Ne.symm h2, h3⟩

theorem minimalOuter_fix (ops : Env) (shortest : Bool) (inner : Index → MapOrder)
    (todo : List (Index × indexEntry)) :
    ∀ (m : IndexMap),
      (∀ q ∈ todo, ∀ r ∈ m, q.1 ≠ r.1 → narrowerOrEquivalent ops q.2 r.2 shortest = false) →
      minimalOuter ops shortest inner todo m = m := by
  induction todo with
  | nil => intro m _; rfl
  | cons hd tl ih =>
    obtain ⟨s, se⟩ := hd
    intro m h
    have htl : ∀ q ∈ tl, ∀ r ∈ m, q.1 ≠ r.1 →
        narrowerOrEquivalent ops q.2 r.2 shortest = false :=
      fun q hq => h q (List.mem_cons_of_mem _ hq)
    have hin : minimalInner ops shortest s se ((inner s).seq m) m = m := by
      apply minimalInner_fix
      intro q hq hne
      exact h (s, se) (List.mem_cons_self _ _) q (((inner s).perm m).mem_iff.mp hq) (Ne.symm hne)
    unfold minimalOuter
    split
    · exact ih m htl
    · rw [hin]; exact ih m htl

theorem entry_eq_of_nodup_keys {m : IndexMap} (hnd : (m.map Prod.fst).Nodup)
    {k : Index} {e1 e2 : indexEntry} (h1 : (k, e1) ∈ m) (h2 : (k, e2) ∈ m) : e1 = e2 := by
  induction m with
  | nil => simp at h1
  | cons hd tl ih =>
    simp only [List.map_cons, List.nodup_cons] at hnd
    rcases List.mem_cons.mp h1 with a | a <;> rcases List.mem_cons.mp h2 with b | b
    · rw [← a] at b; injection b with _ hb; exact hb.symm
    · exact absurd (List.mem_map.mpr ⟨(k, e2), b, rfl⟩) (by rw [← a] at hnd; exact hnd.1)
    · exact absurd (List.mem_map.mpr ⟨(k, e1), a, rfl⟩) (by rw [← b] at hnd; exact hnd.1)
    · exact ih hnd.2 a b

/-! ## Claims on minimalIndexes -/

/-- C1: whatever the candidate map, the flag `shortest` and the iteration
orders of the two loops, the map returned by minimalIndexes holds no two
entries with distinct keys such that the first is narrower than or equivalent
to the second. -/
theorem minimalIndexes_no_dominated_pair (ops : Env) (outer : MapOrder)
    (inner : Index → MapOrder) (m : IndexMap) (shortest : Bool)
    (s t : Index) (se te : indexEntry)
    (hs : (s, se) ∈ minimalIndexes ops outer inner m shortest)
    (ht : (t, te) ∈ minimalIndexes ops outer inner m shortest)
    (hst : s ≠ t) :
    narrowerOrEquivalent ops se te shortest = false := by
  unfold minimalIndexes at hs ht
  have hsm : (s, se) ∈ m := minimalOuter_mem ops shortest inner _ m _ hs
  have hso : (s, se) ∈ outer.seq m := (outer.perm m).mem_iff.mpr hsm
  exact minimalOuter_no_dominance ops shortest inner s t se te hst _ m hso hs ht

/-- Witness of C1 on three candidates, of which two remain. -/
theorem minimalIndexes_no_dominated_pair_witness :
    sampleEntry 1 [Expression.atom 101] 1 2 ∈
        minimalIndexes sampleOps MapOrder.rev (fun _ => MapOrder.id) sampleDominated true ∧
      sampleEntry 2 [Expression.atom 102] 1 1 ∈
        minimalIndexes sampleOps MapOrder.rev (fun _ => MapOrder.id) sampleDominated true ∧
      sampleIndex 1 ≠ sampleIndex 2 ∧
      narrowerOrEquivalent sampleOps (sampleEntry 1 [Expression.atom 101] 1 2).2
        (sampleEntry 2 [Expression.atom 102] 1 1).2 true = false :=
  ⟨by decide, by decide, by decide,
    minimalIndexes_no_dominated_pair sampleOps MapOrder.rev (fun _ => MapOrder.id)
      sampleDominated true (sampleIndex 1) (sampleIndex 2) _ _ (by decide) (by decide)
      (by decide)⟩

/-- C2: minimalIndexes is idempotent: run on its own result, with any
iteration orders in either run, it removes nothing. -/
theorem minimalIndexes_idempotent (ops : Env) (outer outer2 : MapOrder)
    (inner inner2 : Index → MapOrder) (m : IndexMap) (shortest : Bool) :
    minimalIndexes ops outer2 inner2 (minimalIndexes ops outer inner m shortest) shortest =
      minimalIndexes ops outer inner m shortest := by
  generalize hR : minimalIndexes ops outer inner m shortest = R
  unfold minimalIndexes
  apply minimalOuter_fix
  intro q hq r hr hne
  have hq2 : q ∈ R := (outer2.perm R).mem_iff.mp hq
  rw [← hR] at hq2 hr
  unfold minimalIndexes at hq2 hr
  have hqo : (q.1, q.2) ∈ outer.seq m :=
    (outer.perm m).mem_iff.mpr (minimalOuter_mem ops shortest inner _ m _ hq2)
  exact minimalOuter_no_dominance ops shortest inner q.1 r.1 q.2 r.2 hne _ m hqo hq2 hr

/-- C3: minimalIndexes removes an entry only if another entry of the input
map is narrower than or equivalent to it; a map of two entries neither of
which is narrower than or equivalent to the other is returned whole. -/
theorem minimalIndexes_removes_only_dominated (ops : Env) (outer : MapOrder)
    (inner : Index → MapOrder) (shortest : Bool) :
    (∀ (m : IndexMap), (m.map Prod.fst).Nodup → ∀ (t : Index) (te : indexEntry),
        (t, te) ∈ m → (t, te) ∉ minimalIndexes ops outer inner m shortest →
        ∃ s se, (s, se) ∈ m ∧ s ≠ t ∧ narrowerOrEquivalent ops se te shortest = true) ∧
    (∀ (a b : Index) (ea eb : indexEntry),
        narrowerOrEquivalent ops ea eb shortest = false →
        narrowerOrEquivalent ops eb ea shortest = false →
        minimalIndexes ops outer inner [(a, ea), (b, eb)] shortest = [(a, ea), (b, eb)]) := by
  constructor
  · intro m hnd t te hin hout
    unfold minimalIndexes at hout
    obtain ⟨q, hq, te1, h1, h2, h3⟩ := minimalOuter_kept ops shortest inner _ m (t, te) hin hout
    have hte : te1 = te := entry_eq_of_nodup_keys hnd h1 hin
    rw [hte] at h3
    exact ⟨q.1, q.2, (outer.perm m).mem_iff.mp hq, h2, h3⟩
  · intro a b ea eb hab hba
    unfold minimalIndexes
    apply minimalOuter_fix
    intro q hq r hr hne
    have hq2 : q ∈ [(a, ea), (b, eb)] := (outer.perm _).mem_iff.mp hq
    simp only [List.mem_cons, List.mem_singleton, List.not_mem_nil, or_false] at hq2 hr
    rcases hq2 with rfl | rfl <;> rcases hr with rfl | rfl
    · exact absurd rfl hne
    · exact hab
    · exact hba
    · exact absurd rfl hne

/-- Witness of C3: the third sample candidate is removed and the first one is
narrower than it; the two disjoint candidates are both kept. -/
theorem minimalIndexes_removes_only_dominated_witness :
    ((sampleDominated.map Prod.fst).Nodup ∧
      sampleEntry 3 [Expression.atom 101, Expression.atom 103] 1 1 ∈ sampleDominated ∧
      sampleEntry 3 [Expression.atom 101, Expression.atom 103] 1 1 ∉
        minimalIndexes sampleOps MapOrder.id (fun _ => MapOrder.rev) sampleDominated true ∧
      ∃ s se, (s, se) ∈ sampleDominated ∧ s ≠ sampleIndex 3 ∧
        narrowerOrEquivalent sampleOps se
          (sampleEntry 3 [Expression.atom 101, Expression.atom 103] 1 1).2 true = true) ∧
    minimalIndexes sampleOps MapOrder.id (fun _ => MapOrder.rev) sampleDisjoint true =
      sampleDisjoint :=
  ⟨⟨by decide, by decide, by decide,
      (minimalIndexes_removes_only_dominated sampleOps MapOrder.id (fun _ => MapOrder.rev)
        true).1 sampleDominated (by decide) (sampleIndex 3) _ (by decide) (by decide)⟩,
    (minimalIndexes_removes_only_dominated sampleOps MapOrder.id (fun _ => MapOrder.rev)
      true).2 _ _ _ _ (by decide) (by decide)⟩

/-! ## Lemmas on the scan loop of buildSecondaryScan -/

theorem scanLoop_scans (ops : Env) (loc : ScanLocals) (node : KeyspaceTerm)
    (pred id : Expression) (todo : List (Index × indexEntry)) :
    ∀ (s0 : Option SecondaryScan) (more : List (Option SecondaryScan)) (sargLength : Int),
      (scanLoop ops loc node pred id todo (s0 :: more) sargLength).1 =
        headSlot ops loc pred s0 (keptCandidates ops node id todo) ::
          (more ++ ((keptCandidates ops node id todo).filter
            (fun p => !decide (some p.1 = loc.orderIndex))).map
              (fun p => some (createScan ops loc pred p.1 p.2))) := by
  induction todo with
  | nil => intro s0 more sl; simp [scanLoop, keptCandidates, headSlot]
  | cons hd tl ih =>
    obtain ⟨index, entry⟩ := hd
    intro s0 more sl
    unfold scanLoop
    by_cases hskip : (node.IsPrimaryJoin && primaryJoinSkip ops id index entry) = true
    · rw [if_pos hskip, ih]
      have : keptCandidates ops node id ((index, entry) :: tl) = keptCandidates ops node id tl := by
        simp only [keptCandidates]
        rw [List.filter_cons_of_neg (by simp [hskip])]
      rw [this]
    · rw [if_neg hskip]
      have hk : keptCandidates ops node id ((index, entry) :: tl) =
          (index, entry) :: keptCandidates ops node id tl := by
        have hfalse := Bool.eq_false_iff.mpr hskip
        simp only [keptCandidates]
        rw [List.filter_cons_of_pos (by
          show (!(node.IsPrimaryJoin && primaryJoinSkip ops id index entry)) = true
          rw [hfalse]; rfl)]
      rw [hk]
      by_cases ho : some index = loc.orderIndex
      · simp only [ho, if_true, List.set_cons_zero]
        rw [ih]
        simp [headSlot, ho]
      · simp only [ho, if_false]
        rw [List.cons_append, ih]
        simp [headSlot, ho]

theorem headSlot_no_order (ops : Env) (loc : ScanLocals) (pred : Expression)
    (kept : List (Index × indexEntry)) :
    ∀ (s0 : Option SecondaryScan), (∀ p ∈ kept, some p.1 ≠ loc.orderIndex) →
      headSlot ops loc pred s0 kept = s0 := by
  induction kept with
  | nil => intro s0 _; rfl
  | cons hd tl ih =>
    intro s0 h
    unfold headSlot
    rw [if_neg (h hd (List.mem_cons_self _ _))]
    exact ih s0 (fun p hp => h p (List.mem_cons_of_mem _ hp))

theorem headSlot_order (ops : Env) (loc : ScanLocals) (pred : Expression)
    (kept : List (Index × indexEntry)) :
    ∀ (s0 : Option SecondaryScan), (kept.map Prod.fst).Nodup →
      ∀ p ∈ kept, some p.1 = loc.orderIndex →
      headSlot ops loc pred s0 kept = some (createScan ops loc pred p.1 p.2) := by
  induction kept with
  | nil => intro s0 _ p hp; simp at hp
  | cons hd tl ih =>
    intro s0 hnd p hp ho
    simp only [List.map_cons, List.nodup_cons] at hnd
    unfold headSlot
    rcases List.mem_cons.mp hp with heq | htl
    · subst heq
      rw [if_pos ho]
      apply headSlot_no_order
      intro q hq hqo
      have hkey : q.1 = p.1 := by
        have := hqo.trans ho.symm
        injection this
      exact hnd.1 (List.mem_map.mpr ⟨q, hq, hkey⟩)
    · have hne : hd.1 ≠ p.1 := by
        intro heq
        exact hnd.1 (List.mem_map.mpr ⟨p, htl, heq.symm⟩)
      have : ¬ (some hd.1 = loc.orderIndex) := by
        intro h2
        apply hne
        have := h2.trans ho.symm
        injection this
      rw [if_neg this]
      exact ih s0 hnd.2 p htl ho

theorem keptCandidates_nodup (ops : Env) (ord : MapOrder) (node : KeyspaceTerm)
    (id : Expression) (m : IndexMap) (hnd : (m.map Prod.fst).Nodup) :
    ((keptCandidates ops node id (ord.seq m)).map Prod.fst).Nodup := by
  have h1 : ((ord.seq m).map Prod.fst).Nodup :=
    ((ord.perm m).map Prod.fst).nodup_iff.mpr hnd
  exact h1.sublist ((List.filter_sublist _).map Prod.fst)

theorem exists_other_key (kept : List (Index × indexEntry)) (hnd : (kept.map Prod.fst).Nodup)
    (hlen : 2 ≤ kept.length) (k : Index) : ∃ q ∈ kept, q.1 ≠ k := by
  match kept, hnd, hlen with
  | a :: b :: rest, hnd, _ =>
    simp only [List.map_cons, List.nodup_cons, List.mem_cons] at hnd
    by_cases ha : a.1 = k
    · refine ⟨b, by simp, ?_⟩
      intro hb
      exact hnd.1 (Or.inl (ha.trans hb.symm))
    · exact ⟨a, by simp, ha⟩

theorem order_split_perm (kept : List (Index × indexEntry)) :
    (kept.map Prod.fst).Nodup → ∀ p ∈ kept,
      (p :: kept.filter (fun q => !decide (q.1 = p.1))).Perm kept := by
  induction kept with
  | nil => intro _ p hp; simp at hp
  | cons hd tl ih =>
    intro hnd p hp
    simp only [List.map_cons, List.nodup_cons] at hnd
    rcases List.mem_cons.mp hp with heq | htl
    · subst heq
      have : tl.filter (fun q => !decide (q.1 = p.1)) = tl := by
        apply List.filter_eq_self.mpr
        intro q hq
        have : q.1 ≠ p.1 := fun h => hnd.1 (List.mem_map.mpr ⟨q, hq, h⟩)
        simp [this]
      simp [this]
    · have hne : hd.1 ≠ p.1 := fun h => hnd.1 (List.mem_map.mpr ⟨p, htl, h.symm⟩)
      rw [List.filter_cons_of_pos (by simp [hne])]
      exact (List.Perm.swap hd p _).trans ((ih hnd.2 p htl).cons hd)

theorem combineScans_single (this : builder) (limit : Option Expression)
    (s0 : Option SecondaryScan) (sargLength : Int) :
    (combineScans this limit [s0] sargLength).scan = s0 := by
  simp [combineScans]

theorem combineScans_pair_nil (this : builder) (limit : Option Expression)
    (s1 : Option SecondaryScan) (sargLength : Int) :
    (combineScans this limit [none, s1] sargLength).scan = s1 := by
  simp [combineScans]

theorem combineScans_nil_many (this : builder) (limit : Option Expression)
    (rest : List (Option SecondaryScan)) (sargLength : Int) (hlen : 2 ≤ rest.length) :
    (combineScans this limit (none :: rest) sargLength).scan =
      some (SecondaryScan.NewIntersectScan limit rest) := by
  have h1 : ¬ (rest.length + 1 = 1) := by omega
  have h2 : ¬ (rest.length + 1 = 2) := by omega
  simp [combineScans, h1, h2]

theorem combineScans_ordered (this : builder) (limit : Option Expression)
    (s : SecondaryScan) (rest : List (Option SecondaryScan)) (sargLength : Int)
    (hlen : 1 ≤ rest.length) :
    (combineScans this limit (some s :: rest) sargLength).scan =
      some (SecondaryScan.NewOrderedIntersectScan limit (some s :: rest)) := by
  have h1 : ¬ (rest.length + 1 = 1) := by omega
  simp [combineScans, h1]

theorem combineScans_err (this : builder) (limit : Option Expression)
    (scans : List (Option SecondaryScan)) (sargLength : Int) :
    (combineScans this limit scans sargLength).err = none := by
  unfold combineScans
  split
  · rfl
  · split
    · rfl
    · split <;> rfl

theorem buildSecondaryScan_of_pushDowns (ops : Env) (ord : Orders) (this : builder)
    (indexes : IndexMap) (node : KeyspaceTerm) (baseKeyspace : baseKeyspace) (id : Expression)
    (st : PushDownState)
    (h : buildSecondaryScanPushDowns ops ord this indexes node baseKeyspace id = Except.ok st) :
    buildSecondaryScan ops ord this indexes node baseKeyspace id =
      buildSecondaryScanCombine ops ord node baseKeyspace id
        (buildSecondaryScanLimits ops ord st) := by
  unfold buildSecondaryScan
  rw [h]

theorem buildSecondaryScanLimits_indexes (ops : Env) (ord : Orders) (st : PushDownState) :
    (buildSecondaryScanLimits ops ord st).indexes = st.indexes := by
  unfold buildSecondaryScanLimits
  simp only
  split
  · split <;> rfl
  · rfl

/-! ## Claims on buildSecondaryScan -/

/-- C4: on the path of buildSecondaryScan that returns no covering scan and
meets no span error, with `kept` the candidates not skipped by the filter of
the primary-key join: the scan returned is nil when `kept` is empty; the scan
of the single candidate when there is one, whether or not it is the order
index; an IntersectScan over the scans of all of `kept`, in loop order, when
there are two or more and none is the order index; an OrderedIntersectScan
whose first child is the scan of the order index and whose other children are
the scans of the rest of `kept` when there are two or more and the order
index is among them.  No error is returned. -/
theorem buildSecondaryScan_combination (ops : Env) (ord : Orders) (this : builder)
    (indexes : IndexMap) (node : KeyspaceTerm) (baseKeyspace : baseKeyspace) (id : Expression)
    (st : PushDownState)
    (h : buildSecondaryScanPushDowns ops ord this indexes node baseKeyspace id = Except.ok st)
    (hnd : (st.indexes.map Prod.fst).Nodup) :
    (buildSecondaryScan ops ord this indexes node baseKeyspace id).err = none ∧
    (keptCandidates ops node id (ord.scans.seq st.indexes) = [] →
      (buildSecondaryScan ops ord this indexes node baseKeyspace id).scan = none) ∧
    (∀ p, keptCandidates ops node id (ord.scans.seq st.indexes) = [p] →
      (buildSecondaryScan ops ord this indexes node baseKeyspace id).scan =
        some (createScan ops (buildSecondaryScanLimits ops ord st) baseKeyspace.dnfPred p.1 p.2)) ∧
    (2 ≤ (keptCandidates ops node id (ord.scans.seq st.indexes)).length →
      (∀ p ∈ keptCandidates ops node id (ord.scans.seq st.indexes),
        some p.1 ≠ (buildSecondaryScanLimits ops ord st).orderIndex) →
      (buildSecondaryScan ops ord this indexes node baseKeyspace id).scan =
        some (SecondaryScan.NewIntersectScan (buildSecondaryScanLimits ops ord st).limit
          ((keptCandidates ops node id (ord.scans.seq st.indexes)).map (fun q =>
            some (createScan ops (buildSecondaryScanLimits ops ord st)
              baseKeyspace.dnfPred q.1 q.2))))) ∧
    (2 ≤ (keptCandidates ops node id (ord.scans.seq st.indexes)).length →
      ∀ p ∈ keptCandidates ops node id (ord.scans.seq st.indexes),
        some p.1 = (buildSecondaryScanLimits ops ord st).orderIndex →
      (buildSecondaryScan ops ord this indexes node baseKeyspace id).scan =
        some (SecondaryScan.NewOrderedIntersectScan (buildSecondaryScanLimits ops ord st).limit
          ((p :: (keptCandidates ops node id (ord.scans.seq st.indexes)).filter
              (fun q => !decide (q.1 = p.1))).map (fun q =>
            some (createScan ops (buildSecondaryScanLimits ops ord st)
              baseKeyspace.dnfPred q.1 q.2)))) ∧
      (p :: (keptCandidates ops node id (ord.scans.seq st.indexes)).filter
        (fun q => !decide (q.1 = p.1))).Perm
          (keptCandidates ops node id (ord.scans.seq st.indexes))) := by
  rw [buildSecondaryScan_of_pushDowns ops ord this indexes node baseKeyspace id st h]
  unfold buildSecondaryScanCombine
  simp only
  rw [scanLoop_scans, buildSecondaryScanLimits_indexes]
  have hkn := keptCandidates_nodup ops ord.scans node id st.indexes hnd
  generalize keptCandidates ops node id (ord.scans.seq st.indexes) = kept at hkn ⊢
  generalize buildSecondaryScanLimits ops ord st = loc
  refine ⟨combineScans_err _ _ _ _, ?_, ?_, ?_, ?_⟩
  · intro hk
    subst hk
    simp [headSlot, combineScans_single]
  · intro p hk
    subst hk
    by_cases ho : some p.1 = loc.orderIndex
    · simp [headSlot, ho, combineScans_single]
    · simp [headSlot, ho, combineScans_pair_nil]
  · intro hlen hno
    rw [headSlot_no_order ops loc _ kept none hno]
    have hf : kept.filter (fun p => !decide (some p.1 = loc.orderIndex)) = kept := by
      apply List.filter_eq_self.mpr
      intro q hq
      simp [hno q hq]
    rw [hf, List.nil_append]
    exact combineScans_nil_many _ _ _ _ (by simpa using hlen)
  · intro hlen p hp ho
    rw [headSlot_order ops loc _ kept none hkn p hp ho]
    have hf : kept.filter (fun q => !decide (some q.1 = loc.orderIndex)) =
        kept.filter (fun q => !decide (q.1 = p.1)) := by
      apply List.filter_congr
      intro q _
      rw [← ho]
      simp
    rw [hf, List.nil_append]
    refine ⟨?_, order_split_perm kept hkn p hp⟩
    obtain ⟨q, hq, hqne⟩ := exists_other_key kept hkn hlen p.1
    have hq2 : q ∈ kept.filter (fun q => !decide (q.1 = p.1)) :=
      List.mem_filter.mpr ⟨hq, by simp [hqne]⟩
    have hpos : 1 ≤ ((kept.filter (fun q => !decide (q.1 = p.1))).map (fun q =>
        some (createScan ops loc baseKeyspace.dnfPred q.1 q.2))).length := by
      rw [List.length_map]
      exact List.length_pos_of_mem hq2
    rw [combineScans_ordered _ _ _ _ _ hpos]
    rfl

/-- Witness of C4: on the sample call three candidates are kept, the first of
them is the order index, and the scan returned is an OrderedIntersectScan with
the scan of the order index first. -/
theorem buildSecondaryScan_combination_witness :
    buildSecondaryScanPushDowns sampleOps sampleOrders sampleBuilder sampleOrdered sampleNode
        sampleKeyspace (Expression.atom 400) = Except.ok samplePushDown ∧
      (samplePushDown.indexes.map Prod.fst).Nodup ∧
      (buildSecondaryScan sampleOps sampleOrders sampleBuilder sampleOrdered sampleNode
        sampleKeyspace (Expression.atom 400)).scan =
        some (SecondaryScan.NewOrderedIntersectScan
          (some (Expression.NewAdd
            (Expression.NewGreatest Expression.ZERO_EXPR (Expression.atom 200))
            (Expression.atom 5)))
          [some (SecondaryScan.CreateScan (some ⟨1, 1⟩) (sampleIndex 1) 2 false none none none
            (some 0)),
           some (SecondaryScan.CreateScan (some ⟨1, 1⟩) (sampleIndex 3) 2 false none none none
            none),
           some (SecondaryScan.CreateScan (some ⟨1, 1⟩) (sampleIndex 2) 2 false none none none
            none)]) :=
  ⟨rfl, by decide,
    ((buildSecondaryScan_combination sampleOps sampleOrders sampleBuilder sampleOrdered
      sampleNode sampleKeyspace (Expression.atom 400) samplePushDown rfl (by decide)).2.2.2.2
      (by decide)
      (sampleIndex 1,
        { (sampleEntry 1 [Expression.atom 7] 1 1).2 with
          spans := some ⟨1, 1⟩, exactSpans := true, pushDownProperty := 7 })
      (by decide) (by decide)).1.trans rfl⟩

/-! ## The filter of the primary-key join -/

theorem primaryJoinSkip_eq_false_iff (ops : Env) (id : Expression) (index : Index)
    (entry : indexEntry) :
    primaryJoinSkip ops id index entry = false ↔
      (∃ key ∈ entry.sargKeys, ops.EquivalentTo key id = true) ∧
        (1 < entry.sargKeys.length ∨ index.Condition ≠ none) := by
  unfold primaryJoinSkip
  simp only [Bool.or_eq_false_iff, Bool.not_eq_false', List.any_eq_true, Bool.and_eq_false_imp,
    decide_eq_true_eq]
  constructor
  · rintro ⟨h1, h2⟩
    refine ⟨h1, ?_⟩
    by_cases hlen : entry.sargKeys.length ≤ 1
    · right
      have := h2 hlen
      cases hc : index.Condition with
      | none => rw [hc] at this; simp at this
      | some c => simp
    · left; omega
  · rintro ⟨h1, h2⟩
    refine ⟨h1, ?_⟩
    intro hlen
    rcases h2 with h2 | h2
    · omega
    · cases hc : index.Condition with
      | none => exact absurd hc h2
      | some c => rfl

theorem headSlot_cases (ops : Env) (loc : ScanLocals) (pred : Expression)
    (kept : List (Index × indexEntry)) :
    ∀ (s0 : Option SecondaryScan), headSlot ops loc pred s0 kept = s0 ∨
      ∃ q ∈ kept, headSlot ops loc pred s0 kept = some (createScan ops loc pred q.1 q.2) := by
  induction kept with
  | nil => intro s0; left; rfl
  | cons hd tl ih =>
    intro s0
    unfold headSlot
    split
    · rcases ih (some (createScan ops loc pred hd.1 hd.2)) with h | ⟨q, hq, h⟩
      · right; exact ⟨hd, List.mem_cons_self _ _, h⟩
      · right; exact ⟨q, List.mem_cons_of_mem _ hq, h⟩
    · rcases ih s0 with h | ⟨q, hq, h⟩
      · left; exact h
      · right; exact ⟨q, List.mem_cons_of_mem _ hq, h⟩

theorem createScan_index (ops : Env) (loc : ScanLocals) (pred : Expression) (i j : Index)
    (e f : indexEntry) (h : createScan ops loc pred i e = createScan ops loc pred j f) : i = j := by
  unfold createScan at h
  injection h

theorem mem_keptCandidates_primaryJoin (ops : Env) (node : KeyspaceTerm) (id : Expression)
    (todo : List (Index × indexEntry)) (hjoin : node.IsPrimaryJoin = true)
    (p : Index × indexEntry) :
    p ∈ keptCandidates ops node id todo ↔
      p ∈ todo ∧ primaryJoinSkip ops id p.1 p.2 = false := by
  unfold keptCandidates
  rw [List.mem_filter, hjoin]
  simp

/-- C5, as amended: in a primary-key join the scan loop of buildSecondaryScan
keeps a candidate (creates its scan, stores it in `scans` and counts its
sarged keys) exactly when some sarged key is equivalent to the primary-key
expression and, in addition, the entry has more than one sarged key or the
index has a condition; otherwise it passes over the candidate and leaves
`scans` and `sargLength` as they are. -/
theorem scanLoop_primaryJoin_step (ops : Env) (loc : ScanLocals) (node : KeyspaceTerm)
    (pred id : Expression) (index : Index) (entry : indexEntry)
    (todo : List (Index × indexEntry)) (scans : List (Option SecondaryScan)) (sargLength : Int)
    (hjoin : node.IsPrimaryJoin = true) :
    (((∃ key ∈ entry.sargKeys, ops.EquivalentTo key id = true) ∧
        (1 < entry.sargKeys.length ∨ index.Condition ≠ none)) →
      scanLoop ops loc node pred id ((index, entry) :: todo) scans sargLength =
        scanLoop ops loc node pred id todo
          (if some index = loc.orderIndex then
            scans.set 0 (some (createScan ops loc pred index entry))
           else scans ++ [some (createScan ops loc pred index entry)])
          (if (entry.sargKeys.length : Int) > sargLength then (entry.sargKeys.length : Int)
           else sargLength)) ∧
    (¬ ((∃ key ∈ entry.sargKeys, ops.EquivalentTo key id = true) ∧
        (1 < entry.sargKeys.length ∨ index.Condition ≠ none)) →
      scanLoop ops loc node pred id ((index, entry) :: todo) scans sargLength =
        scanLoop ops loc node pred id todo scans sargLength) := by
  constructor
  · intro h
    have hs := (primaryJoinSkip_eq_false_iff ops id index entry).mpr h
    rw [scanLoop, hjoin, hs]
    simp
  · intro h
    have hs : primaryJoinSkip ops id index entry = true := by
      cases hc : primaryJoinSkip ops id index entry with
      | true => rfl
      | false => exact absurd ((primaryJoinSkip_eq_false_iff ops id index entry).mp hc) h
    rw [scanLoop, hjoin, hs]
    simp

/-- C5 as stated fails: in a primary-key join on atom 400, a candidate whose
only sarged key is atom 400 and whose index has no condition has the
primary-key expression among its sarged keys, yet the loop skips it and
buildSecondaryScan returns a nil scan; and a candidate with another sarged key
and an index condition, but without the primary key, is skipped as well. -/
theorem primaryJoin_keep_counterexample :
    (sampleEntry 1 [Expression.atom 400] 1 1).2.sargKeys.any
        (fun key => sampleOps.EquivalentTo key (Expression.atom 400)) = true ∧
      primaryJoinSkip sampleOps (Expression.atom 400) (sampleIndex 1)
        (sampleEntry 1 [Expression.atom 400] 1 1).2 = true ∧
      (buildSecondaryScan sampleOps sampleOrders sampleBuilder
        [sampleEntry 1 [Expression.atom 400] 1 1] sampleJoinNode sampleKeyspace
        (Expression.atom 400)).scan = none ∧
      primaryJoinSkip sampleOps (Expression.atom 400)
        { sampleIndex 2 with Condition := some (Expression.atom 500) }
        (sampleEntry 2 [Expression.atom 101] 1 1).2 = true :=
  ⟨by decide, by decide, rfl, by decide⟩

/-- Witness of the amended C5 on the sample primary-key join: a candidate
sarged on the primary key and one more key is kept, its scan is appended. -/
theorem scanLoop_primaryJoin_step_witness :
    sampleJoinNode.IsPrimaryJoin = true ∧
      (∃ key ∈ (sampleEntry 4 [Expression.atom 400, Expression.atom 101] 2 1).2.sargKeys,
        sampleOps.EquivalentTo key (Expression.atom 400) = true) ∧
      scanLoop sampleOps (buildSecondaryScanLimits sampleOps sampleOrders samplePushDown)
        sampleJoinNode (Expression.atom 300) (Expression.atom 400)
        [sampleEntry 4 [Expression.atom 400, Expression.atom 101] 2 1] [none] 0 =
        ([none, some (SecondaryScan.CreateScan none (sampleIndex 4) 2 false none none none none)],
          2) :=
  ⟨rfl, ⟨Expression.atom 400, by decide, by decide⟩,
    ((scanLoop_primaryJoin_step sampleOps
      (buildSecondaryScanLimits sampleOps sampleOrders samplePushDown) sampleJoinNode
      (Expression.atom 300) (Expression.atom 400) (sampleIndex 4)
      (sampleEntry 4 [Expression.atom 400, Expression.atom 101] 2 1).2 [] [none] 0 rfl).1
      ⟨⟨Expression.atom 400, by decide, by decide⟩, Or.inl (by decide)⟩).trans rfl⟩

/-- C6: in a primary-key join, for a candidate of the map the scan loop of
buildSecondaryScan runs over, the scan of that candidate is among the scans the
loop leaves in `scans` if and only if some sarged key of the entry is
equivalent to the primary-key expression and, in addition, the entry has more
than one sarged key or the index has a condition; so an index whose sarged
keys do not include the primary key gets no scan. -/
theorem scanLoop_primaryJoin_creates_iff (ops : Env) (ord : MapOrder) (loc : ScanLocals)
    (node : KeyspaceTerm) (pred id : Expression) (p : Index × indexEntry)
    (hjoin : node.IsPrimaryJoin = true) (hnd : (loc.indexes.map Prod.fst).Nodup)
    (hp : p ∈ loc.indexes) :
    (some (createScan ops loc pred p.1 p.2) ∈
        (scanLoop ops loc node pred id (ord.seq loc.indexes) [none] 0).1 ↔
      (∃ key ∈ p.2.sargKeys, ops.EquivalentTo key id = true) ∧
        (1 < p.2.sargKeys.length ∨ p.1.Condition ≠ none)) ∧
    ((∀ key ∈ p.2.sargKeys, ops.EquivalentTo key id = false) →
      some (createScan ops loc pred p.1 p.2) ∉
        (scanLoop ops loc node pred id (ord.seq loc.indexes) [none] 0).1) := by
  have hkept : ∀ q, q ∈ keptCandidates ops node id (ord.seq loc.indexes) →
      createScan ops loc pred p.1 p.2 = createScan ops loc pred q.1 q.2 →
      primaryJoinSkip ops id p.1 p.2 = false := by
    intro q hq heq
    have hq2 := (mem_keptCandidates_primaryJoin ops node id _ hjoin q).mp hq
    have hqm : q ∈ loc.indexes := (ord.perm _).mem_iff.mp hq2.1
    have hkey : p.1 = q.1 := createScan_index ops loc pred _ _ _ _ heq
    have hpq : p = q := by
      have h1 : (q.1, p.2) ∈ loc.indexes := by rw [← hkey]; exact hp
      have h2 : (q.1, q.2) ∈ loc.indexes := hqm
      have := entry_eq_of_nodup_keys hnd h1 h2
      exact Prod.ext hkey this
    rw [hpq]; exact hq2.2
  have hiff : some (createScan ops loc pred p.1 p.2) ∈
        (scanLoop ops loc node pred id (ord.seq loc.indexes) [none] 0).1 ↔
      primaryJoinSkip ops id p.1 p.2 = false := by
    rw [scanLoop_scans, List.nil_append]
    constructor
    · intro h
      rcases List.mem_cons.mp h with h0 | hrest
      · rcases headSlot_cases ops loc pred (keptCandidates ops node id (ord.seq loc.indexes))
          none with hn | ⟨q, hq, hh⟩
        · rw [hn] at h0; exact absurd h0 (by simp)
        · rw [hh] at h0
          exact hkept q hq (Option.some.inj h0)
      · obtain ⟨q, hq, hh⟩ := List.mem_map.mp hrest
        exact hkept q (List.mem_filter.mp hq).1 (Option.some.inj hh).symm
    · intro h
      have hk : p ∈ keptCandidates ops node id (ord.seq loc.indexes) :=
        (mem_keptCandidates_primaryJoin ops node id _ hjoin p).mpr
          ⟨(ord.perm _).mem_iff.mpr hp, h⟩
      by_cases ho : some p.1 = loc.orderIndex
      · rw [headSlot_order ops loc pred _ none
          (keptCandidates_nodup ops ord node id loc.indexes hnd) p hk ho]
        exact List.mem_cons_self _ _
      · apply List.mem_cons_of_mem
        exact List.mem_map.mpr ⟨p, List.mem_filter.mpr ⟨hk, by simp [ho]⟩, rfl⟩
  refine ⟨hiff.trans (primaryJoinSkip_eq_false_iff ops id p.1 p.2), ?_⟩
  intro hno hmem
  obtain ⟨⟨key, hk, he⟩, _⟩ := (hiff.trans (primaryJoinSkip_eq_false_iff ops id p.1 p.2)).mp hmem
  rw [hno key hk] at he
  exact absurd he (by simp)

/-- Witness of C6 on the sample primary-key join: the candidate sarged on the
primary key and one more key gets a scan, the candidate sarged on another key
only gets none. -/
theorem scanLoop_primaryJoin_creates_iff_witness :
    sampleJoinNode.IsPrimaryJoin = true ∧
      (sampleJoinLocals.indexes.map Prod.fst).Nodup ∧
      sampleEntry 4 [Expression.atom 400, Expression.atom 101] 2 1 ∈ sampleJoinLocals.indexes ∧
      some (createScan sampleOps sampleJoinLocals (Expression.atom 300) (sampleIndex 4)
          (sampleEntry 4 [Expression.atom 400, Expression.atom 101] 2 1).2) ∈
        (scanLoop sampleOps sampleJoinLocals sampleJoinNode (Expression.atom 300)
          (Expression.atom 400) (MapOrder.rev.seq sampleJoinLocals.indexes) [none] 0).1 ∧
      some (createScan sampleOps sampleJoinLocals (Expression.atom 300) (sampleIndex 5)
          (sampleEntry 5 [Expression.atom 101] 1 1).2) ∉
        (scanLoop sampleOps sampleJoinLocals sampleJoinNode (Expression.atom 300)
          (Expression.atom 400) (MapOrder.rev.seq sampleJoinLocals.indexes) [none] 0).1 :=
  ⟨rfl, by decide, by decide,
    (scanLoop_primaryJoin_creates_iff sampleOps MapOrder.rev sampleJoinLocals sampleJoinNode
      (Expression.atom 300) (Expression.atom 400)
      (sampleEntry 4 [Expression.atom 400, Expression.atom 101] 2 1) rfl (by decide)
      (by decide)).1.mpr ⟨⟨Expression.atom 400, by decide, by decide⟩, Or.inl (by decide)⟩,
    (scanLoop_primaryJoin_creates_iff sampleOps MapOrder.rev sampleJoinLocals sampleJoinNode
      (Expression.atom 300) (Expression.atom 400)
      (sampleEntry 5 [Expression.atom 101] 1 1) rfl (by decide) (by decide)).2 (by decide)⟩

/-! ## Claims on buildPrimaryIndex -/

/-- C7: the code breaks the claim.  When no hinted or other index is primary
and `keyspace.Indexers()` fails, buildPrimaryIndex returns a nil index with a
nil error (it returns the result variable `err`, which is never assigned, where
the sibling paths return `er`), and buildPrimaryScan builds a PrimaryScan over
the nil index. -/
theorem buildPrimaryIndex_indexers_failure :
    buildPrimaryIndex sampleBrokenKeyspace [sampleIndex 1] (some [sampleIndex 2]) = (none, none) ∧
      buildPrimaryScan sampleBrokenKeyspace sampleNode none [sampleIndex 1]
          (some [sampleIndex 2]) =
        (some { index := none, keyspace := "k", term := sampleNode, limit := none }, none) :=
  ⟨rfl, rfl⟩

/-! ## Claims on span computation -/

theorem sargIndexesLoop_error_of_fails (ops : Env) (this : builder) (bk : baseKeyspace)
    (todo : List (Index × indexEntry)) (h : ∃ p ∈ todo, sargFails ops bk p.2 = true) :
    ∃ msg, sargIndexesLoop ops this bk (ops.IsOr bk.dnfPred)
      (ops.IsOr bk.dnfPred && bk.filters.any (fun fl => fl.isJoin)) todo =
        Except.error (Error.NewPlanError msg) := by
  induction todo with
  | nil => obtain ⟨p, hp, _⟩ := h; simp at hp
  | cons hd tl ih =>
    obtain ⟨i, se⟩ := hd
    unfold sargIndexesLoop
    cases hone : sargOne ops bk (ops.IsOr bk.dnfPred)
        (ops.IsOr bk.dnfPred && bk.filters.any (fun fl => fl.isJoin)) se with
    | failed err => exact ⟨_, rfl⟩
    | spans spans exactSpans =>
      simp only
      by_cases hz : spans.Size = 0
      · rw [if_pos hz]; exact ⟨_, rfl⟩
      · rw [if_neg hz]
        have htl : ∃ p ∈ tl, sargFails ops bk p.2 = true := by
          obtain ⟨p, hp, hf⟩ := h
          rcases List.mem_cons.mp hp with heq | hin
          · subst heq
            unfold sargFails at hf
            rw [hone] at hf
            simp [hz] at hf
          · exact ⟨p, hin, hf⟩
        obtain ⟨msg, hmsg⟩ := ih htl
        rw [hmsg]
        exact ⟨msg, rfl⟩

theorem sargIndexesLoop_ok (ops : Env) (this : builder) (bk : baseKeyspace)
    (isOrPred orIsJoin : Bool) (todo : List (Index × indexEntry)) :
    ∀ (res : IndexMap),
      sargIndexesLoop ops this bk isOrPred orIsJoin todo = Except.ok res →
      res.map Prod.fst = todo.map Prod.fst ∧
        ∀ q ∈ res, ∃ spans, q.2.spans = some spans ∧ 0 < spans.Size := by
  induction todo with
  | nil =>
    intro res h
    simp only [sargIndexesLoop, Except.ok.injEq] at h
    subst h
    simp
  | cons hd tl ih =>
    obtain ⟨i, se⟩ := hd
    intro res h
    unfold sargIndexesLoop at h
    split at h
    · cases h
    · rename_i spans exactSpans _
      simp only at h
      split at h
      · cases h
      · rename_i hz
        split at h
        · cases h
        · rename_i rest hrest
          simp only [Except.ok.injEq] at h
          subst h
          obtain ⟨h1, h2⟩ := ih rest hrest
          refine ⟨by simp [h1], ?_⟩
          intro q hq
          rcases List.mem_cons.mp hq with heq | hin
          · subst heq
            exact ⟨spans, rfl, Nat.pos_of_ne_zero hz⟩
          · exact h2 q hin

theorem buildSecondaryScan_of_sarg_error (ops : Env) (ord : Orders) (this this1 : builder)
    (indexes indexes1 : IndexMap) (node : KeyspaceTerm) (bk : baseKeyspace) (id : Expression)
    (err : Error)
    (hcover : coveringAttempt ops this indexes node bk id = Except.ok (this1, indexes1))
    (hsarg : sargIndexes ops ord.sarg (resetIndexGroupAggs this1) bk
      (minimalIndexes ops ord.minimalOuter ord.minimalInner indexes1 true) = Except.error err) :
    buildSecondaryScan ops ord this indexes node bk id =
      { this := resetIndexGroupAggs this1, scan := none, sargLength := 0, err := some err } := by
  unfold buildSecondaryScan buildSecondaryScanPushDowns
  rw [hcover]
  simp only
  rw [hsarg]

/-- C8 as stated fails: with two candidates that both survive minimisation,
one of which gets spans of size 0 while the other gets spans of size 1,
buildSecondaryScan builds no plan from the remaining candidate: it returns a
nil scan and the plan error. -/
theorem sarg_failure_counterexample :
    minimalIndexes sampleOpsEmptySpans MapOrder.id (fun _ => MapOrder.id) sampleDisjoint true =
        sampleDisjoint ∧
      sargFails sampleOpsEmptySpans sampleKeyspace
        (sampleEntry 1 [Expression.atom 101] 1 1).2 = false ∧
      sargFails sampleOpsEmptySpans sampleKeyspace
        (sampleEntry 2 [Expression.atom 102] 1 1).2 = true ∧
      (buildSecondaryScan sampleOpsEmptySpans sampleOrders sampleBuilder sampleDisjoint sampleNode
        sampleKeyspace (Expression.atom 400)).scan = none ∧
      (buildSecondaryScan sampleOpsEmptySpans sampleOrders sampleBuilder sampleDisjoint sampleNode
        sampleKeyspace (Expression.atom 400)).err =
        some (sargError sampleOpsEmptySpans (Expression.atom 300)
          (sampleEntry 2 [Expression.atom 102] 1 1).2 none) :=
  ⟨by decide, by decide, by decide, rfl, rfl⟩

/-- C8, as amended: when the span computation fails (error or spans of size
0) for a candidate that is left after minimisation, no candidate is dropped
and planning does not go on: on the path without a covering scan
buildSecondaryScan returns a nil scan, sargLength 0 and a plan error. -/
theorem buildSecondaryScan_aborts_on_sarg_failure (ops : Env) (ord : Orders)
    (this this1 : builder) (indexes indexes1 : IndexMap) (node : KeyspaceTerm)
    (bk : baseKeyspace) (id : Expression)
    (hcover : coveringAttempt ops this indexes node bk id = Except.ok (this1, indexes1))
    (hfail : ∃ p ∈ minimalIndexes ops ord.minimalOuter ord.minimalInner indexes1 true,
      sargFails ops bk p.2 = true) :
    ∃ msg, buildSecondaryScan ops ord this indexes node bk id =
      { this := resetIndexGroupAggs this1, scan := none, sargLength := 0,
        err := some (Error.NewPlanError msg) } := by
  obtain ⟨p, hp, hf⟩ := hfail
  have hp2 : p ∈ ord.sarg.seq
      (minimalIndexes ops ord.minimalOuter ord.minimalInner indexes1 true) :=
    (ord.sarg.perm _).mem_iff.mpr hp
  obtain ⟨msg, hmsg⟩ := sargIndexesLoop_error_of_fails ops (resetIndexGroupAggs this1) bk _
    ⟨p, hp2, hf⟩
  exact ⟨msg, buildSecondaryScan_of_sarg_error ops ord this this1 indexes indexes1 node bk id _
    hcover hmsg⟩

/-- Witness of the amended C8 on the two disjoint sample candidates, the second
of which gets spans of size 0. -/
theorem buildSecondaryScan_aborts_on_sarg_failure_witness :
    coveringAttempt sampleOpsEmptySpans sampleBuilder sampleDisjoint sampleNode sampleKeyspace
        (Expression.atom 400) = Except.ok (sampleBuilder, sampleDisjoint) ∧
      (∃ p ∈ minimalIndexes sampleOpsEmptySpans sampleOrders.minimalOuter
          sampleOrders.minimalInner sampleDisjoint true,
        sargFails sampleOpsEmptySpans sampleKeyspace p.2 = true) ∧
      ∃ msg, buildSecondaryScan sampleOpsEmptySpans sampleOrders sampleBuilder sampleDisjoint
        sampleNode sampleKeyspace (Expression.atom 400) =
        { this := resetIndexGroupAggs sampleBuilder, scan := none, sargLength := 0,
          err := some (Error.NewPlanError msg) } :=
  ⟨rfl, ⟨sampleEntry 2 [Expression.atom 102] 1 1, by decide, by decide⟩,
    buildSecondaryScan_aborts_on_sarg_failure sampleOpsEmptySpans sampleOrders sampleBuilder
      sampleBuilder sampleDisjoint sampleDisjoint sampleNode sampleKeyspace (Expression.atom 400)
      rfl ⟨sampleEntry 2 [Expression.atom 102] 1 1, by decide, by decide⟩⟩

/-- C9: sargIndexes returns a plan error whenever the span computation returns
an error or spans of size 0 for some candidate of the map; when sargIndexes
returns an error, buildSecondaryScan (on the path without a covering scan)
returns a nil scan, sargLength 0 and that error; and when sargIndexes returns
nil, every candidate of the map has spans assigned whose size is greater
than 0. -/
theorem sargIndexes_error_contract (ops : Env) (bk : baseKeyspace) :
    (∀ (order : MapOrder) (this : builder) (sargables : IndexMap),
      (∃ p ∈ sargables, sargFails ops bk p.2 = true) →
      ∃ msg, sargIndexes ops order this bk sargables = Except.error (Error.NewPlanError msg)) ∧
    (∀ (ord : Orders) (this this1 : builder) (indexes indexes1 : IndexMap) (node : KeyspaceTerm)
      (id : Expression) (err : Error),
      coveringAttempt ops this indexes node bk id = Except.ok (this1, indexes1) →
      sargIndexes ops ord.sarg (resetIndexGroupAggs this1) bk
        (minimalIndexes ops ord.minimalOuter ord.minimalInner indexes1 true) =
          Except.error err →
      buildSecondaryScan ops ord this indexes node bk id =
        { this := resetIndexGroupAggs this1, scan := none, sargLength := 0, err := some err }) ∧
    (∀ (order : MapOrder) (this : builder) (sargables res : IndexMap),
      sargIndexes ops order this bk sargables = Except.ok res →
      res.map Prod.fst = (order.seq sargables).map Prod.fst ∧
        ∀ q ∈ res, ∃ spans, q.2.spans = some spans ∧ 0 < spans.Size) := by
  refine ⟨?_, ?_, ?_⟩
  · intro order this sargables ⟨p, hp, hf⟩
    exact sargIndexesLoop_error_of_fails ops this bk _ ⟨p, (order.perm _).mem_iff.mpr hp, hf⟩
  · intro ord this this1 indexes indexes1 node id err hcover hsarg
    exact buildSecondaryScan_of_sarg_error ops ord this this1 indexes indexes1 node bk id err
      hcover hsarg
  · intro order this sargables res h
    exact sargIndexesLoop_ok ops this bk _ _ _ res h

/-- Witness of C9: on the two disjoint sample candidates sargIndexes returns a
plan error when the second gets spans of size 0, and assigns spans of size 1
to both otherwise. -/
theorem sargIndexes_error_contract_witness :
    (∃ msg, sargIndexes sampleOpsEmptySpans MapOrder.rev sampleBuilder sampleKeyspace
        sampleDisjoint = Except.error (Error.NewPlanError msg)) ∧
      (∀ q ∈ (match sargIndexes sampleOps MapOrder.rev sampleBuilder sampleKeyspace
            sampleDisjoint with
          | Except.ok res => res
          | Except.error _ => []),
        ∃ spans, q.2.spans = some spans ∧ 0 < spans.Size) :=
  ⟨(sargIndexes_error_contract sampleOpsEmptySpans sampleKeyspace).1 MapOrder.rev sampleBuilder
      sampleDisjoint ⟨sampleEntry 2 [Expression.atom 102] 1 1, by decide, by decide⟩,
    ((sargIndexes_error_contract sampleOps sampleKeyspace).2.2 MapOrder.rev sampleBuilder
      sampleDisjoint _ rfl).2⟩

/-! ## Claims on LIMIT and OFFSET push-down -/

theorem pushDownLoop_pushDown (ops : Env) (pred : Expression) (nodeAlias : String)
    (todo : List (Index × indexEntry)) :
    ∀ (this : builder) (orderIndex : Option Index) (pushDown : Bool),
      (pushDownLoop ops pred nodeAlias todo this orderIndex pushDown).pushDown =
        (pushDown || (pushDownLoop ops pred nodeAlias todo this orderIndex pushDown).indexes.any
          (fun p => p.2.IsPushDownProperty (_PUSHDOWN_LIMIT ||| _PUSHDOWN_OFFSET))) := by
  induction todo with
  | nil => intro this oi pd; simp [pushDownLoop]
  | cons hd tl ih =>
    obtain ⟨i, entry⟩ := hd
    intro this oi pd
    unfold pushDownLoop
    simp only [List.any_cons]
    rw [ih]
    cases pd <;>
      cases ({ entry with pushDownProperty :=
        ops.indexPushDownProperty this entry pred nodeAlias } : indexEntry).IsPushDownProperty
          (_PUSHDOWN_LIMIT ||| _PUSHDOWN_OFFSET) <;> simp

theorem pushDowns_ok_pushDown (ops : Env) (ord : Orders) (this : builder) (indexes : IndexMap)
    (node : KeyspaceTerm) (bk : baseKeyspace) (id : Expression) (st : PushDownState)
    (h : buildSecondaryScanPushDowns ops ord this indexes node bk id = Except.ok st) :
    st.pushDown = st.indexes.any
      (fun p => p.2.IsPushDownProperty (_PUSHDOWN_LIMIT ||| _PUSHDOWN_OFFSET)) := by
  unfold buildSecondaryScanPushDowns at h
  split at h
  · cases h
  · simp only at h
    split at h
    · cases h
    · split at h
      · simp only [Except.ok.injEq] at h
        subst h
        simp only
        rw [pushDownLoop_pushDown]
        simp
      · simp only [Except.ok.injEq] at h
        subst h
        rw [pushDownLoop_pushDown]
        simp

theorem scanLoop_all (ops : Env) (loc : ScanLocals) (node : KeyspaceTerm)
    (pred id : Expression) (todo : List (Index × indexEntry)) :
    ∀ s ∈ (scanLoop ops loc node pred id todo [none] 0).1,
      s = none ∨ ∃ p ∈ todo, s = some (createScan ops loc pred p.1 p.2) := by
  intro s hs
  rw [scanLoop_scans, List.nil_append] at hs
  have hsub : ∀ q ∈ keptCandidates ops node id todo, q ∈ todo :=
    fun q hq => (List.mem_filter.mp hq).1
  rcases List.mem_cons.mp hs with h0 | hrest
  · rcases headSlot_cases ops loc pred (keptCandidates ops node id todo) none with hn | ⟨q, hq, hh⟩
    · left; rw [h0, hn]
    · right; exact ⟨q, hsub q hq, by rw [h0, hh]⟩
  · obtain ⟨q, hq, hh⟩ := List.mem_map.mp hrest
    right
    exact ⟨q, hsub q (List.mem_filter.mp hq).1, hh.symm⟩

theorem combineScans_this (this : builder) (limit : Option Expression)
    (scans : List (Option SecondaryScan)) (sargLength : Int) :
    (combineScans this limit scans sargLength).this.offset = this.offset ∧
      (combineScans this limit scans sargLength).this.limit = this.limit := by
  unfold combineScans
  split
  · exact ⟨rfl, rfl⟩
  · split
    · exact ⟨rfl, rfl⟩
    · split <;> exact ⟨rfl, rfl⟩

theorem getD_mem_or_none (scans : List (Option SecondaryScan)) (n : Nat) :
    scans.getD n none = none ∨ scans.getD n none ∈ scans := by
  by_cases h : n < scans.length
  · right
    rw [List.getD_eq_getElem _ _ h]
    exact List.getElem_mem h
  · left
    exact List.getD_eq_default _ _ (by omega)

theorem combineScans_intersect (ops : Env) (loc : ScanLocals) (pred : Expression)
    (this : builder) (limit : Option Expression) (todo : List (Index × indexEntry))
    (scans : List (Option SecondaryScan)) (sargLength : Int)
    (hall : ∀ s ∈ scans, s = none ∨ ∃ p ∈ todo, s = some (createScan ops loc pred p.1 p.2))
    (lim : Option Expression) (children : List (Option SecondaryScan))
    (h : (combineScans this limit scans sargLength).scan =
        some (SecondaryScan.NewIntersectScan lim children) ∨
      (combineScans this limit scans sargLength).scan =
        some (SecondaryScan.NewOrderedIntersectScan lim children)) :
    lim = limit ∧
      ∀ s ∈ children, s = none ∨ ∃ p ∈ todo, s = some (createScan ops loc pred p.1 p.2) := by
  have hslot : ∀ n, scans.getD n none ≠ some (SecondaryScan.NewIntersectScan lim children) ∧
      scans.getD n none ≠ some (SecondaryScan.NewOrderedIntersectScan lim children) := by
    intro n
    rcases getD_mem_or_none scans n with hn | hm
    · rw [hn]; simp
    · rcases hall _ hm with hn | ⟨q, _, hq⟩
      · rw [hn]; simp
      · rw [hq]; simp [createScan]
  unfold combineScans at h
  split at h
  · rcases h with h | h
    · exact absurd h (hslot 0).1
    · exact absurd h (hslot 0).2
  · split at h
    · rcases h with h | h
      · exact absurd h (hslot 1).1
      · exact absurd h (hslot 1).2
    · split at h
      · rcases h with h | h
        · simp only [Option.some.injEq, SecondaryScan.NewIntersectScan.injEq] at h
          refine ⟨h.1.symm, ?_⟩
          intro s hs
          rw [← h.2] at hs
          exact hall s (List.mem_of_mem_drop hs)
        · simp at h
      · rcases h with h | h
        · simp at h
        · simp only [Option.some.injEq, SecondaryScan.NewOrderedIntersectScan.injEq] at h
          refine ⟨h.1.symm, ?_⟩
          intro s hs
          rw [← h.2] at hs
          exact hall s hs

theorem limits_of_pushDown_eq (ops : Env) (ord : Orders) (st : PushDownState)
    (hpd : st.pushDown = true) (hlen : 2 ≤ st.indexes.length) :
    buildSecondaryScanLimits ops ord st =
      { this := resetOffsetLimit st.this, indexes := st.indexes, orderIndex := st.orderIndex,
        limit := offsetPlusLimit ops st.this.offset st.this.limit,
        indexProjection := ops.buildIndexProjection (resetOffsetLimit st.this) none } := by
  have h1 : ¬ (st.indexes.length = 1) := by omega
  have h2 : st.indexes.length > 1 := by omega
  have h3 : intersectLimit ops st =
      (offsetPlusLimit ops st.this.offset st.this.limit, resetOffsetLimit st.this) := by
    unfold intersectLimit
    rw [if_pos (by simp [hpd, h2])]
  unfold buildSecondaryScanLimits
  simp only [h3]
  rw [if_neg h1]

theorem limits_of_pushDown (ops : Env) (ord : Orders) (st : PushDownState)
    (hpd : st.pushDown = true) (hlen : 2 ≤ st.indexes.length) :
    (buildSecondaryScanLimits ops ord st).limit =
        offsetPlusLimit ops st.this.offset st.this.limit ∧
      (buildSecondaryScanLimits ops ord st).this.offset = none ∧
      (buildSecondaryScanLimits ops ord st).this.limit = none := by
  rw [limits_of_pushDown_eq ops ord st hpd hlen]
  exact ⟨rfl, rfl, rfl⟩

/-- C10: when two or more candidates are left after minimisation and at least
one of them has LIMIT or OFFSET push-down, then, with `offset` and `limit` the
builder's values after line 67: an intersect scan returned by
buildSecondaryScan (ordered or not) carries the limit
offsetPlusLimit(offset, limit) and has only per-index scans as children; the
scan created for any candidate has nil offset and nil limit; and the builder's
offset and limit are nil on return. -/
theorem buildSecondaryScan_intersect_limit (ops : Env) (ord : Orders) (this : builder)
    (indexes : IndexMap) (node : KeyspaceTerm) (bk : baseKeyspace) (id : Expression)
    (st : PushDownState)
    (h : buildSecondaryScanPushDowns ops ord this indexes node bk id = Except.ok st)
    (hlen : 2 ≤ st.indexes.length)
    (hpd : ∃ p ∈ st.indexes,
      p.2.IsPushDownProperty (_PUSHDOWN_LIMIT ||| _PUSHDOWN_OFFSET) = true) :
    (∀ lim children,
      ((buildSecondaryScan ops ord this indexes node bk id).scan =
          some (SecondaryScan.NewIntersectScan lim children) ∨
        (buildSecondaryScan ops ord this indexes node bk id).scan =
          some (SecondaryScan.NewOrderedIntersectScan lim children)) →
      lim = offsetPlusLimit ops st.this.offset st.this.limit ∧
        ∀ s ∈ children, s = none ∨ ∃ p ∈ st.indexes,
          s = some (createScan ops (buildSecondaryScanLimits ops ord st) bk.dnfPred p.1 p.2)) ∧
    (∀ (index : Index) (entry : indexEntry),
      createScan ops (buildSecondaryScanLimits ops ord st) bk.dnfPred index entry =
        SecondaryScan.CreateScan entry.spans index st.this.indexApiVersion
          (ops.MayOverlapSpans bk.dnfPred) none none
          (ops.buildIndexProjection (resetOffsetLimit st.this) none)
          (if some index = st.orderIndex then
            (ops.useIndexOrder (resetOffsetLimit st.this) entry entry.keys).2 else none)) ∧
    (buildSecondaryScan ops ord this indexes node bk id).this.offset = none ∧
    (buildSecondaryScan ops ord this indexes node bk id).this.limit = none := by
  have hpush : st.pushDown = true := by
    rw [pushDowns_ok_pushDown ops ord this indexes node bk id st h]
    obtain ⟨p, hp, hprop⟩ := hpd
    exact List.any_eq_true.mpr ⟨p, hp, hprop⟩
  obtain ⟨hlim, hoff, hl⟩ := limits_of_pushDown ops ord st hpush hlen
  rw [buildSecondaryScan_of_pushDowns ops ord this indexes node bk id st h]
  unfold buildSecondaryScanCombine
  simp only
  refine ⟨?_, ?_, ?_, ?_⟩
  · intro lim children hscan
    have hall := scanLoop_all ops (buildSecondaryScanLimits ops ord st) node bk.dnfPred id
      (ord.scans.seq (buildSecondaryScanLimits ops ord st).indexes)
    obtain ⟨h1, h2⟩ := combineScans_intersect ops _ bk.dnfPred _ _ _ _ _ hall lim children hscan
    rw [hlim] at h1
    refine ⟨h1, ?_⟩
    intro s hs
    rcases h2 s hs with hn | ⟨q, hq, hh⟩
    · left; exact hn
    · right
      rw [buildSecondaryScanLimits_indexes] at hq
      exact ⟨q, (ord.scans.perm _).mem_iff.mp hq, hh⟩
  · intro index entry
    rw [limits_of_pushDown_eq ops ord st hpush hlen]
    rfl
  · rw [(combineScans_this _ _ _ _).1]; exact hoff
  · rw [(combineScans_this _ _ _ _).2]; exact hl

/-- Witness of C10: on the sample call three candidates are left, the first
has LIMIT and OFFSET push-down, and the OrderedIntersectScan returned carries
the limit offsetPlusLimit(atom 5, atom 200). -/
theorem buildSecondaryScan_intersect_limit_witness :
    buildSecondaryScanPushDowns sampleOps sampleOrders sampleBuilder sampleOrdered sampleNode
        sampleKeyspace (Expression.atom 400) = Except.ok samplePushDown ∧
      2 ≤ samplePushDown.indexes.length ∧
      (∃ p ∈ samplePushDown.indexes,
        p.2.IsPushDownProperty (_PUSHDOWN_LIMIT ||| _PUSHDOWN_OFFSET) = true) ∧
      (some (Expression.NewAdd (Expression.NewGreatest Expression.ZERO_EXPR (Expression.atom 200))
          (Expression.atom 5)) =
        offsetPlusLimit sampleOps samplePushDown.this.offset samplePushDown.this.limit) ∧
      (buildSecondaryScan sampleOps sampleOrders sampleBuilder sampleOrdered sampleNode
        sampleKeyspace (Expression.atom 400)).this.offset = none :=
  ⟨rfl, by decide, by decide,
    ((buildSecondaryScan_intersect_limit sampleOps sampleOrders sampleBuilder sampleOrdered
      sampleNode sampleKeyspace (Expression.atom 400) samplePushDown rfl (by decide)
      (by decide)).1 _ _ (Or.inr rfl)).1,
    (buildSecondaryScan_intersect_limit sampleOps sampleOrders sampleBuilder sampleOrdered
      sampleNode sampleKeyspace (Expression.atom 400) samplePushDown rfl (by decide)
      (by decide)).2.2.1⟩

/-! ## Claims on the single remaining candidate -/

theorem intersectLimit_single (ops : Env) (st : PushDownState) (hone : st.indexes.length = 1)
    (hoff : (intersectLimit ops st).2.offset ≠ none) :
    intersectLimit ops st = (none, st.this) := by
  unfold intersectLimit at hoff ⊢
  have h1 : ¬ (st.indexes.length > 1) := by omega
  cases hp : st.pushDown with
  | true => simp [h1]
  | false =>
    rw [hp] at hoff
    simp [resetOffsetLimit, resetOffset] at hoff

theorem limits_single_fold (ops : Env) (ord : Orders) (st : PushDownState) (i : Index)
    (entry : indexEntry) (hone : st.indexes = [(i, entry)])
    (hoff : (intersectLimit ops st).2.offset ≠ none)
    (hno : entry.IsPushDownProperty _PUSHDOWN_OFFSET = false) :
    buildSecondaryScanLimits ops ord st =
      { this := resetOffset
          { st.this with limit := offsetPlusLimit ops st.this.offset st.this.limit },
        indexes := st.indexes, orderIndex := st.orderIndex, limit := none,
        indexProjection := ops.buildIndexProjection st.this (some entry) } := by
  have hlen : st.indexes.length = 1 := by rw [hone]; rfl
  have hil := intersectLimit_single ops st hlen hoff
  have hoff2 : st.this.offset.isSome = true := by
    rw [hil] at hoff
    cases ho : st.this.offset with
    | none => exact absurd ho hoff
    | some o => rfl
  have hseq : ord.single.seq st.indexes = [(i, entry)] := by
    have := ord.single.perm st.indexes
    rw [hone] at this ⊢
    exact List.perm_singleton.mp this
  unfold buildSecondaryScanLimits
  simp only [hil, hlen, if_true, hseq, hoff2, hno, Bool.not_false, Bool.and_self]

/-- C11: when exactly one candidate is left, the builder's offset is non-nil
when line 92 is reached and the candidate has no OFFSET push-down, then, with
`offset` and `limit` the builder's values at that point (which are those after
line 67): the scan of the candidate is created with a nil offset and with the
limit offsetPlusLimit(offset, limit), which is limit plus offset when both are
present; it is the scan returned unless the filter of the primary-key join
passes over the candidate; and on return the builder's offset is nil and its
limit is offsetPlusLimit(offset, limit). -/
theorem buildSecondaryScan_single_offset_fold (ops : Env) (ord : Orders) (this : builder)
    (indexes : IndexMap) (node : KeyspaceTerm) (bk : baseKeyspace) (id : Expression)
    (st : PushDownState) (i : Index) (entry : indexEntry)
    (h : buildSecondaryScanPushDowns ops ord this indexes node bk id = Except.ok st)
    (hone : st.indexes = [(i, entry)])
    (hoff : (intersectLimit ops st).2.offset ≠ none)
    (hno : entry.IsPushDownProperty _PUSHDOWN_OFFSET = false) :
    (intersectLimit ops st).2 = st.this ∧
    createScan ops (buildSecondaryScanLimits ops ord st) bk.dnfPred i entry =
      SecondaryScan.CreateScan entry.spans i st.this.indexApiVersion
        (ops.MayOverlapSpans bk.dnfPred) none
        (offsetPlusLimit ops st.this.offset st.this.limit)
        (ops.buildIndexProjection st.this (some entry))
        (if some i = st.orderIndex then
          (ops.useIndexOrder (buildSecondaryScanLimits ops ord st).this entry entry.keys).2
         else none) ∧
    (∀ o l, st.this.offset = some o → st.this.limit = some l →
      offsetPlusLimit ops st.this.offset st.this.limit =
        some (Expression.NewAdd
          (if (ops.Value l).isNone then Expression.NewGreatest Expression.ZERO_EXPR l else l)
          (if (ops.Value o).isNone then Expression.NewGreatest Expression.ZERO_EXPR o else o))) ∧
    ((node.IsPrimaryJoin && primaryJoinSkip ops id i entry) = false →
      (buildSecondaryScan ops ord this indexes node bk id).scan =
        some (createScan ops (buildSecondaryScanLimits ops ord st) bk.dnfPred i entry)) ∧
    (buildSecondaryScan ops ord this indexes node bk id).this.offset = none ∧
    (buildSecondaryScan ops ord this indexes node bk id).this.limit =
      offsetPlusLimit ops st.this.offset st.this.limit := by
  have hlen : st.indexes.length = 1 := by rw [hone]; rfl
  have hil := intersectLimit_single ops st hlen hoff
  have hlim := limits_single_fold ops ord st i entry hone hoff hno
  rw [buildSecondaryScan_of_pushDowns ops ord this indexes node bk id st h]
  refine ⟨by rw [hil], ?_, ?_, ?_, ?_, ?_⟩
  · unfold createScan
    rw [hlim]
    rfl
  · intro o l ho hl
    rw [ho, hl]
    rfl
  · intro hkeep
    unfold buildSecondaryScanCombine
    simp only
    rw [scanLoop_scans, buildSecondaryScanLimits_indexes]
    have hseq : ord.scans.seq st.indexes = [(i, entry)] := by
      have := ord.scans.perm st.indexes
      rw [hone] at this ⊢
      exact List.perm_singleton.mp this
    have hk : keptCandidates ops node id (ord.scans.seq st.indexes) = [(i, entry)] := by
      rw [hseq]
      unfold keptCandidates
      rw [List.filter_cons_of_pos (by
        show (!(node.IsPrimaryJoin && primaryJoinSkip ops id i entry)) = true
        rw [hkeep]; rfl)]
      rfl
    rw [hk]
    by_cases ho : some i = (buildSecondaryScanLimits ops ord st).orderIndex
    · simp [headSlot, ho, combineScans_single]
    · simp [headSlot, ho, combineScans_pair_nil]
  · unfold buildSecondaryScanCombine
    simp only
    rw [(combineScans_this _ _ _ _).1, hlim]
    rfl
  · unfold buildSecondaryScanCombine
    simp only
    rw [(combineScans_this _ _ _ _).2, hlim]
    rfl

/-- Witness of C11: a single candidate with LIMIT push-down only, OFFSET atom 5
and LIMIT atom 200; the scan returned has a nil offset and the limit
greatest(0, atom 200) + atom 5. -/
theorem buildSecondaryScan_single_offset_fold_witness :
    buildSecondaryScanPushDowns sampleOpsLimitOnly sampleOrders sampleBuilderNoOrder
        [sampleEntry 1 [Expression.atom 101] 1 1] sampleNode sampleKeyspace
        (Expression.atom 400) = Except.ok sampleSinglePushDown ∧
      (intersectLimit sampleOpsLimitOnly sampleSinglePushDown).2.offset ≠ none ∧
      (buildSecondaryScan sampleOpsLimitOnly sampleOrders sampleBuilderNoOrder
        [sampleEntry 1 [Expression.atom 101] 1 1] sampleNode sampleKeyspace
        (Expression.atom 400)).scan =
        some (SecondaryScan.CreateScan (some ⟨1, 1⟩) (sampleIndex 1) 2 false none
          (some (Expression.NewAdd
            (Expression.NewGreatest Expression.ZERO_EXPR (Expression.atom 200))
            (Expression.atom 5))) none none) :=
  ⟨rfl, by decide,
    ((buildSecondaryScan_single_offset_fold sampleOpsLimitOnly sampleOrders sampleBuilderNoOrder
      [sampleEntry 1 [Expression.atom 101] 1 1] sampleNode sampleKeyspace (Expression.atom 400)
      sampleSinglePushDown (sampleIndex 1)
      { (sampleEntry 1 [Expression.atom 101] 1 1).2 with
        spans := some ⟨1, 1⟩, exactSpans := true, pushDownProperty := _PUSHDOWN_LIMIT }
      rfl rfl (by decide) (by decide)).2.2.2.1 rfl).trans rfl⟩

/-! ## Claims on the tie-breaks of narrowerOrEquivalent -/

theorem filterCoverMatches_of_covers (ops : Env) (se : indexEntry) (fc : List String)
    (keys : List Expression) :
    ∀ (n : Nat),
      keys.all (fun tk =>
        se.sargKeys.any (fun sk => ops.SubsetOf sk tk || ops.DependsOn sk tk)) = true →
      filterCoverMatches ops se fc keys n = some n := by
  induction keys with
  | nil => intro n _; rfl
  | cons tk rest ih =>
    intro n h
    simp only [List.all_cons, Bool.and_eq_true] at h
    unfold filterCoverMatches
    rw [if_pos h.1]
    exact ih n h.2

theorem narrowerOrEquivalent_of_covers (ops : Env) (se te : indexEntry) (shortest : Bool)
    (hlen : te.sargKeys.length ≤ se.sargKeys.length) (hpos : te.sargKeys ≠ [])
    (hcond : condCompatible ops se te = true) (hcov : coversSargKeys ops se te = true) :
    narrowerOrEquivalent ops se te shortest =
      (decide (se.sumKeys > te.sumKeys) ||
        (shortest && decide (se.keys.length ≤ te.keys.length))) := by
  have h1 : ¬ (te.sargKeys.length > se.sargKeys.length) := by omega
  have h2 : (match te.cond, se.cond with
      | some tc, some sc => !ops.SubsetOf sc tc
      | some _, none => true
      | none, _ => false) = false := by
    unfold condCompatible at hcond
    simpa using hcond
  have h3 : ¬ (te.sargKeys.length = 0) := by
    intro h0
    exact hpos (List.length_eq_zero.mp h0)
  unfold narrowerOrEquivalent
  rw [if_neg h1, h2]
  simp only [Bool.false_eq_true, if_false]
  rw [filterCoverMatches_of_covers ops se _ te.sargKeys 0 hcov]
  simp only [h3, if_false]

theorem minimalInner_filter (ops : Env) (shortest : Bool) (s : Index) (se : indexEntry)
    (todo : List (Index × indexEntry)) :
    ∀ (m : IndexMap), ∃ P, minimalInner ops shortest s se todo m = m.filter P := by
  induction todo with
  | nil => intro m; exact ⟨fun _ => true, by simp [minimalInner]⟩
  | cons hd tl ih =>
    obtain ⟨t, te⟩ := hd
    intro m
    unfold minimalInner
    split
    · exact ih m
    · split
      · exact ih m
      · split
        · obtain ⟨P, hP⟩ := ih (deleteKey m t)
          refine ⟨fun a => P a && (a.1 != t), ?_⟩
          rw [hP, deleteKey, List.filter_filter]
        · exact ih m

theorem minimalOuter_filter (ops : Env) (shortest : Bool) (inner : Index → MapOrder)
    (todo : List (Index × indexEntry)) :
    ∀ (m : IndexMap), ∃ P, minimalOuter ops shortest inner todo m = m.filter P := by
  induction todo with
  | nil => intro m; exact ⟨fun _ => true, by simp [minimalOuter]⟩
  | cons hd tl ih =>
    obtain ⟨s, se⟩ := hd
    intro m
    unfold minimalOuter
    split
    · exact ih m
    · obtain ⟨Q, hQ⟩ := minimalInner_filter ops shortest s se ((inner s).seq m) m
      obtain ⟨P, hP⟩ := ih (minimalInner ops shortest s se ((inner s).seq m) m)
      refine ⟨fun a => P a && Q a, ?_⟩
      rw [hP, hQ, List.filter_filter]

theorem perm_pair_cases {x y : Index × indexEntry} {m : IndexMap} (hxy : x ≠ y)
    (hm : m.Perm [x, y]) : m = [x, y] ∨ m = [y, x] := by
  have hlen := hm.length_eq
  rcases m with _ | ⟨u, _ | ⟨v, _ | ⟨w, t⟩⟩⟩
  · simp at hlen
  · simp at hlen
  · have hu : u ∈ [x, y] := hm.mem_iff.mp (List.mem_cons_self _ _)
    have hv : v ∈ [x, y] := hm.mem_iff.mp (List.mem_cons_of_mem _ (List.mem_cons_self _ _))
    have hnd : [u, v].Nodup := hm.nodup_iff.mpr (by simp [hxy])
    have huv : u ≠ v := by
      intro h
      rw [h] at hnd
      simp at hnd
    simp only [List.mem_cons, List.mem_singleton, List.not_mem_nil, or_false] at hu hv
    rcases hu with h1 | h1 <;> rcases hv with h2 | h2
    · exact absurd (h1.trans h2.symm) huv
    · left; rw [h1, h2]
    · right; rw [h1, h2]
    · exact absurd (h1.trans h2.symm) huv
  · simp at hlen

theorem pair_filter_single {x y : Index × indexEntry} {m : IndexMap} (hxy : x ≠ y)
    (hm : m.Perm [x, y]) (P : Index × indexEntry → Bool)
    (hx : x ∈ m.filter P) (hy : y ∉ m.filter P) : m.filter P = [x] := by
  have hPx : P x = true := (List.mem_filter.mp hx).2
  have hPy : P y = false := by
    cases hp : P y with
    | false => rfl
    | true => exact absurd (List.mem_filter.mpr ⟨hm.mem_iff.mpr (by simp), hp⟩) hy
  rcases perm_pair_cases hxy hm with rfl | rfl <;> simp [List.filter, hPx, hPy]

theorem minimalIndexes_pair_winner (ops : Env) (outer : MapOrder) (inner : Index → MapOrder)
    (shortest : Bool) (a b : Index) (ea eb : indexEntry) (m : IndexMap) (hab : a ≠ b)
    (hm : m.Perm [(a, ea), (b, eb)])
    (h1 : narrowerOrEquivalent ops ea eb shortest = true)
    (h2 : narrowerOrEquivalent ops eb ea shortest = false) :
    minimalIndexes ops outer inner m shortest = [(a, ea)] := by
  have hxy : ((a, ea) : Index × indexEntry) ≠ (b, eb) := fun h => hab (Prod.ext_iff.mp h).1
  have ham : (a, ea) ∈ m := hm.mem_iff.mpr (by simp)
  unfold minimalIndexes
  obtain ⟨P, hP⟩ := minimalOuter_filter ops shortest inner (outer.seq m) m
  have hin : (a, ea) ∈ minimalOuter ops shortest inner (outer.seq m) m := by
    by_contra hout
    obtain ⟨q, hq, te, hte, hne, hnoe⟩ :=
      minimalOuter_kept ops shortest inner _ m (a, ea) ham hout
    have hq2 : q ∈ [(a, ea), (b, eb)] := hm.mem_iff.mp ((outer.perm m).mem_iff.mp hq)
    have hte2 : (a, te) ∈ [(a, ea), (b, eb)] := hm.mem_iff.mp hte
    simp only [List.mem_cons, List.mem_singleton, List.not_mem_nil, or_false] at hq2 hte2
    have hteq : te = ea := by
      rcases hte2 with h | h
      · exact (Prod.ext_iff.mp h).2
      · exact absurd (Prod.ext_iff.mp h).1 hab
    rcases hq2 with rfl | rfl
    · exact hne rfl
    · rw [hteq, h2] at hnoe
      exact absurd hnoe (by simp)
  have hout : (b, eb) ∉ minimalOuter ops shortest inner (outer.seq m) m := by
    intro hb
    have := minimalOuter_no_dominance ops shortest inner a b ea eb hab _ m
      ((outer.perm m).mem_iff.mpr ham) hin hb
    rw [h1] at this
    exact absurd this (by simp)
  rw [hP] at hin hout ⊢
  exact pair_filter_single hxy hm P hin hout

theorem minimalIndexes_pair_first (ops : Env) (outer : MapOrder) (inner : Index → MapOrder)
    (shortest : Bool) (a b : Index) (ea eb : indexEntry) (m : IndexMap) (hab : a ≠ b)
    (hm : m.Perm [(a, ea), (b, eb)])
    (h1 : narrowerOrEquivalent ops eb ea shortest = true)
    (hfirst : (outer.seq m).head? = some (b, eb)) :
    minimalIndexes ops outer inner m shortest = [(b, eb)] := by
  have hxy : ((b, eb) : Index × indexEntry) ≠ (a, ea) :=
    fun h => hab (Prod.ext_iff.mp h).1.symm
  have hm2 : m.Perm [(b, eb), (a, ea)] := hm.trans (List.Perm.swap _ _ _)
  have ham : (a, ea) ∈ m := hm.mem_iff.mpr (by simp)
  have hbm : (b, eb) ∈ m := hm.mem_iff.mpr (by simp)
  have hseq : outer.seq m = [(b, eb), (a, ea)] := by
    rcases perm_pair_cases hxy ((outer.perm m).trans hm2) with h | h
    · exact h
    · rw [h] at hfirst
      simp only [List.head?_cons, Option.some.injEq] at hfirst
      exact absurd hfirst.symm hxy
  unfold minimalIndexes
  rw [hseq]
  obtain ⟨P, hP⟩ := minimalInner_filter ops shortest b eb ((inner b).seq m) m
  have hrem : ∀ e, (a, e) ∉ minimalInner ops shortest b eb ((inner b).seq m) m :=
    minimalInner_removes ops shortest b eb a ea hab h1 _ m (((inner b).perm m).mem_iff.mpr ham)
  have hkeep : (b, eb) ∈ minimalInner ops shortest b eb ((inner b).seq m) m := by
    by_contra hout
    obtain ⟨_, _, hne, _⟩ := minimalInner_kept ops shortest b eb _ m (b, eb) hbm hout
    exact hne rfl
  have hone : minimalInner ops shortest b eb ((inner b).seq m) m = [(b, eb)] := by
    have hk := hkeep
    have hr := hrem ea
    rw [hP] at hk hr ⊢
    exact pair_filter_single hxy hm2 P hk hr
  have hkb : hasKey m b = true := hasKey_of_mem hbm
  have hka : hasKey [(b, eb)] a = false := by
    simp [hasKey, Ne.symm hab]
  simp [minimalOuter, hkb, hone, hka]

/-- C12 as stated fails: the two sample candidates cover each other's sarged
key and have no conditions; the first has the strictly higher sumKeys, yet
when the outer loop of minimalIndexes visits the second one first, the second
is narrower or equivalent (it has no more declared keys) and the candidate
with the higher sumKeys is removed. -/
theorem tie_break_counterexample :
    coversSargKeys sampleOps (sampleEntry 1 [Expression.atom 101, Expression.atom 103] 1 2).2
        (sampleEntry 2 [Expression.atom 101] 1 1).2 = true ∧
      coversSargKeys sampleOps (sampleEntry 2 [Expression.atom 101] 1 1).2
        (sampleEntry 1 [Expression.atom 101, Expression.atom 103] 1 2).2 = true ∧
      (sampleEntry 1 [Expression.atom 101, Expression.atom 103] 1 2).2.sumKeys >
        (sampleEntry 2 [Expression.atom 101] 1 1).2.sumKeys ∧
      minimalIndexes sampleOps MapOrder.rev (fun _ => MapOrder.id) sampleTie true =
        [sampleEntry 2 [Expression.atom 101] 1 1] :=
  ⟨by decide, by decide, by decide, by decide⟩

/-- C12, as amended: for two candidates with distinct keys that each cover the
other's sarged keys (not through filter covers), have the same non-zero number
of sarged keys and compatible conditions, narrowerOrEquivalent with
shortest=true holds from one to the other exactly when the one has the
strictly higher sumKeys or no more declared keys than the other.  So
minimalIndexes keeps the first of them, under every iteration order, when its
sumKeys is not lower and it has strictly fewer declared keys; and when the
second has no more declared keys than the first and the outer loop visits it
first, the second is kept, whatever the sumKeys. -/
theorem minimalIndexes_tie_break (ops : Env) (outer : MapOrder) (inner : Index → MapOrder)
    (a b : Index) (ea eb : indexEntry) (m : IndexMap) (hab : a ≠ b)
    (hm : m.Perm [(a, ea), (b, eb)])
    (hlen : ea.sargKeys.length = eb.sargKeys.length) (hpos : ea.sargKeys ≠ [])
    (hcab : coversSargKeys ops ea eb = true) (hcba : coversSargKeys ops eb ea = true)
    (hdab : condCompatible ops ea eb = true) (hdba : condCompatible ops eb ea = true) :
    narrowerOrEquivalent ops ea eb true =
        (decide (ea.sumKeys > eb.sumKeys) || decide (ea.keys.length ≤ eb.keys.length)) ∧
    narrowerOrEquivalent ops eb ea true =
        (decide (eb.sumKeys > ea.sumKeys) || decide (eb.keys.length ≤ ea.keys.length)) ∧
    (ea.sumKeys ≥ eb.sumKeys → ea.keys.length < eb.keys.length →
      minimalIndexes ops outer inner m true = [(a, ea)]) ∧
    (eb.keys.length ≤ ea.keys.length → (outer.seq m).head? = some (b, eb) →
      minimalIndexes ops outer inner m true = [(b, eb)]) := by
  have hposb : eb.sargKeys ≠ [] := by
    intro h0
    apply hpos
    apply List.length_eq_zero.mp
    rw [hlen, h0]; rfl
  have hab1 := narrowerOrEquivalent_of_covers ops ea eb true (by omega) hposb hdab hcab
  have hba1 := narrowerOrEquivalent_of_covers ops eb ea true (by omega) hpos hdba hcba
  simp only [Bool.true_and] at hab1 hba1
  refine ⟨hab1, hba1, ?_, ?_⟩
  · intro hsum hkeys
    apply minimalIndexes_pair_winner ops outer inner true a b ea eb m hab hm
    · rw [hab1]
      have : ea.keys.length ≤ eb.keys.length := by omega
      simp [this]
    · rw [hba1]
      have h1 : ¬ (eb.sumKeys > ea.sumKeys) := by omega
      have h2 : ¬ (eb.keys.length ≤ ea.keys.length) := by omega
      simp [h1, h2]
  · intro hkeys hfirst
    apply minimalIndexes_pair_first ops outer inner true a b ea eb m hab hm _ hfirst
    rw [hba1]
    simp [hkeys]

/-- Witness of the amended C12 on the two sample candidates: with the outer
loop running backwards the second candidate is visited first and kept. -/
theorem minimalIndexes_tie_break_witness :
    sampleIndex 1 ≠ sampleIndex 2 ∧
      (MapOrder.rev.seq sampleTie).head? = some (sampleEntry 2 [Expression.atom 101] 1 1) ∧
      minimalIndexes sampleOps MapOrder.rev (fun _ => MapOrder.id) sampleTie true =
        [sampleEntry 2 [Expression.atom 101] 1 1] :=
  ⟨by decide, by decide,
    (minimalIndexes_tie_break sampleOps MapOrder.rev (fun _ => MapOrder.id) (sampleIndex 1)
      (sampleIndex 2) (sampleEntry 1 [Expression.atom 101, Expression.atom 103] 1 2).2
      (sampleEntry 2 [Expression.atom 101] 1 1).2 sampleTie (by decide) (List.Perm.refl _)
      (by decide) (by decide) (by decide) (by decide) (by decide) (by decide)).2.2.2
      (by decide) (by decide)⟩

/-! ## Claims on sargableIndexes -/

theorem mapSet_same (m : IndexMap) (k : Index) (v : indexEntry) (hk : hasKey m k = true)
    (hv : ∀ p ∈ m, p.1 = k → p.2 = v) : mapSet m k v = m := by
  unfold mapSet
  rw [if_pos hk]
  conv_rhs => rw [← List.map_id m]
  apply List.map_congr_left
  intro p hp
  by_cases h : p.1 = k
  · rw [if_pos h]
    exact (Prod.ext h (hv p hp h)).symm
  · rw [if_neg h]; rfl

theorem mapSet_new (m : IndexMap) (k : Index) (v : indexEntry) (hk : hasKey m k = false) :
    mapSet m k v = m ++ [(k, v)] := by
  unfold mapSet
  rw [if_neg (by simp [hk])]

theorem hasKey_filter_false (m : IndexMap) (k : Index) (P : Index × indexEntry → Bool)
    (hk : hasKey m k = false) : hasKey (m.filter P) k = false := by
  cases h : hasKey (m.filter P) k with
  | false => rfl
  | true =>
    unfold hasKey at h hk
    obtain ⟨p, hp, hpk⟩ := List.any_eq_true.mp h
    have : m.any (fun p => p.1 == k) = true :=
      List.any_eq_true.mpr ⟨p, (List.mem_filter.mp hp).1, hpk⟩
    rw [this] at hk
    exact absurd hk (by simp)

theorem sargableIndexesLoop_inv (ops : Env) (sops : SargableEnv) (pred : Expression)
    (subset : Option Expression) (primaryKey : Option (List Expression))
    (indexes : List Index) :
    ∀ (r : SargableResult),
      ((∀ p ∈ r.all, ∃ a, sargableStep ops sops pred subset primaryKey p.1 =
          EntryStep.built p.2 a) ∧
        r.sargables = r.all.filter (fun p => decide (p.2.minKeys > 0))) →
      ((∀ p ∈ (sargableIndexesLoop ops sops pred subset primaryKey indexes r).all,
          ∃ a, sargableStep ops sops pred subset primaryKey p.1 = EntryStep.built p.2 a) ∧
        (sargableIndexesLoop ops sops pred subset primaryKey indexes r).sargables =
          (sargableIndexesLoop ops sops pred subset primaryKey indexes r).all.filter
            (fun p => decide (p.2.minKeys > 0))) := by
  induction indexes with
  | nil => intro r h; exact h
  | cons index rest ih =>
    intro r h
    obtain ⟨hall, hsarg⟩ := h
    unfold sargableIndexesLoop
    cases hstep : sargableStep ops sops pred subset primaryKey index with
    | failed err => exact ⟨hall, hsarg⟩
    | skipped => exact ih r ⟨hall, hsarg⟩
    | built entry isArray =>
      simp only
      apply ih
      simp only
      have hval : ∀ p ∈ r.all, p.1 = index → p.2 = entry := by
        intro p hp hpk
        obtain ⟨a, ha⟩ := hall p hp
        rw [hpk, hstep] at ha
        injection ha with h1 _
        exact h1.symm
      cases hk : hasKey r.all index with
      | true =>
        rw [mapSet_same r.all index entry hk hval]
        refine ⟨hall, ?_⟩
        by_cases hmin : entry.minKeys > 0
        · rw [if_pos hmin]
          obtain ⟨p, hp, hpk⟩ := List.any_eq_true.mp hk
          have hpk2 : p.1 = index := by simpa using hpk
          have hpe : p = (index, entry) := Prod.ext hpk2 (hval p hp hpk2)
          have hmem : (index, entry) ∈ r.sargables := by
            rw [hsarg, ← hpe]
            exact List.mem_filter.mpr ⟨hp, by rw [hpe]; simpa using hmin⟩
          rw [mapSet_same r.sargables index entry (hasKey_of_mem hmem)]
          · exact hsarg
          · intro q hq hqk
            rw [hsarg] at hq
            exact hval q (List.mem_filter.mp hq).1 hqk
        · rw [if_neg hmin]; exact hsarg
      | false =>
        rw [mapSet_new r.all index entry hk]
        constructor
        · intro p hp
          rcases List.mem_append.mp hp with h1 | h1
          · exact hall p h1
          · simp only [List.mem_singleton] at h1
            rw [h1]
            exact ⟨isArray, hstep⟩
        · by_cases hmin : entry.minKeys > 0
          · rw [if_pos hmin, hsarg,
              mapSet_new _ index entry (hasKey_filter_false r.all index _ hk),
              List.filter_append]
            simp [List.filter, hmin]
          · rw [if_neg hmin, hsarg, List.filter_append]
            simp [List.filter, hmin]

theorem sargableStep_built_entry (ops : Env) (sops : SargableEnv) (pred : Expression)
    (subset : Option Expression) (primaryKey : Option (List Expression)) (index : Index)
    (entry : indexEntry) (isArray : Bool)
    (h : sargableStep ops sops pred subset primaryKey index = EntryStep.built entry isArray) :
    ∃ keys cond origCond, entry = newIndexEntry sops pred index keys cond origCond := by
  unfold sargableStep at h
  split at h
  · cases h
  · cases h
  · rename_i keys isArray1 _
    split at h
    · cases h
    · cases h
    · rename_i cond origCond _
      injection h with h1 _
      exact ⟨keys, cond, origCond, h1.symm⟩

/-- C13: if SargableFor returns a `min` between 0 and the number of keys, then
for every entry that sargableIndexes puts in `all` (hence also in `sargables`
and `arrays`), sargKeys is the first minKeys elements of keys, it is a prefix
of keys, and minKeys is at most (indeed equal to) the length of sargKeys; and
an index is in `sargables` with an entry exactly when it is in `all` with that
entry and the entry's minKeys is greater than 0. -/
theorem sargableIndexes_entries (ops : Env) (sops : SargableEnv) (indexes : List Index)
    (pred : Expression) (subset : Option Expression) (primaryKey : Option (List Expression))
    (hS : ∀ p keys, 0 ≤ (sops.SargableFor p keys).1 ∧
      (sops.SargableFor p keys).1 ≤ (keys.length : Int)) :
    (∀ p ∈ (sargableIndexes ops sops indexes pred subset primaryKey).all,
      p.2.sargKeys = p.2.keys.take p.2.minKeys.toNat ∧
      p.2.sargKeys <+: p.2.keys ∧
      p.2.minKeys ≤ (p.2.sargKeys.length : Int) ∧
      (p.2.sargKeys.length : Int) = p.2.minKeys) ∧
    (∀ p, p ∈ (sargableIndexes ops sops indexes pred subset primaryKey).sargables ↔
      (p ∈ (sargableIndexes ops sops indexes pred subset primaryKey).all ∧ p.2.minKeys > 0)) := by
  have hinv := sargableIndexesLoop_inv ops sops pred subset primaryKey indexes
    { sargables := [], all := [], arrays := [], err := none }
    ⟨by intro p hp; simp at hp, by simp⟩
  unfold sargableIndexes
  obtain ⟨hall, hsarg⟩ := hinv
  constructor
  · intro p hp
    obtain ⟨a, ha⟩ := hall p hp
    obtain ⟨keys, cond, origCond, he⟩ :=
      sargableStep_built_entry ops sops pred subset primaryKey p.1 p.2 a ha
    have h0 := (hS pred keys).1
    have h1 := (hS pred keys).2
    have hlen : ((keys.take (sops.SargableFor pred keys).1.toNat).length : Int) =
        (sops.SargableFor pred keys).1 := by
      rw [List.length_take]
      omega
    rw [he]
    refine ⟨rfl, ?_, ?_, ?_⟩
    · exact List.take_prefix _ _
    · show (sops.SargableFor pred keys).1 ≤ _
      simp only [newIndexEntry]
      omega
    · simp only [newIndexEntry]
      exact hlen
  · intro p
    rw [hsarg, List.mem_filter]
    simp

/-- Witness of C13: of three sample indexes with 0, 1 and 3 range keys, the
last two are sargable; the entry of the third has its first two keys sarged. -/
theorem sargableIndexes_entries_witness :
    (∀ p keys, 0 ≤ (sampleSargableOps.SargableFor p keys).1 ∧
      (sampleSargableOps.SargableFor p keys).1 ≤ (keys.length : Int)) ∧
    (sargableIndexes sampleOps sampleSargableOps [sampleIndex 0, sampleIndex 1, sampleIndex 3]
      (Expression.atom 300) none none).sargables =
      [sampleEntry 1 [Expression.atom 100] 1 0,
       sampleEntry 3 [Expression.atom 100, Expression.atom 101, Expression.atom 102] 2 0] ∧
    (∀ p, p ∈ (sargableIndexes sampleOps sampleSargableOps
        [sampleIndex 0, sampleIndex 1, sampleIndex 3] (Expression.atom 300) none none).sargables ↔
      (p ∈ (sargableIndexes sampleOps sampleSargableOps
        [sampleIndex 0, sampleIndex 1, sampleIndex 3] (Expression.atom 300) none none).all ∧
        p.2.minKeys > 0)) :=
  have hS : ∀ (p : Expression) (keys : List Expression),
      0 ≤ (sampleSargableOps.SargableFor p keys).1 ∧
      (sampleSargableOps.SargableFor p keys).1 ≤ (keys.length : Int) := by
    intro p keys
    constructor
    · exact Int.ofNat_nonneg _
    · exact Int.ofNat_le.mpr (List.takeWhile_sublist _).length_le
  ⟨hS, by decide,
    (sargableIndexes_entries sampleOps sampleSargableOps
      [sampleIndex 0, sampleIndex 1, sampleIndex 3] (Expression.atom 300) none none hS).2⟩

/-! ## Claims on the order of choice of buildPrimaryIndex -/

theorem firstPrimary_skip (pre rest : List Index) (h : ∀ q ∈ pre, q.IsPrimary = false) :
    firstPrimary (pre ++ rest) = firstPrimary rest := by
  induction pre with
  | nil => rfl
  | cons hd tl ih =>
    rw [List.cons_append, firstPrimary]
    rw [if_pos (by simp [h hd (List.mem_cons_self _ _)])]
    exact ih (fun q hq => h q (List.mem_cons_of_mem _ hq))

theorem firstPrimary_none (l : List Index) (h : ∀ q ∈ l, q.IsPrimary = false) :
    firstPrimary l = none := by
  have := firstPrimary_skip l [] h
  rw [List.append_nil] at this
  rw [this]; rfl

theorem firstPrimary_found (pre post : List Index) (index : Index)
    (h : ∀ q ∈ pre, q.IsPrimary = false) (hp : index.IsPrimary = true) :
    firstPrimary (pre ++ index :: post) =
      some (if index.castsToPrimary then (some index, none)
        else (none, some (Error.Errorf
          ("Unable to cast index " ++ index.Name ++ " to primary index")))) := by
  rw [firstPrimary_skip pre _ h, firstPrimary]
  rw [if_neg (by simp [hp])]
  split <;> rfl

theorem primariesLoop_found (ps1 ps2 : List Index) (p : Index)
    (h : ∀ q ∈ ps1, q.State = StateResult.notOnline) (hp : p.State = StateResult.ONLINE) :
    ∀ (primary : Option Index),
      primariesLoop (ps1 ++ p :: ps2) primary = (some (some p, none), some p) := by
  induction ps1 with
  | nil => intro primary; simp [primariesLoop, hp]
  | cons hd tl ih =>
    intro primary
    rw [List.cons_append, primariesLoop, h hd (List.mem_cons_self _ _)]
    exact ih (fun q hq => h q (List.mem_cons_of_mem _ hq)) (some hd)

theorem primariesLoop_offline (ps : List Index)
    (h : ∀ q ∈ ps, q.State = StateResult.notOnline) :
    ∀ (primary : Option Index), ∃ primary1, primariesLoop ps primary = (none, primary1) := by
  induction ps with
  | nil => intro primary; exact ⟨primary, rfl⟩
  | cons hd tl ih =>
    intro primary
    rw [primariesLoop, h hd (List.mem_cons_self _ _)]
    exact ih (fun q hq => h q (List.mem_cons_of_mem _ hq)) (some hd)

theorem indexersLoop_found (name : String) (pre post : List Indexer) (ix : Indexer)
    (ps1 ps2 : List Index) (p : Index)
    (hpre : ∀ j ∈ pre, ∃ ps, j.PrimaryIndexes = Except.ok ps ∧
      ∀ q ∈ ps, q.State = StateResult.notOnline)
    (hix : ix.PrimaryIndexes = Except.ok (ps1 ++ p :: ps2))
    (h1 : ∀ q ∈ ps1, q.State = StateResult.notOnline) (hp : p.State = StateResult.ONLINE) :
    ∀ (primary : Option Index),
      indexersLoop name (pre ++ ix :: post) primary = (some p, none) := by
  induction pre with
  | nil =>
    intro primary
    rw [List.nil_append, indexersLoop, hix]
    simp only
    rw [primariesLoop_found ps1 ps2 p h1 hp]
  | cons hd tl ih =>
    intro primary
    obtain ⟨ps, hps, hoff⟩ := hpre hd (List.mem_cons_self _ _)
    obtain ⟨primary1, hloop⟩ := primariesLoop_offline ps hoff primary
    rw [List.cons_append, indexersLoop, hps]
    simp only
    rw [hloop]
    exact ih (fun j hj => hpre j (List.mem_cons_of_mem _ hj)) primary1

theorem primariesLoop_chosen (ps : List Index) (p : Index) :
    ∀ (primary primary1 : Option Index),
      primariesLoop ps primary = (some (some p, none), primary1) →
      ∃ ps1 ps2, ps = ps1 ++ p :: ps2 ∧ (∀ q ∈ ps1, q.State = StateResult.notOnline) ∧
        p.State = StateResult.ONLINE := by
  induction ps with
  | nil => intro primary primary1 h; simp [primariesLoop] at h
  | cons hd tl ih =>
    intro primary primary1 h
    rw [primariesLoop] at h
    cases hs : hd.State with
    | failed er => rw [hs] at h; simp at h
    | ONLINE =>
      rw [hs] at h
      simp only [Prod.mk.injEq, Option.some.injEq, and_true] at h
      exact ⟨[], tl, by rw [h.1]; rfl, by simp, by rw [← h.1]; exact hs⟩
    | notOnline =>
      rw [hs] at h
      obtain ⟨ps1, ps2, h1, h2, h3⟩ := ih (some hd) primary1 h
      refine ⟨hd :: ps1, ps2, by rw [h1]; rfl, ?_, h3⟩
      intro q hq
      rcases List.mem_cons.mp hq with rfl | hq
      · exact hs
      · exact h2 q hq

theorem primariesLoop_continue (ps : List Index) :
    ∀ (primary primary1 : Option Index), primariesLoop ps primary = (none, primary1) →
      ∀ q ∈ ps, q.State = StateResult.notOnline := by
  induction ps with
  | nil => intro _ _ _ q hq; simp at hq
  | cons hd tl ih =>
    intro primary primary1 h q hq
    rw [primariesLoop] at h
    cases hs : hd.State with
    | failed er => rw [hs] at h; simp at h
    | ONLINE => rw [hs] at h; simp at h
    | notOnline =>
      rw [hs] at h
      rcases List.mem_cons.mp hq with rfl | hq
      · exact hs
      · exact ih (some hd) primary1 h q hq

theorem indexersLoop_chosen (name : String) (indexers : List Indexer) (p : Index) :
    ∀ (primary : Option Index), indexersLoop name indexers primary = (some p, none) →
      ∃ pre ix post ps1 ps2, indexers = pre ++ ix :: post ∧
        (∀ j ∈ pre, ∃ ps, j.PrimaryIndexes = Except.ok ps ∧
          ∀ q ∈ ps, q.State = StateResult.notOnline) ∧
        ix.PrimaryIndexes = Except.ok (ps1 ++ p :: ps2) ∧
        (∀ q ∈ ps1, q.State = StateResult.notOnline) ∧ p.State = StateResult.ONLINE := by
  induction indexers with
  | nil =>
    intro primary h
    cases primary <;> simp [indexersLoop] at h
  | cons hd tl ih =>
    intro primary h
    rw [indexersLoop] at h
    cases hps : hd.PrimaryIndexes with
    | error er => rw [hps] at h; simp at h
    | ok primaries =>
      rw [hps] at h
      simp only at h
      cases hl : primariesLoop primaries primary with
      | mk ret primary1 =>
        rw [hl] at h
        cases ret with
        | some r =>
          simp only at h
          rw [h] at hl
          obtain ⟨ps1, ps2, h1, h2, h3⟩ := primariesLoop_chosen primaries p primary primary1 hl
          exact ⟨[], hd, tl, ps1, ps2, rfl, by simp, by rw [hps, h1], h2, h3⟩
        | none =>
          simp only at h
          obtain ⟨pre, ix, post, ps1, ps2, h1, h2, h3, h4, h5⟩ := ih primary1 h
          refine ⟨hd :: pre, ix, post, ps1, ps2, by rw [h1]; rfl, ?_, h3, h4, h5⟩
          intro j hj
          rcases List.mem_cons.mp hj with rfl | hj
          · exact ⟨primaries, hps, primariesLoop_continue primaries primary primary1 hl⟩
          · exact h2 j hj

/-- C14: buildPrimaryIndex chooses in this order.  The first index of
hintIndexes with IsPrimary() true decides the result: it is returned, or the
cast error is, whatever otherIndexes and the keyspace are.  Otherwise the
first index of otherIndexes with IsPrimary() true decides in the same way,
whatever the keyspace is.  Otherwise, when the primary indexes met before it,
in indexer order, all report a state other than ONLINE, the first primary
index whose state is ONLINE is returned; and an index returned on this path is
always that one. -/
theorem buildPrimaryIndex_order (keyspace : Keyspace) :
    (∀ (pre post : List Index) (index : Index) (otherIndexes : Option (List Index)),
      (∀ q ∈ pre, q.IsPrimary = false) → index.IsPrimary = true →
      buildPrimaryIndex keyspace (pre ++ index :: post) otherIndexes =
        (if index.castsToPrimary then (some index, none)
          else (none, some (Error.Errorf
            ("Unable to cast index " ++ index.Name ++ " to primary index"))))) ∧
    (∀ (hintIndexes pre post : List Index) (index : Index),
      (∀ q ∈ hintIndexes, q.IsPrimary = false) →
      (∀ q ∈ pre, q.IsPrimary = false) → index.IsPrimary = true →
      buildPrimaryIndex keyspace hintIndexes (some (pre ++ index :: post)) =
        (if index.castsToPrimary then (some index, none)
          else (none, some (Error.Errorf
            ("Unable to cast index " ++ index.Name ++ " to primary index"))))) ∧
    (∀ (hintIndexes : List Index) (otherIndexes : Option (List Index))
      (pre post : List Indexer) (ix : Indexer) (ps1 ps2 : List Index) (p : Index),
      (∀ q ∈ hintIndexes, q.IsPrimary = false) →
      (∀ others, otherIndexes = some others → ∀ q ∈ others, q.IsPrimary = false) →
      keyspace.Indexers = Except.ok (pre ++ ix :: post) →
      (∀ j ∈ pre, ∃ ps, j.PrimaryIndexes = Except.ok ps ∧
        ∀ q ∈ ps, q.State = StateResult.notOnline) →
      ix.PrimaryIndexes = Except.ok (ps1 ++ p :: ps2) →
      (∀ q ∈ ps1, q.State = StateResult.notOnline) → p.State = StateResult.ONLINE →
      buildPrimaryIndex keyspace hintIndexes otherIndexes = (some p, none)) ∧
    (∀ (hintIndexes : List Index) (otherIndexes : Option (List Index)) (p : Index),
      (∀ q ∈ hintIndexes, q.IsPrimary = false) →
      (∀ others, otherIndexes = some others → ∀ q ∈ others, q.IsPrimary = false) →
      buildPrimaryIndex keyspace hintIndexes otherIndexes = (some p, none) →
      ∃ pre ix post ps1 ps2, keyspace.Indexers = Except.ok (pre ++ ix :: post) ∧
        (∀ j ∈ pre, ∃ ps, j.PrimaryIndexes = Except.ok ps ∧
          ∀ q ∈ ps, q.State = StateResult.notOnline) ∧
        ix.PrimaryIndexes = Except.ok (ps1 ++ p :: ps2) ∧
        (∀ q ∈ ps1, q.State = StateResult.notOnline) ∧ p.State = StateResult.ONLINE) := by
  have hother : ∀ (otherIndexes : Option (List Index)),
      (∀ others, otherIndexes = some others → ∀ q ∈ others, q.IsPrimary = false) →
      (match otherIndexes with
        | some others => firstPrimary others
        | none => none) = none := by
    intro otherIndexes h
    cases otherIndexes with
    | none => rfl
    | some others => exact firstPrimary_none others (h others rfl)
  refine ⟨?_, ?_, ?_, ?_⟩
  · intro pre post index otherIndexes hpre hp
    unfold buildPrimaryIndex
    rw [firstPrimary_found pre post index hpre hp]
  · intro hintIndexes pre post index hhint hpre hp
    unfold buildPrimaryIndex
    rw [firstPrimary_none hintIndexes hhint]
    simp only
    rw [firstPrimary_found pre post index hpre hp]
  · intro hintIndexes otherIndexes pre post ix ps1 ps2 p hhint hoth hks hpre hix h1 hp
    unfold buildPrimaryIndex
    rw [firstPrimary_none hintIndexes hhint]
    simp only
    rw [hother otherIndexes hoth]
    simp only
    rw [hks]
    exact indexersLoop_found keyspace.Name pre post ix ps1 ps2 p hpre hix h1 hp none
  · intro hintIndexes otherIndexes p hhint hoth h
    unfold buildPrimaryIndex at h
    rw [firstPrimary_none hintIndexes hhint] at h
    simp only at h
    rw [hother otherIndexes hoth] at h
    simp only at h
    cases hks : keyspace.Indexers with
    | error er => rw [hks] at h; simp at h
    | ok indexers =>
      rw [hks] at h
      obtain ⟨pre, ix, post, ps1, ps2, h1, h2, h3, h4, h5⟩ :=
        indexersLoop_chosen keyspace.Name indexers p none h
      exact ⟨pre, ix, post, ps1, ps2, by rw [h1], h2, h3, h4, h5⟩

/-- Witness of C14: a hinted primary index is returned although the keyspace
cannot list its indexers; without hinted or other primary indexes the sample
keyspace yields its first online primary index, number 12. -/
theorem buildPrimaryIndex_order_witness :
    buildPrimaryIndex sampleBrokenKeyspace
        ([sampleIndex 1] ++ samplePrimary 2 StateResult.notOnline :: [samplePrimary 3 StateResult.ONLINE])
        (some [samplePrimary 4 StateResult.ONLINE]) =
      (some (samplePrimary 2 StateResult.notOnline), none) ∧
    buildPrimaryIndex sampleKeyspaceOnline [sampleIndex 1] none =
      (some (samplePrimary 12 StateResult.ONLINE), none) :=
  ⟨(buildPrimaryIndex_order sampleBrokenKeyspace).1 [sampleIndex 1]
      [samplePrimary 3 StateResult.ONLINE] (samplePrimary 2 StateResult.notOnline)
      (some [samplePrimary 4 StateResult.ONLINE]) (by decide) rfl,
    (buildPrimaryIndex_order sampleKeyspaceOnline).2.2.1 [sampleIndex 1] none
      [{ PrimaryIndexes := Except.ok [samplePrimary 10 StateResult.notOnline] }] []
      { PrimaryIndexes := Except.ok
          [samplePrimary 11 StateResult.notOnline, samplePrimary 12 StateResult.ONLINE,
           samplePrimary 13 StateResult.ONLINE] }
      [samplePrimary 11 StateResult.notOnline] [samplePrimary 13 StateResult.ONLINE]
      (samplePrimary 12 StateResult.ONLINE) (by decide) (by intro others h; cases h) rfl
      (by
        intro j hj
        simp only [List.mem_singleton] at hj
        subst hj
        exact ⟨[samplePrimary 10 StateResult.notOnline], rfl, by decide⟩)
      rfl (by decide) rfl⟩

/-! ## Claims on the order index -/

theorem pushDowns_ok_inv (ops : Env) (ord : Orders) (this : builder) (indexes : IndexMap)
    (node : KeyspaceTerm) (bk : baseKeyspace) (id : Expression) (st : PushDownState)
    (h : buildSecondaryScanPushDowns ops ord this indexes node bk id = Except.ok st) :
    ∃ this1 indexes1 sarged,
      coveringAttempt ops this indexes node bk id = Except.ok (this1, indexes1) ∧
      sargIndexes ops ord.sarg (resetIndexGroupAggs this1) bk
        (minimalIndexes ops ord.minimalOuter ord.minimalInner indexes1 true) =
          Except.ok sarged ∧
      st = (if (pushDownLoop ops bk.dnfPred node.Alias (ord.pushDown.seq sarged)
            (resetIndexGroupAggs this1) none false).this.order.isSome &&
          (pushDownLoop ops bk.dnfPred node.Alias (ord.pushDown.seq sarged)
            (resetIndexGroupAggs this1) none false).orderIndex.isNone then
        { pushDownLoop ops bk.dnfPred node.Alias (ord.pushDown.seq sarged)
            (resetIndexGroupAggs this1) none false with
          this := resetOrderOffsetLimit (pushDownLoop ops bk.dnfPred node.Alias
            (ord.pushDown.seq sarged) (resetIndexGroupAggs this1) none false).this }
        else pushDownLoop ops bk.dnfPred node.Alias (ord.pushDown.seq sarged)
          (resetIndexGroupAggs this1) none false) := by
  unfold buildSecondaryScanPushDowns at h
  split at h
  · cases h
  · rename_i this1 indexes1 hcov
    simp only at h
    split at h
    · cases h
    · rename_i sarged hsarg
      refine ⟨this1, indexes1, sarged, hcov, hsarg, ?_⟩
      split at h
      · rename_i hc
        simp only [Except.ok.injEq] at h
        rw [if_pos hc]
        exact h.symm
      · rename_i hc
        simp only [Except.ok.injEq] at h
        rw [if_neg hc]
        exact h.symm

theorem pushDownLoop_cons (ops : Env) (pred : Expression) (nodeAlias : String)
    (i : Index) (entry : indexEntry) (tl : List (Index × indexEntry)) (this : builder)
    (orderIndex : Option Index) (pushDown : Bool) :
    pushDownLoop ops pred nodeAlias ((i, entry) :: tl) this orderIndex pushDown =
      (let entry1 := pushDownEntry ops pred nodeAlias this entry
       let ordered := this.order.isSome && entry1.IsPushDownProperty _PUSHDOWN_ORDER
       let r := pushDownLoop ops pred nodeAlias tl
         (if ordered then { this with maxParallelism := 1 } else this)
         (if ordered then some entry1.index else orderIndex)
         (if !pushDown && entry1.IsPushDownProperty (_PUSHDOWN_LIMIT ||| _PUSHDOWN_OFFSET)
          then true else pushDown)
       { r with indexes := (i, entry1) :: r.indexes }) := by
  rw [pushDownLoop]
  rfl

theorem pushDownLoop_this (ops : Env) (pred : Expression) (nodeAlias : String)
    (todo : List (Index × indexEntry)) :
    ∀ (this : builder) (orderIndex : Option Index) (pushDown : Bool),
      (pushDownLoop ops pred nodeAlias todo this orderIndex pushDown).this.order = this.order ∧
      ((pushDownLoop ops pred nodeAlias todo this orderIndex pushDown).this.maxParallelism =
          this.maxParallelism ∨
        (pushDownLoop ops pred nodeAlias todo this orderIndex pushDown).this.maxParallelism
          = 1) := by
  induction todo with
  | nil => intro this oi pd; exact ⟨rfl, Or.inl rfl⟩
  | cons hd tl ih =>
    obtain ⟨i, entry⟩ := hd
    intro this oi pd
    rw [pushDownLoop_cons]
    simp only
    generalize pushDownEntry ops pred nodeAlias this entry = entry1
    generalize (if (!pd && entry1.IsPushDownProperty (_PUSHDOWN_LIMIT ||| _PUSHDOWN_OFFSET)) = true
      then true else pd) = pd1
    by_cases hc : (this.order.isSome && entry1.IsPushDownProperty _PUSHDOWN_ORDER) = true
    · rw [if_pos hc, if_pos hc]
      obtain ⟨h1, h2⟩ := ih { this with maxParallelism := 1 } (some entry1.index) pd1
      refine ⟨h1, ?_⟩
      rcases h2 with h2 | h2
      · right; exact h2
      · right; exact h2
    · rw [if_neg hc, if_neg hc]
      exact ih this oi pd1

theorem pushDownLoop_orderIndex (ops : Env) (pred : Expression) (nodeAlias : String)
    (todo : List (Index × indexEntry)) :
    ∀ (this : builder) (orderIndex : Option Index) (pushDown : Bool),
      this.order.isSome = true →
      ((∃ p ∈ (pushDownLoop ops pred nodeAlias todo this orderIndex pushDown).indexes,
          p.2.IsPushDownProperty _PUSHDOWN_ORDER = true) →
        (pushDownLoop ops pred nodeAlias todo this orderIndex pushDown).this.maxParallelism = 1 ∧
        ∃ p ∈ (pushDownLoop ops pred nodeAlias todo this orderIndex pushDown).indexes,
          p.2.IsPushDownProperty _PUSHDOWN_ORDER = true ∧
          (pushDownLoop ops pred nodeAlias todo this orderIndex pushDown).orderIndex =
            some p.2.index) ∧
      ((∀ p ∈ (pushDownLoop ops pred nodeAlias todo this orderIndex pushDown).indexes,
          p.2.IsPushDownProperty _PUSHDOWN_ORDER = false) →
        (pushDownLoop ops pred nodeAlias todo this orderIndex pushDown).orderIndex =
          orderIndex) := by
  induction todo with
  | nil =>
    intro this oi pd _
    constructor
    · rintro ⟨p, hp, _⟩
      simp [pushDownLoop] at hp
    · intro _; rfl
  | cons hd tl ih =>
    obtain ⟨i, entry⟩ := hd
    intro this oi pd horder
    rw [pushDownLoop_cons]
    simp only
    generalize pushDownEntry ops pred nodeAlias this entry = entry1
    generalize (if (!pd && entry1.IsPushDownProperty (_PUSHDOWN_LIMIT ||| _PUSHDOWN_OFFSET)) = true
      then true else pd) = pd1
    cases hord : entry1.IsPushDownProperty _PUSHDOWN_ORDER with
    | true =>
      have hc : (this.order.isSome && true) = true := by rw [horder]; rfl
      rw [if_pos hc, if_pos hc]
      have hih := ih { this with maxParallelism := 1 } (some entry1.index) pd1 horder
      have hthis := pushDownLoop_this ops pred nodeAlias tl { this with maxParallelism := 1 }
        (some entry1.index) pd1
      constructor
      · intro _
        by_cases hrest : ∃ p ∈ (pushDownLoop ops pred nodeAlias tl
            { this with maxParallelism := 1 } (some entry1.index) pd1).indexes,
            p.2.IsPushDownProperty _PUSHDOWN_ORDER = true
        · obtain ⟨h1, p, hp, hp1, hp2⟩ := hih.1 hrest
          exact ⟨h1, p, List.mem_cons_of_mem _ hp, hp1, hp2⟩
        · have hnone : ∀ p ∈ (pushDownLoop ops pred nodeAlias tl
              { this with maxParallelism := 1 } (some entry1.index) pd1).indexes,
              p.2.IsPushDownProperty _PUSHDOWN_ORDER = false := by
            intro p hp
            cases hc2 : p.2.IsPushDownProperty _PUSHDOWN_ORDER with
            | false => rfl
            | true => exact absurd ⟨p, hp, hc2⟩ hrest
          refine ⟨?_, (i, entry1), List.mem_cons_self _ _, hord, hih.2 hnone⟩
          rcases hthis.2 with h2 | h2
          · exact h2
          · exact h2
      · intro hall
        have := hall (i, entry1) (List.mem_cons_self _ _)
        rw [hord] at this
        exact absurd this (by simp)
    | false =>
      have hc : ¬ ((this.order.isSome && false) = true) := by simp
      rw [if_neg hc, if_neg hc]
      have hih := ih this oi pd1 horder
      constructor
      · rintro ⟨p, hp, hp1⟩
        rcases List.mem_cons.mp hp with heq | hp
        · rw [heq, hord] at hp1
          exact absurd hp1 (by simp)
        · obtain ⟨h1, q, hq, hq1, hq2⟩ := hih.1 ⟨p, hp, hp1⟩
          exact ⟨h1, q, List.mem_cons_of_mem _ hq, hq1, hq2⟩
      · intro hall
        exact hih.2 (fun p hp => hall p (List.mem_cons_of_mem _ hp))

theorem intersectLimit_this (ops : Env) (st : PushDownState) :
    (intersectLimit ops st).2.order = st.this.order ∧
      (intersectLimit ops st).2.maxParallelism = st.this.maxParallelism ∧
      (st.this.offset = none → st.this.limit = none →
        (intersectLimit ops st).2.offset = none ∧ (intersectLimit ops st).2.limit = none) := by
  unfold intersectLimit
  by_cases h1 : (st.pushDown && decide (st.indexes.length > 1)) = true
  · rw [if_pos h1]
    exact ⟨rfl, rfl, fun _ _ => ⟨rfl, rfl⟩⟩
  · rw [if_neg h1]
    by_cases h2 : (!st.pushDown) = true
    · rw [if_pos h2]
      exact ⟨rfl, rfl, fun _ _ => ⟨rfl, rfl⟩⟩
    · rw [if_neg h2]
      exact ⟨rfl, rfl, fun ho hl => ⟨ho, hl⟩⟩

theorem limits_this (ops : Env) (ord : Orders) (st : PushDownState) :
    (buildSecondaryScanLimits ops ord st).this.order = st.this.order ∧
    (buildSecondaryScanLimits ops ord st).this.maxParallelism = st.this.maxParallelism ∧
    (buildSecondaryScanLimits ops ord st).orderIndex = st.orderIndex ∧
    (st.this.offset = none → st.this.limit = none →
      (buildSecondaryScanLimits ops ord st).this.offset = none ∧
      (buildSecondaryScanLimits ops ord st).this.limit = none) := by
  obtain ⟨h1, h2, h3⟩ := intersectLimit_this ops st
  unfold buildSecondaryScanLimits
  simp only
  by_cases hone : st.indexes.length = 1
  · rw [if_pos hone]
    cases hseq : ord.single.seq st.indexes with
    | nil => exact ⟨h1, h2, rfl, h3⟩
    | cons hd tl =>
      simp only
      by_cases hc : ((intersectLimit ops st).2.offset.isSome &&
          !hd.2.IsPushDownProperty _PUSHDOWN_OFFSET) = true
      · rw [if_pos hc]
        refine ⟨h1, h2, by first | rfl | trivial, ?_⟩
        intro ho hl
        refine ⟨rfl, ?_⟩
        show offsetPlusLimit ops (intersectLimit ops st).2.offset (intersectLimit ops st).2.limit
          = none
        rw [(h3 ho hl).1, (h3 ho hl).2]
        rfl
      · rw [if_neg hc]
        exact ⟨h1, h2, by first | rfl | trivial, h3⟩
  · rw [if_neg hone]
    exact ⟨h1, h2, rfl, h3⟩

theorem combineScans_this_order (this : builder) (limit : Option Expression)
    (scans : List (Option SecondaryScan)) (sargLength : Int) :
    (combineScans this limit scans sargLength).this.order = this.order ∧
      (combineScans this limit scans sargLength).this.maxParallelism = this.maxParallelism := by
  unfold combineScans
  split
  · exact ⟨rfl, rfl⟩
  · split
    · exact ⟨rfl, rfl⟩
    · split <;> exact ⟨rfl, rfl⟩

/-- C15: on the path of buildSecondaryScan without a covering scan and without
a span error, if the builder has a required order when that path is entered:
when some remaining candidate has ORDER push-down, then on return
maxParallelism is 1, no error is returned, and the order index is the index of
one of the candidates with ORDER push-down; when no remaining candidate has
ORDER push-down, the builder's order, limit and offset are all nil on
return. -/
theorem buildSecondaryScan_order_index (ops : Env) (ord : Orders) (this this1 : builder)
    (indexes indexes1 : IndexMap) (node : KeyspaceTerm) (bk : baseKeyspace) (id : Expression)
    (st : PushDownState)
    (hcover : coveringAttempt ops this indexes node bk id = Except.ok (this1, indexes1))
    (h : buildSecondaryScanPushDowns ops ord this indexes node bk id = Except.ok st)
    (horder : this1.order ≠ none) :
    ((∃ p ∈ st.indexes, p.2.IsPushDownProperty _PUSHDOWN_ORDER = true) →
      (buildSecondaryScan ops ord this indexes node bk id).this.maxParallelism = 1 ∧
      (buildSecondaryScan ops ord this indexes node bk id).err = none ∧
      ∃ p ∈ st.indexes, p.2.IsPushDownProperty _PUSHDOWN_ORDER = true ∧
        (buildSecondaryScanLimits ops ord st).orderIndex = some p.2.index) ∧
    ((∀ p ∈ st.indexes, p.2.IsPushDownProperty _PUSHDOWN_ORDER = false) →
      (buildSecondaryScan ops ord this indexes node bk id).this.order = none ∧
      (buildSecondaryScan ops ord this indexes node bk id).this.limit = none ∧
      (buildSecondaryScan ops ord this indexes node bk id).this.offset = none) := by
  obtain ⟨this2, indexes2, sarged, hcov2, _, hst⟩ :=
    pushDowns_ok_inv ops ord this indexes node bk id st h
  rw [hcover] at hcov2
  simp only [Except.ok.injEq, Prod.mk.injEq] at hcov2
  obtain ⟨rfl, rfl⟩ := hcov2
  have hsome : (resetIndexGroupAggs this1).order.isSome = true := by
    show this1.order.isSome = true
    cases ho : this1.order with
    | none => exact absurd ho horder
    | some o => rfl
  generalize hloop : pushDownLoop ops bk.dnfPred node.Alias (ord.pushDown.seq sarged)
    (resetIndexGroupAggs this1) none false = st0 at hst
  have hthis := pushDownLoop_this ops bk.dnfPred node.Alias (ord.pushDown.seq sarged)
    (resetIndexGroupAggs this1) none false
  have hoi := pushDownLoop_orderIndex ops bk.dnfPred node.Alias (ord.pushDown.seq sarged)
    (resetIndexGroupAggs this1) none false hsome
  rw [hloop] at hthis hoi
  have hord0 : st0.this.order.isSome = true := by rw [hthis.1]; exact hsome
  have hidx : st.indexes = st0.indexes := by
    rw [hst]; split <;> rfl
  rw [buildSecondaryScan_of_pushDowns ops ord this indexes node bk id st h]
  unfold buildSecondaryScanCombine
  simp only
  obtain ⟨hlo, hlm, hli, hlc⟩ := limits_this ops ord st
  constructor
  · intro hex
    rw [hidx] at hex ⊢
    obtain ⟨hmax, p, hp, hp1, hp2⟩ := hoi.1 hex
    have hst2 : st = st0 := by
      rw [hst]
      simp [hp2]
    refine ⟨?_, combineScans_err _ _ _ _, p, hp, hp1, ?_⟩
    · rw [(combineScans_this_order _ _ _ _).2, hlm, hst2]
      exact hmax
    · rw [hli, hst2]
      exact hp2
  · intro hall
    rw [hidx] at hall
    have hnone := hoi.2 hall
    have hst2 : st = { st0 with this := resetOrderOffsetLimit st0.this } := by
      rw [hst]
      simp [hnone, hord0]
    have hoff : st.this.offset = none := by rw [hst2]; rfl
    have hlim : st.this.limit = none := by rw [hst2]; rfl
    have hordn : st.this.order = none := by rw [hst2]; rfl
    refine ⟨?_, ?_, ?_⟩
    · rw [(combineScans_this_order _ _ _ _).1, hlo]
      exact hordn
    · rw [(combineScans_this _ _ _ _).2]
      exact (hlc hoff hlim).2
    · rw [(combineScans_this _ _ _ _).1]
      exact (hlc hoff hlim).1

/-- Witness of C15: on the sample call the builder has a required order and
the first candidate has ORDER push-down; on return maxParallelism is 1. -/
theorem buildSecondaryScan_order_index_witness :
    coveringAttempt sampleOps sampleBuilder sampleOrdered sampleNode sampleKeyspace
        (Expression.atom 400) = Except.ok (sampleBuilder, sampleOrdered) ∧
      sampleBuilder.order ≠ none ∧
      (∃ p ∈ samplePushDown.indexes, p.2.IsPushDownProperty _PUSHDOWN_ORDER = true) ∧
      (buildSecondaryScan sampleOps sampleOrders sampleBuilder sampleOrdered sampleNode
        sampleKeyspace (Expression.atom 400)).this.maxParallelism = 1 :=
  ⟨rfl, by decide, by decide,
    ((buildSecondaryScan_order_index sampleOps sampleOrders sampleBuilder sampleBuilder
      sampleOrdered sampleOrdered sampleNode sampleKeyspace (Expression.atom 400) samplePushDown
      rfl rfl (by decide)).1 (by decide)).1⟩

/-! ## Claims on VisitKeyspaceTerm -/

/-- C16: with `node` as SetDefaultNamespace leaves it, once the keyspace is
found and the keys are not missing: when selectScan returns a scan,
VisitKeyspaceTerm appends the scan to the children and, right after it, a Fetch
exactly when the builder then has no covering scans and no count scan (so no
Fetch when a covering scan was chosen); when selectScan returns no scan and no
error, nothing is appended and the call returns nil for a primary-key join and
the internal plan error otherwise. -/
theorem VisitKeyspaceTerm_fetch (env : VisitEnv) (this this1 : termBuilder)
    (node : KeyspaceTerm) (keyspace : Keyspace)
    (hks : env.getTermKeyspace this (env.SetDefaultNamespace node this.defaultNamespace) =
      Except.ok keyspace)
    (hkeys : (this.subquery && this.correlated &&
      (env.Keys (env.SetDefaultNamespace node this.defaultNamespace)).isNone) = false) :
    (∀ scan, env.selectScan this keyspace (env.SetDefaultNamespace node this.defaultNamespace) =
        (this1, some scan, none) →
      VisitKeyspaceTermScan env this (env.SetDefaultNamespace node this.defaultNamespace) =
          Except.ok { this1 with children := this1.children ++ scan ::
            (if this1.coveringScans = [] ∧ this1.countScan = none then
              [Operator.NewFetch keyspace (env.SetDefaultNamespace node this.defaultNamespace)]
             else []) } ∧
        (this1.coveringScans ≠ [] →
          VisitKeyspaceTermScan env this (env.SetDefaultNamespace node this.defaultNamespace) =
            Except.ok { this1 with children := this1.children ++ [scan] })) ∧
    (env.selectScan this keyspace (env.SetDefaultNamespace node this.defaultNamespace) =
        (this1, none, none) →
      VisitKeyspaceTerm env this node =
        (this1, if (env.SetDefaultNamespace node this.defaultNamespace).IsPrimaryJoin then none
          else some (VisitError.NewPlanInternalError "VisitKeyspaceTerm: no plan generated"))) := by
  constructor
  · intro scan hsel
    have hmain : VisitKeyspaceTermScan env this
        (env.SetDefaultNamespace node this.defaultNamespace) =
          Except.ok { this1 with children := this1.children ++ scan ::
            (if this1.coveringScans = [] ∧ this1.countScan = none then
              [Operator.NewFetch keyspace (env.SetDefaultNamespace node this.defaultNamespace)]
             else []) } := by
      unfold VisitKeyspaceTermScan
      rw [hks]
      simp only [hkeys, Bool.false_eq_true, if_false, hsel]
      cases hc : this1.coveringScans with
      | nil =>
        cases hn : this1.countScan with
        | none => simp
        | some c => simp
      | cons c cs => simp
    refine ⟨hmain, ?_⟩
    intro hcov
    rw [hmain]
    have : ¬ (this1.coveringScans = [] ∧ this1.countScan = none) := fun h => hcov h.1
    rw [if_neg this]
  · intro hsel
    unfold VisitKeyspaceTerm VisitKeyspaceTermScan
    simp only [hks, hkeys, Bool.false_eq_true, if_false, hsel]
    cases (env.SetDefaultNamespace node this.defaultNamespace).IsPrimaryJoin <;> rfl

/-- Witness of C16: with no covering scan the children become the old child,
the scan and a Fetch; when scan selection records a covering scan no Fetch is
appended; when no scan is selected outside a primary-key join, the internal
plan error is returned. -/
theorem VisitKeyspaceTerm_fetch_witness :
    VisitKeyspaceTermScan sampleVisitEnv sampleTermBuilder sampleNode =
        Except.ok { sampleTermBuilder with children :=
          [Operator.selected 0, Operator.selected 1,
            Operator.NewFetch sampleKeyspaceOnline sampleNode] } ∧
      VisitKeyspaceTermScan sampleVisitEnv sampleTermBuilder { sampleNode with Alias := "cover" } =
        Except.ok { sampleTermBuilder with
          children := [Operator.selected 0, Operator.selected 1], coveringScans := [1] } ∧
      VisitKeyspaceTerm sampleVisitEnv sampleTermBuilder { sampleNode with Alias := "none" } =
        (sampleTermBuilder,
          some (VisitError.NewPlanInternalError "VisitKeyspaceTerm: no plan generated")) :=
  ⟨((VisitKeyspaceTerm_fetch sampleVisitEnv sampleTermBuilder sampleTermBuilder sampleNode
      sampleKeyspaceOnline rfl rfl).1 (Operator.selected 1) rfl).1.trans rfl,
    (((VisitKeyspaceTerm_fetch sampleVisitEnv sampleTermBuilder
      { sampleTermBuilder with coveringScans := [1] } { sampleNode with Alias := "cover" }
      sampleKeyspaceOnline rfl rfl).1 (Operator.selected 1) rfl).2 (by simp)).trans rfl,
    ((VisitKeyspaceTerm_fetch sampleVisitEnv sampleTermBuilder sampleTermBuilder
      { sampleNode with Alias := "none" } sampleKeyspaceOnline rfl rfl).2 rfl).trans rfl⟩

/-! ## The iteration order of minimalIndexes -/

theorem undominated_iff (ops : Env) (shortest : Bool) (m : IndexMap) (t : Index × indexEntry) :
    undominated ops shortest m t = true ↔
      ∀ s ∈ m, s.1 ≠ t.1 → narrowerOrEquivalent ops s.2 t.2 shortest = false := by
  unfold undominated
  rw [List.all_eq_true]
  constructor
  · intro h s hs hne
    have := h s hs
    simpa [hne] using this
  · intro h s hs
    by_cases hk : s.1 = t.1
    · simp [hk]
    · simp [hk, h s hs hk]

theorem countP_lt_of_imp {α : Type} (p q : α → Bool) :
    ∀ (l : List α), (∀ x ∈ l, p x = true → q x = true) →
      (∃ x ∈ l, q x = true ∧ p x = false) → l.countP p < l.countP q := by
  intro l
  induction l with
  | nil => intro _ h; obtain ⟨x, hx, _⟩ := h; simp at hx
  | cons a t ih =>
    intro himp hex
    have hle : t.countP p ≤ t.countP q :=
      List.countP_mono_left (fun x hx => himp x (List.mem_cons_of_mem _ hx))
    obtain ⟨x, hx, hqx, hpx⟩ := hex
    rcases List.mem_cons.mp hx with rfl | hin
    · rw [List.countP_cons_of_pos _ _ hqx, List.countP_cons_of_neg _ _ (by simp [hpx])]
      omega
    · have hlt := ih (fun y hy => himp y (List.mem_cons_of_mem _ hy)) ⟨x, hin, hqx, hpx⟩
      by_cases hpa : p a = true
      · rw [List.countP_cons_of_pos _ _ hpa,
          List.countP_cons_of_pos _ _ (himp a (List.mem_cons_self _ _) hpa)]
        omega
      · rw [List.countP_cons_of_neg _ _ hpa]
        by_cases hqa : q a = true
        · rw [List.countP_cons_of_pos _ _ hqa]; omega
        · rw [List.countP_cons_of_neg _ _ hqa]; exact hlt

/-- In a map on which narrowerOrEquivalent is transitive and never holds both
ways between two keys, an entry that some other entry is narrower than has an
undominated entry narrower than it. -/
theorem exists_undominated (ops : Env) (shortest : Bool) (m : IndexMap)
    (hnd : (m.map Prod.fst).Nodup)
    (htrans : ∀ a ∈ m, ∀ b ∈ m, ∀ c ∈ m, narrowerOrEquivalent ops a.2 b.2 shortest = true →
      narrowerOrEquivalent ops b.2 c.2 shortest = true →
      narrowerOrEquivalent ops a.2 c.2 shortest = true)
    (hanti : ∀ a ∈ m, ∀ b ∈ m, a.1 ≠ b.1 → narrowerOrEquivalent ops a.2 b.2 shortest = true →
      narrowerOrEquivalent ops b.2 a.2 shortest = false) :
    ∀ (n : Nat) (t : Index × indexEntry), t ∈ m →
      m.countP (fun u => decide (u.1 ≠ t.1) && narrowerOrEquivalent ops u.2 t.2 shortest) ≤ n →
      ∀ s ∈ m, s.1 ≠ t.1 → narrowerOrEquivalent ops s.2 t.2 shortest = true →
      ∃ r ∈ m, r.1 ≠ t.1 ∧ narrowerOrEquivalent ops r.2 t.2 shortest = true ∧
        undominated ops shortest m r = true := by
  intro n
  induction n with
  | zero =>
    intro t _ hcount s hs hne hnoe
    have hpos : 0 < m.countP
        (fun u => decide (u.1 ≠ t.1) && narrowerOrEquivalent ops u.2 t.2 shortest) :=
      List.countP_pos_iff.mpr ⟨s, hs, by simp [hne, hnoe]⟩
    omega
  | succ k ih =>
    intro t ht hcount s hs hne hnoe
    by_cases hund : undominated ops shortest m s = true
    · exact ⟨s, hs, hne, hnoe, hund⟩
    · have hex : ∃ u ∈ m, u.1 ≠ s.1 ∧ narrowerOrEquivalent ops u.2 s.2 shortest = true := by
        by_contra hno
        apply hund
        rw [undominated_iff]
        intro u hu huk
        cases hv : narrowerOrEquivalent ops u.2 s.2 shortest with
        | false => rfl
        | true => exact absurd ⟨u, hu, huk, hv⟩ hno
      obtain ⟨u, hu, huk, hunoe⟩ := hex
      have hst : narrowerOrEquivalent ops t.2 s.2 shortest = false :=
        hanti s hs t ht hne hnoe
      have hlt : m.countP
            (fun v => decide (v.1 ≠ s.1) && narrowerOrEquivalent ops v.2 s.2 shortest) <
          m.countP (fun v => decide (v.1 ≠ t.1) && narrowerOrEquivalent ops v.2 t.2 shortest) := by
        apply countP_lt_of_imp
        · intro v hv hp
          simp only [Bool.and_eq_true, decide_eq_true_eq] at hp ⊢
          refine ⟨?_, htrans v hv s hs t ht hp.2 hnoe⟩
          intro hvt
          have hveq : v = t := by
            have h1 : (t.1, v.2) ∈ m := by rw [← hvt]; exact hv
            have h2 : (t.1, t.2) ∈ m := ht
            have := entry_eq_of_nodup_keys hnd h1 h2
            exact Prod.ext hvt this
          rw [hveq, hst] at hp
          exact absurd hp.2 (by simp)
        · exact ⟨s, hs, by simp [hne, hnoe], by simp⟩
      obtain ⟨r, hr, hrk, hrnoe, hrund⟩ := ih s hs (by omega) u hu huk hunoe
      refine ⟨r, hr, ?_, htrans r hr s hs t ht hrnoe hnoe, hrund⟩
      intro hrt
      have hreq : r = t := by
        have h1 : (t.1, r.2) ∈ m := by rw [← hrt]; exact hr
        have := entry_eq_of_nodup_keys hnd h1 (show (t.1, t.2) ∈ m from ht)
        exact Prod.ext hrt this
      rw [hreq, hst] at hrnoe
      exact absurd hrnoe (by simp)

/-- With transitive and one-way dominance on a map with distinct keys,
minimalIndexes returns the undominated entries, whatever the iteration
orders. -/
theorem minimalIndexes_undominated (ops : Env) (outer : MapOrder) (inner : Index → MapOrder)
    (m : IndexMap) (shortest : Bool) (hnd : (m.map Prod.fst).Nodup)
    (htrans : ∀ a ∈ m, ∀ b ∈ m, ∀ c ∈ m, narrowerOrEquivalent ops a.2 b.2 shortest = true →
      narrowerOrEquivalent ops b.2 c.2 shortest = true →
      narrowerOrEquivalent ops a.2 c.2 shortest = true)
    (hanti : ∀ a ∈ m, ∀ b ∈ m, a.1 ≠ b.1 → narrowerOrEquivalent ops a.2 b.2 shortest = true →
      narrowerOrEquivalent ops b.2 a.2 shortest = false) :
    minimalIndexes ops outer inner m shortest = m.filter (undominated ops shortest m) := by
  unfold minimalIndexes
  obtain ⟨P, hP⟩ := minimalOuter_filter ops shortest inner (outer.seq m) m
  have hkeep : ∀ t ∈ m, undominated ops shortest m t = true →
      t ∈ minimalOuter ops shortest inner (outer.seq m) m := by
    intro t ht hund
    by_contra hout
    obtain ⟨q, hq, te, hte, hne, hnoe⟩ :=
      minimalOuter_kept ops shortest inner _ m t ht hout
    have hteq : te = t.2 := entry_eq_of_nodup_keys hnd hte (show (t.1, t.2) ∈ m from ht)
    rw [hteq] at hnoe
    have := (undominated_iff ops shortest m t).mp hund q ((outer.perm m).mem_iff.mp hq) hne
    rw [this] at hnoe
    exact absurd hnoe (by simp)
  have hdrop : ∀ t ∈ minimalOuter ops shortest inner (outer.seq m) m,
      undominated ops shortest m t = true := by
    intro t htin
    have ht : t ∈ m := minimalOuter_mem ops shortest inner _ m t htin
    rw [undominated_iff]
    intro s hs hne
    cases hv : narrowerOrEquivalent ops s.2 t.2 shortest with
    | false => rfl
    | true =>
      exfalso
      obtain ⟨r, hr, hrk, hrnoe, hrund⟩ :=
        exists_undominated ops shortest m hnd htrans hanti _ t ht (Nat.le_refl _) s hs hne hv
      have hrin := hkeep r hr hrund
      have := minimalOuter_no_dominance ops shortest inner r.1 t.1 r.2 t.2 hrk _ m
        ((outer.perm m).mem_iff.mpr hr) hrin htin
      rw [this] at hrnoe
      exact absurd hrnoe (by simp)
  rw [hP] at hkeep hdrop ⊢
  apply List.filter_congr
  intro t ht
  cases hund : undominated ops shortest m t with
  | true => exact (List.mem_filter.mp (hkeep t ht hund)).2
  | false =>
    cases hp : P t with
    | false => rfl
    | true =>
      have := hdrop t (List.mem_filter.mpr ⟨ht, hp⟩)
      rw [hund] at this
      exact absurd this (by simp)

/-- Counterexample to C35 as stated: each of the two sample candidates is
narrower than or equivalent to the other; when the outer loop follows the map
the first is returned, when it runs backwards the second. -/
theorem iteration_order_counterexample :
    minimalIndexes sampleOps MapOrder.id (fun _ => MapOrder.id) sampleTie true =
        [sampleEntry 1 [Expression.atom 101, Expression.atom 103] 1 2] ∧
      minimalIndexes sampleOps MapOrder.rev (fun _ => MapOrder.id) sampleTie true =
        [sampleEntry 2 [Expression.atom 101] 1 1] ∧
      ¬ (∀ p, p ∈ minimalIndexes sampleOps MapOrder.id (fun _ => MapOrder.id) sampleTie true ↔
        p ∈ minimalIndexes sampleOps MapOrder.rev (fun _ => MapOrder.id) sampleTie true) := by
  have h1 : minimalIndexes sampleOps MapOrder.id (fun _ => MapOrder.id) sampleTie true =
      [sampleEntry 1 [Expression.atom 101, Expression.atom 103] 1 2] := by decide
  have h2 : minimalIndexes sampleOps MapOrder.rev (fun _ => MapOrder.id) sampleTie true =
      [sampleEntry 2 [Expression.atom 101] 1 1] := by decide
  refine ⟨h1, h2, ?_⟩
  intro h
  have h3 := (h (sampleEntry 1 [Expression.atom 101, Expression.atom 103] 1 2)).mp
    (by rw [h1]; exact List.mem_cons_self _ _)
  rw [h2] at h3
  revert h3
  decide

/-- C35, amended: on a candidate map with distinct keys on which
narrowerOrEquivalent (with the flag `shortest`) is transitive and never holds
both ways between two entries with distinct keys, minimalIndexes returns the
same entries for every iteration order of its two loops: the entries that no
entry with another key is narrower than or equivalent to. -/
theorem minimalIndexes_order_independent (ops : Env) (outer outer2 : MapOrder)
    (inner inner2 : Index → MapOrder) (m : IndexMap) (shortest : Bool)
    (hnd : (m.map Prod.fst).Nodup)
    (htrans : ∀ a ∈ m, ∀ b ∈ m, ∀ c ∈ m, narrowerOrEquivalent ops a.2 b.2 shortest = true →
      narrowerOrEquivalent ops b.2 c.2 shortest = true →
      narrowerOrEquivalent ops a.2 c.2 shortest = true)
    (hanti : ∀ a ∈ m, ∀ b ∈ m, a.1 ≠ b.1 → narrowerOrEquivalent ops a.2 b.2 shortest = true →
      narrowerOrEquivalent ops b.2 a.2 shortest = false) :
    minimalIndexes ops outer inner m shortest = minimalIndexes ops outer2 inner2 m shortest ∧
      minimalIndexes ops outer inner m shortest = m.filter (undominated ops shortest m) := by
  rw [minimalIndexes_undominated ops outer inner m shortest hnd htrans hanti,
    minimalIndexes_undominated ops outer2 inner2 m shortest hnd htrans hanti]
  exact ⟨rfl, rfl⟩

/-- Witness of C35, amended: on the three sample candidates the first is
narrower than the third and nothing else holds; both iteration orders return
the first two. -/
theorem minimalIndexes_order_independent_witness :
    (sampleDominated.map Prod.fst).Nodup ∧
      minimalIndexes sampleOps MapOrder.id (fun _ => MapOrder.id) sampleDominated true =
        minimalIndexes sampleOps MapOrder.rev (fun _ => MapOrder.rev) sampleDominated true ∧
      minimalIndexes sampleOps MapOrder.id (fun _ => MapOrder.id) sampleDominated true =
        sampleDominated.filter (undominated sampleOps true sampleDominated) ∧
      sampleDominated.filter (undominated sampleOps true sampleDominated) =
        [sampleEntry 1 [Expression.atom 101] 1 2, sampleEntry 2 [Expression.atom 102] 1 1] :=
  have h := minimalIndexes_order_independent sampleOps MapOrder.id MapOrder.rev
    (fun _ => MapOrder.id) (fun _ => MapOrder.rev) sampleDominated true (by decide)
    (by decide) (by decide)
  ⟨by decide, h.1, h.2, by decide⟩

/-! ## The result of minimalIndexes is not empty -/

theorem minimalInner_keeps_own (ops : Env) (shortest : Bool) (s : Index) (se : indexEntry)
    (todo : List (Index × indexEntry)) (m : IndexMap) (p : Index × indexEntry)
    (hp : p ∈ m) (hk : p.1 = s) : p ∈ minimalInner ops shortest s se todo m := by
  by_contra hout
  obtain ⟨_, _, hne, _⟩ := minimalInner_kept ops shortest s se todo m p hp hout
  exact hne hk

theorem minimalOuter_nonempty (ops : Env) (shortest : Bool) (inner : Index → MapOrder)
    (todo : List (Index × indexEntry)) :
    ∀ (m : IndexMap), m ≠ [] → minimalOuter ops shortest inner todo m ≠ [] := by
  induction todo with
  | nil => intro m h; exact h
  | cons hd tl ih =>
    obtain ⟨s, se⟩ := hd
    intro m h
    unfold minimalOuter
    split
    · exact ih m h
    · rename_i hk
      apply ih
      have hk2 : hasKey m s = true := by simpa using hk
      unfold hasKey at hk2
      obtain ⟨p, hp, hps⟩ := List.any_eq_true.mp hk2
      have hin := minimalInner_keeps_own ops shortest s se ((inner s).seq m) m p hp
        (by simpa using hps)
      exact List.ne_nil_of_mem hin

/-- C36: on a candidate map that is not empty, whatever the iteration orders,
minimalIndexes returns a map that is not empty; its entries are entries of the
input, unchanged and in the order of the input. -/
theorem minimalIndexes_nonempty_subset (ops : Env) (outer : MapOrder)
    (inner : Index → MapOrder) (m : IndexMap) (shortest : Bool) (hm : m ≠ []) :
    minimalIndexes ops outer inner m shortest ≠ [] ∧
      (∀ p ∈ minimalIndexes ops outer inner m shortest, p ∈ m) ∧
      (minimalIndexes ops outer inner m shortest).Sublist m := by
  refine ⟨minimalOuter_nonempty ops shortest inner _ m hm,
    fun p hp => minimalOuter_mem ops shortest inner _ m p hp, ?_⟩
  unfold minimalIndexes
  obtain ⟨P, hP⟩ := minimalOuter_filter ops shortest inner (outer.seq m) m
  rw [hP]
  exact List.filter_sublist m

/-- Witness of C36: of the two sample candidates that are each narrower than
or equivalent to the other, one is returned. -/
theorem minimalIndexes_nonempty_subset_witness :
    sampleTie ≠ [] ∧
      minimalIndexes sampleOps MapOrder.rev (fun _ => MapOrder.id) sampleTie true ≠ [] ∧
      (∀ p ∈ minimalIndexes sampleOps MapOrder.rev (fun _ => MapOrder.id) sampleTie true,
        p ∈ sampleTie) ∧
      (minimalIndexes sampleOps MapOrder.rev (fun _ => MapOrder.id) sampleTie true).Sublist
        sampleTie :=
  ⟨by decide,
    minimalIndexes_nonempty_subset sampleOps MapOrder.rev (fun _ => MapOrder.id) sampleTie true
      (by decide)⟩

end Planner

namespace Execution

/-! ## Claims on processAnsiNest -/

theorem field_setField (item : AnnotatedValue) (name : String) (val : Value) :
    (item.SetField name val).Field name = some val := by
  obtain ⟨fields⟩ := item
  unfold AnnotatedValue.SetField AnnotatedValue.Field
  simp only
  induction fields with
  | nil => simp
  | cons hd tl ih =>
    by_cases hk : hd.1 = name
    · simp [hk]
    · by_cases hany : (tl.any (fun p => p.1 == name)) = true
      · simp only [hany, if_true] at ih
        simp [hk, hany, List.find?_cons]
        simpa using ih
      · simp only [hany, if_false, Bool.false_eq_true] at ih
        simp [hk, hany, List.find?_cons]
        simpa using ih

theorem nestValues_all (nestAlias : String) (right_items : List AnnotatedValue) :
    ∀ (vals : List Value), (∀ r ∈ right_items, (r.Field nestAlias).isSome = true) →
      ∃ found, nestValues nestAlias right_items vals = some (vals ++ found) ∧
        right_items.map (fun r => r.Field nestAlias) = found.map some := by
  induction right_items with
  | nil => intro vals _; exact ⟨[], by simp [nestValues], rfl⟩
  | cons hd tl ih =>
    intro vals h
    have hhd := h hd (List.mem_cons_self _ _)
    cases hf : hd.Field nestAlias with
    | none => rw [hf] at hhd; simp at hhd
    | some val =>
      obtain ⟨found, h1, h2⟩ := ih (vals ++ [val]) (fun r hr => h r (List.mem_cons_of_mem _ hr))
      refine ⟨val :: found, ?_, ?_⟩
      · rw [nestValues, hf]
        simp only
        rw [h1, List.append_assoc]
        rfl
      · rw [List.map_cons, hf, h2]
        rfl

theorem nestValues_missing (nestAlias : String) (right_items : List AnnotatedValue) :
    ∀ (vals : List Value), (∃ r ∈ right_items, r.Field nestAlias = none) →
      nestValues nestAlias right_items vals = none := by
  induction right_items with
  | nil => intro vals h; obtain ⟨r, hr, _⟩ := h; simp at hr
  | cons hd tl ih =>
    intro vals h
    rw [nestValues]
    cases hf : hd.Field nestAlias with
    | none => rfl
    | some val =>
      simp only
      apply ih
      obtain ⟨r, hr, hn⟩ := h
      rcases List.mem_cons.mp hr with heq | hr
      · rw [heq, hf] at hn; simp at hn
      · exact ⟨r, hr, hn⟩

/-- C17: for a left item with no matching right items, processAnsiNest hands
exactly one item to sendItem when plan.Outer() is true, the left item with the
nest alias set to the empty array, reports no error and returns what sendItem
returns; when plan.Outer() is false it sends nothing, reports no error and
returns true. -/
theorem processAnsiNest_no_match (plan : AnsiNestPlan) (sendOk : AnnotatedValue → Bool)
    (item : AnnotatedValue) (eff : NestEffects) :
    (plan.Outer = true →
      processAnsiNest plan sendOk item [] eff =
        ({ eff with sent := eff.sent ++ [item.SetField plan.Alias EMPTY_ARRAY_VALUE] },
          sendOk (item.SetField plan.Alias EMPTY_ARRAY_VALUE)) ∧
      (item.SetField plan.Alias EMPTY_ARRAY_VALUE).Field plan.Alias = some (Value.array [])) ∧
    (plan.Outer = false → processAnsiNest plan sendOk item [] eff = (eff, true)) := by
  constructor
  · intro h
    refine ⟨?_, field_setField item plan.Alias EMPTY_ARRAY_VALUE⟩
    simp [processAnsiNest, h, sendItem]
  · intro h
    simp [processAnsiNest, h]

/-- Witness of C17 on the sample left item, for an outer and for an inner
nest. -/
theorem processAnsiNest_no_match_witness :
    (processAnsiNest { Alias := "r", Outer := true } (fun _ => true) sampleItem []
        noNestEffects).1.sent.length = 1 ∧
      processAnsiNest { Alias := "r", Outer := false } (fun _ => true) sampleItem []
        noNestEffects = (noNestEffects, true) :=
  ⟨by
    rw [((processAnsiNest_no_match { Alias := "r", Outer := true } (fun _ => true) sampleItem
      noNestEffects).1 rfl).1]
    rfl,
   (processAnsiNest_no_match { Alias := "r", Outer := false } (fun _ => true) sampleItem
      noNestEffects).2 rfl⟩

/-- C18: for a left item and a non-empty list of matching right items that
all have the alias field, processAnsiNest hands exactly one item to sendItem:
the left item with the nest alias set to an array that has one element per
match, the i-th being the alias field of the i-th match; it reports no error
and returns what sendItem returns. -/
theorem processAnsiNest_matches (plan : AnsiNestPlan) (sendOk : AnnotatedValue → Bool)
    (item : AnnotatedValue) (right_items : List AnnotatedValue) (eff : NestEffects)
    (hne : right_items ≠ [])
    (hall : ∀ r ∈ right_items, (r.Field plan.Alias).isSome = true) :
    ∃ vals, vals.length = right_items.length ∧
      right_items.map (fun r => r.Field plan.Alias) = vals.map some ∧
      (∀ i (h1 : i < vals.length) (h2 : i < right_items.length),
        (right_items.get ⟨i, h2⟩).Field plan.Alias = some (vals.get ⟨i, h1⟩)) ∧
      processAnsiNest plan sendOk item right_items eff =
        ({ eff with sent := eff.sent ++ [item.SetField plan.Alias (Value.array vals)] },
          sendOk (item.SetField plan.Alias (Value.array vals))) ∧
      (item.SetField plan.Alias (Value.array vals)).Field plan.Alias =
        some (Value.array vals) := by
  obtain ⟨vals, h1, h2⟩ := nestValues_all plan.Alias right_items [] hall
  have hlen : vals.length = right_items.length := by
    have := congrArg List.length h2
    simp only [List.length_map] at this
    exact this.symm
  refine ⟨vals, hlen, h2, ?_, ?_, field_setField item plan.Alias (Value.array vals)⟩
  · intro i hi1 hi2
    have hget : (right_items.map (fun r => r.Field plan.Alias))[i]? = (vals.map some)[i]? := by
      rw [h2]
    rw [List.getElem?_map, List.getElem?_map, List.getElem?_eq_getElem hi2,
      List.getElem?_eq_getElem hi1] at hget
    simpa using hget
  · have hlen0 : ¬ (right_items.length = 0) := by
      intro h0
      exact hne (List.length_eq_zero.mp h0)
    rw [List.nil_append] at h1
    simp [processAnsiNest, hlen0, h1, sendItem]

/-- Witness of C18 on two right items holding the scalars 5 and 6. -/
theorem processAnsiNest_matches_witness :
    [sampleRight 5, sampleRight 6] ≠ [] ∧
      (∀ r ∈ [sampleRight 5, sampleRight 6], (r.Field "r").isSome = true) ∧
      ∃ vals, vals.length = 2 ∧
        (processAnsiNest { Alias := "r", Outer := false } (fun _ => true) sampleItem
          [sampleRight 5, sampleRight 6] noNestEffects).1.sent =
            [sampleItem.SetField "r" (Value.array vals)] :=
  have hall : ∀ r ∈ [sampleRight 5, sampleRight 6], (r.Field "r").isSome = true := by
    intro r hr
    simp only [List.mem_cons, List.mem_singleton, List.not_mem_nil, or_false] at hr
    rcases hr with rfl | rfl <;> rfl
  ⟨by simp, hall,
    match processAnsiNest_matches { Alias := "r", Outer := false } (fun _ => true) sampleItem
      [sampleRight 5, sampleRight 6] noNestEffects (by simp) hall with
    | ⟨vals, h1, _, _, h4, _⟩ => ⟨vals, h1, by rw [h4]; rfl⟩⟩

/-- C19: if some matching right item lacks the nest alias field,
processAnsiNest reports one execution internal error through context.Error,
hands no item to sendItem, and returns false. -/
theorem processAnsiNest_missing_alias (plan : AnsiNestPlan) (sendOk : AnnotatedValue → Bool)
    (item : AnnotatedValue) (right_items : List AnnotatedValue) (eff : NestEffects)
    (hmiss : ∃ r ∈ right_items, r.Field plan.Alias = none) :
    processAnsiNest plan sendOk item right_items eff =
      ({ sent := eff.sent,
         errors := eff.errors ++ [ExecError.NewExecutionInternalError
           ("processAnsiNest: annotated value not found for " ++ plan.Alias)] }, false) := by
  have hlen0 : ¬ (right_items.length = 0) := by
    intro h0
    obtain ⟨r, hr, _⟩ := hmiss
    rw [List.length_eq_zero.mp h0] at hr
    simp at hr
  simp [processAnsiNest, hlen0, nestValues_missing plan.Alias right_items [] hmiss]

/-- Witness of C19: the second right item has no field "r". -/
theorem processAnsiNest_missing_alias_witness :
    (∃ r ∈ [sampleRight 5, sampleItem], r.Field "r" = none) ∧
      processAnsiNest { Alias := "r", Outer := true } (fun _ => true) sampleItem
        [sampleRight 5, sampleItem] noNestEffects =
        ({ sent := [],
           errors := [ExecError.NewExecutionInternalError
             ("processAnsiNest: annotated value not found for " ++ "r")] }, false) :=
  ⟨⟨sampleItem, by simp, rfl⟩,
    processAnsiNest_missing_alias { Alias := "r", Outer := true } (fun _ => true) sampleItem
      [sampleRight 5, sampleItem] noNestEffects ⟨sampleItem, by simp, rfl⟩⟩

/-! ## Claims on scanPrimary -/

theorem receiveEntries_keeps (phaseUpdateCount : Nat) (entries : List IndexEntry) :
    ∀ (r : Received),
      (receiveEntries phaseUpdateCount entries r).eff.errors = r.eff.errors ∧
      (receiveEntries phaseUpdateCount entries r).eff.chunks = r.eff.chunks := by
  induction entries with
  | nil => intro r; exact ⟨rfl, rfl⟩
  | cons hd tl ih =>
    intro r
    unfold receiveEntries
    simp only
    split
    · exact ih _
    · exact ih _

theorem flushDocs_keeps (docs : Nat) (eff : ScanEffects) :
    (flushDocs docs eff).errors = eff.errors ∧ (flushDocs docs eff).chunks = eff.chunks := by
  unfold flushDocs
  split <;> exact ⟨rfl, rfl⟩

/-- C20: when the first scan of scanPrimary ends (the entry channel is closed,
the operator was not stopped) with conn.Timeout() true and the plan has a
non-nil Offset, a non-empty list of OrderTerms or non-nil GroupAggs,
scanPrimary returns, having reported exactly one error through context.Error,
the scan-timeout error, and having started no chunked scan. -/
theorem scanPrimary_timeout_exact (env : ScanEnv) (plan : PrimaryScan3Plan) (fuel : Nat)
    (eff : ScanEffects)
    (hrun : env.scanEntries.stopped = false) (htimeout : env.scanEntries.timeout = true)
    (hexact : plan.Offset ≠ none ∨ plan.OrderTerms ≠ [] ∨ plan.GroupAggs ≠ none) :
    ∃ res, scanPrimary env plan fuel eff = some res ∧
      res.errors = eff.errors ++ [ExecError.NewCbIndexScanTimeoutError] ∧
      res.chunks = eff.chunks := by
  have hc : (plan.Offset.isSome || decide (plan.OrderTerms.length > 0) ||
      plan.GroupAggs.isSome) = true := by
    rcases hexact with h | h | h
    · cases ho : plan.Offset with
      | none => exact absurd ho h
      | some o => simp
    · have : plan.OrderTerms.length > 0 := List.length_pos.mpr h
      simp [this]
    · cases hg : plan.GroupAggs with
      | none => exact absurd hg h
      | some g => simp
  have hk := receiveEntries_keeps env.PHASE_UPDATE_COUNT env.scanEntries.entries
    { eff := eff, nitems := 0, docs := 0, lastEntry := none }
  unfold scanPrimary
  simp only [hrun, htimeout, hc, Bool.false_eq_true, if_false, if_true]
  refine ⟨_, rfl, ?_, ?_⟩
  · rw [(flushDocs_keeps _ _).1]
    simp only
    rw [hk.1]
  · rw [(flushDocs_keeps _ _).2]
    simp only
    rw [hk.2]

/-- Witness of C20: the sample first scan delivers two keys and times out; with
a plan that has an offset, scanPrimary reports the scan-timeout error and
starts no chunked scan, whatever the fuel. -/
theorem scanPrimary_timeout_exact_witness :
    sampleScanEnv.scanEntries.stopped = false ∧ sampleScanEnv.scanEntries.timeout = true ∧
      (∃ res, scanPrimary sampleScanEnv { Offset := some 1, OrderTerms := [], GroupAggs := none }
          0 noScanEffects = some res ∧
        res.errors = noScanEffects.errors ++ [ExecError.NewCbIndexScanTimeoutError] ∧
        res.chunks = noScanEffects.chunks) ∧
      scanPrimary sampleScanEnv { Offset := some 1, OrderTerms := [], GroupAggs := none } 0
        noScanEffects =
        some { sent := ["a", "b"], errors := [ExecError.NewCbIndexScanTimeoutError],
               phaseCounts := [2], chunks := [] } :=
  ⟨rfl, rfl,
    scanPrimary_timeout_exact sampleScanEnv
      { Offset := some 1, OrderTerms := [], GroupAggs := none } 0 noScanEffects rfl rfl
      (Or.inl (by simp)),
    by decide⟩

/-! ## The chunked scans -/

theorem receiveEntries_sent (phaseUpdateCount : Nat) (entries : List IndexEntry) :
    ∀ (r : Received),
      (receiveEntries phaseUpdateCount entries r).eff.sent =
        r.eff.sent ++ entries.map (fun e => e.PrimaryKey) ∧
      (receiveEntries phaseUpdateCount entries r).nitems = r.nitems + entries.length ∧
      (receiveEntries phaseUpdateCount entries r).lastEntry =
        entries.foldl (fun _ e => some e) r.lastEntry := by
  induction entries with
  | nil => intro r; exact ⟨by simp [receiveEntries], rfl, rfl⟩
  | cons hd tl ih =>
    intro r
    unfold receiveEntries
    simp only
    split
    · obtain ⟨h1, h2, h3⟩ := ih
        { eff := { sent := r.eff.sent ++ [hd.PrimaryKey], errors := r.eff.errors,
                   phaseCounts := r.eff.phaseCounts ++ [r.docs + 1], chunks := r.eff.chunks },
          nitems := r.nitems + 1, docs := 0, lastEntry := some hd }
      refine ⟨?_, ?_, ?_⟩
      · rw [h1]; simp
      · rw [h2]; simp; omega
      · rw [h3]; rfl
    · obtain ⟨h1, h2, h3⟩ := ih
        { eff := { sent := r.eff.sent ++ [hd.PrimaryKey], errors := r.eff.errors,
                   phaseCounts := r.eff.phaseCounts, chunks := r.eff.chunks },
          nitems := r.nitems + 1, docs := r.docs + 1, lastEntry := some hd }
      refine ⟨?_, ?_, ?_⟩
      · rw [h1]; simp
      · rw [h2]; simp; omega
      · rw [h3]; rfl

theorem foldl_last_some {α : Type} (l : List α) :
    ∀ (a : α), l.foldl (fun _ e => some e) (some a) = some ((l.getLast?).getD a) := by
  induction l with
  | nil => intro a; rfl
  | cons hd tl ih =>
    intro a
    rw [List.foldl_cons, ih hd]
    cases tl with
    | nil => rfl
    | cons b t => rw [List.getLast?_cons_cons]; cases h : (b :: t).getLast? with
      | none => simp at h
      | some x => rfl

theorem foldl_last_none {α : Type} (l : List α) :
    l.foldl (fun _ e => some e) none = l.getLast? := by
  cases l with
  | nil => rfl
  | cons hd tl =>
    rw [List.foldl_cons, foldl_last_some tl hd]
    cases tl with
    | nil => rfl
    | cons b t => rw [List.getLast?_cons_cons]; cases h : (b :: t).getLast? with
      | none => simp at h
      | some x => rfl

/-- What one chunked scan does to the effects, and the entry it returns. -/
theorem scanPrimaryChunk_spec (env : ScanEnv) (eff : ScanEffects) (chunkSize : Nat)
    (indexEntry : IndexEntry) :
    (scanPrimaryChunk env eff chunkSize indexEntry).1.chunks =
        eff.chunks ++ [chunkRequest chunkSize indexEntry] ∧
      (scanPrimaryChunk env eff chunkSize indexEntry).1.sent =
        eff.sent ++ (env.scanChunk eff.chunks.length
          (chunkRequest chunkSize indexEntry)).entries.map (fun e => e.PrimaryKey) ∧
      (scanPrimaryChunk env eff chunkSize indexEntry).1.errors = eff.errors ∧
      (scanPrimaryChunk env eff chunkSize indexEntry).2 =
        if (env.scanChunk eff.chunks.length (chunkRequest chunkSize indexEntry)).stopped
        then none
        else (env.scanChunk eff.chunks.length
          (chunkRequest chunkSize indexEntry)).lastDelivered := by
  have hk := receiveEntries_keeps env.PHASE_UPDATE_COUNT
    (env.scanChunk eff.chunks.length (chunkRequest chunkSize indexEntry)).entries
    { eff := { eff with chunks := eff.chunks ++ [chunkRequest chunkSize indexEntry] },
      nitems := 0, docs := 0, lastEntry := none }
  have hs := receiveEntries_sent env.PHASE_UPDATE_COUNT
    (env.scanChunk eff.chunks.length (chunkRequest chunkSize indexEntry)).entries
    { eff := { eff with chunks := eff.chunks ++ [chunkRequest chunkSize indexEntry] },
      nitems := 0, docs := 0, lastEntry := none }
  rw [foldl_last_none] at hs
  unfold scanPrimaryChunk
  simp only
  refine ⟨?_, ?_, ?_, ?_⟩
  · split <;> split <;> exact hk.2
  · split <;> split <;> exact hs.1
  · split <;> split <;> exact hk.1
  · split
    · rfl
    · exact hs.2.2

theorem chunkChain_of_returned (env : ScanEnv) (request : IndexEntry → ChunkRequest) (n : Nat)
    (stopped : Bool) (last : Option IndexEntry) (reqs : List ChunkRequest)
    (h : chunkChain env request n (if stopped then none else last) reqs) :
    chunkChain env request n last reqs := by
  cases reqs with
  | nil => trivial
  | cons req rest =>
    obtain ⟨⟨e, he, hreq⟩, hrest⟩ := h
    cases stopped with
    | true => simp at he
    | false => exact ⟨⟨e, he, hreq⟩, hrest⟩

/-- The chunk requests of the loop of chunked scans: each is the request for
the entry that the scan before delivered last, with the size of the loop. -/
theorem chunkLoop_chain (env : ScanEnv) (chunkSize : Nat) :
    ∀ (fuel : Nat) (last : Option IndexEntry) (eff res : ScanEffects),
      chunkLoop env chunkSize fuel last eff = some res →
      ∃ new, res.chunks = eff.chunks ++ new ∧
        chunkChain env (chunkRequest chunkSize) eff.chunks.length last new := by
  intro fuel
  induction fuel with
  | zero =>
    intro last eff res h
    cases last with
    | none =>
      simp only [chunkLoop, Option.some.injEq] at h
      subst h
      exact ⟨[], by simp, trivial⟩
    | some e => simp [chunkLoop] at h
  | succ k ih =>
    intro last eff res h
    cases last with
    | none =>
      simp only [chunkLoop, Option.some.injEq] at h
      subst h
      exact ⟨[], by simp, trivial⟩
    | some e =>
      rw [chunkLoop] at h
      obtain ⟨new, hnew, hchain⟩ := ih _ _ _ h
      obtain ⟨hc, _, _, hl⟩ := scanPrimaryChunk_spec env eff chunkSize e
      rw [hc] at hnew hchain
      rw [hl] at hchain
      refine ⟨chunkRequest chunkSize e :: new, by rw [hnew]; simp, ⟨e, rfl, rfl⟩, ?_⟩
      have hlen : (eff.chunks ++ [chunkRequest chunkSize e]).length = eff.chunks.length + 1 := by
        simp
      rw [hlen] at hchain
      exact chunkChain_of_returned _ _ _ _ _ _ hchain

theorem flushDocs_sent (docs : Nat) (eff : ScanEffects) :
    (flushDocs docs eff).sent = eff.sent := by
  unfold flushDocs
  split <;> rfl

theorem timeoutEffects_keeps (r : Received) :
    (if r.lastEntry.isNone then
        { sent := r.eff.sent, errors := r.eff.errors ++ [ExecError.NewCbIndexScanTimeoutError],
          phaseCounts := r.eff.phaseCounts, chunks := r.eff.chunks }
      else r.eff).chunks = r.eff.chunks ∧
    (if r.lastEntry.isNone then
        { sent := r.eff.sent, errors := r.eff.errors ++ [ExecError.NewCbIndexScanTimeoutError],
          phaseCounts := r.eff.phaseCounts, chunks := r.eff.chunks }
      else r.eff).sent = r.eff.sent := by
  constructor <;> split <;> rfl

/-- The chunk requests of scanPrimary: each is the request for the entry that
the scan before delivered last, with the number of entries of the first scan
as size. -/
theorem scanPrimary_chain (env : ScanEnv) (plan : PrimaryScan3Plan) (fuel : Nat)
    (eff res : ScanEffects) (h : scanPrimary env plan fuel eff = some res) :
    ∃ new, res.chunks = eff.chunks ++ new ∧
      chunkChain env (chunkRequest env.scanEntries.entries.length) eff.chunks.length
        env.scanEntries.lastDelivered new := by
  have hk := receiveEntries_keeps env.PHASE_UPDATE_COUNT env.scanEntries.entries
    { eff := eff, nitems := 0, docs := 0, lastEntry := none }
  have hs := receiveEntries_sent env.PHASE_UPDATE_COUNT env.scanEntries.entries
    { eff := eff, nitems := 0, docs := 0, lastEntry := none }
  rw [foldl_last_none] at hs
  unfold scanPrimary at h
  simp only at h
  split at h
  · simp only [Option.some.injEq] at h
    subst h
    exact ⟨[], by rw [(flushDocs_keeps _ _).2, hk.2]; simp, trivial⟩
  · split at h
    · split at h
      · simp only [Option.some.injEq] at h
        subst h
        exact ⟨[], by rw [(flushDocs_keeps _ _).2]; simp only; rw [hk.2]; simp, trivial⟩
      · rw [Option.map_eq_some'] at h
        obtain ⟨res1, hloop, hres⟩ := h
        subst hres
        obtain ⟨new, hnew, hchain⟩ := chunkLoop_chain _ _ _ _ _ _ hloop
        rw [(timeoutEffects_keeps _).1, hk.2] at hnew hchain
        rw [hs.2.1, hs.2.2] at hchain
        simp only [Nat.zero_add] at hchain
        exact ⟨new, by rw [(flushDocs_keeps _ _).2, hnew], hchain⟩
    · simp only [Option.some.injEq] at h
      subst h
      exact ⟨[], by rw [(flushDocs_keeps _ _).2, hk.2]; simp, trivial⟩

/-- The chunk requests issued in the first passes of the loop of chunked scans,
whether the loop ends or not: each is the request for the entry that the scan
before delivered last, with the size of the loop. -/
theorem chunkLoopPrefix_chain (env : ScanEnv) (chunkSize : Nat) :
    ∀ (n : Nat) (last : Option IndexEntry) (eff : ScanEffects),
      ∃ new, (chunkLoopPrefix env chunkSize n last eff).1.chunks = eff.chunks ++ new ∧
        chunkChain env (chunkRequest chunkSize) eff.chunks.length last new := by
  intro n
  induction n with
  | zero =>
    intro last eff
    cases last with
    | none => exact ⟨[], by simp [chunkLoopPrefix], trivial⟩
    | some e => exact ⟨[], by simp [chunkLoopPrefix], trivial⟩
  | succ k ih =>
    intro last eff
    cases last with
    | none => exact ⟨[], by simp [chunkLoopPrefix], trivial⟩
    | some e =>
      rw [chunkLoopPrefix]
      obtain ⟨new, hnew, hchain⟩ := ih (scanPrimaryChunk env eff chunkSize e).2
        (scanPrimaryChunk env eff chunkSize e).1
      obtain ⟨hc, _, _, hl⟩ := scanPrimaryChunk_spec env eff chunkSize e
      rw [hc] at hnew hchain
      rw [hl] at hchain
      refine ⟨chunkRequest chunkSize e :: new, by rw [hnew]; simp, ⟨e, rfl, rfl⟩, ?_⟩
      have hlen : (eff.chunks ++ [chunkRequest chunkSize e]).length = eff.chunks.length + 1 := by
        simp
      rw [hlen] at hchain
      exact chunkChain_of_returned _ _ _ _ _ _ hchain

/-- A loop of chunked scans that ends within the fuel returns the effects of
its passes. -/
theorem chunkLoop_eq_prefix (env : ScanEnv) (chunkSize : Nat) :
    ∀ (fuel : Nat) (last : Option IndexEntry) (eff res : ScanEffects),
      chunkLoop env chunkSize fuel last eff = some res →
      chunkLoopPrefix env chunkSize fuel last eff = (res, none) := by
  intro fuel
  induction fuel with
  | zero =>
    intro last eff res h
    cases last with
    | none =>
      simp only [chunkLoop, Option.some.injEq] at h
      subst h
      rfl
    | some e => simp [chunkLoop] at h
  | succ k ih =>
    intro last eff res h
    cases last with
    | none =>
      simp only [chunkLoop, Option.some.injEq] at h
      subst h
      rfl
    | some e =>
      rw [chunkLoop] at h
      rw [chunkLoopPrefix]
      exact ih _ _ _ h

theorem resumesAfterLast_of_chain (env : ScanEnv) (chunkSize : Nat) :
    ∀ (reqs : List ChunkRequest) (n : Nat) (prev : Option IndexEntry),
      chunkChain env (chunkRequest chunkSize) n prev reqs → resumesAfterLast env n prev reqs := by
  intro reqs
  induction reqs with
  | nil => intro n prev _; trivial
  | cons req rest ih =>
    intro n prev h
    obtain ⟨⟨e, he, hreq⟩, hrest⟩ := h
    refine ⟨⟨e, he, ?_, ?_, ?_⟩, ih _ _ hrest⟩ <;> rw [hreq] <;> rfl

theorem sizes_of_chain (env : ScanEnv) (chunkSize : Nat) :
    ∀ (reqs : List ChunkRequest) (n : Nat) (prev : Option IndexEntry),
      chunkChain env (chunkRequest chunkSize) n prev reqs →
      ∀ req ∈ reqs, req.connSize = chunkSize ∧ req.limit = chunkSize := by
  intro reqs
  induction reqs with
  | nil => intro n prev _ req hreq; simp at hreq
  | cons hd rest ih =>
    intro n prev h req hmem
    obtain ⟨⟨e, _, hhd⟩, hrest⟩ := h
    rcases List.mem_cons.mp hmem with heq | hin
    · rw [heq, hhd]; exact ⟨rfl, rfl⟩
    · exact ih _ _ hrest req hin

/-- C22: the chunk requests that scanPrimary has issued when it returns each
have a range whose only bound is a low bound, equal to the primary key of the
last entry that the scan before it delivered (the first scan for the first
chunk, the chunk before for the others), with inclusion NEITHER; and so do
the chunk requests issued in the first `n` passes of its loop of chunked scans,
whether the loop ends or not. -/
theorem scanPrimary_chunk_low_bound (env : ScanEnv) (plan : PrimaryScan3Plan) (fuel : Nat)
    (eff : ScanEffects) :
    (∀ res, scanPrimary env plan fuel eff = some res →
      ∃ new, res.chunks = eff.chunks ++ new ∧
        resumesAfterLast env eff.chunks.length env.scanEntries.lastDelivered new) ∧
    (∀ n eff0, ∃ new,
      (chunkLoopPrefix env env.scanEntries.entries.length n env.scanEntries.lastDelivered
        eff0).1.chunks = eff0.chunks ++ new ∧
      resumesAfterLast env eff0.chunks.length env.scanEntries.lastDelivered new) := by
  constructor
  · intro res h
    obtain ⟨new, hnew, hchain⟩ := scanPrimary_chain env plan fuel eff res h
    exact ⟨new, hnew, resumesAfterLast_of_chain _ _ _ _ _ hchain⟩
  · intro n eff0
    obtain ⟨new, hnew, hchain⟩ := chunkLoopPrefix_chain env env.scanEntries.entries.length n
      env.scanEntries.lastDelivered eff0
    exact ⟨new, hnew, resumesAfterLast_of_chain _ _ _ _ _ hchain⟩

/-- Witness of C22: the sample first scan delivers "a", "b", "c" and times out,
the chunk above "c" delivers "d", "e" and the chunk above "e" nothing; the two
chunk requests have the low bounds "c" and "e". -/
theorem scanPrimary_chunk_low_bound_witness :
    scanPrimary sampleShortChunkEnv samplePlainPlan 2 noScanEffects =
        some { sent := ["a", "b", "c", "d", "e"], errors := [], phaseCounts := [2, 3],
               chunks := [chunkRequest 3 ⟨"c"⟩, chunkRequest 3 ⟨"e"⟩] } ∧
      ∃ new, [chunkRequest 3 ⟨"c"⟩, chunkRequest 3 ⟨"e"⟩] = noScanEffects.chunks ++ new ∧
        resumesAfterLast sampleShortChunkEnv noScanEffects.chunks.length
          sampleShortChunkEnv.scanEntries.lastDelivered new :=
  ⟨by decide,
    (scanPrimary_chunk_low_bound sampleShortChunkEnv samplePlainPlan 2 noScanEffects).1
      { sent := ["a", "b", "c", "d", "e"], errors := [], phaseCounts := [2, 3],
        chunks := [chunkRequest 3 ⟨"c"⟩, chunkRequest 3 ⟨"e"⟩] } (by decide)⟩

/-- Counterexample to C23 as stated: the sample first scan delivers three
entries and times out, the first chunk delivers two entries, and the second
chunk is still issued with connection size and limit three. -/
theorem chunk_size_counterexample :
    scanPrimary sampleShortChunkEnv samplePlainPlan 2 noScanEffects =
        some { sent := ["a", "b", "c", "d", "e"], errors := [], phaseCounts := [2, 3],
               chunks := [chunkRequest 3 ⟨"c"⟩, chunkRequest 3 ⟨"e"⟩] } ∧
      (sampleShortChunkEnv.scanChunk 0 (chunkRequest 3 ⟨"c"⟩)).entries.length = 2 ∧
      (chunkRequest 3 ⟨"e"⟩).connSize = 3 ∧ (chunkRequest 3 ⟨"e"⟩).limit = 3 ∧
      ¬ sizedByPreceding sampleShortChunkEnv 0 sampleShortChunkEnv.scanEntries.entries.length
          [chunkRequest 3 ⟨"c"⟩, chunkRequest 3 ⟨"e"⟩] := by
  refine ⟨by decide, by decide, rfl, rfl, ?_⟩
  intro h
  have h2 := h.2.1.1
  revert h2
  decide

/-- C23, amended: every chunk request that scanPrimary has issued when it
returns has as connection size and as limit the number of entries that the
first scan delivered; and so has every chunk request issued in the first `n`
passes of its loop of chunked scans, whether the loop ends or not. -/
theorem scanPrimary_chunk_size (env : ScanEnv) (plan : PrimaryScan3Plan) (fuel : Nat)
    (eff : ScanEffects) :
    (∀ res, scanPrimary env plan fuel eff = some res →
      ∃ new, res.chunks = eff.chunks ++ new ∧
        ∀ req ∈ new, req.connSize = env.scanEntries.entries.length ∧
          req.limit = env.scanEntries.entries.length) ∧
    (∀ n eff0, ∃ new,
      (chunkLoopPrefix env env.scanEntries.entries.length n env.scanEntries.lastDelivered
        eff0).1.chunks = eff0.chunks ++ new ∧
      ∀ req ∈ new, req.connSize = env.scanEntries.entries.length ∧
        req.limit = env.scanEntries.entries.length) := by
  constructor
  · intro res h
    obtain ⟨new, hnew, hchain⟩ := scanPrimary_chain env plan fuel eff res h
    exact ⟨new, hnew, sizes_of_chain _ _ _ _ _ hchain⟩
  · intro n eff0
    obtain ⟨new, hnew, hchain⟩ := chunkLoopPrefix_chain env env.scanEntries.entries.length n
      env.scanEntries.lastDelivered eff0
    exact ⟨new, hnew, sizes_of_chain _ _ _ _ _ hchain⟩

/-- Witness of C23, amended: both chunk requests of the sample run have the
size three of the first scan. -/
theorem scanPrimary_chunk_size_witness :
    scanPrimary sampleShortChunkEnv samplePlainPlan 2 noScanEffects =
        some { sent := ["a", "b", "c", "d", "e"], errors := [], phaseCounts := [2, 3],
               chunks := [chunkRequest 3 ⟨"c"⟩, chunkRequest 3 ⟨"e"⟩] } ∧
      ∃ new, [chunkRequest 3 ⟨"c"⟩, chunkRequest 3 ⟨"e"⟩] = noScanEffects.chunks ++ new ∧
        ∀ req ∈ new, req.connSize = sampleShortChunkEnv.scanEntries.entries.length ∧
          req.limit = sampleShortChunkEnv.scanEntries.entries.length :=
  ⟨by decide,
    (scanPrimary_chunk_size sampleShortChunkEnv samplePlainPlan 2 noScanEffects).1
      { sent := ["a", "b", "c", "d", "e"], errors := [], phaseCounts := [2, 3],
        chunks := [chunkRequest 3 ⟨"c"⟩, chunkRequest 3 ⟨"e"⟩] } (by decide)⟩

theorem keysAbove_last (pre suf : List String) (e : String)
    (h : (pre ++ e :: suf).Nodup) : keysAbove (pre ++ e :: suf) [e] = suf := by
  show ((pre ++ e :: suf).dropWhile (fun x => x != e)).drop 1 = suf
  induction pre with
  | nil => simp [List.dropWhile]
  | cons a t ih =>
    have hne : a ≠ e := by
      intro hae
      have := (List.nodup_cons.mp h).1
      apply this
      rw [hae]
      simp
    have hnd : (t ++ e :: suf).Nodup := (List.nodup_cons.mp h).2
    rw [List.cons_append, List.dropWhile_cons]
    simp only [bne_iff_ne, ne_eq, hne, not_false_eq_true, if_true]
    exact ih hnd

theorem map_key_mk (l : List String) :
    (l.map IndexEntry.mk).map (fun e => e.PrimaryKey) = l := by
  induction l with
  | nil => rfl
  | cons a t ih => rw [List.map_cons, List.map_cons, ih]

/-- A non-empty list is its front and its last element. -/
theorem exists_front_last {α : Type} (l : List α) (h : l ≠ []) :
    ∃ front last, l = front ++ [last] := by
  rcases List.eq_nil_or_concat l with hnil | ⟨front, last, hl⟩
  · exact absurd hnil h
  · exact ⟨front, last, by rw [hl]; simp⟩

/-- The first `m` elements of a non-empty list, for `m` at least one, end in an
element that splits the list. -/
theorem take_split {α : Type} (l : List α) (m : Nat) (hm : 1 ≤ m) (h : l ≠ []) :
    ∃ mid e, l.take m = mid ++ [e] ∧ l = mid ++ e :: l.drop m ∧
      (l.drop m).length + 1 ≤ l.length := by
  have htake : l.take m ≠ [] := by
    intro h0
    rcases List.take_eq_nil_iff.mp h0 with h1 | h1
    · omega
    · exact h h1
  obtain ⟨mid, e, hmid⟩ := exists_front_last _ htake
  refine ⟨mid, e, hmid, ?_, ?_⟩
  · conv_lhs => rw [← List.take_append_drop m l, hmid]
    simp
  · have h1 : l.length ≠ 0 := fun h0 => h (List.length_eq_zero.mp h0)
    rw [List.length_drop]; omega

theorem chunkLoop_none (env : ScanEnv) (chunkSize fuel : Nat) (eff : ScanEffects) :
    chunkLoop env chunkSize fuel none eff = some eff := by
  cases fuel <;> rfl

/-- The loop of chunked scans over an index: from the entry `e`, with enough
fuel, it sends the keys after `e` in their order and ends. -/
theorem chunkLoop_index (keys : List String) (n c m : Nat) (hm : 1 ≤ m) (hnd : keys.Nodup) :
    ∀ (fuel : Nat) (pre : List String) (e : String) (suf : List String) (eff : ScanEffects),
      keys = pre ++ e :: suf → suf.length < fuel →
      ∃ res, chunkLoop (indexEnv keys n c) m fuel (some ⟨e⟩) eff = some res ∧
        res.sent = eff.sent ++ suf := by
  intro fuel
  induction fuel with
  | zero => intro pre e suf eff _ hlt; omega
  | succ k ih =>
    intro pre e suf eff hkeys hlt
    rw [chunkLoop]
    obtain ⟨_, hsent, _, hlast⟩ := scanPrimaryChunk_spec (indexEnv keys n c) eff m ⟨e⟩
    have habove : keysAbove keys [e] = suf := by
      rw [hkeys]; exact keysAbove_last pre suf e (hkeys ▸ hnd)
    have hrun : ((indexEnv keys n c).scanChunk eff.chunks.length (chunkRequest m ⟨e⟩)) =
        ScanRun.mk ((suf.take m).map IndexEntry.mk) false false := by
      show ScanRun.mk (((keysAbove keys [e]).take m).map IndexEntry.mk) false false = _
      rw [habove]
    rw [hrun] at hsent hlast
    simp only [map_key_mk, Bool.false_eq_true, if_false, ScanRun.lastDelivered] at hsent hlast
    rw [hlast]
    by_cases hsuf : suf = []
    · subst hsuf
      have hnone : ((List.take m ([] : List String)).map IndexEntry.mk).getLast? = none := by
        simp
      rw [hnone]
      exact ⟨_, chunkLoop_none _ _ _ _, by rw [hsent]; simp⟩
    · obtain ⟨mid, e2, hmid, hsplit, hlen⟩ := take_split suf m hm hsuf
      have hld : ((suf.take m).map IndexEntry.mk).getLast? = some ⟨e2⟩ := by
        rw [hmid]; simp
      rw [hld]
      obtain ⟨res, hres, hs⟩ := ih (pre ++ e :: mid) e2 (suf.drop m)
        (scanPrimaryChunk (indexEnv keys n c) eff m ⟨e⟩).1
        (by rw [hkeys]; conv_lhs => rw [hsplit]
            simp) (by omega)
      refine ⟨res, hres, ?_⟩
      rw [hs, hsent, List.append_assoc, List.take_append_drop]

/-- The keys that scanPrimary sends over an index whose first scan times out:
with enough fuel, all keys in their order. -/
theorem scanPrimary_index (keys : List String) (n c : Nat) (plan : PrimaryScan3Plan)
    (hn : 1 ≤ n) (hnd : keys.Nodup) (hoff : plan.Offset = none) (hord : plan.OrderTerms = [])
    (hgrp : plan.GroupAggs = none) (fuel : Nat) (hfuel : keys.length ≤ fuel)
    (eff : ScanEffects) :
    ∃ res, scanPrimary (indexEnv keys n c) plan fuel eff = some res ∧
      res.sent = eff.sent ++ keys := by
  have hs := receiveEntries_sent c ((keys.take n).map IndexEntry.mk)
    { eff := eff, nitems := 0, docs := 0, lastEntry := none }
  rw [foldl_last_none, map_key_mk] at hs
  simp only [List.length_map, Nat.zero_add] at hs
  have hc : (plan.Offset.isSome || decide (plan.OrderTerms.length > 0) ||
      plan.GroupAggs.isSome) = false := by
    rw [hoff, hord, hgrp]; rfl
  have hstop : (indexEnv keys n c).scanEntries.stopped = false := rfl
  have htime : (indexEnv keys n c).scanEntries.timeout = true := rfl
  have hentries : (indexEnv keys n c).scanEntries.entries = (keys.take n).map IndexEntry.mk :=
    rfl
  have hphase : (indexEnv keys n c).PHASE_UPDATE_COUNT = c := rfl
  unfold scanPrimary
  simp only [hstop, htime, hentries, hphase, hc, Bool.false_eq_true, if_false, if_true]
  by_cases hkeys : keys = []
  · subst hkeys
    simp only [List.take_nil, List.map_nil, receiveEntries, Option.isNone_none, if_true,
      chunkLoop_none, Option.map_some']
    exact ⟨_, rfl, by rw [flushDocs_sent]; simp⟩
  · obtain ⟨mid, e, hmid, hsplit, hlen⟩ := take_split keys n hn hkeys
    have hlast : (receiveEntries c ((keys.take n).map IndexEntry.mk)
        { eff := eff, nitems := 0, docs := 0, lastEntry := none }).lastEntry = some ⟨e⟩ := by
      rw [hs.2.2, hmid]; simp
    have hm : 1 ≤ (receiveEntries c ((keys.take n).map IndexEntry.mk)
        { eff := eff, nitems := 0, docs := 0, lastEntry := none }).nitems := by
      rw [hs.2.1, hmid]; simp
    obtain ⟨res, hres, hsent⟩ := chunkLoop_index keys n c _ hm hnd fuel mid e (keys.drop n)
      (receiveEntries c ((keys.take n).map IndexEntry.mk)
        { eff := eff, nitems := 0, docs := 0, lastEntry := none }).eff hsplit (by omega)
    rw [hlast]
    simp only [Option.isNone_some, Bool.false_eq_true, if_false]
    rw [hres]
    refine ⟨_, rfl, ?_⟩
    · rw [flushDocs_sent, hsent, hs.1, List.append_assoc, List.take_append_drop]

/-- C21: over a primary index holding the distinct keys `keys` in this order,
whose first scan delivers the first `n` keys (`n` at least one) and then
reports a timeout and whose chunked scans deliver the keys above their low
bound up to their limit, scanPrimary with a plan without offset, order or
group/aggregates returns once the fuel reaches the number of keys, and the
primary keys it has sent are the keys of the index, each once. -/
theorem scanPrimary_chunked_complete (keys : List String) (n c : Nat) (plan : PrimaryScan3Plan)
    (hn : 1 ≤ n) (hnd : keys.Nodup) (hoff : plan.Offset = none) (hord : plan.OrderTerms = [])
    (hgrp : plan.GroupAggs = none) (fuel : Nat) (hfuel : keys.length ≤ fuel) :
    ∃ res, scanPrimary (indexEnv keys n c) plan fuel noScanEffects = some res ∧
      res.sent = keys ∧ res.sent.Nodup ∧ ∀ k, k ∈ res.sent ↔ k ∈ keys := by
  obtain ⟨res, hres, hsent⟩ :=
    scanPrimary_index keys n c plan hn hnd hoff hord hgrp fuel hfuel noScanEffects
  have hk : res.sent = keys := by rw [hsent]; rfl
  exact ⟨res, hres, hk, hk ▸ hnd, fun k => by rw [hk]⟩

/-- Witness of C21: an index of five keys whose first scan delivers two keys;
scanPrimary sends the five keys with three chunked scans. -/
theorem scanPrimary_chunked_complete_witness :
    (["a", "b", "c", "d", "e"] : List String).Nodup ∧
      (∃ res, scanPrimary (indexEnv ["a", "b", "c", "d", "e"] 2 100) samplePlainPlan 5
          noScanEffects = some res ∧
        res.sent = ["a", "b", "c", "d", "e"] ∧ res.sent.Nodup ∧
        ∀ k, k ∈ res.sent ↔ k ∈ ["a", "b", "c", "d", "e"]) ∧
      scanPrimary (indexEnv ["a", "b", "c", "d", "e"] 2 100) samplePlainPlan 5 noScanEffects =
        some { sent := ["a", "b", "c", "d", "e"], errors := [], phaseCounts := [2, 1, 2],
               chunks := [chunkRequest 2 ⟨"b"⟩, chunkRequest 2 ⟨"d"⟩, chunkRequest 2 ⟨"e"⟩] } :=
  ⟨by decide,
    scanPrimary_chunked_complete ["a", "b", "c", "d", "e"] 2 100 samplePlainPlan (by decide)
      (by decide) rfl rfl rfl 5 (by decide),
    by decide⟩

/-! ## Claims on RunOnce -/

theorem onceDo_done (f : OpState → OpState) (st : OpState) (h : st.done = true) :
    onceDo f st = st := by
  unfold onceDo
  rw [if_pos h]

theorem runDeferred_done (outcome : Call → Outcome) (defers : List Call) :
    ∀ (st : OpState), (runDeferred outcome defers st).done = st.done := by
  induction defers with
  | nil => intro st; rfl
  | cons c rest ih => intro st; rw [runDeferred, ih]

theorem runBody_done (outcome : Call → Outcome) (body : List Stmt) :
    ∀ (defers : List Call) (st : OpState), (runBody outcome body defers st).done = st.done := by
  induction body with
  | nil => intro defers st; exact runDeferred_done outcome defers st
  | cons s rest ih =>
    intro defers st
    cases s with
    | call c =>
      rw [runBody]
      split
      · rw [runDeferred_done]
      · rw [ih]
    | deferred c => rw [runBody, ih]

theorem onceDo_runBody_done (outcome : Call → Outcome) (body : List Stmt) (st : OpState) :
    (onceDo (runBody outcome body []) st).done = true := by
  unfold onceDo
  split
  · assumption
  · rw [runBody_done]

theorem iterate_fixed {α : Type} (f : α → α) (x : α) (h : f x = x) :
    ∀ (n : Nat), f^[n] x = x := by
  intro n
  induction n with
  | zero => rfl
  | succ k ih => rw [Function.iterate_succ_apply, h, ih]

/-- C24: RunOnce of PrimaryScan3 and of DummyScan leaves the operator with
`once` fired, and on an operator whose `once` has fired it changes nothing: no
call is made. So however many times RunOnce is called on a fresh DummyScan
whose calls before sendItem do not panic, at least once, sendItem has been
called exactly once in total. -/
theorem RunOnce_at_most_once (outcome : Call → Outcome) :
    (∀ st, (PrimaryScan3.RunOnce outcome st).done = true ∧
      PrimaryScan3.RunOnce outcome (PrimaryScan3.RunOnce outcome st) =
        PrimaryScan3.RunOnce outcome st) ∧
    (∀ st, (DummyScan.RunOnce outcome st).done = true ∧
      DummyScan.RunOnce outcome (DummyScan.RunOnce outcome st) =
        DummyScan.RunOnce outcome st) ∧
    (∀ st, st.done = true → PrimaryScan3.RunOnce outcome st = st ∧
      DummyScan.RunOnce outcome st = st) ∧
    (outcome Call.active ≠ Outcome.panicked →
      outcome (Call.switchPhase TimingPhase._EXECTIME) ≠ Outcome.panicked →
      ∀ n, ((DummyScan.RunOnce outcome)^[n + 1] freshOp).trace.count Call.sendItem = 1) := by
  refine ⟨fun st => ⟨onceDo_runBody_done _ _ _, onceDo_done _ _ (onceDo_runBody_done _ _ _)⟩,
    fun st => ⟨onceDo_runBody_done _ _ _, onceDo_done _ _ (onceDo_runBody_done _ _ _)⟩,
    fun st h => ⟨onceDo_done _ _ h, onceDo_done _ _ h⟩, ?_⟩
  intro h1 h2 n
  have hfix : DummyScan.RunOnce outcome (DummyScan.RunOnce outcome freshOp) =
      DummyScan.RunOnce outcome freshOp :=
    onceDo_done _ _ (onceDo_runBody_done outcome DummyScan.body freshOp)
  rw [Function.iterate_succ_apply, iterate_fixed _ _ hfix n]
  simp only [DummyScan.RunOnce, onceDo, freshOp, DummyScan.body, runBody, runDeferred, h1, h2,
    Bool.false_eq_true, if_false]
  split <;> simp

/-- Witness of C24: three calls of RunOnce on a fresh DummyScan make the calls
of one run, with one sendItem. -/
theorem RunOnce_at_most_once_witness :
    ((DummyScan.RunOnce (workOutcome Outcome.completed))^[2 + 1] freshOp).trace.count
        Call.sendItem = 1 ∧
      (DummyScan.RunOnce (workOutcome Outcome.completed))^[2 + 1] freshOp =
        { done := true,
          trace := [Call.active, Call.switchPhase TimingPhase._EXECTIME, Call.sendItem,
            Call.notify, Call.switchPhase TimingPhase._NOTIME, Call.close, Call.Recover],
          panicking := false } :=
  ⟨(RunOnce_at_most_once (workOutcome Outcome.completed)).2.2.2 (by decide) (by decide) 2,
    by decide⟩

/-- C25: on an operator whose `once` has not fired, when the calls before the
work (active, setExecPhase, switchPhase(_EXECTIME)) do not panic, the calls of
RunOnce after the work (scanPrimary for PrimaryScan3, sendItem for DummyScan)
are notify, then (for DummyScan, switchPhase(_NOTIME) and then) close, then
Recover, whether the work completes, returns early after a stop or panics; and
no panic leaves RunOnce when Recover does not panic. -/
theorem RunOnce_cleanup (outcome : Call → Outcome) (st : OpState) (hdone : st.done = false)
    (hactive : outcome Call.active ≠ Outcome.panicked)
    (hexec : outcome Call.setExecPhase ≠ Outcome.panicked)
    (hswitch : outcome (Call.switchPhase TimingPhase._EXECTIME) ≠ Outcome.panicked) :
    (PrimaryScan3.RunOnce outcome st).trace =
        st.trace ++ [Call.active, Call.setExecPhase, Call.scanPrimary, Call.notify, Call.close,
          Call.Recover] ∧
      (DummyScan.RunOnce outcome st).trace =
        st.trace ++ [Call.active, Call.switchPhase TimingPhase._EXECTIME, Call.sendItem,
          Call.notify, Call.switchPhase TimingPhase._NOTIME, Call.close, Call.Recover] ∧
      (outcome Call.Recover ≠ Outcome.panicked →
        (PrimaryScan3.RunOnce outcome st).panicking = false ∧
        (DummyScan.RunOnce outcome st).panicking = false) := by
  refine ⟨?_, ?_, ?_⟩
  · simp only [PrimaryScan3.RunOnce, onceDo, hdone, PrimaryScan3.body, runBody, runDeferred,
      hactive, hexec, Bool.false_eq_true, if_false]
    split <;> simp
  · simp only [DummyScan.RunOnce, onceDo, hdone, DummyScan.body, runBody, runDeferred,
      hactive, hswitch, Bool.false_eq_true, if_false]
    split <;> simp
  · intro hrec
    constructor
    · simp only [PrimaryScan3.RunOnce, onceDo, hdone, PrimaryScan3.body, runBody, runDeferred,
        hactive, hexec, Bool.false_eq_true, if_false]
      split <;> simp [hrec]
    · simp only [DummyScan.RunOnce, onceDo, hdone, DummyScan.body, runBody, runDeferred,
        hactive, hswitch, Bool.false_eq_true, if_false]
      split <;> simp [hrec]

/-- Witness of C25: a fresh PrimaryScan3 whose scanPrimary panics and a fresh
DummyScan whose sendItem panics still call notify, close and Recover. -/
theorem RunOnce_cleanup_witness :
    (PrimaryScan3.RunOnce (workOutcome Outcome.panicked) freshOp).trace =
        freshOp.trace ++ [Call.active, Call.setExecPhase, Call.scanPrimary, Call.notify,
          Call.close, Call.Recover] ∧
      (DummyScan.RunOnce (workOutcome Outcome.panicked) freshOp).trace =
        freshOp.trace ++ [Call.active, Call.switchPhase TimingPhase._EXECTIME, Call.sendItem,
          Call.notify, Call.switchPhase TimingPhase._NOTIME, Call.close, Call.Recover] ∧
      (PrimaryScan3.RunOnce (workOutcome Outcome.panicked) freshOp).panicking = false ∧
      (DummyScan.RunOnce (workOutcome Outcome.panicked) freshOp).panicking = false :=
  have h := RunOnce_cleanup (workOutcome Outcome.panicked) freshOp rfl (by decide) (by decide)
    (by decide)
  ⟨h.1, h.2.1, h.2.2 (by decide)⟩

/-! ## The phase counts -/

/-- The counts that the receive loop passes to AddPhaseCount: each is above
the update count, and with the entries still pending they add up to the
entries received. -/
theorem receiveEntries_counts (phaseUpdateCount : Nat) (entries : List IndexEntry) :
    ∀ (r : Received), r.docs ≤ phaseUpdateCount →
      ∃ flushed,
        (receiveEntries phaseUpdateCount entries r).eff.phaseCounts =
          r.eff.phaseCounts ++ flushed ∧
        (∀ c ∈ flushed, phaseUpdateCount < c) ∧
        flushed.sum + (receiveEntries phaseUpdateCount entries r).docs =
          r.docs + entries.length ∧
        (receiveEntries phaseUpdateCount entries r).docs ≤ phaseUpdateCount := by
  induction entries with
  | nil =>
    intro r hr
    exact ⟨[], by simp [receiveEntries], by simp, by simp [receiveEntries], hr⟩
  | cons hd tl ih =>
    intro r hr
    unfold receiveEntries
    simp only
    split
    · rename_i hgt
      obtain ⟨flushed, h1, h2, h3, h4⟩ := ih
        { eff := { sent := r.eff.sent ++ [hd.PrimaryKey], errors := r.eff.errors,
                   phaseCounts := r.eff.phaseCounts ++ [r.docs + 1], chunks := r.eff.chunks },
          nitems := r.nitems + 1, docs := 0, lastEntry := some hd } (Nat.zero_le _)
      refine ⟨(r.docs + 1) :: flushed, ?_, ?_, ?_, h4⟩
      · rw [h1]; simp
      · intro c hc
        rcases List.mem_cons.mp hc with hc | hc
        · rw [hc]; exact hgt
        · exact h2 c hc
      · simp only [List.sum_cons, List.length_cons]
        simp only at h3
        omega
    · rename_i hle
      obtain ⟨flushed, h1, h2, h3, h4⟩ := ih
        { eff := { sent := r.eff.sent ++ [hd.PrimaryKey], errors := r.eff.errors,
                   phaseCounts := r.eff.phaseCounts, chunks := r.eff.chunks },
          nitems := r.nitems + 1, docs := r.docs + 1, lastEntry := some hd } (by simp only; omega)
      refine ⟨flushed, h1, h2, ?_, h4⟩
      simp only [List.length_cons]
      simp only at h3
      omega

/-- The counts of one chunked scan. -/
theorem scanPrimaryChunk_counts (env : ScanEnv) (eff : ScanEffects) (chunkSize : Nat)
    (indexEntry : IndexEntry) :
    ∃ flushed,
      (chunkReceived env eff chunkSize indexEntry).eff.phaseCounts =
        eff.phaseCounts ++ flushed ∧
      (scanPrimaryChunk env eff chunkSize indexEntry).1.phaseCounts =
        eff.phaseCounts ++ flushed ++
          (if 0 < (chunkReceived env eff chunkSize indexEntry).nitems then
            [(chunkReceived env eff chunkSize indexEntry).docs] else []) ∧
      (∀ c ∈ flushed, env.PHASE_UPDATE_COUNT < c) ∧
      (flushed ++ (if 0 < (chunkReceived env eff chunkSize indexEntry).nitems then
          [(chunkReceived env eff chunkSize indexEntry).docs] else [])).sum =
        (env.scanChunk eff.chunks.length (chunkRequest chunkSize indexEntry)).entries.length := by
  obtain ⟨flushed, h1, h2, h3, _⟩ := receiveEntries_counts env.PHASE_UPDATE_COUNT
    (env.scanChunk eff.chunks.length (chunkRequest chunkSize indexEntry)).entries
    { eff := { eff with chunks := eff.chunks ++ [chunkRequest chunkSize indexEntry] },
      nitems := 0, docs := 0, lastEntry := none } (Nat.zero_le _)
  have hs := (receiveEntries_sent env.PHASE_UPDATE_COUNT
    (env.scanChunk eff.chunks.length (chunkRequest chunkSize indexEntry)).entries
    { eff := { eff with chunks := eff.chunks ++ [chunkRequest chunkSize indexEntry] },
      nitems := 0, docs := 0, lastEntry := none }).2.1
  simp only at h1 h3 hs
  refine ⟨flushed, h1, ?_, h2, ?_⟩
  · unfold scanPrimaryChunk chunkReceived
    simp only [gt_iff_lt]
    split <;> split <;> simp [h1]
  · unfold chunkReceived
    split
    · simp only [List.sum_append, List.sum_cons, List.sum_nil]
      omega
    · rename_i hn
      rw [hs] at hn
      simp only [List.append_nil]
      omega

/-- The counts and the items of the first passes of the loop of chunked scans,
whether the loop ends or not. -/
theorem chunkLoopPrefix_counts (env : ScanEnv) (chunkSize : Nat) :
    ∀ (n : Nat) (last : Option IndexEntry) (eff : ScanEffects),
      ∃ nested reqs,
        (chunkLoopPrefix env chunkSize n last eff).1.phaseCounts = eff.phaseCounts ++ nested ∧
        (chunkLoopPrefix env chunkSize n last eff).1.chunks = eff.chunks ++ reqs ∧
        nested.sum = receivedInChunks env eff.chunks.length reqs ∧
        (chunkLoopPrefix env chunkSize n last eff).1.sent.length =
          eff.sent.length + nested.sum := by
  intro n
  induction n with
  | zero =>
    intro last eff
    cases last with
    | none => exact ⟨[], [], by simp [chunkLoopPrefix], by simp [chunkLoopPrefix], rfl, rfl⟩
    | some e => exact ⟨[], [], by simp [chunkLoopPrefix], by simp [chunkLoopPrefix], rfl, rfl⟩
  | succ k ih =>
    intro last eff
    cases last with
    | none => exact ⟨[], [], by simp [chunkLoopPrefix], by simp [chunkLoopPrefix], rfl, rfl⟩
    | some e =>
      rw [chunkLoopPrefix]
      obtain ⟨nested, reqs, h1, h2, h3, h4⟩ := ih (scanPrimaryChunk env eff chunkSize e).2
        (scanPrimaryChunk env eff chunkSize e).1
      obtain ⟨flushed, _, c2, _, c4⟩ := scanPrimaryChunk_counts env eff chunkSize e
      obtain ⟨hc, hsent, _, _⟩ := scanPrimaryChunk_spec env eff chunkSize e
      rw [hc] at h2 h3
      rw [c2] at h1
      rw [hsent] at h4
      have hlen : (eff.chunks ++ [chunkRequest chunkSize e]).length = eff.chunks.length + 1 := by
        simp
      rw [hlen] at h3
      refine ⟨(flushed ++ (if 0 < (chunkReceived env eff chunkSize e).nitems then
          [(chunkReceived env eff chunkSize e).docs] else [])) ++ nested,
        chunkRequest chunkSize e :: reqs, ?_, ?_, ?_, ?_⟩
      · rw [h1]; simp only [List.append_assoc]
      · rw [h2]; simp
      · rw [List.sum_append, c4, h3]; rfl
      · rw [h4, List.sum_append, c4]
        simp only [List.length_append, List.length_map]
        omega

/-- The effects of flushDocs on the counts. -/
theorem flushDocs_counts (docs : Nat) (eff : ScanEffects) :
    (flushDocs docs eff).phaseCounts = eff.phaseCounts ++ (if 0 < docs then [docs] else []) := by
  unfold flushDocs
  by_cases h : 0 < docs
  · rw [if_pos h, if_pos h]
  · rw [if_neg h, if_neg h]; simp

/-- The counts that scanPrimary has passed when it returns. -/
theorem scanPrimary_counts (env : ScanEnv) (plan : PrimaryScan3Plan) (fuel : Nat)
    (eff res : ScanEffects) (h : scanPrimary env plan fuel eff = some res) :
    ∃ flushed nested reqs,
      (firstReceived env eff).eff.phaseCounts = eff.phaseCounts ++ flushed ∧
      res.phaseCounts = eff.phaseCounts ++ flushed ++ nested ++
        (if 0 < (firstReceived env eff).docs then [(firstReceived env eff).docs] else []) ∧
      res.chunks = eff.chunks ++ reqs ∧
      (∀ c ∈ flushed, env.PHASE_UPDATE_COUNT < c) ∧
      (flushed ++ (if 0 < (firstReceived env eff).docs then [(firstReceived env eff).docs]
        else [])).sum = env.scanEntries.entries.length ∧
      nested.sum = receivedInChunks env eff.chunks.length reqs ∧
      res.sent.length = eff.sent.length + env.scanEntries.entries.length + nested.sum := by
  obtain ⟨flushed, f1, f2, f3, _⟩ := receiveEntries_counts env.PHASE_UPDATE_COUNT
    env.scanEntries.entries { eff := eff, nitems := 0, docs := 0, lastEntry := none }
    (Nat.zero_le _)
  have hk := receiveEntries_keeps env.PHASE_UPDATE_COUNT env.scanEntries.entries
    { eff := eff, nitems := 0, docs := 0, lastEntry := none }
  have hs := receiveEntries_sent env.PHASE_UPDATE_COUNT env.scanEntries.entries
    { eff := eff, nitems := 0, docs := 0, lastEntry := none }
  simp only at f1 f3 hk hs
  have hsum : (flushed ++ (if 0 < (firstReceived env eff).docs then
      [(firstReceived env eff).docs] else [])).sum = env.scanEntries.entries.length := by
    unfold firstReceived
    split
    · simp only [List.sum_append, List.sum_cons, List.sum_nil]; omega
    · simp only [List.append_nil]; omega
  have hplain : ∀ (e : ScanEffects), e.phaseCounts = (firstReceived env eff).eff.phaseCounts →
      e.chunks = eff.chunks → e.sent = (firstReceived env eff).eff.sent →
      res = flushDocs (firstReceived env eff).docs e →
      ∃ flushed nested reqs,
        (firstReceived env eff).eff.phaseCounts = eff.phaseCounts ++ flushed ∧
        res.phaseCounts = eff.phaseCounts ++ flushed ++ nested ++
          (if 0 < (firstReceived env eff).docs then [(firstReceived env eff).docs] else []) ∧
        res.chunks = eff.chunks ++ reqs ∧
        (∀ c ∈ flushed, env.PHASE_UPDATE_COUNT < c) ∧
        (flushed ++ (if 0 < (firstReceived env eff).docs then [(firstReceived env eff).docs]
          else [])).sum = env.scanEntries.entries.length ∧
        nested.sum = receivedInChunks env eff.chunks.length reqs ∧
        res.sent.length = eff.sent.length + env.scanEntries.entries.length + nested.sum := by
    intro e he1 he2 he3 hres
    refine ⟨flushed, [], [], f1, ?_, ?_, f2, hsum, rfl, ?_⟩
    · rw [hres, flushDocs_counts, he1]
      unfold firstReceived
      rw [f1]; simp
    · rw [hres, (flushDocs_keeps _ _).2, he2]; simp
    · rw [hres, flushDocs_sent, he3]
      unfold firstReceived
      rw [hs.1]; simp
  unfold scanPrimary at h
  simp only at h
  split at h
  · simp only [Option.some.injEq] at h
    exact hplain _ rfl hk.2 rfl h.symm
  · split at h
    · split at h
      · simp only [Option.some.injEq] at h
        refine hplain _ ?_ ?_ ?_ h.symm
        · rfl
        · exact hk.2
        · rfl
      · rw [Option.map_eq_some'] at h
        obtain ⟨res1, hloop, hres⟩ := h
        have hpre := chunkLoop_eq_prefix _ _ _ _ _ _ hloop
        obtain ⟨nested, reqs, p1, p2, p3, p4⟩ := chunkLoopPrefix_counts env
          (receiveEntries env.PHASE_UPDATE_COUNT env.scanEntries.entries
            { eff := eff, nitems := 0, docs := 0, lastEntry := none }).nitems fuel
          (receiveEntries env.PHASE_UPDATE_COUNT env.scanEntries.entries
            { eff := eff, nitems := 0, docs := 0, lastEntry := none }).lastEntry
          (if (receiveEntries env.PHASE_UPDATE_COUNT env.scanEntries.entries
              { eff := eff, nitems := 0, docs := 0, lastEntry := none }).lastEntry.isNone then
            { (receiveEntries env.PHASE_UPDATE_COUNT env.scanEntries.entries
                { eff := eff, nitems := 0, docs := 0, lastEntry := none }).eff with
              errors := (receiveEntries env.PHASE_UPDATE_COUNT env.scanEntries.entries
                { eff := eff, nitems := 0, docs := 0, lastEntry := none }).eff.errors ++
                  [ExecError.NewCbIndexScanTimeoutError] }
            else (receiveEntries env.PHASE_UPDATE_COUNT env.scanEntries.entries
              { eff := eff, nitems := 0, docs := 0, lastEntry := none }).eff)
        rw [hpre] at p1 p2 p4
        simp only at p1 p2 p4
        have t1 := (timeoutEffects_keeps (receiveEntries env.PHASE_UPDATE_COUNT
          env.scanEntries.entries { eff := eff, nitems := 0, docs := 0, lastEntry := none }))
        have t3 : (if (receiveEntries env.PHASE_UPDATE_COUNT env.scanEntries.entries
              { eff := eff, nitems := 0, docs := 0, lastEntry := none }).lastEntry.isNone then
            { (receiveEntries env.PHASE_UPDATE_COUNT env.scanEntries.entries
                { eff := eff, nitems := 0, docs := 0, lastEntry := none }).eff with
              errors := (receiveEntries env.PHASE_UPDATE_COUNT env.scanEntries.entries
                { eff := eff, nitems := 0, docs := 0, lastEntry := none }).eff.errors ++
                  [ExecError.NewCbIndexScanTimeoutError] }
            else (receiveEntries env.PHASE_UPDATE_COUNT env.scanEntries.entries
              { eff := eff, nitems := 0, docs := 0, lastEntry := none }).eff).phaseCounts =
            (receiveEntries env.PHASE_UPDATE_COUNT env.scanEntries.entries
              { eff := eff, nitems := 0, docs := 0, lastEntry := none }).eff.phaseCounts := by
          split <;> rfl
        rw [t3, f1] at p1
        rw [t1.1, hk.2] at p2 p3
        rw [t1.2, hs.1] at p4
        refine ⟨flushed, nested, reqs, f1, ?_, ?_, f2, hsum, p3, ?_⟩
        · rw [← hres, flushDocs_counts, p1]; rfl
        · rw [← hres, (flushDocs_keeps _ _).2, p2]
        · rw [← hres, flushDocs_sent, p4]
          simp only [List.length_append, List.length_map]
    · simp only [Option.some.injEq] at h
      exact hplain _ rfl hk.2 rfl h.symm


/-- C40: in scanPrimaryChunk the counts passed to AddPhaseCount are those of
its receive loop, each above _PHASE_UPDATE_COUNT, followed by the count of its
deferred function, and they add up to the number of entries received from the
entry channel of the chunk; when scanPrimary returns, on any of its paths, the
counts passed are those of its receive loop, each above _PHASE_UPDATE_COUNT,
then those of the chunked scans it called, then the count of its deferred
function: the counts of scanPrimary itself add up to the number of entries
received from its entry channel, the counts of the chunked scans to the number
of entries received in them, and all counts together to the number of items
sent; and the counts passed in the first `n` passes of the loop of chunked
scans add up to the number of entries received in them, whether the loop ends
or not. -/
theorem scanPrimary_phase_counts (env : ScanEnv) (eff : ScanEffects) :
    (∀ chunkSize indexEntry, ∃ flushed,
      (chunkReceived env eff chunkSize indexEntry).eff.phaseCounts =
        eff.phaseCounts ++ flushed ∧
      (scanPrimaryChunk env eff chunkSize indexEntry).1.phaseCounts =
        eff.phaseCounts ++ flushed ++
          (if 0 < (chunkReceived env eff chunkSize indexEntry).nitems then
            [(chunkReceived env eff chunkSize indexEntry).docs] else []) ∧
      (∀ c ∈ flushed, env.PHASE_UPDATE_COUNT < c) ∧
      (flushed ++ (if 0 < (chunkReceived env eff chunkSize indexEntry).nitems then
          [(chunkReceived env eff chunkSize indexEntry).docs] else [])).sum =
        (env.scanChunk eff.chunks.length
          (chunkRequest chunkSize indexEntry)).entries.length) ∧
    (∀ plan fuel res, scanPrimary env plan fuel eff = some res →
      ∃ flushed nested reqs,
        (firstReceived env eff).eff.phaseCounts = eff.phaseCounts ++ flushed ∧
        res.phaseCounts = eff.phaseCounts ++ flushed ++ nested ++
          (if 0 < (firstReceived env eff).docs then [(firstReceived env eff).docs] else []) ∧
        res.chunks = eff.chunks ++ reqs ∧
        (∀ c ∈ flushed, env.PHASE_UPDATE_COUNT < c) ∧
        (flushed ++ (if 0 < (firstReceived env eff).docs then [(firstReceived env eff).docs]
          else [])).sum = env.scanEntries.entries.length ∧
        nested.sum = receivedInChunks env eff.chunks.length reqs ∧
        res.sent.length = eff.sent.length + env.scanEntries.entries.length + nested.sum) ∧
    (∀ chunkSize n last, ∃ nested reqs,
      (chunkLoopPrefix env chunkSize n last eff).1.phaseCounts = eff.phaseCounts ++ nested ∧
      (chunkLoopPrefix env chunkSize n last eff).1.chunks = eff.chunks ++ reqs ∧
      nested.sum = receivedInChunks env eff.chunks.length reqs ∧
      (chunkLoopPrefix env chunkSize n last eff).1.sent.length =
        eff.sent.length + nested.sum) :=
  ⟨fun chunkSize indexEntry => scanPrimaryChunk_counts env eff chunkSize indexEntry,
    fun plan fuel res h => scanPrimary_counts env plan fuel eff res h,
    fun chunkSize n last => chunkLoopPrefix_counts env chunkSize n last eff⟩

/-- Witness of C40: with _PHASE_UPDATE_COUNT 1 the sample first scan delivers
"a", "b", "c" and times out, the chunk above "c" delivers "d", "e" and the
chunk above "e" nothing; scanPrimary returns with the counts 2, 2, 0 and 1
passed, which add up to the five entries received. -/
theorem scanPrimary_phase_counts_witness :
    scanPrimary sampleFlushEnv samplePlainPlan 2 noScanEffects = some sampleFlushResult ∧
      sampleFlushResult.phaseCounts.sum = 5 ∧
      ∃ flushed nested reqs,
        (firstReceived sampleFlushEnv noScanEffects).eff.phaseCounts =
          noScanEffects.phaseCounts ++ flushed ∧
        sampleFlushResult.phaseCounts = noScanEffects.phaseCounts ++ flushed ++ nested ++
          (if 0 < (firstReceived sampleFlushEnv noScanEffects).docs then
            [(firstReceived sampleFlushEnv noScanEffects).docs] else []) ∧
        sampleFlushResult.chunks = noScanEffects.chunks ++ reqs ∧
        (∀ c ∈ flushed, sampleFlushEnv.PHASE_UPDATE_COUNT < c) ∧
        (flushed ++ (if 0 < (firstReceived sampleFlushEnv noScanEffects).docs then
          [(firstReceived sampleFlushEnv noScanEffects).docs] else [])).sum =
            sampleFlushEnv.scanEntries.entries.length ∧
        nested.sum = receivedInChunks sampleFlushEnv noScanEffects.chunks.length reqs ∧
        sampleFlushResult.sent.length = noScanEffects.sent.length +
          sampleFlushEnv.scanEntries.entries.length + nested.sum :=
  ⟨by decide, by decide,
    (scanPrimary_phase_counts sampleFlushEnv noScanEffects).2.1 samplePlainPlan 2
      sampleFlushResult (by decide)⟩

end Execution

namespace Expr

/-! ## Claims on the bit functions -/

/-- C26: with NULL as first argument, BitAnd.Apply, BitOr.Apply, BitXor.Apply,
BitShift.Apply and BitTest.Apply return NULL whatever the other arguments are,
so also when the second argument is MISSING; with the two arguments in the
other order they return MISSING. -/
theorem bit_functions_null_before_missing (rest : List Val) :
    (BitAnd.Apply (Val.NULL :: rest) = some Val.NULL ∧
      BitOr.Apply (Val.NULL :: rest) = some Val.NULL ∧
      BitXor.Apply (Val.NULL :: rest) = some Val.NULL ∧
      BitShift.Apply (Val.NULL :: rest) = some Val.NULL ∧
      BitTest.Apply (Val.NULL :: rest) = some Val.NULL) ∧
    (BitAnd.Apply [Val.NULL, Val.MISSING] = some Val.NULL ∧
      BitOr.Apply [Val.NULL, Val.MISSING] = some Val.NULL ∧
      BitXor.Apply [Val.NULL, Val.MISSING] = some Val.NULL ∧
      BitShift.Apply [Val.NULL, Val.MISSING] = some Val.NULL ∧
      BitTest.Apply [Val.NULL, Val.MISSING] = some Val.NULL) ∧
    (BitAnd.Apply [Val.MISSING, Val.NULL] = some Val.MISSING ∧
      BitOr.Apply [Val.MISSING, Val.NULL] = some Val.MISSING ∧
      BitXor.Apply [Val.MISSING, Val.NULL] = some Val.MISSING ∧
      BitShift.Apply [Val.MISSING, Val.NULL] = some Val.MISSING ∧
      BitTest.Apply [Val.MISSING, Val.NULL] = some Val.MISSING) :=
  ⟨⟨rfl, rfl, rfl, rfl, rfl⟩, ⟨rfl, rfl, rfl, rfl, rfl⟩, ⟨rfl, rfl, rfl, rfl, rfl⟩⟩

/-! ## Claims on the date functions -/

/-- C27: with MISSING as first date and a second date and a part of the types
the function asks for, DateDiffMillis.eval and DateDiffStr.eval return NULL,
whatever millisToTime, strToTime and dateDiff compute; with MISSING as second
date or as part they return MISSING. -/
theorem date_diff_missing_first {Time : Type} (env : DateEnv Time) (n : Number)
    (s part : String) (dv1 other : Val) :
    DateDiffMillis.eval env [Val.MISSING, Val.NUMBER n, Val.STRING part] = some Val.NULL ∧
      DateDiffStr.eval env [Val.MISSING, Val.STRING s, Val.STRING part] = some Val.NULL ∧
      DateDiffMillis.eval env [dv1, Val.MISSING, other] = some Val.MISSING ∧
      DateDiffStr.eval env [dv1, Val.MISSING, other] = some Val.MISSING ∧
      DateDiffMillis.eval env [dv1, other, Val.MISSING] = some Val.MISSING ∧
      DateDiffStr.eval env [dv1, other, Val.MISSING] = some Val.MISSING := by
  refine ⟨rfl, rfl, rfl, rfl, ?_, ?_⟩
  · simp [DateDiffMillis.eval, Val.type]
  · simp [DateDiffStr.eval, Val.type]

/-! ## Claims on whitelistCheck -/

theorem sliceContains_strings (url : String) :
    ∀ (urls : List String),
      sliceContains (urls.map Json.string) url = (anyPrefix urls url, none) := by
  intro urls
  induction urls with
  | nil => rfl
  | cons u rest ih =>
    rw [List.map_cons, sliceContains]
    have hany : anyPrefix (u :: rest) url =
        (u.toList.isPrefixOf url.toList || anyPrefix rest url) := rfl
    by_cases hp : u.toList.isPrefixOf url.toList = true
    · rw [if_pos hp, hany, hp, Bool.true_or]
    · rw [if_neg hp, ih, hany, Bool.eq_false_iff.mpr hp, Bool.false_or]

/-- A string entry that is a prefix of the url makes sliceContains return true,
unless it returns an error. -/
theorem sliceContains_entry (url d : String) (hd : d.toList.isPrefixOf url.toList = true) :
    ∀ (field : List Json), Json.string d ∈ field → (sliceContains field url).2 = none →
      (sliceContains field url).1 = true := by
  intro field
  induction field with
  | nil => intro h; simp at h
  | cons val rest ih =>
    intro hmem herr
    cases val with
    | string s =>
      rw [sliceContains] at herr ⊢
      by_cases hp : s.toList.isPrefixOf url.toList = true
      · rw [if_pos hp]
      · rw [if_neg hp] at herr ⊢
        rcases List.mem_cons.mp hmem with heq | hin
        · injection heq with hs
          rw [hs] at hd
          exact absurd hd hp
        · exact ih hin herr
    | null => simp [sliceContains] at herr
    | bool b => simp [sliceContains] at herr
    | number q => simp [sliceContains] at herr
    | array l => simp [sliceContains] at herr
    | object l => simp [sliceContains] at herr

theorem urlStrings_array (elems : List Json) :
    ∀ (urls : List String), urlStrings (some (Json.array elems)) = some urls →
      elems = urls.map Json.string := by
  induction elems with
  | nil =>
    intro urls h
    simp only [urlStrings, List.foldr, Option.some.injEq] at h
    rw [← h]; rfl
  | cons val rest ih =>
    intro urls h
    simp only [urlStrings, List.foldr] at h
    cases val with
    | string s =>
      cases hrest : List.foldr (fun val acc =>
          match val, acc with
          | Json.string s, some urls => some (s :: urls)
          | _, _ => none) (some []) rest with
      | none => rw [hrest] at h; simp at h
      | some us =>
        rw [hrest] at h
        simp only [Option.some.injEq] at h
        rw [← h, List.map_cons, ← ih us (by simp only [urlStrings]; exact hrest)]
    | null => simp at h
    | bool b => simp at h
    | number q => simp at h
    | array l => simp at h
    | object l => simp at h

theorem lookup_length {α : Type} (list : List (String × α)) (key : String) (v : α)
    (h : list.lookup key = some v) : ¬ list.length = 0 := by
  intro h0
  rw [List.length_eq_zero.mp h0] at h
  simp at h

/-- What allowedCheck returns when allowed_urls, if present, is a list of
strings. -/
theorem allowedCheck_strings (list : List (String × Json)) (url : String) (urls : List String)
    (h : urlStrings (list.lookup "allowed_urls") = some urls) :
    (allowedCheck list url = none ↔ anyPrefix urls url = true) := by
  unfold allowedCheck
  cases hl : list.lookup "allowed_urls" with
  | none =>
    rw [hl] at h
    simp only [urlStrings, Option.some.injEq] at h
    rw [← h]
    simp [anyPrefix]
  | some val =>
    rw [hl] at h
    cases val with
    | array elems =>
      rw [urlStrings_array elems urls h]
      simp only [checkType, Bool.not_true, Bool.false_eq_true, if_false, sliceContains_strings]
      cases anyPrefix urls url <;> simp
    | null => simp [urlStrings] at h
    | bool b => simp [urlStrings] at h
    | number q => simp [urlStrings] at h
    | string s => simp [urlStrings] at h
    | object l => simp [urlStrings] at h

/-- What restrictedCheck returns when disallowed_urls and allowed_urls, if
present, are lists of strings. -/
theorem restrictedCheck_strings (list : List (String × Json)) (url : String)
    (ds urls : List String) (hd : urlStrings (list.lookup "disallowed_urls") = some ds)
    (ha : urlStrings (list.lookup "allowed_urls") = some urls) :
    (restrictedCheck list url = none ↔ anyPrefix ds url = false ∧ anyPrefix urls url = true) := by
  unfold restrictedCheck
  cases hl : list.lookup "disallowed_urls" with
  | none =>
    rw [hl] at hd
    simp only [urlStrings, Option.some.injEq] at hd
    rw [← hd]
    simp only [allowedCheck_strings list url urls ha]
    simp [anyPrefix]
  | some val =>
    rw [hl] at hd
    cases val with
    | array elems =>
      rw [urlStrings_array elems ds hd]
      simp only [checkType, Bool.not_true, Bool.false_eq_true, if_false, sliceContains_strings]
      cases hany : anyPrefix ds url
      · simp [allowedCheck_strings list url urls ha]
      · simp
    | null => simp [urlStrings] at hd
    | bool b => simp [urlStrings] at hd
    | number q => simp [urlStrings] at hd
    | string s => simp [urlStrings] at hd
    | object l => simp [urlStrings] at hd

/-- A string entry of disallowed_urls that is a prefix of the url makes
restrictedCheck return an error. -/
theorem restrictedCheck_disallowed (list : List (String × Json)) (url d : String)
    (field : List Json) (hl : list.lookup "disallowed_urls" = some (Json.array field))
    (hmem : Json.string d ∈ field) (hd : d.toList.isPrefixOf url.toList = true) :
    restrictedCheck list url ≠ none := by
  unfold restrictedCheck
  rw [hl]
  simp only [checkType, Bool.false_eq_true, if_false, Bool.not_true]
  by_cases herr : (sliceContains field url).2 = none
  · rw [if_pos ⟨herr, sliceContains_entry url d hd field hmem herr⟩]
    simp
  · rw [if_neg (fun h => herr h.1), if_pos herr]
    exact herr

theorem whitelistCheck_restricted (list : List (String × Json)) (url : String)
    (h : list.lookup "all_access" = some (Json.bool false)) :
    whitelistCheck (WhitelistFile.list list) url = restrictedCheck list url := by
  unfold whitelistCheck
  simp only [if_neg (lookup_length list _ _ h), h]
  rfl

/-- Counterexample to C29 as stated: the whitelist has all_access false, no
disallowed_urls, and "http://a" among its allowed_urls, which is a prefix of
the url "http://a/x"; whitelistCheck rejects the url, since a number comes
before "http://a" in the list. -/
theorem whitelist_counterexample :
    sampleMixedWhitelist.lookup "all_access" = some (Json.bool false) ∧
      sampleMixedWhitelist.lookup "disallowed_urls" = none ∧
      sampleMixedWhitelist.lookup "allowed_urls" =
        some (Json.array [Json.number 5, Json.string "http://a"]) ∧
      Json.string "http://a" ∈ [Json.number 5, Json.string "http://a"] ∧
      "http://a".toList.isPrefixOf "http://a/x".toList = true ∧
      whitelistCheck (WhitelistFile.list sampleMixedWhitelist) "http://a/x" =
        some WhitelistError.notUrlStrings :=
  ⟨rfl, rfl, rfl, List.mem_cons_of_mem _ (List.mem_cons_self _ _), by decide, by decide⟩

/-- C29, amended: with all_access true whitelistCheck accepts every url.  With
all_access false it rejects every url that has a string entry of the list
disallowed_urls as a prefix; and when disallowed_urls and allowed_urls, each
if present, are lists of strings, it accepts a url if and only if no entry of
disallowed_urls is a prefix of it and some entry of allowed_urls is. -/
theorem whitelistCheck_urls (list : List (String × Json)) (url : String) :
    (list.lookup "all_access" = some (Json.bool true) →
      whitelistCheck (WhitelistFile.list list) url = none) ∧
    (list.lookup "all_access" = some (Json.bool false) →
      (∀ field d, list.lookup "disallowed_urls" = some (Json.array field) →
        Json.string d ∈ field → d.toList.isPrefixOf url.toList = true →
        whitelistCheck (WhitelistFile.list list) url ≠ none) ∧
      (∀ ds urls, urlStrings (list.lookup "disallowed_urls") = some ds →
        urlStrings (list.lookup "allowed_urls") = some urls →
        (whitelistCheck (WhitelistFile.list list) url = none ↔
          anyPrefix ds url = false ∧ anyPrefix urls url = true))) := by
  refine ⟨?_, ?_⟩
  · intro h
    unfold whitelistCheck
    simp only [if_neg (lookup_length list _ _ h), h]
    rfl
  · intro h
    rw [whitelistCheck_restricted list url h]
    exact ⟨fun field d hl hmem hd => restrictedCheck_disallowed list url d field hl hmem hd,
      fun ds urls hd ha => restrictedCheck_strings list url ds urls hd ha⟩

/-- Witness of C29, amended: the sample whitelist allows "http://a" and
disallows "http://a/private"; the url "http://a/x" is accepted, the url
"http://a/private/y" is rejected. -/
theorem whitelistCheck_urls_witness :
    (whitelistCheck (WhitelistFile.list sampleWhitelist) "http://a/x" = none ↔
        anyPrefix ["http://a/private"] "http://a/x" = false ∧
          anyPrefix ["http://a"] "http://a/x" = true) ∧
      whitelistCheck (WhitelistFile.list sampleWhitelist) "http://a/x" = none ∧
      whitelistCheck (WhitelistFile.list sampleWhitelist) "http://a/private/y" ≠ none ∧
      whitelistCheck (WhitelistFile.list sampleWhitelist) "http://a/private/y" =
        some (WhitelistError.notWhitelisted "http://a/private/y") :=
  ⟨((whitelistCheck_urls sampleWhitelist "http://a/x").2 rfl).2 ["http://a/private"]
      ["http://a"] rfl rfl,
    by decide,
    ((whitelistCheck_urls sampleWhitelist "http://a/private/y").2 rfl).1
      [Json.string "http://a/private"] "http://a/private" rfl (List.mem_cons_self _ _)
      (by decide),
    by decide⟩

/-! ## Claims on BITSET, BITCLEAR and BITTEST -/

theorem shift_position (i : Int) (h1 : 1 ≤ i) (h2 : i ≤ 64) :
    (_BITONE <<< toUint64 (i - _BITSTART)) % 2 ^ 64 = 1 <<< (i - 1).toNat := by
  have hu : toUint64 (i - _BITSTART) = (i - 1).toNat := by
    unfold toUint64 _BITSTART
    rw [Int.emod_eq_of_lt (by omega) (by omega)]
  rw [hu]
  have hlt : (i - 1).toNat < 64 := by omega
  unfold _BITONE
  rw [Nat.one_shiftLeft]
  exact Nat.mod_eq_of_lt (Nat.pow_lt_pow_right (by decide) hlt)

/-- The loop of bitPositions over valid positions: the mask of the positions,
on top of the mask so far. -/
theorem bitPositionsLoop_valid :
    ∀ (elems : List Val) (num1 : Nat), validPositions elems = true →
      bitPositionsLoop elems num1 =
        (elems.foldl (fun mask p => mask ||| 1 <<< ((isInt p).1 - 1).toNat) num1, true) := by
  intro elems
  induction elems with
  | nil => intro num1 _; rfl
  | cons p rest ih =>
    intro num1 h
    unfold validPositions at h
    rw [List.all_cons, Bool.and_eq_true, Bool.and_eq_true, Bool.and_eq_true,
      decide_eq_true_eq, decide_eq_true_eq] at h
    obtain ⟨⟨⟨hok, h1⟩, h2⟩, hrest⟩ := h
    rw [bitPositionsLoop]
    have hc : (!(isInt p).2 || decide ((isInt p).1 < _BITSTART) ||
        decide ((isInt p).1 > _BITEND)) = false := by
      have ha : ¬ (isInt p).1 < _BITSTART := by unfold _BITSTART; omega
      have hb : ¬ (isInt p).1 > _BITEND := by unfold _BITEND; omega
      simp [hok, ha, hb]
    rw [hc]
    simp only [Bool.false_eq_true, if_false]
    rw [shift_position _ h1 h2, ih _ hrest, List.foldl_cons]

/-- The loop of bitPositions over a list with a position that is not an
integer from 1 to 64: not ok. -/
theorem bitPositionsLoop_invalid :
    ∀ (elems : List Val) (num1 : Nat), validPositions elems = false →
      (bitPositionsLoop elems num1).2 = false := by
  intro elems
  induction elems with
  | nil => intro num1 h; simp [validPositions] at h
  | cons p rest ih =>
    intro num1 h
    rw [bitPositionsLoop]
    split
    · rfl
    · rename_i hc
      apply ih
      unfold validPositions at h ⊢
      rw [List.all_cons] at h
      have hp : ((isInt p).2 && decide (1 ≤ (isInt p).1) && decide ((isInt p).1 ≤ 64)) = true := by
        simp only [Bool.or_eq_true, Bool.not_eq_true', decide_eq_true_eq, not_or,
          Bool.not_eq_false] at hc
        obtain ⟨⟨h1, h2⟩, h3⟩ := hc
        unfold _BITSTART at h2
        unfold _BITEND at h3
        have h2' : 1 ≤ (isInt p).1 := by omega
        have h3' : (isInt p).1 ≤ 64 := by omega
        simp [h1, h2', h3']
      rw [hp, Bool.true_and] at h
      exact h

theorem foldl_mask_lt :
    ∀ (elems : List Val) (num1 : Nat), validPositions elems = true → num1 < 2 ^ 64 →
      elems.foldl (fun mask p => mask ||| 1 <<< ((isInt p).1 - 1).toNat) num1 < 2 ^ 64 := by
  intro elems
  induction elems with
  | nil => intro num1 _ h; exact h
  | cons p rest ih =>
    intro num1 h hlt
    unfold validPositions at h
    rw [List.all_cons, Bool.and_eq_true, Bool.and_eq_true, Bool.and_eq_true,
      decide_eq_true_eq, decide_eq_true_eq] at h
    obtain ⟨⟨⟨_, h1⟩, h2⟩, hrest⟩ := h
    rw [List.foldl_cons]
    apply ih _ hrest
    apply Nat.or_lt_two_pow hlt
    rw [Nat.one_shiftLeft]
    exact Nat.pow_lt_pow_right (by decide) (by omega)

theorem toUint64_lt (i : Int) : toUint64 i < 2 ^ 64 := by
  unfold toUint64
  have h1 : 0 ≤ i % 2 ^ 64 := Int.emod_nonneg _ (by decide)
  have h2 : i % 2 ^ 64 < 2 ^ 64 := Int.emod_lt_of_pos _ (by decide)
  omega

theorem lor_land_self (a m : Nat) : (a ||| m) &&& m = m := by
  apply Nat.eq_of_testBit_eq
  intro i
  rw [Nat.testBit_land, Nat.testBit_lor]
  cases a.testBit i <;> cases m.testBit i <;> rfl

theorem land_not_land (a m : Nat) (hm : m < 2 ^ 64) : (a &&& (2 ^ 64 - 1 - m)) &&& m = 0 := by
  apply Nat.eq_of_testBit_eq
  intro i
  have hsub : 2 ^ 64 - 1 - m = 2 ^ 64 - (m + 1) := by omega
  rw [Nat.testBit_land, Nat.testBit_land, hsub, Nat.testBit_two_pow_sub_succ hm,
    Nat.zero_testBit]
  cases a.testBit i <;> cases m.testBit i <;> simp

/-- The three arguments of BITTEST pass its loop when the first is a number,
the second an array and the third a boolean. -/
theorem bitTestLoop_three (first : Val) (elems : List Val) (b : Bool)
    (hn : first.type = ValType.NUMBER) :
    bitTestLoop 0 [first, Val.ARRAY elems, Val.BOOLEAN b] false = ArgsLoop.ended b := by
  cases first <;> simp [Val.type] at hn
  simp [bitTestLoop, Val.type]

theorem bitTestLoop_two (first : Val) (elems : List Val) (hn : first.type = ValType.NUMBER) :
    bitTestLoop 0 [first, Val.ARRAY elems] false = ArgsLoop.ended false := by
  cases first <;> simp [Val.type] at hn
  simp [bitTestLoop, Val.type]

theorem bitSetNClear_array (NewValue : Nat → Val) (bitset : Bool) (first : Val)
    (elems : List Val) (hn : first.type = ValType.NUMBER) (hint : (isInt first).2 = true) :
    bitSetNClear NewValue bitset first (Val.ARRAY elems) =
      if !(bitPositionsLoop elems 0).2 then some Val.NULL
      else if bitset then some (NewValue (toUint64 (isInt first).1 ||| (bitPositionsLoop elems 0).1))
      else some (NewValue (toUint64 (isInt first).1 &&&
        (2 ^ 64 - 1 - (bitPositionsLoop elems 0).1))) := by
  cases first <;> simp [Val.type] at hn
  simp [bitSetNClear, hint, Val.type, bitPositions]

theorem BitTest_three (first : Val) (elems : List Val) (b : Bool)
    (hn : first.type = ValType.NUMBER) (hint : (isInt first).2 = true) :
    BitTest.Apply [first, Val.ARRAY elems, Val.BOOLEAN b] =
      if !(bitPositionsLoop elems 0).2 then some Val.NULL
      else if b then
        some (Val.BOOLEAN (decide (toUint64 (isInt first).1 &&& (bitPositionsLoop elems 0).1 =
          (bitPositionsLoop elems 0).1)))
      else
        some (Val.BOOLEAN (decide (toUint64 (isInt first).1 &&& (bitPositionsLoop elems 0).1 ≠
          0))) := by
  unfold BitTest.Apply
  rw [bitTestLoop_three first elems b hn]
  simp [hint, bitPositions]

theorem BitTest_two (first : Val) (elems : List Val)
    (hn : first.type = ValType.NUMBER) (hint : (isInt first).2 = true) :
    BitTest.Apply [first, Val.ARRAY elems] =
      if !(bitPositionsLoop elems 0).2 then some Val.NULL
      else
        some (Val.BOOLEAN (decide (toUint64 (isInt first).1 &&& (bitPositionsLoop elems 0).1 ≠
          0))) := by
  unfold BitTest.Apply
  rw [bitTestLoop_two first elems hn]
  simp [hint, bitPositions]

/-- The sample NewValue hands back the bits it was given. -/
theorem sampleNewValue_roundtrip (x : Nat) (hx : x < 2 ^ 64) :
    (sampleNewValue x).type = ValType.NUMBER ∧ (isInt (sampleNewValue x)).2 = true ∧
      toUint64 (isInt (sampleNewValue x)).1 = x := by
  refine ⟨rfl, rfl, ?_⟩
  show toUint64 (ofUint64 x) = x
  unfold toUint64 ofUint64 toInt64
  have h : ((x : Int) + 2 ^ 63) % 2 ^ 64 - 2 ^ 63 = x ∨
      ((x : Int) + 2 ^ 63) % 2 ^ 64 - 2 ^ 63 = x - 2 ^ 64 := by omega
  rcases h with h | h
  · rw [Int.ofNat_eq_coe, h, Int.emod_eq_of_lt (by omega) (by omega)]
    simp
  · rw [Int.ofNat_eq_coe, h]
    have : ((x : Int) - 2 ^ 64) % 2 ^ 64 = x := by omega
    rw [this]
    simp

/-- C31: for a first argument that is an integer n and a list of positions,
each an integer from 1 to 64, with mask the OR of 1 << (p - 1) over the
positions, BITSET returns NewValue of uint64(n) OR mask and BITCLEAR NewValue
of uint64(n) AND NOT mask; when NewValue gives numbers whose integer has the
bits it was given, BITTEST of the result of BITSET, the positions and true is
true, and BITTEST of the result of BITCLEAR, the positions and false is false.
When some position is not an integer from 1 to 64, BITSET, BITCLEAR and
BITTEST return NULL. -/
theorem bitset_bitclear_bittest (NewValue : Nat → Val) (first : Val) (elems : List Val)
    (hn : first.type = ValType.NUMBER) (hint : (isInt first).2 = true) :
    (validPositions elems = true →
      BitSet.Apply NewValue first (Val.ARRAY elems) =
        some (NewValue (toUint64 (isInt first).1 ||| maskOf elems)) ∧
      BitClear.Apply NewValue first (Val.ARRAY elems) =
        some (NewValue (toUint64 (isInt first).1 &&& (2 ^ 64 - 1 - maskOf elems))) ∧
      ((∀ x, x < 2 ^ 64 → (NewValue x).type = ValType.NUMBER ∧
          (isInt (NewValue x)).2 = true ∧ toUint64 (isInt (NewValue x)).1 = x) →
        BitTest.Apply [NewValue (toUint64 (isInt first).1 ||| maskOf elems), Val.ARRAY elems,
            Val.BOOLEAN true] = some (Val.BOOLEAN true) ∧
        BitTest.Apply [NewValue (toUint64 (isInt first).1 &&& (2 ^ 64 - 1 - maskOf elems)),
            Val.ARRAY elems, Val.BOOLEAN false] = some (Val.BOOLEAN false))) ∧
    (validPositions elems = false →
      BitSet.Apply NewValue first (Val.ARRAY elems) = some Val.NULL ∧
      BitClear.Apply NewValue first (Val.ARRAY elems) = some Val.NULL ∧
      BitTest.Apply [first, Val.ARRAY elems] = some Val.NULL ∧
      ∀ b, BitTest.Apply [first, Val.ARRAY elems, Val.BOOLEAN b] = some Val.NULL) := by
  constructor
  · intro hv
    have hloop : bitPositionsLoop elems 0 = (maskOf elems, true) := bitPositionsLoop_valid elems 0 hv
    have hmask : maskOf elems < 2 ^ 64 := foldl_mask_lt elems 0 hv (by decide)
    refine ⟨?_, ?_, ?_⟩
    · unfold BitSet.Apply
      rw [bitSetNClear_array NewValue true first elems hn hint, hloop]
      rfl
    · unfold BitClear.Apply
      rw [bitSetNClear_array NewValue false first elems hn hint, hloop]
      rfl
    · intro hnew
      have hset : toUint64 (isInt first).1 ||| maskOf elems < 2 ^ 64 :=
        Nat.or_lt_two_pow (toUint64_lt _) hmask
      have hclear : toUint64 (isInt first).1 &&& (2 ^ 64 - 1 - maskOf elems) < 2 ^ 64 :=
        Nat.lt_of_le_of_lt Nat.and_le_left (toUint64_lt _)
      obtain ⟨hs1, hs2, hs3⟩ := hnew _ hset
      obtain ⟨hc1, hc2, hc3⟩ := hnew _ hclear
      constructor
      · rw [BitTest_three _ elems true hs1 hs2, hloop, hs3, lor_land_self]
        simp
      · rw [BitTest_three _ elems false hc1 hc2, hloop, hc3, land_not_land _ _ hmask]
        simp
  · intro hv
    have hloop : (bitPositionsLoop elems 0).2 = false := bitPositionsLoop_invalid elems 0 hv
    refine ⟨?_, ?_, ?_, ?_⟩
    · unfold BitSet.Apply
      rw [bitSetNClear_array NewValue true first elems hn hint, hloop]
      rfl
    · unfold BitClear.Apply
      rw [bitSetNClear_array NewValue false first elems hn hint, hloop]
      rfl
    · rw [BitTest_two first elems hn hint, hloop]
      rfl
    · intro b
      rw [BitTest_three first elems b hn hint, hloop]
      rfl

/-- Witness of C31: on the integer 5 and the positions 2 and 64, BITSET gives
the bits of 5 with the bits 2 and 64 set and BITTEST finds them all set;
BITCLEAR gives 5 and BITTEST finds none set; with the position 65, BITSET
returns NULL. -/
theorem bitset_bitclear_bittest_witness :
    (BitSet.Apply sampleNewValue (Val.NUMBER (Number.int 5))
        (Val.ARRAY [Val.NUMBER (Number.int 2), Val.NUMBER (Number.int 64)]) =
        some (sampleNewValue (toUint64 5 |||
          maskOf [Val.NUMBER (Number.int 2), Val.NUMBER (Number.int 64)])) ∧
      BitClear.Apply sampleNewValue (Val.NUMBER (Number.int 5))
        (Val.ARRAY [Val.NUMBER (Number.int 2), Val.NUMBER (Number.int 64)]) =
        some (sampleNewValue (toUint64 5 &&&
          (2 ^ 64 - 1 - maskOf [Val.NUMBER (Number.int 2), Val.NUMBER (Number.int 64)]))) ∧
      BitTest.Apply [sampleNewValue (toUint64 5 |||
          maskOf [Val.NUMBER (Number.int 2), Val.NUMBER (Number.int 64)]),
        Val.ARRAY [Val.NUMBER (Number.int 2), Val.NUMBER (Number.int 64)], Val.BOOLEAN true] =
        some (Val.BOOLEAN true) ∧
      BitTest.Apply [sampleNewValue (toUint64 5 &&&
          (2 ^ 64 - 1 - maskOf [Val.NUMBER (Number.int 2), Val.NUMBER (Number.int 64)])),
        Val.ARRAY [Val.NUMBER (Number.int 2), Val.NUMBER (Number.int 64)], Val.BOOLEAN false] =
        some (Val.BOOLEAN false)) ∧
      maskOf [Val.NUMBER (Number.int 2), Val.NUMBER (Number.int 64)] = 2 ^ 63 + 2 ∧
      BitSet.Apply sampleNewValue (Val.NUMBER (Number.int 5))
        (Val.ARRAY [Val.NUMBER (Number.int 65)]) = some Val.NULL :=
  have h := bitset_bitclear_bittest sampleNewValue (Val.NUMBER (Number.int 5))
    [Val.NUMBER (Number.int 2), Val.NUMBER (Number.int 64)] rfl rfl
  have h2 := bitset_bitclear_bittest sampleNewValue (Val.NUMBER (Number.int 5))
    [Val.NUMBER (Number.int 65)] rfl rfl
  have hv := h.1 (by decide)
  ⟨⟨hv.1, hv.2.1, hv.2.2 sampleNewValue_roundtrip⟩, by decide, (h2.2 (by decide)).1⟩

/-! ## Claims on dateDiff -/

/-- C33: from 31 December 2016 (day 366 of 2016) to 1 January 2018 (day 1 of
2018), both at midnight, there are 366 calendar days, and dateDiff with the
part "day" returns 367; from 1 March 2016 (day 61) to 1 February 2018 (day
32) there are 702 and it returns 703.  From 31 December 2016 to 1 January 2017
it returns 1. -/
theorem dateDiff_day_leap_borrow :
    dateDiff 1 (midnight 2018 1) (midnight 2016 366) "day" = some (367, none) ∧
      calendarDays (midnight 2018 1) (midnight 2016 366) = 366 ∧
      dateDiff 1 (midnight 2018 32) (midnight 2016 61) "day" = some (703, none) ∧
      calendarDays (midnight 2018 32) (midnight 2016 61) = 702 ∧
      dateDiff 1 (midnight 2017 1) (midnight 2016 366) "day" = some (1, none) ∧
      calendarDays (midnight 2017 1) (midnight 2016 366) = 1 := by
  refine ⟨by decide, by decide, by decide, by decide, by decide, by decide⟩

theorem diffPart_min (fuel : Nat) (t1 t2 : Time) (diff : date) :
    diffPart (fuel + 1) t1 t2 diff "min" = some (0, some "Unsupported date diff part min.") := by
  rw [diffPart]
  have h : ToLower "min" = "min" := by decide
  simp only [h]
  rfl

theorem diffPart_second (fuel : Nat) (t1 t2 : Time) (diff : date) :
    diffPart (fuel + 2) t1 t2 diff "second" =
      some (0, some "Unsupported date diff part min.") := by
  rw [diffPart]
  have h : ToLower "second" = "second" := by decide
  simp only [h, diffPart_min]
  rfl

theorem diffPart_day (fuel : Nat) (t1 t2 : Time) (diff : date) :
    ∃ v, diffPart (fuel + 1) t1 t2 diff "day" = some (v, none) := by
  rw [diffPart]
  have h : ToLower "day" = "day" := by decide
  simp only [h]
  exact ⟨_, rfl⟩

theorem diffPart_hour (fuel : Nat) (t1 t2 : Time) (diff : date) :
    ∃ v, diffPart (fuel + 2) t1 t2 diff "hour" = some (v, none) := by
  obtain ⟨d, hd⟩ := diffPart_day fuel t1 t2 diff
  rw [diffPart]
  have h : ToLower "hour" = "hour" := by decide
  simp only [h, hd]
  exact ⟨_, rfl⟩

/-- C34: for every pair of times, dateDiff with the part "second" returns the
error of the part "min", which is not among the cases of diffPart, and so
does dateDiff with the part "millisecond", which goes through "second"; the
parts "minute", "hour", "day", "week", "year", "decade" and "century" yield a
number and no error. -/
theorem dateDiff_second_unsupported (fuel : Nat) (t1 t2 : Time) :
    dateDiff (fuel + 3) t1 t2 "second" = some (0, some "Unsupported date diff part min.") ∧
      dateDiff (fuel + 3) t1 t2 "millisecond" =
        some (0, some "Unsupported date diff part min.") ∧
      (∀ part ∈ ["minute", "hour", "day", "week", "year", "decade", "century"],
        ∃ v, dateDiff (fuel + 3) t1 t2 part = some (v, none)) := by
  unfold dateDiff
  refine ⟨diffPart_second (fuel + 1) t1 t2 _, ?_, ?_⟩
  · rw [diffPart]
    have h : ToLower "millisecond" = "millisecond" := by decide
    simp only [h, diffPart_second]
    rfl
  · intro part hpart
    simp only [List.mem_cons, List.mem_singleton, List.not_mem_nil, or_false] at hpart
    rcases hpart with rfl | rfl | rfl | rfl | rfl | rfl | rfl
    · obtain ⟨d, hd⟩ := diffPart_hour fuel t1 t2 (diffDates t1 t2)
      rw [diffPart]
      have h : ToLower "minute" = "minute" := by decide
      simp only [h, hd]
      exact ⟨_, rfl⟩
    · exact diffPart_hour (fuel + 1) t1 t2 _
    · exact diffPart_day (fuel + 2) t1 t2 _
    · obtain ⟨d, hd⟩ := diffPart_day (fuel + 1) t1 t2 (diffDates t1 t2)
      rw [diffPart]
      have h : ToLower "week" = "week" := by decide
      simp only [h, hd]
      exact ⟨_, rfl⟩
    · rw [diffPart]
      have h : ToLower "year" = "year" := by decide
      simp only [h]
      exact ⟨_, rfl⟩
    · rw [diffPart]
      have h : ToLower "decade" = "decade" := by decide
      simp only [h]
      exact ⟨_, rfl⟩
    · rw [diffPart]
      have h : ToLower "century" = "century" := by decide
      simp only [h]
      exact ⟨_, rfl⟩

/-! ## Claims on Like.compile -/

/-- The alternatives of the expression of Like.compile: a backslash, an
underscore, a percent sign, and the last two again; each is one character. -/
theorem like_alternatives :
    parseAlternatives "\\\\|\\_|\\%|_|%".toList false [] =
      [['\\'], ['_'], ['%'], ['_'], ['%']] := by
  decide

theorem matchAt_like (c : Char) (rest : List Char) :
    matchAt [['\\'], ['_'], ['%'], ['_'], ['%']] (c :: rest) =
      if c = '\\' then some ['\\'] else if c = '_' then some ['_']
      else if c = '%' then some ['%'] else none := by
  unfold matchAt
  by_cases h1 : c = '\\'
  · subst h1; simp [List.find?, List.isPrefixOf]
  · by_cases h2 : c = '_'
    · subst h2; simp [List.find?, List.isPrefixOf]
    · by_cases h3 : c = '%'
      · subst h3; simp [List.find?, List.isPrefixOf]
      · have e1 : ('\\' == c) = false := by simpa using Ne.symm h1
        have e2 : ('_' == c) = false := by simpa using Ne.symm h2
        have e3 : ('%' == c) = false := by simpa using Ne.symm h3
        simp [List.find?, List.isPrefixOf, e1, e2, e3, h1, h2, h3]

/-- The substitution of Like.compile panics exactly on the strings that hold a
backslash. -/
theorem replaceAll_like_panics :
    ∀ (s : List Char),
      replaceAllStringFunc [['\\'], ['_'], ['%'], ['_'], ['%']] replacer s 0 = none ↔
        '\\' ∈ s := by
  intro s
  induction s with
  | nil => simp [replaceAllStringFunc]
  | cons c rest ih =>
    rw [replaceAllStringFunc, matchAt_like]
    by_cases h1 : c = '\\'
    · subst h1
      have hr : replacer (String.mk ['\\']) = none := by decide
      simp [hr]
    · rw [if_neg h1]
      have hmem : '\\' ∈ c :: rest ↔ '\\' ∈ rest := by
        simp [Ne.symm h1]
      rw [hmem, ← ih]
      by_cases h2 : c = '_'
      · subst h2
        have hr : replacer (String.mk ['_']) = some "(.)" := by decide
        simp only [if_true, hr, List.length_singleton, Nat.sub_self]
        cases replaceAllStringFunc [['\\'], ['_'], ['%'], ['_'], ['%']] replacer rest 0 <;> simp
      · rw [if_neg h2]
        by_cases h3 : c = '%'
        · subst h3
          have hr : replacer (String.mk ['%']) = some "(.*)" := by decide
          simp only [if_true, hr, List.length_singleton, Nat.sub_self]
          cases replaceAllStringFunc [['\\'], ['_'], ['%'], ['_'], ['%']] replacer rest 0 <;>
            simp
        · rw [if_neg h3]
          cases replaceAllStringFunc [['\\'], ['_'], ['%'], ['_'], ['%']] replacer rest 0 <;>
            simp

/-- C37: the expression of Like.compile matches a backslash alone, and
replacer has no case for the string of one backslash, so Like.compile panics
on a pattern exactly when the pattern holds a backslash; it does on the
pattern of `a`, a backslash and `b`. -/
theorem like_compile_backslash {Regexp : Type} (Compile : String → Except String Regexp)
    (s : String) :
    (compile Compile s = none ↔ '\\' ∈ s.toList) ∧
      compile Compile "a\\b" = none ∧
      matchAt (parseAlternatives "\\\\|\\_|\\%|_|%".toList false []) "\\b".toList =
        some "\\".toList ∧
      replacer "\\" = none := by
  refine ⟨?_, ?_, by decide, by decide⟩
  · unfold compile
    rw [like_alternatives, ← replaceAll_like_panics]
    cases replaceAllStringFunc [['\\'], ['_'], ['%'], ['_'], ['%']] replacer s.toList 0 <;> simp
  · unfold compile
    have h : replaceAllStringFunc (parseAlternatives "\\\\|\\_|\\%|_|%".toList false [])
        replacer "a\\b".toList 0 = none := by decide
    rw [h]

/-! ## Claims on Not.Fold -/

/-- Three negations are one. -/
theorem Not_eval_triple (Truth : Val → Bool) (hT : ∀ b, Truth (Val.BOOLEAN b) = b) (v : Val) :
    Not.eval Truth (Not.eval Truth (Not.eval Truth v)) = Not.eval Truth v := by
  cases v <;> simp [Not.eval, Val.type, ValType.aboveNull, hT]

/-- Values with the same double negation have the same negation. -/
theorem Not_eval_congr (Truth : Val → Bool) (hT : ∀ b, Truth (Val.BOOLEAN b) = b) (u w : Val)
    (h : Not.eval Truth (Not.eval Truth u) = Not.eval Truth (Not.eval Truth w)) :
    Not.eval Truth u = Not.eval Truth w := by
  rw [← Not_eval_triple Truth hT u, h, Not_eval_triple Truth hT w]

/-- Folding preserves the double negation of the value. -/
theorem Fold_double_negation (Truth : Val → Bool) (hT : ∀ b, Truth (Val.BOOLEAN b) = b)
    (evalOther : Nat → Val) :
    ∀ (x : Expression),
      Not.eval Truth (Not.eval Truth ((x.Fold Truth).Evaluate Truth evalOther)) =
        Not.eval Truth (Not.eval Truth (x.Evaluate Truth evalOther)) := by
  intro x
  induction x with
  | Constant v => rfl
  | Other id => rfl
  | Not operand ih =>
    rw [Expression.Fold]
    cases hf : Expression.Fold Truth operand with
    | Constant v =>
      rw [hf] at ih
      simp only [Expression.Evaluate] at ih ⊢
      rw [Not_eval_congr Truth hT _ _ ih]
    | Other id =>
      rw [hf] at ih
      simp only [Expression.Evaluate] at ih ⊢
      rw [Not_eval_congr Truth hT _ _ ih]
    | Not o =>
      rw [hf] at ih
      simp only [Expression.Evaluate] at ih ⊢
      have h2 := congrArg (Not.eval Truth) ih
      rw [Not_eval_triple Truth hT, Not_eval_triple Truth hT] at h2
      rw [h2, Not_eval_triple Truth hT]

/-- Counterexample to C38 as stated: for an operand that evaluates to the
number 5, the fold of NOT(NOT(x)) is x and evaluates to 5, where NOT(NOT(x))
evaluates to TRUE. -/
theorem not_fold_counterexample :
    (NewNot (NewNot (Expression.Other 0))).Fold sampleTruth = Expression.Other 0 ∧
      ((NewNot (NewNot (Expression.Other 0))).Fold sampleTruth).Evaluate sampleTruth
        sampleEvalOther = Val.NUMBER (Number.int 5) ∧
      (NewNot (NewNot (Expression.Other 0))).Evaluate sampleTruth sampleEvalOther =
        Val.BOOLEAN true ∧
      ((NewNot (NewNot (Expression.Other 0))).Fold sampleTruth).Evaluate sampleTruth
        sampleEvalOther ≠
        (NewNot (NewNot (Expression.Other 0))).Evaluate sampleTruth sampleEvalOther := by
  refine ⟨rfl, rfl, rfl, ?_⟩
  intro h
  have h2 : Val.NUMBER (Number.int 5) = Val.BOOLEAN true := h
  cases h2

/-- C38, amended: when the truth value of a boolean is the boolean itself, the
expression returned by NewNot(NewNot(x)).Fold() evaluates to a value whose
double negation under Not.eval is the value of NOT(NOT(x)): it is MISSING or
NULL when that value is, and has the truth value of that value otherwise. -/
theorem Not_Fold_double_negation (Truth : Val → Bool) (evalOther : Nat → Val) (x : Expression)
    (hT : ∀ b, Truth (Val.BOOLEAN b) = b) :
    Not.eval Truth (Not.eval Truth
        (((NewNot (NewNot x)).Fold Truth).Evaluate Truth evalOther)) =
      (NewNot (NewNot x)).Evaluate Truth evalOther ∧
    ((NewNot (NewNot x)).Evaluate Truth evalOther = Val.MISSING ↔
      ((NewNot (NewNot x)).Fold Truth).Evaluate Truth evalOther = Val.MISSING) ∧
    ((NewNot (NewNot x)).Evaluate Truth evalOther = Val.NULL ↔
      ((NewNot (NewNot x)).Fold Truth).Evaluate Truth evalOther = Val.NULL) ∧
    (∀ b, (NewNot (NewNot x)).Evaluate Truth evalOther = Val.BOOLEAN b →
      Truth (((NewNot (NewNot x)).Fold Truth).Evaluate Truth evalOther) = b) := by
  have h := Fold_double_negation Truth hT evalOther (NewNot (NewNot x))
  have horig : Not.eval Truth (Not.eval Truth ((NewNot (NewNot x)).Evaluate Truth evalOther)) =
      (NewNot (NewNot x)).Evaluate Truth evalOther := by
    show Not.eval Truth (Not.eval Truth (Not.eval Truth (Not.eval Truth _))) =
      Not.eval Truth (Not.eval Truth _)
    rw [Not_eval_triple Truth hT]
  rw [horig] at h
  refine ⟨h, ?_, ?_, ?_⟩
  · rw [← h]
    generalize ((NewNot (NewNot x)).Fold Truth).Evaluate Truth evalOther = v
    cases v <;> simp [Not.eval, Val.type, ValType.aboveNull]
  · rw [← h]
    generalize ((NewNot (NewNot x)).Fold Truth).Evaluate Truth evalOther = v
    cases v <;> simp [Not.eval, Val.type, ValType.aboveNull]
  · intro b
    rw [← h]
    generalize ((NewNot (NewNot x)).Fold Truth).Evaluate Truth evalOther = v
    cases v <;> simp [Not.eval, Val.type, ValType.aboveNull, hT]

/-- Witness of C38, amended: the fold of NOT(NOT(x)) for the operand that
evaluates to 5 evaluates to 5, whose double negation is TRUE, the value of
NOT(NOT(x)). -/
theorem Not_Fold_double_negation_witness :
    Not.eval sampleTruth (Not.eval sampleTruth
        (((NewNot (NewNot (Expression.Other 0))).Fold sampleTruth).Evaluate sampleTruth
          sampleEvalOther)) =
      (NewNot (NewNot (Expression.Other 0))).Evaluate sampleTruth sampleEvalOther ∧
    sampleTruth (((NewNot (NewNot (Expression.Other 0))).Fold sampleTruth).Evaluate sampleTruth
      sampleEvalOther) = true :=
  have h := Not_Fold_double_negation sampleTruth sampleEvalOther (Expression.Other 0)
    (fun _ => rfl)
  ⟨h.1, h.2.2.2 true rfl⟩

/-! ## Claims on Every.Evaluate -/

/-- The first loop of Every.Evaluate when no binding has an error: the flags
and the arrays it leaves. -/
theorem bindingsLoop_ok (env : EveryEnv) :
    ∀ (bindings : List Binding) (st : BindingsState),
      (∀ b ∈ bindings, (env.Evaluate b.Expression).2 = none) →
      ∃ st2, bindingsLoop env bindings st = Except.ok st2 ∧
        st2.missing = (st.missing ||
          bindings.any (fun b => decide ((bindingValue env b).type = ValType.MISSING))) ∧
        st2.null = (st.null ||
          bindings.any (fun b => decide ((bindingValue env b).type ≠ ValType.MISSING) &&
            decide ((bindingValue env b).type ≠ ValType.ARRAY))) ∧
        st2.barr = st.barr ++ bindingArrays env bindings := by
  intro bindings
  induction bindings with
  | nil => intro st _; exact ⟨st, rfl, by simp, by simp, by simp [bindingArrays]⟩
  | cons b rest ih =>
    intro st herr
    have hb := herr b (List.mem_cons_self _ _)
    have hrest : ∀ b2 ∈ rest, (env.Evaluate b2.Expression).2 = none :=
      fun b2 h2 => herr b2 (List.mem_cons_of_mem _ h2)
    rw [bindingsLoop, hb]
    simp only
    cases hv : bindingValue env b with
    | ARRAY elems =>
      obtain ⟨st2, h1, h2, h3, h4⟩ := ih { st with barr := st.barr ++ [elems] } hrest
      refine ⟨st2, h1, ?_, ?_, ?_⟩
      · rw [h2]; simp [hv, Val.type]
      · rw [h3]; simp [hv, Val.type]
      · rw [h4]; simp [bindingArrays, hv, elemsOf]
    | MISSING =>
      obtain ⟨st2, h1, h2, h3, h4⟩ :=
        ih { st with missing := true, barr := st.barr ++ [[]] } hrest
      refine ⟨st2, h1, ?_, ?_, ?_⟩
      · rw [h2]; simp [hv, Val.type]
      · rw [h3]; simp [hv, Val.type]
      · rw [h4]; simp [bindingArrays, hv, elemsOf]
    | NULL =>
      obtain ⟨st2, h1, h2, h3, h4⟩ := ih { st with null := true, barr := st.barr ++ [[]] } hrest
      refine ⟨st2, h1, ?_, ?_, ?_⟩
      · rw [h2]; simp [hv, Val.type]
      · rw [h3]; simp [hv, Val.type]
      · rw [h4]; simp [bindingArrays, hv, elemsOf]
    | BOOLEAN x =>
      obtain ⟨st2, h1, h2, h3, h4⟩ := ih { st with null := true, barr := st.barr ++ [[]] } hrest
      refine ⟨st2, h1, ?_, ?_, ?_⟩
      · rw [h2]; simp [hv, Val.type]
      · rw [h3]; simp [hv, Val.type]
      · rw [h4]; simp [bindingArrays, hv, elemsOf]
    | NUMBER x =>
      obtain ⟨st2, h1, h2, h3, h4⟩ := ih { st with null := true, barr := st.barr ++ [[]] } hrest
      refine ⟨st2, h1, ?_, ?_, ?_⟩
      · rw [h2]; simp [hv, Val.type]
      · rw [h3]; simp [hv, Val.type]
      · rw [h4]; simp [bindingArrays, hv, elemsOf]
    | STRING x =>
      obtain ⟨st2, h1, h2, h3, h4⟩ := ih { st with null := true, barr := st.barr ++ [[]] } hrest
      refine ⟨st2, h1, ?_, ?_, ?_⟩
      · rw [h2]; simp [hv, Val.type]
      · rw [h3]; simp [hv, Val.type]
      · rw [h4]; simp [bindingArrays, hv, elemsOf]
    | OBJECT x =>
      obtain ⟨st2, h1, h2, h3, h4⟩ := ih { st with null := true, barr := st.barr ++ [[]] } hrest
      refine ⟨st2, h1, ?_, ?_, ?_⟩
      · rw [h2]; simp [hv, Val.type]
      · rw [h3]; simp [hv, Val.type]
      · rw [h4]; simp [bindingArrays, hv, elemsOf]

/-- The last loop of Every.Evaluate when the satisfies-expression has no error
on the indexes: TRUE exactly when it is truthy at each of them. -/
theorem satisfiesLoop_ok (env : EveryEnv) (bindings : List Binding) (barr : List (List Val)) :
    ∀ (idxs : List Nat),
      (∀ i ∈ idxs, (env.satisfies (scopeFields bindings barr i)).2 = none) →
      satisfiesLoop env bindings barr idxs =
        Except.ok (Val.BOOLEAN
          (idxs.all (fun i => env.Truth (env.satisfies (scopeFields bindings barr i)).1))) := by
  intro idxs
  induction idxs with
  | nil => intro _; rfl
  | cons i rest ih =>
    intro herr
    rw [satisfiesLoop, herr i (List.mem_cons_self _ _)]
    simp only
    cases ht : env.Truth (env.satisfies (scopeFields bindings barr i)).1 with
    | false => simp [ht]
    | true =>
      rw [ih (fun j hj => herr j (List.mem_cons_of_mem _ hj))]
      simp [ht]

/-- The loop that finds `n` gives the least of `n` and the lengths, where a
negative `n` stands for no length yet. -/
theorem shortestLength_spec :
    ∀ (barr : List (List Val)) (n : Int), -1 ≤ n →
      (∀ b ∈ barr, shortestLength barr n ≤ b.length) ∧
      (0 ≤ n → shortestLength barr n ≤ n) ∧
      (shortestLength barr n = n ∨ ∃ b ∈ barr, shortestLength barr n = b.length) := by
  intro barr
  induction barr with
  | nil => intro n _; exact ⟨fun b hb => by simp at hb, fun _ => Int.le_refl _, Or.inl rfl⟩
  | cons b rest ih =>
    intro n hn
    rw [shortestLength]
    by_cases hc : n < 0 ∨ (b.length : Int) < n
    · rw [if_pos hc]
      obtain ⟨h1, h2, h3⟩ := ih (b.length : Int) (by omega)
      have hle := h2 (by omega)
      refine ⟨?_, ?_, ?_⟩
      · intro b2 hb2
        rcases List.mem_cons.mp hb2 with rfl | hin
        · exact hle
        · exact h1 b2 hin
      · intro h0; omega
      · rcases h3 with h3 | ⟨b2, hb2, h3⟩
        · exact Or.inr ⟨b, List.mem_cons_self _ _, h3⟩
        · exact Or.inr ⟨b2, List.mem_cons_of_mem _ hb2, h3⟩
    · rw [if_neg hc]
      obtain ⟨h1, h2, h3⟩ := ih n hn
      have hn0 : 0 ≤ n := by omega
      have hle := h2 hn0
      refine ⟨?_, fun _ => hle, ?_⟩
      · intro b2 hb2
        rcases List.mem_cons.mp hb2 with rfl | hin
        · omega
        · exact h1 b2 hin
      · rcases h3 with h3 | ⟨b2, hb2, h3⟩
        · exact Or.inl h3
        · exact Or.inr ⟨b2, List.mem_cons_of_mem _ hb2, h3⟩


theorem shortestLength_nonneg :
    ∀ (barr : List (List Val)) (n : Int), 0 ≤ n ∨ barr ≠ [] → 0 ≤ shortestLength barr n := by
  intro barr
  induction barr with
  | nil =>
    intro n h
    rcases h with h | h
    · exact h
    · exact absurd rfl h
  | cons b rest ih =>
    intro n _
    rw [shortestLength]
    split
    · exact ih _ (Or.inl (by omega))
    · rename_i hc
      exact ih _ (Or.inl (by omega))

/-- What Every.Evaluate returns when no binding has an error, from the flags of
the first loop. -/
theorem Every_Evaluate_eq (env : EveryEnv) (bindings : List Binding)
    (herr : ∀ b ∈ bindings, (env.Evaluate b.Expression).2 = none) :
    Every.Evaluate env bindings =
      if bindings.any (fun b => decide ((bindingValue env b).type = ValType.MISSING)) then
        Except.ok Val.MISSING
      else if bindings.any (fun b => decide ((bindingValue env b).type ≠ ValType.MISSING) &&
          decide ((bindingValue env b).type ≠ ValType.ARRAY)) then Except.ok Val.NULL
      else satisfiesLoop env bindings (bindingArrays env bindings)
        (List.range (everyLength env bindings)) := by
  obtain ⟨st2, h1, h2, h3, h4⟩ :=
    bindingsLoop_ok env bindings { missing := false, null := false, barr := [] } herr
  unfold Every.Evaluate
  rw [h1]
  simp only [h2, h3, h4, Bool.false_or, List.nil_append]
  rfl

/-- Counterexample to C39 as stated: the expression of the one binding
evaluates to MISSING; the binding descends, MISSING has no descendants, and
Every.Evaluate returns TRUE. -/
theorem every_descend_counterexample :
    sampleEveryEnv.Evaluate 0 = (Val.MISSING, none) ∧
      Every.Evaluate sampleEveryEnv [{ Variable := "v", Expression := 0, Descend := true }] =
        Except.ok (Val.BOOLEAN true) :=
  ⟨rfl, rfl⟩

/-- C39, amended: when the expression of no binding has an error, with the
value of a binding being the value of its expression or, for a binding that
descends, the array of the descendants of that value: Every.Evaluate returns
MISSING if the value of some binding is MISSING; otherwise NULL if the value
of some binding is not an array; otherwise, with n the length of the shortest
array of the bindings and no error of the satisfies-expression at an index
below n, FALSE if the satisfies-expression is not truthy at some index below
n and TRUE if it is truthy at every index below n. -/
theorem Every_Evaluate_value (env : EveryEnv) (bindings : List Binding)
    (herr : ∀ b ∈ bindings, (env.Evaluate b.Expression).2 = none) :
    ((∃ b ∈ bindings, (bindingValue env b).type = ValType.MISSING) →
      Every.Evaluate env bindings = Except.ok Val.MISSING) ∧
    ((∀ b ∈ bindings, (bindingValue env b).type ≠ ValType.MISSING) →
      (∃ b ∈ bindings, (bindingValue env b).type ≠ ValType.ARRAY) →
      Every.Evaluate env bindings = Except.ok Val.NULL) ∧
    ((∀ b ∈ bindings, (bindingValue env b).type = ValType.ARRAY) →
      (bindings ≠ [] →
        (∃ b ∈ bindings, everyLength env bindings = (elemsOf (bindingValue env b)).length) ∧
        ∀ b ∈ bindings, everyLength env bindings ≤ (elemsOf (bindingValue env b)).length) ∧
      ((∀ i, i < everyLength env bindings →
          (env.satisfies (scopeFields bindings (bindingArrays env bindings) i)).2 = none) →
        ((∃ i, i < everyLength env bindings ∧
            env.Truth (env.satisfies (scopeFields bindings (bindingArrays env bindings) i)).1 =
              false) →
          Every.Evaluate env bindings = Except.ok (Val.BOOLEAN false)) ∧
        ((∀ i, i < everyLength env bindings →
            env.Truth (env.satisfies (scopeFields bindings (bindingArrays env bindings) i)).1 =
              true) →
          Every.Evaluate env bindings = Except.ok (Val.BOOLEAN true)))) := by
  have heq := Every_Evaluate_eq env bindings herr
  refine ⟨?_, ?_, ?_⟩
  · intro hm
    obtain ⟨b, hb, hbm⟩ := hm
    have : bindings.any (fun b => decide ((bindingValue env b).type = ValType.MISSING)) = true :=
      List.any_eq_true.mpr ⟨b, hb, by simp [hbm]⟩
    rw [heq, if_pos this]
  · intro hnm hna
    obtain ⟨b, hb, hba⟩ := hna
    have h1 : bindings.any (fun b => decide ((bindingValue env b).type = ValType.MISSING)) =
        false := by
      rw [List.any_eq_false]
      intro x hx
      simp [hnm x hx]
    have h2 : bindings.any (fun b => decide ((bindingValue env b).type ≠ ValType.MISSING) &&
        decide ((bindingValue env b).type ≠ ValType.ARRAY)) = true :=
      List.any_eq_true.mpr ⟨b, hb, by simp [hnm b hb, hba]⟩
    rw [heq, h1, h2]
    rfl
  · intro hall
    have h1 : bindings.any (fun b => decide ((bindingValue env b).type = ValType.MISSING)) =
        false := by
      rw [List.any_eq_false]
      intro x hx
      simp [hall x hx]
    have h2 : bindings.any (fun b => decide ((bindingValue env b).type ≠ ValType.MISSING) &&
        decide ((bindingValue env b).type ≠ ValType.ARRAY)) = false := by
      rw [List.any_eq_false]
      intro x hx
      simp [hall x hx]
    rw [heq, h1, h2]
    simp only [Bool.false_eq_true, if_false]
    constructor
    · intro hne
      obtain ⟨s1, _, s3⟩ := shortestLength_spec (bindingArrays env bindings) (-1) (by omega)
      have hnn : 0 ≤ shortestLength (bindingArrays env bindings) (-1) :=
        shortestLength_nonneg _ _ (Or.inr (by
          unfold bindingArrays
          intro h0
          exact hne (List.map_eq_nil_iff.mp h0)))
      constructor
      · rcases s3 with s3 | ⟨arr, harr, s3⟩
        · omega
        · obtain ⟨b, hb, hbe⟩ := List.mem_map.mp harr
          refine ⟨b, hb, ?_⟩
          unfold everyLength
          rw [s3, hbe]
          simp
      · intro b hb
        have := s1 _ (List.mem_map.mpr ⟨b, hb, rfl⟩)
        unfold everyLength
        omega
    · intro hsat
      have hs := satisfiesLoop_ok env bindings (bindingArrays env bindings)
        (List.range (everyLength env bindings))
        (fun i hi => hsat i (List.mem_range.mp hi))
      rw [hs]
      constructor
      · intro hex
        obtain ⟨i, hi, hf⟩ := hex
        have : (List.range (everyLength env bindings)).all (fun i => env.Truth
            (env.satisfies (scopeFields bindings (bindingArrays env bindings) i)).1) = false := by
          rw [List.all_eq_false]
          exact ⟨i, List.mem_range.mpr hi, by simp [hf]⟩
        rw [this]
      · intro hall2
        have : (List.range (everyLength env bindings)).all (fun i => env.Truth
            (env.satisfies (scopeFields bindings (bindingArrays env bindings) i)).1) = true := by
          rw [List.all_eq_true]
          intro i hi
          exact hall2 i (List.mem_range.mp hi)
        rw [this]

/-- Witness of C39, amended: with one binding whose expression evaluates to
MISSING the result is MISSING; with one whose expression evaluates to the
array of 1 and 2, the satisfies-expression is truthy at index 0 and not at
index 1, and the result is FALSE. -/
theorem Every_Evaluate_value_witness :
    Every.Evaluate sampleEveryEnv [{ Variable := "v", Expression := 0, Descend := false }] =
        Except.ok Val.MISSING ∧
      Every.Evaluate sampleEveryEnv [{ Variable := "v", Expression := 1, Descend := false }] =
        Except.ok (Val.BOOLEAN false) :=
  ⟨(Every_Evaluate_value sampleEveryEnv [{ Variable := "v", Expression := 0, Descend := false }]
      (by decide)).1 ⟨_, List.mem_cons_self _ _, rfl⟩,
    (((Every_Evaluate_value sampleEveryEnv
      [{ Variable := "v", Expression := 1, Descend := false }] (by decide)).2.2
      (by decide)).2 (fun _ _ => rfl)).1 ⟨1, by decide, rfl⟩⟩

end Expr

namespace Couchbase

/-! ## Claims on authAgainstCreds -/

theorem doAuthByCreds_error (creds : Creds) (namespace_ bucket : String) (requested : Privilege)
    (h : (doAuthByCreds creds namespace_ bucket requested).2 ≠ none) :
    (doAuthByCreds creds namespace_ bucket requested).1 = false := by
  unfold doAuthByCreds at h ⊢
  split
  · rfl
  · split
    · rfl
    · rename_i hno
      simp at h
      split at h <;> simp_all

theorem credsLoop_granted (namespace_ keyspace : String) (privilege : Privilege) :
    ∀ (creds : List Creds), (credsLoop namespace_ keyspace privilege creds).2 = none →
      (credsLoop namespace_ keyspace privilege creds).1 =
        creds.any (fun c => (doAuthByCreds c namespace_ keyspace privilege).1) := by
  intro creds
  induction creds with
  | nil => intro _; rfl
  | cons c rest ih =>
    intro h
    rw [credsLoop] at h ⊢
    by_cases herr : (doAuthByCreds c namespace_ keyspace privilege).2 ≠ none
    · rw [if_pos herr] at h
      exact absurd h herr
    · rw [if_neg herr] at h ⊢
      by_cases hok : (doAuthByCreds c namespace_ keyspace privilege).1 = true
      · rw [if_pos hok]
        simp [hok]
      · rw [if_neg hok] at h ⊢
        rw [ih h]
        simp [hok]

theorem credsLoop_error (namespace_ keyspace : String) (privilege : Privilege) (e : String) :
    ∀ (creds : List Creds), (credsLoop namespace_ keyspace privilege creds).2 = some e →
      ∃ c ∈ creds, doAuthByCreds c namespace_ keyspace privilege = (false, some e) := by
  intro creds
  induction creds with
  | nil => intro h; simp [credsLoop] at h
  | cons c rest ih =>
    intro h
    rw [credsLoop] at h
    by_cases herr : (doAuthByCreds c namespace_ keyspace privilege).2 ≠ none
    · rw [if_pos herr] at h
      refine ⟨c, List.mem_cons_self _ _, ?_⟩
      exact Prod.ext (doAuthByCreds_error _ _ _ _ herr) h
    · rw [if_neg herr] at h
      by_cases hok : (doAuthByCreds c namespace_ keyspace privilege).1 = true
      · rw [if_pos hok] at h
        simp at h
      · rw [if_neg hok] at h
        obtain ⟨c2, hc2, hres⟩ := ih h
        exact ⟨c2, List.mem_cons_of_mem _ hc2, hres⟩

theorem credsLoop_no_error (namespace_ keyspace : String) (privilege : Privilege) :
    ∀ (creds : List Creds),
      (∀ c ∈ creds, (doAuthByCreds c namespace_ keyspace privilege).2 = none) →
      (credsLoop namespace_ keyspace privilege creds).2 = none := by
  intro creds
  induction creds with
  | nil => intro _; rfl
  | cons c rest ih =>
    intro h
    rw [credsLoop]
    have hc := h c (List.mem_cons_self _ _)
    rw [if_neg (by rw [hc]; simp)]
    split
    · rfl
    · exact ih (fun c2 hc2 => h c2 (List.mem_cons_of_mem _ hc2))

/-- The credentials loop returns with the error of the first check that has
one, when the checks before it neither have an error nor grant. -/
theorem credsLoop_first_error (namespace_ keyspace : String) (privilege : Privilege) (e : String)
    (c : Creds) (post : List Creds)
    (hc : (doAuthByCreds c namespace_ keyspace privilege).2 = some e) :
    ∀ (pre : List Creds),
      (∀ c2 ∈ pre, doAuthByCreds c2 namespace_ keyspace privilege = (false, none)) →
      (credsLoop namespace_ keyspace privilege (pre ++ c :: post)).2 = some e := by
  intro pre
  induction pre with
  | nil =>
    intro _
    rw [List.nil_append, credsLoop, if_pos (by rw [hc]; simp)]
    exact hc
  | cons c2 rest ih =>
    intro h
    have h2 := h c2 (List.mem_cons_self _ _)
    rw [List.cons_append, credsLoop, h2]
    simp only [ne_eq, not_true_eq_false, if_false, Bool.false_eq_true]
    exact ih (fun c3 hc3 => h c3 (List.mem_cons_of_mem _ hc3))

/-- One step of the loop over the privileges: an exempt pair is passed over. -/
theorem privsLoop_exempt (as : authSource) (creds : List Creds) (pair : PrivilegePair)
    (rest denied : List PrivilegePair) (h : exempt as pair = true) :
    privsLoop as creds (pair :: rest) denied = privsLoop as creds rest denied := by
  rw [privsLoop]
  unfold exempt at h
  rw [Bool.or_eq_true, decide_eq_true_eq] at h
  by_cases hn : (namespaceKeyspaceFromPrivPair pair).2 = "nodes" ∧
      pair.Priv = Privilege.PRIV_SYSTEM_READ ∧ as.adminIsOpen = true
  · rw [if_pos hn]
  · rw [if_neg hn, if_pos (h.resolve_left hn)]

/-- One step of the loop over the privileges on a pair that is not exempt. -/
theorem privsLoop_checked (as : authSource) (creds : List Creds) (pair : PrivilegePair)
    (rest denied : List PrivilegePair) (h : exempt as pair = false) :
    privsLoop as creds (pair :: rest) denied =
      if (credsLoop (namespaceKeyspaceFromPrivPair pair).1 (namespaceKeyspaceFromPrivPair pair).2
          pair.Priv creds).2 ≠ none then
        (none, (credsLoop (namespaceKeyspaceFromPrivPair pair).1
          (namespaceKeyspaceFromPrivPair pair).2 pair.Priv creds).2)
      else if (credsLoop (namespaceKeyspaceFromPrivPair pair).1
          (namespaceKeyspaceFromPrivPair pair).2 pair.Priv creds).1 = false then
        privsLoop as creds rest (denied ++ [pair])
      else privsLoop as creds rest denied := by
  rw [privsLoop]
  unfold exempt at h
  rw [Bool.or_eq_false_iff, decide_eq_false_iff_not] at h
  rw [if_neg h.1, if_neg (by rw [h.2]; simp)]

theorem privsLoop_denied (as : authSource) (creds : List Creds) :
    ∀ (privs denied : List PrivilegePair), (privsLoop as creds privs denied).2 = none →
      (privsLoop as creds privs denied).1 =
        some (denied ++ privs.filter (fun p => !exempt as p && !allowedBy creds p)) := by
  intro privs
  induction privs with
  | nil => intro denied _; simp [privsLoop]
  | cons pair rest ih =>
    intro denied h
    cases hex : exempt as pair with
    | true =>
      rw [privsLoop_exempt as creds pair rest denied hex] at h ⊢
      rw [ih denied h, List.filter_cons]
      simp [hex]
    | false =>
      rw [privsLoop_checked as creds pair rest denied hex] at h ⊢
      by_cases herr : (credsLoop (namespaceKeyspaceFromPrivPair pair).1
          (namespaceKeyspaceFromPrivPair pair).2 pair.Priv creds).2 ≠ none
      · rw [if_pos herr] at h
        exact absurd h herr
      · rw [if_neg herr] at h ⊢
        have hgr := credsLoop_granted _ _ _ creds (not_not.mp herr)
        have hall : allowedBy creds pair = (credsLoop (namespaceKeyspaceFromPrivPair pair).1
            (namespaceKeyspaceFromPrivPair pair).2 pair.Priv creds).1 := hgr.symm
        by_cases hno : (credsLoop (namespaceKeyspaceFromPrivPair pair).1
            (namespaceKeyspaceFromPrivPair pair).2 pair.Priv creds).1 = false
        · rw [if_pos hno] at h ⊢
          rw [ih _ h, List.filter_cons]
          simp [hex, hall, hno]
        · rw [if_neg hno] at h ⊢
          rw [ih _ h, List.filter_cons]
          simp [hex, hall, hno]

theorem privsLoop_error (as : authSource) (creds : List Creds) (e : String) :
    ∀ (privs denied : List PrivilegePair), (privsLoop as creds privs denied).2 = some e →
      (privsLoop as creds privs denied).1 = none ∧
      ∃ p ∈ privs, exempt as p = false ∧ ∃ c ∈ creds, checkPair c p = (false, some e) := by
  intro privs
  induction privs with
  | nil => intro denied h; simp [privsLoop] at h
  | cons pair rest ih =>
    intro denied h
    cases hex : exempt as pair with
    | true =>
      rw [privsLoop_exempt as creds pair rest denied hex] at h ⊢
      obtain ⟨h1, p, hp, h2⟩ := ih denied h
      exact ⟨h1, p, List.mem_cons_of_mem _ hp, h2⟩
    | false =>
      rw [privsLoop_checked as creds pair rest denied hex] at h ⊢
      by_cases herr : (credsLoop (namespaceKeyspaceFromPrivPair pair).1
          (namespaceKeyspaceFromPrivPair pair).2 pair.Priv creds).2 ≠ none
      · rw [if_pos herr] at h ⊢
        exact ⟨rfl, pair, List.mem_cons_self _ _, hex, credsLoop_error _ _ _ e creds h⟩
      · rw [if_neg herr] at h ⊢
        by_cases hno : (credsLoop (namespaceKeyspaceFromPrivPair pair).1
            (namespaceKeyspaceFromPrivPair pair).2 pair.Priv creds).1 = false
        · rw [if_pos hno] at h ⊢
          obtain ⟨h1, p, hp, h2⟩ := ih _ h
          exact ⟨h1, p, List.mem_cons_of_mem _ hp, h2⟩
        · rw [if_neg hno] at h ⊢
          obtain ⟨h1, p, hp, h2⟩ := ih _ h
          exact ⟨h1, p, List.mem_cons_of_mem _ hp, h2⟩

theorem privsLoop_no_error (as : authSource) (creds : List Creds) :
    ∀ (privs denied : List PrivilegePair),
      (∀ p ∈ privs, exempt as p = true ∨ ∀ c ∈ creds, (checkPair c p).2 = none) →
      (privsLoop as creds privs denied).2 = none := by
  intro privs
  induction privs with
  | nil => intro denied _; rfl
  | cons pair rest ih =>
    intro denied h
    have hrest : ∀ p ∈ rest, exempt as p = true ∨ ∀ c ∈ creds, (checkPair c p).2 = none :=
      fun p hp => h p (List.mem_cons_of_mem _ hp)
    cases hex : exempt as pair with
    | true =>
      rw [privsLoop_exempt as creds pair rest denied hex]
      exact ih denied hrest
    | false =>
      rw [privsLoop_checked as creds pair rest denied hex]
      have hpair : ∀ c ∈ creds, (checkPair c pair).2 = none := by
        rcases h pair (List.mem_cons_self _ _) with h1 | h1
        · rw [hex] at h1; exact absurd h1 (by simp)
        · exact h1
      rw [if_neg (by rw [credsLoop_no_error _ _ _ creds hpair]; simp)]
      split
      · exact ih _ hrest
      · exact ih _ hrest

/-- The loop over the privileges returns with the error of the first check that
has one. -/
theorem privsLoop_first_error (as : authSource) (creds : List Creds) (e : String)
    (pair : PrivilegePair) (post : List PrivilegePair) (hex : exempt as pair = false)
    (hcreds : (credsLoop (namespaceKeyspaceFromPrivPair pair).1
      (namespaceKeyspaceFromPrivPair pair).2 pair.Priv creds).2 = some e) :
    ∀ (pre denied : List PrivilegePair),
      (∀ p ∈ pre, exempt as p = true ∨ ∀ c ∈ creds, (checkPair c p).2 = none) →
      privsLoop as creds (pre ++ pair :: post) denied = (none, some e) := by
  intro pre
  induction pre with
  | nil =>
    intro denied _
    rw [List.nil_append, privsLoop_checked as creds pair post denied hex,
      if_pos (by rw [hcreds]; simp), hcreds]
  | cons q rest ih =>
    intro denied h
    have hrest : ∀ p ∈ rest, exempt as p = true ∨ ∀ c ∈ creds, (checkPair c p).2 = none :=
      fun p hp => h p (List.mem_cons_of_mem _ hp)
    rw [List.cons_append]
    cases hq : exempt as q with
    | true =>
      rw [privsLoop_exempt as creds q _ denied hq]
      exact ih denied hrest
    | false =>
      rw [privsLoop_checked as creds q _ denied hq]
      have hpair : ∀ c ∈ creds, (checkPair c q).2 = none := by
        rcases h q (List.mem_cons_self _ _) with h1 | h1
        · rw [hq] at h1; exact absurd h1 (by simp)
        · exact h1
      rw [if_neg (by rw [credsLoop_no_error _ _ _ creds hpair]; simp)]
      split
      · exact ih _ hrest
      · exact ih _ hrest

/-- C28: authAgainstCreds passes over the exempt pairs (a read of the keyspace
"nodes" while the admin endpoint is open, an operation that opIsUnimplemented
reports) and checks the others against the credentials in turn.  When it
returns without error, which it does when no check of a pair that is not
exempt has an error, the list returned is the pairs of privsSought, in their
order, that are not exempt and that no credential allows; with no credentials
these are all pairs that are not exempt.  When it returns an error, the list
is nil and the error is that of a check of a pair that is not exempt; and it
returns nil and the error of the first check that has one. -/
theorem authAgainstCreds_denied (as : authSource) (privsSought : List PrivilegePair)
    (creds : List Creds) :
    ((authAgainstCreds as privsSought creds).2 = none →
      (authAgainstCreds as privsSought creds).1 =
        some (privsSought.filter (fun p => !exempt as p && !allowedBy creds p))) ∧
    ((∀ p ∈ privsSought, exempt as p = true ∨ ∀ c ∈ creds, (checkPair c p).2 = none) →
      authAgainstCreds as privsSought creds =
        (some (privsSought.filter (fun p => !exempt as p && !allowedBy creds p)), none)) ∧
    authAgainstCreds as privsSought [] =
      (some (privsSought.filter (fun p => !exempt as p)), none) ∧
    (∀ e, (authAgainstCreds as privsSought creds).2 = some e →
      (authAgainstCreds as privsSought creds).1 = none ∧
      ∃ p ∈ privsSought, exempt as p = false ∧ ∃ c ∈ creds, checkPair c p = (false, some e)) ∧
    (∀ pre pair post cpre c cpost e,
      privsSought = pre ++ pair :: post → creds = cpre ++ c :: cpost →
      (∀ p ∈ pre, exempt as p = true ∨ ∀ c2 ∈ creds, (checkPair c2 p).2 = none) →
      exempt as pair = false → (∀ c2 ∈ cpre, checkPair c2 pair = (false, none)) →
      (checkPair c pair).2 = some e →
      authAgainstCreds as privsSought creds = (none, some e)) := by
  have hok : ∀ (cs : List Creds), (authAgainstCreds as privsSought cs).2 = none →
      (authAgainstCreds as privsSought cs).1 =
        some (privsSought.filter (fun p => !exempt as p && !allowedBy cs p)) := by
    intro cs h
    have := privsLoop_denied as cs privsSought [] h
    rw [List.nil_append] at this
    exact this
  refine ⟨hok creds, ?_, ?_, ?_, ?_⟩
  · intro h
    have h2 : (authAgainstCreds as privsSought creds).2 = none :=
      privsLoop_no_error as creds privsSought [] h
    exact Prod.ext (hok creds h2) h2
  · have h2 : (authAgainstCreds as privsSought []).2 = none :=
      privsLoop_no_error as [] privsSought [] (fun p _ => Or.inr (fun c hc => by simp at hc))
    refine Prod.ext ?_ h2
    rw [hok [] h2]
    simp [allowedBy]
  · intro e h
    exact privsLoop_error as creds e privsSought [] h
  · intro pre pair post cpre c cpost e hprivs hcreds hpre hex hcpre hc
    subst hprivs
    refine privsLoop_first_error as creds e pair post hex ?_ pre [] hpre
    rw [hcreds]
    exact credsLoop_first_error _ _ _ e c cpost hc cpre hcpre

/-- Witness of C28: with the admin endpoint open and one credential that allows
the select on "beer", of the four sample pairs the one on "wine" is denied;
with no credentials the two pairs that are not exempt are denied; with a
credential whose checks fail first, the result is nil and its error. -/
theorem authAgainstCreds_denied_witness :
    authAgainstCreds { adminIsOpen := true } samplePrivs
        [sampleCreds ["cluster.bucket[beer].n1ql.select!execute"]] =
      (some (samplePrivs.filter (fun p => !exempt { adminIsOpen := true } p &&
        !allowedBy [sampleCreds ["cluster.bucket[beer].n1ql.select!execute"]] p)), none) ∧
    authAgainstCreds { adminIsOpen := true } samplePrivs
        [sampleCreds ["cluster.bucket[beer].n1ql.select!execute"]] =
      (some [{ Target := "wine", Priv := Privilege.PRIV_QUERY_SELECT }], none) ∧
    authAgainstCreds { adminIsOpen := true } samplePrivs [] =
      (some [{ Target := "default:beer", Priv := Privilege.PRIV_QUERY_SELECT },
        { Target := "wine", Priv := Privilege.PRIV_QUERY_SELECT }], none) ∧
    authAgainstCreds { adminIsOpen := true } samplePrivs
        [sampleBrokenCreds, sampleCreds ["cluster.bucket[beer].n1ql.select!execute"]] =
      (none, some "no connection") :=
  ⟨(authAgainstCreds_denied { adminIsOpen := true } samplePrivs
      [sampleCreds ["cluster.bucket[beer].n1ql.select!execute"]]).2.1
      (by decide),
    by decide, by decide, by decide⟩

end Couchbase

namespace SystemKeyspace

/-! ## Claims on Delete -/

theorem deleteStep_ops (env : DeleteEnv) (name : String) (st : DeleteState) :
    (deleteStep env name st).ops = st.ops ++ [opOf env name] := by
  unfold deleteStep opOf
  simp only
  split <;> rfl

/-- The error after one pass on a state without error: that of RequestDelete
on a local key. -/
theorem deleteStep_err (env : DeleteEnv) (name : String) (st : DeleteState) (e : String)
    (hst : st.err = none) (h : (deleteStep env name st).err = some e) :
    opOf env name = DeleteOp.localDelete (env.SplitKey name).2 ∧
      env.RequestDelete st.ops (env.SplitKey name).2 = some e := by
  unfold deleteStep at h
  unfold opOf
  simp only at h
  split at h
  · rw [hst] at h; simp at h
  · rename_i hn
    rw [if_neg hn]
    exact ⟨rfl, h⟩

theorem copy_length (dst src : List String) (h : src.length ≤ dst.length) :
    (copy dst src).length = dst.length := by
  unfold copy
  rw [List.length_append, List.length_take, List.length_drop]
  omega

/-- The loop of Delete: without error it has issued the deletes of all names
left; with an error it has stopped at the name whose local delete failed. -/
theorem deleteLoop_spec (env : DeleteEnv) (deletes : List String) :
    ∀ (rest : List String) (i : Nat) (st : DeleteState), st.err = none →
      ((deleteLoop env deletes i rest st).1.2 = none →
        (deleteLoop env deletes i rest st).1.1 = deletes ∧
        (deleteLoop env deletes i rest st).2.ops = st.ops ++ rest.map (opOf env)) ∧
      (∀ e, (deleteLoop env deletes i rest st).1.2 = some e →
        ∃ j name, j < rest.length ∧ rest[j]? = some name ∧
          (deleteLoop env deletes i rest st).2.ops = st.ops ++ (rest.take (j + 1)).map (opOf env) ∧
          opOf env name = DeleteOp.localDelete (env.SplitKey name).2 ∧
          env.RequestDelete (st.ops ++ (rest.take j).map (opOf env)) (env.SplitKey name).2 =
            some e ∧
          (deleteLoop env deletes i rest st).1.1.length = i + j) := by
  intro rest
  induction rest with
  | nil =>
    intro i st _
    refine ⟨fun _ => ⟨rfl, by simp [deleteLoop]⟩, fun e h => ?_⟩
    simp [deleteLoop] at h
  | cons name rest ih =>
    intro i st hst
    rw [deleteLoop]
    by_cases herr : (deleteStep env name st).err ≠ none
    · rw [if_pos herr]
      refine ⟨fun h => absurd h herr, fun e h => ?_⟩
      obtain ⟨hop, hreq⟩ := deleteStep_err env name st e hst h
      refine ⟨0, name, by simp, by simp, ?_, hop, by simpa using hreq, ?_⟩
      · rw [deleteStep_ops]; simp
      · show (if i > 0 then copy (List.replicate i "") (deletes.take (i - 1))
            else List.replicate i "").length = i + 0
        split
        · rw [copy_length _ _ (by rw [List.length_take, List.length_replicate]; omega)]
          simp
        · simp
    · rw [if_neg herr]
      obtain ⟨h1, h2⟩ := ih (i + 1) (deleteStep env name st) (not_not.mp herr)
      refine ⟨fun h => ?_, fun e h => ?_⟩
      · obtain ⟨ha, hb⟩ := h1 h
        refine ⟨ha, ?_⟩
        rw [hb, deleteStep_ops]; simp
      · obtain ⟨j, nm, hj, hnm, hops, hop, hreq, hlen⟩ := h2 e h
        refine ⟨j + 1, nm, by simp; omega, by simpa using hnm, ?_, hop, ?_, by rw [hlen]; omega⟩
        · rw [hops, deleteStep_ops]; simp
        · rw [deleteStep_ops] at hreq
          simpa using hreq

/-- Counterexample to C30 as stated: on the sample node the delete of "b"
fails; Delete of "a", "b", "c" returns the error after the deletes of "a" and
"b", and no delete of "c" is issued. -/
theorem delete_abort_counterexample :
    Delete sampleDeleteEnv ["a", "b", "c"] =
        (([""], some "not found"),
          { ops := [DeleteOp.localDelete "a", DeleteOp.localDelete "b"], warnings := [],
            err := some "not found" }) ∧
      opOf sampleDeleteEnv "c" ∉ (Delete sampleDeleteEnv ["a", "b", "c"]).2.ops ∧
      (Delete sampleDeleteEnv ["a", "b", "c"]).2.ops.length < ["a", "b", "c"].length := by
  refine ⟨by decide, by decide, by decide⟩

/-- C30, amended: Delete stops at the first name whose delete on this node
fails.  When it returns an error, the error is that of server.RequestDelete
on the name at some index i, the deletes issued are those of the names up to
index i and of no name after it, and the list returned has length i.  When it
returns no error, as it does when no delete on this node fails, it has issued
the deletes of all names and returns the list it was given; a delete on
another node never stops it. -/
theorem Delete_stops_at_failure (env : DeleteEnv) (deletes : List String) :
    ((Delete env deletes).1.2 = none →
      (Delete env deletes).1.1 = deletes ∧
      (Delete env deletes).2.ops = deletes.map (opOf env)) ∧
    (∀ e, (Delete env deletes).1.2 = some e →
      ∃ i name, i < deletes.length ∧ deletes[i]? = some name ∧
        (Delete env deletes).2.ops = (deletes.take (i + 1)).map (opOf env) ∧
        opOf env name = DeleteOp.localDelete (env.SplitKey name).2 ∧
        env.RequestDelete ((deletes.take i).map (opOf env)) (env.SplitKey name).2 = some e ∧
        (Delete env deletes).1.1.length = i) ∧
    ((∀ i name, deletes[i]? = some name →
        env.RequestDelete ((deletes.take i).map (opOf env)) (env.SplitKey name).2 = none) →
      (Delete env deletes).1.2 = none) := by
  obtain ⟨h1, h2⟩ := deleteLoop_spec env deletes deletes 0
    { ops := [], warnings := [], err := none } rfl
  have hsome : ∀ e, (Delete env deletes).1.2 = some e →
      ∃ i name, i < deletes.length ∧ deletes[i]? = some name ∧
        (Delete env deletes).2.ops = (deletes.take (i + 1)).map (opOf env) ∧
        opOf env name = DeleteOp.localDelete (env.SplitKey name).2 ∧
        env.RequestDelete ((deletes.take i).map (opOf env)) (env.SplitKey name).2 = some e ∧
        (Delete env deletes).1.1.length = i := by
    intro e h
    obtain ⟨j, name, hj, hname, hops, hop, hreq, hlen⟩ := h2 e h
    exact ⟨j, name, hj, hname, by simpa using hops, hop, by simpa using hreq,
      by simpa using hlen⟩
  refine ⟨fun h => ?_, hsome, fun hno => ?_⟩
  · obtain ⟨ha, hb⟩ := h1 h
    exact ⟨ha, by simpa using hb⟩
  · cases herr : (Delete env deletes).1.2 with
    | none => rfl
    | some e =>
      obtain ⟨i, name, _, hname, _, _, hreq, _⟩ := hsome e herr
      rw [hno i name hname] at hreq
      simp at hreq

/-- Witness of C30, amended: on the sample node, Delete of "a", "b", "c"
returns the error of the delete of "b", at index 1, after two deletes, with a
list of length 1; Delete of "a", "c" issues both deletes and returns its
input. -/
theorem Delete_stops_at_failure_witness :
    (∃ i name, i < ["a", "b", "c"].length ∧ ["a", "b", "c"][i]? = some name ∧
        (Delete sampleDeleteEnv ["a", "b", "c"]).2.ops =
          (["a", "b", "c"].take (i + 1)).map (opOf sampleDeleteEnv) ∧
        opOf sampleDeleteEnv name = DeleteOp.localDelete (sampleDeleteEnv.SplitKey name).2 ∧
        sampleDeleteEnv.RequestDelete ((["a", "b", "c"].take i).map (opOf sampleDeleteEnv))
          (sampleDeleteEnv.SplitKey name).2 = some "not found" ∧
        (Delete sampleDeleteEnv ["a", "b", "c"]).1.1.length = i) ∧
      (Delete sampleDeleteEnv ["a", "c"]).1.1 = ["a", "c"] ∧
      (Delete sampleDeleteEnv ["a", "c"]).2.ops = ["a", "c"].map (opOf sampleDeleteEnv) :=
  ⟨(Delete_stops_at_failure sampleDeleteEnv ["a", "b", "c"]).2.1 "not found" (by decide),
    (Delete_stops_at_failure sampleDeleteEnv ["a", "c"]).1 (by decide)⟩

/-- C32: when the delete of "c", at index 2 of the names "a", "b", "c", fails,
Delete returns the error with the list "a", "" of length 2, where the names
deleted before the failure are "a", "b"; when the delete of "b", at index 1,
fails, it returns the list "" where the name deleted before is "a". -/
theorem Delete_partial_list :
    (Delete (sampleDeleteEnvAt "c") ["a", "b", "c"]).1 = (["a", ""], some "not found") ∧
      (Delete (sampleDeleteEnvAt "c") ["a", "b", "c"]).2.ops =
        [DeleteOp.localDelete "a", DeleteOp.localDelete "b", DeleteOp.localDelete "c"] ∧
      ["a", "b", "c"].take 2 = ["a", "b"] ∧
      (Delete (sampleDeleteEnvAt "b") ["a", "b", "c"]).1 = ([""], some "not found") ∧
      ["a", "b", "c"].take 1 = ["a"] ∧
      (Delete (sampleDeleteEnvAt "a") ["a", "b", "c"]).1 = ([], some "not found") := by
  refine ⟨by decide, by decide, rfl, by decide, rfl, by decide⟩

end SystemKeyspace
